import Mathlib

/-!
# Block store over an ordered key/value engine (lmdb_wrapper.cpp)

A shallow embedding of `LMDBBlockDatabase` and of the cursor `LDBIter`.

* A sub-database is an association list from key bytes to rows, kept in
  byte-wise lexicographic key order by `dbInsert`.
* Keys are built exactly as the source builds them: one prefix-tag byte
  followed by the payload.
* The value codec (`serializeDBValue` / `unserializeDBValue` of every record
  family) lives in StoredBlockObj, which is not part of the translated source.
  A row therefore holds the decoded record (`Row`).
* Machine integers are natural numbers; narrowing conversions are written
  out with `%`.
-/

namespace Armory

/-! ## Bytes and the ordered engine -/

abbrev Bytes := List Nat

def UINT8_MAX : Nat := 255

def UINT32_MAX : Nat := 4294967295

/-- Byte-wise lexicographic order on keys, shorter key first on a tie:
the default comparison of the key/value engine. -/
def bytesLt : Bytes → Bytes → Bool
  | [], [] => false
  | [], _ :: _ => true
  | _ :: _, [] => false
  | a :: as, b :: bs => decide (a < b) || (decide (a = b) && bytesLt as bs)

/-- `BinaryDataRef::startsWith`. -/
def startsWith : Bytes → Bytes → Bool
  | _, [] => true
  | [], _ :: _ => false
  | a :: as, b :: bs => decide (a = b) && startsWith as bs

/-- `WRITE_UINT32_BE`: four bytes, most significant first. -/
def WRITE_UINT32_BE (n : Nat) : Bytes :=
  [n / 16777216 % 256, n / 65536 % 256, n / 256 % 256, n % 256]

/-- `WRITE_UINT16_BE`: two bytes, most significant first. -/
def WRITE_UINT16_BE (n : Nat) : Bytes :=
  [n / 256 % 256, n % 256]

/-- The tags of the record families (`DB_PREFIX`). -/
inductive DB_PREFIX where
  | DBINFO
  | HEADHASH
  | HEADHGT
  | TXDATA
  | TXHINTS
  | SCRIPT
  | UNDODATA
  | ZCDATA
deriving DecidableEq

/-- Modelled from the spec: the numeric values of the `DB_PREFIX` tags are
declared in a header that is not part of the translated source. The spec
only says that every composite key begins with a 1-byte tag identifying the
record family; the tags are given distinct byte values here. -/
def DB_PREFIX.toByte : DB_PREFIX → Nat
  | .DBINFO => 0
  | .HEADHASH => 1
  | .HEADHGT => 2
  | .TXDATA => 3
  | .TXHINTS => 4
  | .SCRIPT => 5
  | .UNDODATA => 6
  | .ZCDATA => 7

/-- The logical sub-databases (`DB_SELECT`). -/
inductive DB_SELECT where
  | HEADERS
  | BLKDATA
  | HISTORY
  | TXHINTS
deriving DecidableEq

/-- The two node profiles (`ARMORY_DB_TYPE`). -/
inductive ARMORY_DB_TYPE where
  | ARMORY_DB_FULL
  | ARMORY_DB_SUPER
deriving DecidableEq

/-! ## Record families -/

/-- `StoredDBInfo`: per-sub-database metadata. -/
structure StoredDBInfo where
  magic : Bytes
  topBlkHgt : Nat
  topBlkHash : Bytes
  armoryType : ARMORY_DB_TYPE
  pruneType : Nat
deriving DecidableEq

/-- Modelled from the spec: `StoredDBInfo::isInitialized` is declared in
StoredBlockObj. A DBInfo counts as initialized once its magic bytes are set:
the store seeds it with a non-empty magic at open and a DBInfo read from a
missing row is not initialized. -/
def StoredDBInfo.isInitialized (i : StoredDBInfo) : Bool :=
  !i.magic.isEmpty

/-- Modelled from the spec: the default-constructed `StoredDBInfo`
(constructor in StoredBlockObj): nothing set, top height 0. -/
def StoredDBInfo.default : StoredDBInfo :=
  { magic := [], topBlkHgt := 0, topBlkHash := [],
    armoryType := .ARMORY_DB_FULL, pruneType := 0 }

/-- `StoredHeader` restricted to the bare-header fields. `initialized` is
the answer of `StoredHeader::isInitialized()`, whose body is in
StoredBlockObj. -/
structure StoredHeader where
  initialized : Bool
  dataCopy : Bytes
  thisHash : Bytes
  blockHeight : Nat
  duplicateID : Nat
  isMainBranch : Bool
  blockAppliedToDB : Bool
  numBytes : Nat
deriving DecidableEq

/-- Modelled from the spec: `StoredHeader::setKeyData` (StoredBlockObj)
records the height and the duplicate-id in the header. -/
def StoredHeader.setKeyData (sbh : StoredHeader) (height dup : Nat) : StoredHeader :=
  { sbh with blockHeight := height, duplicateID := dup }

/-- `StoredHeadHgtList`: for a height, the ordered list of (dup, hash) and the
preferred dup. -/
structure StoredHeadHgtList where
  height : Nat
  dupAndHashList : List (Nat × Bytes)
  preferredDup : Nat
deriving DecidableEq

/-- Modelled from the spec: `StoredHeadHgtList::addDupAndHash`
(StoredBlockObj) appends the pair at the end of the ordered list. -/
def StoredHeadHgtList.addDupAndHash (hhl : StoredHeadHgtList) (dup : Nat) (hash : Bytes) :
    StoredHeadHgtList :=
  { hhl with dupAndHashList := hhl.dupAndHashList ++ [(dup, hash)] }

/-- Modelled from the spec: `StoredHeadHgtList::setPreferredDupID`
(StoredBlockObj) designates the main-branch entry. -/
def StoredHeadHgtList.setPreferredDupID (hhl : StoredHeadHgtList) (dup : Nat) :
    StoredHeadHgtList :=
  { hhl with preferredDup := dup }

/-- `StoredTxOut`. -/
structure StoredTxOut where
  blockHeight : Nat
  duplicateID : Nat
  txIndex : Nat
  txOutIndex : Nat
  txVersion : Nat
  dataCopy : Bytes
deriving DecidableEq

/-- `StoredTx`; `stxoMap` is the embedded tx-out map in key order. -/
structure StoredTx where
  thisHash : Bytes
  blockHeight : Nat
  duplicateID : Nat
  txIndex : Nat
  dataCopy : Bytes
  stxoMap : List (Nat × StoredTxOut)
deriving DecidableEq

/-- `StoredTxHints`. -/
structure StoredTxHints where
  txHashPrefix : Bytes
  dbKeyList : List Bytes
  preferredDBKey : Bytes
deriving DecidableEq

/-- `Tx`, a transaction parsed out of a raw block. Modelled from the spec:
the wire parser is an external collaborator (section 1), so a parsed
transaction is held as its serialized bytes, the hash of those bytes and its
serialized outputs. The default-constructed `Tx()`, the only one that is not
initialized, is rendered as a missing value where a `Tx` is returned. -/
structure Tx where
  dataCopy : Bytes
  thisHash : Bytes
  txOuts : List Bytes
deriving DecidableEq

/-- Modelled from the spec: the value codec of StoredBlockObj is not part of
the translated source; the spec describes each stored value by the fields of
its record family, so a row holds that record and reading a row gives back
the record that was written. The key part of a record (height of a height
list, hash prefix of a hint list) is not repeated in the value. `raw` is an
uninterpreted byte value. `block` is the single blob a FULL store keeps per
block (section 4.5), held as the transactions it parses to. `subssh` is the
value of a sub-history: its txio pairs, each keyed by the key of the pair. -/
inductive Row where
  | raw (b : Bytes)
  | dbinfo (i : StoredDBInfo)
  | header (h : StoredHeader)
  | hhl (preferredDup : Nat) (l : List (Nat × Bytes))
  | hints (dbKeyList : List Bytes) (preferredDBKey : Bytes)
  | tx (t : StoredTx)
  | txout (o : StoredTxOut)
  | block (txs : List Tx)
  | subssh (txioMap : List (Bytes × Bytes))
deriving DecidableEq

/-- One sub-database: rows in ascending key order. -/
abbrev DB := List (Bytes × Row)

/-- Point lookup (`LMDB::get_NoCopy`). -/
def dbGet (k : Bytes) : DB → Option Row
  | [] => none
  | (k', v) :: rest => if k = k' then some v else dbGet k rest

/-- Insert or overwrite (`LMDB::insert`), keeping ascending key order. -/
def dbInsert (k : Bytes) (v : Row) : DB → DB
  | [] => [(k, v)]
  | (k', v') :: rest =>
    if k = k' then (k, v) :: rest
    else if bytesLt k k' then (k, v) :: (k', v') :: rest
    else (k', v') :: dbInsert k v rest

/-! ## The store -/

/-- What a call can do instead of returning. `runtimeErrorWith` is a
`runtime_error` whose message matters to the caller. -/
inductive Fault where
  | runtimeError
  | outOfBounds
  | diverges
  | runtimeErrorWith (what : String)
deriving DecidableEq

/-- The result of a call: a value, or a fault. -/
inductive Outcome (α : Type) where
  | ok (a : α)
  | fault (f : Fault)
deriving DecidableEq

/-- `LMDBBlockDatabase`: the rows seen through the four sub-database handles
`dbs_`, the active profile, the in-memory height to dup table
`validDupByHeight_`, and the members set at open (`dbIsOpen_`, `magicBytes_`,
`genesisBlkHash_`, `genesisTxHash_`, `dbPruneType_`), which start out as in a
store that was never opened. -/
structure LMDBBlockDatabase where
  armoryDbType : ARMORY_DB_TYPE
  headers : DB
  blkdata : DB
  history : DB
  txhints : DB
  validDupByHeight : List Nat
  dbIsOpen : Bool := false
  magicBytes : Bytes := []
  genesisBlkHash : Bytes := []
  genesisTxHash : Bytes := []
  dbPruneType : Nat := 0
deriving DecidableEq

/-- Modelled from the spec: `getDbSelect` is defined in the class header.
Section 4.5: under SUPER every sub-database but HEADERS lives in BLKDATA,
under FULL each has its own. -/
def getDbSelect (t : ARMORY_DB_TYPE) (d : DB_SELECT) : DB_SELECT :=
  if d = .HEADERS then .HEADERS
  else if t = .ARMORY_DB_SUPER then .BLKDATA
  else d

/-- The content of `dbs_[db]`. -/
def LMDBBlockDatabase.db (s : LMDBBlockDatabase) : DB_SELECT → DB
  | .HEADERS => s.headers
  | .BLKDATA => s.blkdata
  | .HISTORY => s.history
  | .TXHINTS => s.txhints

/-- Replace the content of `dbs_[db]`. -/
def LMDBBlockDatabase.setDb (s : LMDBBlockDatabase) (d : DB_SELECT) (c : DB) :
    LMDBBlockDatabase :=
  match d with
  | .HEADERS => { s with headers := c }
  | .BLKDATA => { s with blkdata := c }
  | .HISTORY => { s with history := c }
  | .TXHINTS => { s with txhints := c }

/-- `getValueRef(db, key)`: the row under the full key, if any. -/
def getValueRef (s : LMDBBlockDatabase) (d : DB_SELECT) (key : Bytes) : Option Row :=
  dbGet key (s.db d)

/-- `getValueRef(db, prefix, key)`: the tag byte is put in front of the key. -/
def getValueRefP (s : LMDBBlockDatabase) (d : DB_SELECT) (p : DB_PREFIX) (key : Bytes) :
    Option Row :=
  getValueRef s d (p.toByte :: key)

/-- `putValue(db, key, value)`. -/
def putValue (s : LMDBBlockDatabase) (d : DB_SELECT) (key : Bytes) (v : Row) :
    LMDBBlockDatabase :=
  s.setDb d (dbInsert key v (s.db d))

/-- `putValue(db, prefix, key, value)`. -/
def putValueP (s : LMDBBlockDatabase) (d : DB_SELECT) (p : DB_PREFIX) (key : Bytes)
    (v : Row) : LMDBBlockDatabase :=
  putValue s d (p.toByte :: key) v

/-! ## Height to dup table -/

/-- `getValidDupIDForHeight`: 255 when the table does not cover the height.
The guard is skipped for `UINT32_MAX`, where the table is indexed directly;
an index outside the table is an out-of-bounds read. -/
def getValidDupIDForHeight (s : LMDBBlockDatabase) (blockHgt : Nat) : Outcome Nat :=
  if blockHgt ≠ UINT32_MAX ∧ s.validDupByHeight.length < blockHgt + 1 then .ok UINT8_MAX
  else
    match s.validDupByHeight[blockHgt]? with
    | some d => .ok d
    | none => .fault .outOfBounds

/-- The table after the `while` loop of `setValidDupIDForHeight`: 255 is
pushed until the table covers the height; nothing is pushed for
`UINT32_MAX`. -/
def growTable (tbl : List Nat) (blockHgt : Nat) : List Nat :=
  if blockHgt ≠ UINT32_MAX then tbl ++ List.replicate (blockHgt + 1 - tbl.length) UINT8_MAX
  else tbl

/-- `setValidDupIDForHeight` on the table: grow, then write the entry unless
`overwrite` is off and the entry is already set. `none` is a write outside
the table. -/
def setValidDupTable (tbl : List Nat) (blockHgt dup : Nat) (overwrite : Bool) :
    Option (List Nat) :=
  let tbl1 := growTable tbl blockHgt
  match tbl1[blockHgt]? with
  | none => none
  | some dupid =>
    if !overwrite && decide (dupid ≠ UINT8_MAX) then some tbl1
    else some (tbl1.set blockHgt dup)

/-- `setValidDupIDForHeight`. -/
def setValidDupIDForHeight (s : LMDBBlockDatabase) (blockHgt dup : Nat) (overwrite : Bool) :
    Outcome LMDBBlockDatabase :=
  match setValidDupTable s.validDupByHeight blockHgt dup overwrite with
  | none => .fault .outOfBounds
  | some tbl => .ok { s with validDupByHeight := tbl }

/-! ## DBInfo -/

/-- Modelled from the spec: `StoredDBInfo::getDBKey` (StoredBlockObj): the
DBINFO tag followed by a fixed sentinel, taken empty here. -/
def StoredDBInfo.getDBKey : Bytes := [DB_PREFIX.DBINFO.toByte]

/-- `putStoredDBInfo`: refuses a DBInfo that is not initialized. -/
def putStoredDBInfo (s : LMDBBlockDatabase) (d : DB_SELECT) (sdbi : StoredDBInfo) :
    LMDBBlockDatabase :=
  if !sdbi.isInitialized then s
  else putValue s d StoredDBInfo.getDBKey (.dbinfo sdbi)

/-- `getStoredDBInfo(db, sdbi, warn)`: with no row and `warn`, returns false
and leaves `sdbi` alone; with no row and no `warn` it unserializes the empty
value, which leaves the DBInfo uninitialized. -/
def getStoredDBInfo (s : LMDBBlockDatabase) (d : DB_SELECT) (sdbi : StoredDBInfo)
    (warn : Bool) : Bool × StoredDBInfo :=
  match getValueRef s d StoredDBInfo.getDBKey with
  | some (.dbinfo i) => (true, i)
  | _ => if warn then (false, sdbi) else (true, StoredDBInfo.default)

/-! ## Open and close -/

/-- The base directory as the open calls find it. Modelled from the spec
(section 6, on-disk layout; the file names and the engine environments are
declared outside the translated source): a FULL store keeps the logical
sub-databases `headers`, `blocks`, `history` and `txhints` in four files; a
SUPER store keeps `headers` and `blkdata` in the single blocks file.
`headersFileExists` is the answer of `access(dbHeadersFilename())`. -/
structure BaseDir where
  headersFileExists : Bool
  headers : DB
  blocks : DB
  history : DB
  txhints : DB
  superHeaders : DB
  superBlkdata : DB
deriving DecidableEq

/-- The rows a FULL open finds behind each handle. -/
def BaseDir.full (dir : BaseDir) : DB_SELECT → DB
  | .HEADERS => dir.headers
  | .BLKDATA => dir.blocks
  | .HISTORY => dir.history
  | .TXHINTS => dir.txhints

/-- The rows a SUPER open finds behind each of its two handles. -/
def BaseDir.super (dir : BaseDir) : DB_SELECT → DB
  | .HEADERS => dir.superHeaders
  | _ => dir.superBlkdata

/-- `closeDatabasesSupernode`: the BLKDATA and HEADERS handles are closed; a
closed handle shows no rows. -/
def closeDatabasesSupernode (s : LMDBBlockDatabase) : LMDBBlockDatabase :=
  { s with blkdata := [], headers := [], dbIsOpen := false }

/-- `closeDatabases`. -/
def closeDatabases (s : LMDBBlockDatabase) : LMDBBlockDatabase :=
  if s.armoryDbType = .ARMORY_DB_SUPER then closeDatabasesSupernode s
  else { s with headers := [], blkdata := [], history := [], txhints := [], dbIsOpen := false }

/-- The body of the open loops for one sub-database, after its handle is
opened: a DBInfo that is not initialized is seeded from the members set at
open, an initialized one is checked against them. -/
def seedOrCheckDBInfo (s : LMDBBlockDatabase) (d : DB_SELECT) :
    LMDBBlockDatabase × Outcome Unit :=
  let sdbi := (getStoredDBInfo s d StoredDBInfo.default false).2
  if !sdbi.isInitialized then
    (putStoredDBInfo s d
      { magic := s.magicBytes, topBlkHgt := 0, topBlkHash := s.genesisBlkHash,
        armoryType := s.armoryDbType, pruneType := s.dbPruneType }, .ok ())
  else if s.magicBytes ≠ sdbi.magic then
    (s, .fault (.runtimeErrorWith "Magic bytes mismatch!  Different blkchain?"))
  else if s.armoryDbType ≠ sdbi.armoryType then
    (s, .fault (.runtimeErrorWith "Mismatch in DB type"))
  else if s.dbPruneType ≠ sdbi.pruneType then
    (s, .fault (.runtimeErrorWith "Mismatch in DB type"))
  else (s, .ok ())

/-- The loop of `openDatabases` over `DB_NAMES` (in the order of `DB_SELECT`):
each handle is opened on its rows; TXHINTS gets no DBInfo. -/
def openLoop (dir : BaseDir) :
    List DB_SELECT → LMDBBlockDatabase → LMDBBlockDatabase × Outcome Unit
  | [], s => (s, .ok ())
  | d :: rest, s =>
    let s1 := s.setDb d (dir.full d)
    if d = .TXHINTS then openLoop dir rest s1
    else
      match seedOrCheckDBInfo s1 d with
      | (s2, .ok _) => openLoop dir rest s2
      | (s2, .fault f) => (s2, .fault f)

/-- The loop of `openDatabasesSupernode` over its two sub-databases. -/
def openLoopSupernode (dir : BaseDir) :
    List DB_SELECT → LMDBBlockDatabase → LMDBBlockDatabase × Outcome Unit
  | [], s => (s, .ok ())
  | d :: rest, s =>
    match seedOrCheckDBInfo (s.setDb d (dir.super d)) d with
    | (s2, .ok _) => openLoopSupernode dir rest s2
    | (s2, .fault f) => (s2, .fault f)

/-- `openDatabasesSupernode`: returns the store as the call leaves it and
whether the call returned or threw. -/
def openDatabasesSupernode (s : LMDBBlockDatabase) (dir : BaseDir)
    (genesisBlkHash genesisTxHash magic : Bytes) (dbtype : ARMORY_DB_TYPE)
    (pruneType : Nat) : LMDBBlockDatabase × Outcome Unit :=
  let s1 := { s with magicBytes := magic, genesisTxHash := genesisTxHash,
                     genesisBlkHash := genesisBlkHash, armoryDbType := dbtype,
                     dbPruneType := pruneType }
  if genesisBlkHash.length = 0 ∨ magic.length = 0 then
    (s1, .fault (.runtimeErrorWith "magic bytes not set"))
  else
    match openLoopSupernode dir [.HEADERS, .BLKDATA] (closeDatabasesSupernode s1) with
    | (s2, .ok _) => ({ s2 with dbIsOpen := true }, .ok ())
    | (s2, .fault f) => (s2, .fault f)

/-- `openDatabases`: returns the store as the call leaves it and whether the
call returned or threw. A SUPER open refuses a directory that holds a headers
file; a FULL open refuses a blocks file whose `blkdata` database holds a
DBInfo row. -/
def openDatabases (s : LMDBBlockDatabase) (dir : BaseDir)
    (genesisBlkHash genesisTxHash magic : Bytes) (dbtype : ARMORY_DB_TYPE)
    (pruneType : Nat) : LMDBBlockDatabase × Outcome Unit :=
  if dbtype = .ARMORY_DB_SUPER then
    if dir.headersFileExists then (s, .fault (.runtimeErrorWith "Mismatch in DB type"))
    else openDatabasesSupernode s dir genesisBlkHash genesisTxHash magic dbtype pruneType
  else
    let s1 := { s with magicBytes := magic, genesisTxHash := genesisTxHash,
                       genesisBlkHash := genesisBlkHash, armoryDbType := dbtype,
                       dbPruneType := pruneType }
    if genesisBlkHash.length = 0 ∨ magic.length = 0 then
      (s1, .fault (.runtimeErrorWith "magic bytes not set"))
    else
      let s2 := closeDatabases s1
      if (dbGet StoredDBInfo.getDBKey dir.superBlkdata).isSome then
        (s2, .fault (.runtimeErrorWith "Mismatch in DB type"))
      else
        match openLoop dir [.HEADERS, .BLKDATA, .HISTORY, .TXHINTS] s2 with
        | (s3, .ok _) => ({ s3 with dbIsOpen := true }, .ok ())
        | (s3, .fault f) => (s3, .fault f)

/-! ## Height lists -/

/-- Modelled from the spec: `StoredHeadHgtList::getDBKey` (StoredBlockObj):
the HEADHGT tag followed by the 4-byte big-endian height. -/
def StoredHeadHgtList.getDBKey (hhl : StoredHeadHgtList) : Bytes :=
  DB_PREFIX.HEADHGT.toByte :: WRITE_UINT32_BE hhl.height

/-- `putStoredHeadHgtList`: refuses a list without a valid height. -/
def putStoredHeadHgtList (s : LMDBBlockDatabase) (hhl : StoredHeadHgtList) :
    LMDBBlockDatabase × Bool :=
  if hhl.height = UINT32_MAX then (s, false)
  else
    (putValue s (getDbSelect s.armoryDbType .HEADERS) hhl.getDBKey
      (.hhl hhl.preferredDup hhl.dupAndHashList), true)

/-- `getStoredHeadHgtList`: the list stored for the height, or the empty list
with preferred dup 255. A stored value is a sequence of 33-byte entries, so a
value with no entry has size 0 and reads as missing. -/
def getStoredHeadHgtList (s : LMDBBlockDatabase) (height : Nat) :
    Bool × StoredHeadHgtList :=
  match getValueRefP s (getDbSelect s.armoryDbType .HEADERS) .HEADHGT
      (WRITE_UINT32_BE height) with
  | some (.hhl p (e :: l)) =>
    (true, { height := height, dupAndHashList := e :: l, preferredDup := p })
  | _ => (false, { height := height, dupAndHashList := [], preferredDup := UINT8_MAX })

/-! ## Bare headers -/

/-- The cast `(int8_t)dup` of an unsigned byte. -/
def toInt8 (d : Nat) : Int :=
  if d % 256 < 128 then ((d % 256 : Nat) : Int) else ((d % 256 : Nat) : Int) - 256

/-- The conversion of an `int` to `uint8_t`. -/
def toUInt8 (i : Int) : Nat := (i % 256).toNat

/-- The scan loop of `putBareHeader` over the entries it visits: the running
signed maximum `maxDup`, and the dup of the first entry that holds the hash
(where the loop breaks). -/
def scanDupList (hash : Bytes) : List (Nat × Bytes) → Int → Int × Option Nat
  | [], maxDup => (maxDup, none)
  | (dup, h) :: rest, maxDup =>
    if hash = h then (max maxDup (toInt8 dup), some dup)
    else scanDupList hash rest (max maxDup (toInt8 dup))

/-- The height-list part of `putBareHeader`: the list to store, the dup of
the header and `needToWriteHHL`. The loop counter is a `uint8_t`: it visits
the entries 0..255 only and, when the list has 256 entries or more and none
of the visited ones holds the hash, it wraps around and never leaves the
loop (`none`). -/
def resolveDup (hhl : StoredHeadHgtList) (sbh : StoredHeader) (updateDupID : Bool) :
    Option (StoredHeadHgtList × Nat × Bool) :=
  if hhl.dupAndHashList.length = 0 then
    let hhl1 := hhl.addDupAndHash 0 sbh.thisHash
    some (if sbh.isMainBranch then { hhl1 with preferredDup := 0 } else hhl1, 0, true)
  else
    match scanDupList sbh.thisHash (hhl.dupAndHashList.take 256) (-1) with
    | (_, some dup) =>
      if decide (hhl.preferredDup ≠ dup) && sbh.isMainBranch && updateDupID then
        some ({ hhl with preferredDup := dup }, dup, true)
      else some (hhl, dup, false)
    | (maxDup, none) =>
      if hhl.dupAndHashList.length < 256 then
        let sbhDupID := toUInt8 (maxDup + 1)
        let hhl1 := hhl.addDupAndHash sbhDupID sbh.thisHash
        some (if sbh.isMainBranch && updateDupID then { hhl1 with preferredDup := sbhDupID }
              else hhl1, sbhDupID, true)
      else none

/-- `putBareHeader`: returns the store, the header as updated through the
reference, and the duplicate-id of the header. -/
def putBareHeader (s : LMDBBlockDatabase) (sbh : StoredHeader) (updateDupID : Bool) :
    Outcome (LMDBBlockDatabase × StoredHeader × Nat) :=
  if !sbh.initialized then .ok (s, sbh, UINT8_MAX)
  else if sbh.blockHeight = UINT32_MAX then .fault .runtimeError
  else
    let sdbiH := (getStoredDBInfo s .HEADERS StoredDBInfo.default true).2
    let height := sbh.blockHeight
    let hhl := (getStoredHeadHgtList s height).2
    match resolveDup hhl sbh updateDupID with
    | none => .fault .diverges
    | some (hhl1, sbhDupID, needToWriteHHL) =>
      let sbh1 := sbh.setKeyData height sbhDupID
      let s1 := if needToWriteHHL then (putStoredHeadHgtList s hhl1).1 else s
      let s2 := putValueP s1 .HEADERS .HEADHASH sbh1.thisHash (.header sbh1)
      if sbh1.isMainBranch then
        match setValidDupIDForHeight s2 sbh1.blockHeight sbh1.duplicateID updateDupID with
        | .fault f => .fault f
        | .ok s3 =>
          if sbh1.blockHeight ≥ sdbiH.topBlkHgt then
            .ok (putStoredDBInfo s3 .HEADERS
                  { sdbiH with topBlkHgt := sbh1.blockHeight, topBlkHash := sbh1.thisHash },
                 sbh1, sbhDupID)
          else .ok (s3, sbh1, sbhDupID)
      else .ok (s2, sbh1, sbhDupID)

/-- `getBareHeader(sbh, headHash)`. -/
def getBareHeader_byHash (s : LMDBBlockDatabase) (sbh : StoredHeader) (headHash : Bytes) :
    Bool × StoredHeader :=
  match getValueRefP s .HEADERS .HEADHASH headHash with
  | some (.header h) => (true, h)
  | _ => (false, sbh)

/-- The loop of `getBareHeader(sbh, blockHgt, dup)`: the hash of the first
entry with the dup. -/
def findDup (dup : Nat) : List (Nat × Bytes) → Option Bytes
  | [] => none
  | (d, h) :: rest => if dup = d then some h else findDup dup rest

/-- `getBareHeader(sbh, blockHgt, dup)`. -/
def getBareHeader_byHgtDup (s : LMDBBlockDatabase) (sbh : StoredHeader)
    (blockHgt dup : Nat) : Bool × StoredHeader :=
  let r := getStoredHeadHgtList s blockHgt
  if !r.1 then (false, sbh)
  else
    match findDup dup r.2.dupAndHashList with
    | some hash => getBareHeader_byHash s sbh hash
    | none => (false, sbh)

/-- `getBareHeader(sbh, blockHgt)`: the dup comes from the table. -/
def getBareHeader_byHgt (s : LMDBBlockDatabase) (sbh : StoredHeader) (blockHgt : Nat) :
    Outcome (Bool × StoredHeader) :=
  match getValidDupIDForHeight s blockHgt with
  | .fault f => .fault f
  | .ok dupID => .ok (getBareHeader_byHgtDup s sbh blockHgt dupID)

/-- `markBlockHeaderValid(height, dup)`; `setValidDupIDForHeight` is called
with its default `overwrite`, which the class header declares; modelled from
the spec (after the call the table holds the dup) as `true`. -/
def markBlockHeaderValid (s : LMDBBlockDatabase) (height dup : Nat) :
    Outcome (LMDBBlockDatabase × Bool) :=
  let hhl := (getStoredHeadHgtList s height).2
  if hhl.preferredDup = dup then .ok (s, true)
  else if hhl.dupAndHashList.any (fun e => decide (e.1 = dup)) then
    let s1 := (putStoredHeadHgtList s (hhl.setPreferredDupID dup)).1
    match setValidDupIDForHeight s1 height dup true with
    | .fault f => .fault f
    | .ok s2 => .ok (s2, true)
  else .ok (s, false)

/-! ## Key codec -/

/-- Modelled from the spec: `DBUtils::heightAndDupToHgtx` is not part of the
translated source. The height|dup composite is 4 bytes: the height in bits
31..8 and the duplicate-id in the low byte, big-endian; the composite is a
32-bit value. -/
def heightAndDupToHgtx (height dup : Nat) : Bytes :=
  WRITE_UINT32_BE ((height * 256 + dup % 256) % 4294967296)

/-- Modelled from the spec: `DBUtils::hgtxToHeight`: the 3 big-endian height
bytes of a height|dup composite. -/
def hgtxToHeight (hgtx : Bytes) : Nat :=
  hgtx.getD 0 0 * 65536 + hgtx.getD 1 0 * 256 + hgtx.getD 2 0

/-- Modelled from the spec: `DBUtils::hgtxToDupID`: the low byte of a
height|dup composite. -/
def hgtxToDupID (hgtx : Bytes) : Nat :=
  hgtx.getD 3 0

/-- Modelled from the spec: `DBUtils::getBlkDataKeyNoPrefix(height, dup,
txIdx)`: the 6-byte no-prefix key, height|dup then the 2-byte big-endian
tx index. -/
def getBlkDataKeyNoPrefix (height dup txIdx : Nat) : Bytes :=
  heightAndDupToHgtx height dup ++ WRITE_UINT16_BE txIdx

/-- Modelled from the spec: `StoredTxOut::getDBKey(false)` (StoredBlockObj):
the 8-byte no-prefix key, the tx key then the 2-byte big-endian tx-out
index. -/
def StoredTxOut.getDBKey (stxo : StoredTxOut) : Bytes :=
  heightAndDupToHgtx stxo.blockHeight stxo.duplicateID ++ WRITE_UINT16_BE stxo.txIndex
    ++ WRITE_UINT16_BE stxo.txOutIndex

/-- Modelled from the spec: `StoredTxHints::getDBKey` (StoredBlockObj): the
TXHINTS tag followed by the 4-byte hash prefix. -/
def StoredTxHints.getDBKey (sths : StoredTxHints) : Bytes :=
  DB_PREFIX.TXHINTS.toByte :: sths.txHashPrefix

/-- `READ_UINT32_LE` on the first four bytes of a buffer; `none` when the
buffer is shorter (a read past its end). -/
def READ_UINT32_LE : Bytes → Option Nat
  | b0 :: b1 :: b2 :: b3 :: _ => some (b0 + 256 * b1 + 65536 * b2 + 16777216 * b3)
  | _ => none

/-! ## Transactions and hints -/

/-- `putStoredTxHints`: refuses a hint list without a prefix. -/
def putStoredTxHints (s : LMDBBlockDatabase) (sths : StoredTxHints) :
    LMDBBlockDatabase × Bool :=
  if sths.txHashPrefix.length = 0 then (s, false)
  else
    (putValue s (getDbSelect s.armoryDbType .TXHINTS) sths.getDBKey
      (.hints sths.dbKeyList sths.preferredDBKey), true)

/-- `getStoredTxHints(sths, hashPrefix)`: the hint list stored for the first
four bytes. -/
def getStoredTxHints (s : LMDBBlockDatabase) (sths : StoredTxHints) (hashPfx : Bytes) :
    Bool × StoredTxHints :=
  if hashPfx.length < 4 then (false, sths)
  else
    let pfx4 := hashPfx.take 4
    match getValueRefP s (getDbSelect s.armoryDbType .TXHINTS) .TXHINTS pfx4 with
    | some (.hints l p) => (true, { txHashPrefix := pfx4, dbKeyList := l, preferredDBKey := p })
    | _ => (false, { txHashPrefix := pfx4, dbKeyList := [], preferredDBKey := [] })

/-- The default-constructed `StoredTxHints`. -/
def StoredTxHints.empty : StoredTxHints :=
  { txHashPrefix := [], dbKeyList := [], preferredDBKey := [] }

/-- `putStoredTxOut`: the tx-out row goes under the TXDATA tag. -/
def putStoredTxOut (s : LMDBBlockDatabase) (stxo : StoredTxOut) : LMDBBlockDatabase :=
  putValueP s (getDbSelect s.armoryDbType .HISTORY) .TXDATA stxo.getDBKey (.txout stxo)

/-- The tx-out loop of `putStoredTx`: every embedded tx-out gets the key
fields of its transaction and is put. -/
def putStoredTxOuts (stx : StoredTx) (version : Nat) :
    List (Nat × StoredTxOut) → LMDBBlockDatabase → LMDBBlockDatabase
  | [], s => s
  | (idx, stxo) :: rest, s =>
    putStoredTxOuts stx version rest
      (putStoredTxOut s
        { stxo with txVersion := version, blockHeight := stx.blockHeight,
                    duplicateID := stx.duplicateID, txIndex := stx.txIndex,
                    txOutIndex := idx })

/-- The hint part of `putStoredTx`: the hint list to store and whether it is
written (`needToAddTxToHints || needToUpdateHints`). -/
def updateHints (sths : StoredTxHints) (ldbKey : Bytes) : StoredTxHints × Bool :=
  if ldbKey ∈ sths.dbKeyList then
    ({ sths with preferredDBKey := ldbKey }, decide (sths.preferredDBKey ≠ ldbKey))
  else
    ({ sths with dbKeyList := sths.dbKeyList ++ [ldbKey], preferredDBKey := ldbKey }, true)

/-- `putStoredTx`: supernode only. The tx-out loop reads the version from
the first four bytes of the raw transaction. -/
def putStoredTx (s : LMDBBlockDatabase) (stx : StoredTx) (withTxOut : Bool) :
    Outcome LMDBBlockDatabase :=
  if s.armoryDbType ≠ .ARMORY_DB_SUPER then .fault .runtimeError
  else
    let ldbKey := getBlkDataKeyNoPrefix stx.blockHeight stx.duplicateID stx.txIndex
    let sths := (getStoredTxHints s StoredTxHints.empty stx.thisHash).2
    let r := updateHints sths ldbKey
    let s1 := if r.2 then (putStoredTxHints s r.1).1 else s
    let s2 := putValueP s1 .BLKDATA .TXDATA ldbKey (.tx stx)
    if withTxOut then
      match stx.stxoMap with
      | [] => .ok s2
      | e :: rest =>
        match READ_UINT32_LE stx.dataCopy with
        | none => .fault .outOfBounds
        | some version => .ok (putStoredTxOuts stx version (e :: rest) s2)
    else .ok s2

/-- `updatePreferredTxHint(hashOrPrefix, preferDBKey)`: nothing is written
when the key is already preferred or is not in the hint list. -/
def updatePreferredTxHint (s : LMDBBlockDatabase) (hashOrPfx : Bytes) (preferDBKey : Bytes) :
    LMDBBlockDatabase :=
  let sths := (getStoredTxHints s StoredTxHints.empty hashOrPfx).2
  if sths.preferredDBKey = preferDBKey then s
  else if preferDBKey ∈ sths.dbKeyList then
    (putStoredTxHints s { sths with preferredDBKey := preferDBKey }).1
  else s

/-! ## The cursor `LDBIter` -/

/-- `LDBIter`: the engine iterator is a position in the ordered rows of a
sub-database (valid while it is on a row); the cursor caches the current key
and value and tracks the dirty flag. -/
structure LDBIter where
  db : DB
  pos : Nat
  isDirty : Bool
  currKey : Bytes
  currValue : Row
deriving DecidableEq

/-- `getIterator(db)`: a fresh cursor; the constructor sets the dirty flag. -/
def getIterator (s : LMDBBlockDatabase) (d : DB_SELECT) : LDBIter :=
  { db := s.db d, pos := 0, isDirty := true, currKey := [], currValue := .raw [] }

/-- `isValid()`: the engine iterator is on a row. -/
def LDBIter.isValid (it : LDBIter) : Bool :=
  decide (it.pos < it.db.length)

/-- `isValid(DB_PREFIX)`: on a row whose key is not empty and starts with the
tag. -/
def LDBIter.isValidP (it : LDBIter) (p : DB_PREFIX) : Bool :=
  match it.db[it.pos]? with
  | some (k :: _, _) => decide (k = p.toByte)
  | _ => false

/-- `Seek_GE`: the position of the first row whose key is not below the
target (past the end if there is none). -/
def seekGE (key : Bytes) : DB → Nat
  | [] => 0
  | (k, _) :: rest => if bytesLt k key then seekGE key rest + 1 else 0

/-- `readIterData`: materializes the current row and clears the dirty flag;
on an invalid iterator it sets the flag and fails. -/
def LDBIter.readIterData (it : LDBIter) : Bool × LDBIter :=
  match it.db[it.pos]? with
  | none => (false, { it with isDirty := true })
  | some (k, v) => (true, { it with currKey := k, currValue := v, isDirty := false })

/-- `advance(DB_PREFIX)`: bump the iterator, mark dirty, test the tag. An
iterator past the end stays past the end. -/
def LDBIter.advanceP (it : LDBIter) (p : DB_PREFIX) : Bool × LDBIter :=
  let it1 := { it with pos := if it.pos < it.db.length then it.pos + 1 else it.pos,
                       isDirty := true }
  (it1.isValidP p, it1)

/-- `advanceAndRead(DB_PREFIX)`. -/
def LDBIter.advanceAndReadP (it : LDBIter) (p : DB_PREFIX) : Bool × LDBIter :=
  let r := it.advanceP p
  if !r.1 then (false, r.2) else r.2.readIterData

/-- `getKeyRef`: empty while dirty. -/
def LDBIter.getKeyRef (it : LDBIter) : Bytes :=
  if it.isDirty then [] else it.currKey

/-- `getValueReader`: the reader over the cached value (a dirty cursor only
logs). -/
def LDBIter.getValueReader (it : LDBIter) : Row :=
  it.currValue

/-- `seekTo(key)`: `Seek_GE`, then read. -/
def LDBIter.seekTo (it : LDBIter) (key : Bytes) : Bool × LDBIter :=
  LDBIter.readIterData { it with pos := seekGE key it.db }

/-- `seekTo(prefix, key)`. -/
def LDBIter.seekToP (it : LDBIter) (p : DB_PREFIX) (key : Bytes) : Bool × LDBIter :=
  it.seekTo (p.toByte :: key)

/-- `checkKeyExact(prefix, key)`. -/
def LDBIter.checkKeyExactP (it : LDBIter) (p : DB_PREFIX) (key : Bytes) : Bool × LDBIter :=
  if it.isDirty then
    let r := it.readIterData
    if !r.1 then (false, r.2) else (decide (p.toByte :: key = r.2.currKey), r.2)
  else (decide (p.toByte :: key = it.currKey), it)

/-- `seekToExact(prefix, key)`. -/
def LDBIter.seekToExactP (it : LDBIter) (p : DB_PREFIX) (key : Bytes) : Bool × LDBIter :=
  let r := it.seekToP p key
  if !r.1 then (false, r.2) else r.2.checkKeyExactP p key

/-- `verifyPrefix(prefix, advanceReader = false)`: reads first when dirty,
then peeks at the first key byte. -/
def LDBIter.verifyPrefix (it : LDBIter) (p : DB_PREFIX) : Bool × LDBIter :=
  let r := if it.isDirty then it.readIterData else (true, it)
  if !r.1 then (false, r.2)
  else
    match r.2.currKey with
    | [] => (false, r.2)
    | k :: _ => (decide (k = p.toByte), r.2)

/-- `advance()`: bump the iterator, mark dirty, do not read. An iterator
past the end stays past the end. -/
def LDBIter.advance (it : LDBIter) : Bool × LDBIter :=
  let it1 := { it with pos := if it.pos < it.db.length then it.pos + 1 else it.pos,
                       isDirty := true }
  (it1.isValid, it1)

/-- `retreat()`: step the iterator back, mark dirty, do not read. Stepping
back from the first row, or from no row, leaves the iterator on no row. -/
def LDBIter.retreat (it : LDBIter) : Bool × LDBIter :=
  let it1 := { it with pos := if 0 < it.pos ∧ it.pos < it.db.length then it.pos - 1
                              else it.db.length,
                       isDirty := true }
  (it1.isValid, it1)

/-- `advanceAndRead()`. -/
def LDBIter.advanceAndRead (it : LDBIter) : Bool × LDBIter :=
  let r := it.advance
  if !r.1 then (false, r.2) else r.2.readIterData

/-- `getKey`: empty while dirty. -/
def LDBIter.getKey (it : LDBIter) : Bytes :=
  if it.isDirty then [] else it.currKey

/-- `getValue`: empty while dirty; the empty value is the row of no bytes. -/
def LDBIter.getValue (it : LDBIter) : Row :=
  if it.isDirty then .raw [] else it.currValue

/-- `getValueRef`: empty while dirty. -/
def LDBIter.getValueRef (it : LDBIter) : Row :=
  if it.isDirty then .raw [] else it.currValue

/-- `getKeyReader`: the reader over the cached key (a dirty cursor only
logs). A reader is rendered as the bytes it reads. -/
def LDBIter.getKeyReader (it : LDBIter) : Bytes :=
  it.currKey

/-- `checkKeyExact(key)`. -/
def LDBIter.checkKeyExact (it : LDBIter) (key : Bytes) : Bool × LDBIter :=
  if it.isDirty then
    let r := it.readIterData
    if !r.1 then (false, r.2) else (decide (key = r.2.currKey), r.2)
  else (decide (key = it.currKey), it)

/-- `seekToExact(key)`. -/
def LDBIter.seekToExact (it : LDBIter) (key : Bytes) : Bool × LDBIter :=
  let r := it.seekTo key
  if !r.1 then (false, r.2) else r.2.checkKeyExact key

/-- `checkKeyStartsWith(key)`. -/
def LDBIter.checkKeyStartsWith (it : LDBIter) (key : Bytes) : Bool × LDBIter :=
  if it.isDirty then
    let r := it.readIterData
    if !r.1 then (false, r.2) else (startsWith r.2.currKey key, r.2)
  else (startsWith it.currKey key, it)

/-- `checkKeyStartsWith(prefix, key)`. -/
def LDBIter.checkKeyStartsWithP (it : LDBIter) (p : DB_PREFIX) (key : Bytes) :
    Bool × LDBIter :=
  it.checkKeyStartsWith (p.toByte :: key)

/-- `seekToStartsWith(key)`. -/
def LDBIter.seekToStartsWith (it : LDBIter) (key : Bytes) : Bool × LDBIter :=
  let r := it.seekTo key
  if !r.1 then (false, r.2) else r.2.checkKeyStartsWith key

/-- `seekToStartsWith(DB_PREFIX)`: the key is the tag byte alone. -/
def LDBIter.seekToStartsWithTag (it : LDBIter) (p : DB_PREFIX) : Bool × LDBIter :=
  let r := it.seekTo [p.toByte]
  if !r.1 then (false, r.2) else r.2.checkKeyStartsWith [p.toByte]

/-- `seekToStartsWith(prefix, key)`. -/
def LDBIter.seekToStartsWithP (it : LDBIter) (p : DB_PREFIX) (key : Bytes) :
    Bool × LDBIter :=
  let r := it.seekToP p key
  if !r.1 then (false, r.2) else r.2.checkKeyStartsWithP p key

/-- `Seek_LE`: the position of the last row whose key is not above the target
(past the end if there is none). -/
def seekLE (key : Bytes) (db : DB) : Nat :=
  match (db.takeWhile (fun e => !bytesLt key e.1)).length with
  | 0 => db.length
  | n + 1 => n

/-- `seekToBefore(key)`: `Seek_LE`, then read. -/
def LDBIter.seekToBefore (it : LDBIter) (key : Bytes) : Bool × LDBIter :=
  LDBIter.readIterData { it with pos := seekLE key it.db }

/-- `seekToBefore(DB_PREFIX)`: the key is the tag byte alone. -/
def LDBIter.seekToBeforeTag (it : LDBIter) (p : DB_PREFIX) : Bool × LDBIter :=
  it.seekToBefore [p.toByte]

/-- `seekToBefore(prefix, key)`. -/
def LDBIter.seekToBeforeP (it : LDBIter) (p : DB_PREFIX) (key : Bytes) : Bool × LDBIter :=
  it.seekToBefore (p.toByte :: key)

/-- `seekToFirst()`: to the first row, then read; always answers true. -/
def LDBIter.seekToFirst (it : LDBIter) : Bool × LDBIter :=
  (true, (LDBIter.readIterData { it with pos := 0 }).2)

/-! ## Script histories -/

/-- `StoredSubHistory`: the key fields, and the stored value as read. -/
structure StoredSubHistory where
  uniqueKey : Bytes
  hgtX : Bytes
  height : Nat
  dupID : Nat
  value : Row
deriving DecidableEq

/-- `StoredScriptHistory`: the script address, the stored summary value as
read, and `subHistMap_` keyed by the 4-byte height|dup. -/
structure StoredScriptHistory where
  uniqueKey : Bytes
  value : Row
  subHistMap : List (Bytes × StoredSubHistory)
deriving DecidableEq

/-- Modelled from the spec: `StoredSubHistory::unserializeDBKey`
(StoredBlockObj) on a key with its tag: the key is the SCRIPT tag, the
script address and the 4-byte height|dup suffix. -/
def StoredSubHistory.unserializeDBKey (sub : StoredSubHistory) (key : Bytes) :
    StoredSubHistory :=
  let body := key.drop 1
  let hgtX := body.drop (body.length - 4)
  { sub with uniqueKey := body.take (body.length - 4), hgtX := hgtX,
             height := hgtxToHeight hgtX, dupID := hgtxToDupID hgtX }

/-- Modelled from the spec: `StoredSubHistory::unserializeDBValue`
(StoredBlockObj) reads the txio pairs of the sub-history from the value; the
value is kept as the stored row. -/
def StoredSubHistory.unserializeDBValue (sub : StoredSubHistory) (v : Row) :
    StoredSubHistory :=
  { sub with value := v }

/-- Modelled from the spec: `StoredScriptHistory::unserializeDBKey(key, true)`
(StoredBlockObj): the key is the SCRIPT tag followed by the script address. -/
def StoredScriptHistory.unserializeDBKey (ssh : StoredScriptHistory) (key : Bytes) :
    StoredScriptHistory :=
  { ssh with uniqueKey := key.drop 1 }

/-- Modelled from the spec: `StoredScriptHistory::unserializeDBValue`
(StoredBlockObj) reads the summary fields of the script history from the
value; the value is kept as the stored row and `subHistMap_` is left to the
scan that follows. -/
def StoredScriptHistory.unserializeDBValue (ssh : StoredScriptHistory) (v : Row) :
    StoredScriptHistory :=
  { ssh with value := v }

/-- The default-constructed `StoredSubHistory`. -/
def StoredSubHistory.empty : StoredSubHistory :=
  { uniqueKey := [], hgtX := [], height := UINT32_MAX, dupID := UINT8_MAX, value := .raw [] }

/-- `std::map::insert` on `subHistMap_`: an existing key keeps its value; a
new key takes its place in key order. -/
def mapInsert (k : Bytes) (v : StoredSubHistory) :
    List (Bytes × StoredSubHistory) → List (Bytes × StoredSubHistory)
  | [] => [(k, v)]
  | (k', v') :: rest =>
    if k = k' then (k', v') :: rest
    else if bytesLt k k' then (k, v) :: (k', v') :: rest
    else (k', v') :: mapInsert k v rest

/-- The `do ... while` loop of `readStoredScriptHistoryAtIter`, entered with
the cursor on a row. Each round moves the iterator one row forward, so
`fuel` rounds are enough when `fuel` exceeds the number of rows. -/
def subHistLoop (endBlock : Nat) :
    Nat → LDBIter → StoredScriptHistory → Outcome (LDBIter × StoredScriptHistory)
  | 0, _, _ => .fault .diverges
  | fuel + 1, it, ssh =>
    let key := it.getKeyRef
    let sz := key.length
    if sz = 0 then .fault .outOfBounds
    else
      let keyNoPfx := key.drop 1
      if !startsWith keyNoPfx ssh.uniqueKey then .ok (it, ssh)
      else if sz < 5 then .fault .outOfBounds
      else
        let first := (keyNoPfx.drop (sz - 5)).take 4
        let second := StoredSubHistory.empty.unserializeDBKey key
        if second.height > endBlock then .ok (it, ssh)
        else
          let second1 := second.unserializeDBValue it.getValueReader
          let ssh1 := { ssh with subHistMap := mapInsert first second1 ssh.subHistMap }
          let r := it.advanceAndReadP .SCRIPT
          if r.1 then subHistLoop endBlock fuel r.2 ssh1 else .ok (r.2, ssh1)

/-- `readStoredScriptHistoryAtIter`: the SSH is read from the row under the
cursor, the cursor is moved to the first row of the window (a seek when
`startBlock` is not 0, one step forward otherwise), then the sub-histories
are accumulated. `resetReaders` only rewinds the typed readers, which the
cursor here does not track. -/
def readStoredScriptHistoryAtIter (it : LDBIter) (ssh : StoredScriptHistory)
    (startBlock endBlock : Nat) : Outcome (Bool × LDBIter × StoredScriptHistory) :=
  let it1 := (it.verifyPrefix .SCRIPT).2
  let sshKey := it1.getKeyRef
  let ssh1 := (ssh.unserializeDBKey sshKey).unserializeDBValue it1.getValueReader
  if sshKey.length = 0 then .fault .outOfBounds
  else
    let r := if startBlock ≠ 0 then it1.seekTo (sshKey ++ heightAndDupToHgtx startBlock 0)
             else it1.advanceAndReadP .SCRIPT
    if !r.1 then .ok (false, r.2, ssh1)
    else
      match subHistLoop endBlock (it.db.length + 1) r.2 ssh1 with
      | .fault f => .fault f
      | .ok (it2, ssh2) => .ok (true, it2, ssh2)

/-- `getStoredScriptHistory(ssh, scrAddrStr, startBlock, endBlock)`. -/
def getStoredScriptHistory (s : LMDBBlockDatabase) (ssh : StoredScriptHistory)
    (scrAddrStr : Bytes) (startBlock endBlock : Nat) :
    Outcome (Bool × StoredScriptHistory) :=
  let ldbIter := getIterator s (getDbSelect s.armoryDbType .HISTORY)
  let r := ldbIter.seekToExactP .SCRIPT scrAddrStr
  if !r.1 then .ok (false, { ssh with uniqueKey := [] })
  else
    match readStoredScriptHistoryAtIter r.2 ssh startBlock endBlock with
    | .fault f => .fault f
    | .ok (b, _, ssh1) => .ok (b, ssh1)

/-! ## Transactions by hash -/

/-- `READ_UINT16_BE` on the first two bytes of a buffer; it is used on
buffers of two bytes or more (0 stands for a shorter one). -/
def READ_UINT16_BE : Bytes → Nat
  | b0 :: b1 :: _ => b0 * 256 + b1
  | _ => 0

/-- The kinds of block-data key (`BLKDATA_TYPE`). -/
inductive BLKDATA_TYPE where
  | NOT_BLKDATA
  | BLKDATA_HEADER
  | BLKDATA_TX
  | BLKDATA_TXOUT
deriving DecidableEq

/-- What `DBUtils::readBlkDataKey` hands back: the kind and the fields read
from the key. -/
structure BlkDataKeyFields where
  bdtype : BLKDATA_TYPE
  height : Nat
  dup : Nat
  txIdx : Nat
  txOutIdx : Nat
deriving DecidableEq

/-- Modelled from the spec: `DBUtils::readBlkDataKeyNoPrefix` (section 4.1):
the height|dup composite, then a 2-byte tx index and a 2-byte tx-out index
when present; the kind is chosen by the total length (4, 6 or 8 bytes) and a
field that is not in the key reads 0xFFFF. -/
def readBlkDataKeyNoPrefix (key : Bytes) : BlkDataKeyFields :=
  let hgtx := key.take 4
  if key.length = 4 then
    { bdtype := .BLKDATA_HEADER, height := hgtxToHeight hgtx, dup := hgtxToDupID hgtx,
      txIdx := 65535, txOutIdx := 65535 }
  else if key.length = 6 then
    { bdtype := .BLKDATA_TX, height := hgtxToHeight hgtx, dup := hgtxToDupID hgtx,
      txIdx := READ_UINT16_BE (key.drop 4), txOutIdx := 65535 }
  else if key.length = 8 then
    { bdtype := .BLKDATA_TXOUT, height := hgtxToHeight hgtx, dup := hgtxToDupID hgtx,
      txIdx := READ_UINT16_BE (key.drop 4), txOutIdx := READ_UINT16_BE (key.drop 6) }
  else
    { bdtype := .NOT_BLKDATA, height := hgtxToHeight hgtx, dup := hgtxToDupID hgtx,
      txIdx := 65535, txOutIdx := 65535 }

/-- Modelled from the spec: `DBUtils::readBlkDataKey` (section 4.1): a key
with its tag; a key that does not start with the TXDATA tag is no block-data
key. -/
def readBlkDataKey (key : Bytes) : BlkDataKeyFields :=
  match key with
  | t :: rest =>
    if t = DB_PREFIX.TXDATA.toByte then readBlkDataKeyNoPrefix rest
    else { bdtype := .NOT_BLKDATA, height := UINT32_MAX, dup := UINT8_MAX, txIdx := 65535,
           txOutIdx := 65535 }
  | [] => { bdtype := .NOT_BLKDATA, height := UINT32_MAX, dup := UINT8_MAX, txIdx := 65535,
            txOutIdx := 65535 }

/-- Modelled from the spec: `DBUtils::getBlkDataKey(height, dup)`: the 5-byte
key of a block. -/
def getBlkDataKey (height dup : Nat) : Bytes :=
  DB_PREFIX.TXDATA.toByte :: heightAndDupToHgtx height dup

/-- Modelled from the spec: `DBUtils::getBlkDataKey(height, dup, txIdx)`: the
7-byte key of a transaction. -/
def getBlkDataKeyTx (height dup txIdx : Nat) : Bytes :=
  DB_PREFIX.TXDATA.toByte :: getBlkDataKeyNoPrefix height dup txIdx

/-- The methods of `StoredTx` (StoredBlockObj) that the translated source
calls and whose effect neither the source nor the spec describes. They are
left open: every statement about a definition that takes them holds for all
of them. -/
structure StoredTxMethods where
  createFromTx : Tx → StoredTx
  haveAllTxOut : StoredTx → Bool
  getTxCopy : StoredTx → Tx

/-- The default-constructed `StoredTx`. -/
def StoredTx.empty : StoredTx :=
  { thisHash := [], blockHeight := UINT32_MAX, duplicateID := UINT8_MAX, txIndex := 65535,
    dataCopy := [], stxoMap := [] }

/-- The default-constructed `StoredTxOut`. -/
def StoredTxOut.empty : StoredTxOut :=
  { blockHeight := UINT32_MAX, duplicateID := UINT8_MAX, txIndex := 65535, txOutIndex := 65535,
    txVersion := 0, dataCopy := [] }

/-- Modelled from the spec: `StoredTx::unserializeDBValue` (StoredBlockObj):
the value of a tx row gives back the stored record; the key fields are not
part of the value and stay as they are. A value of another family is not
read. -/
def StoredTx.unserializeDBValue (stx : StoredTx) (v : Row) : StoredTx :=
  match v with
  | .tx t => { t with blockHeight := stx.blockHeight, duplicateID := stx.duplicateID,
                      txIndex := stx.txIndex }
  | _ => stx

/-- Modelled from the spec: `StoredTxOut::unserializeDBValue`
(StoredBlockObj): the value of a tx-out row gives back the stored record; the
key fields stay as they are. -/
def StoredTxOut.unserializeDBValue (stxo : StoredTxOut) (v : Row) : StoredTxOut :=
  match v with
  | .txout o => { o with blockHeight := stxo.blockHeight, duplicateID := stxo.duplicateID,
                         txIndex := stxo.txIndex, txOutIndex := stxo.txOutIndex }
  | _ => stxo

/-- Modelled from the spec: `StoredTx::initAndGetStxoByIndex` (StoredBlockObj):
the entry of the embedded tx-out map under the index, a fresh one when there
is none. -/
def StoredTx.initAndGetStxoByIndex (stx : StoredTx) (idx : Nat) : StoredTxOut :=
  match stx.stxoMap.find? (fun e => decide (e.1 = idx)) with
  | some e => e.2
  | none => { StoredTxOut.empty with txOutIndex := idx }

/-- Writing through the reference `initAndGetStxoByIndex` hands out: the map
entry under the index is replaced, or added in index order. -/
def stxoMapSet (idx : Nat) (stxo : StoredTxOut) :
    List (Nat × StoredTxOut) → List (Nat × StoredTxOut)
  | [] => [(idx, stxo)]
  | (i, o) :: rest =>
    if idx = i then (idx, stxo) :: rest
    else if idx < i then (idx, stxo) :: (i, o) :: rest
    else (i, o) :: stxoMapSet idx stxo rest

/-- `readStoredTxOutAtIter`: the answer and the tx-out as left through the
reference. -/
def readStoredTxOutAtIter (it : LDBIter) (height dupID txIndex : Nat) (stxo : StoredTxOut) :
    Bool × StoredTxOut :=
  if it.getKeyRef.length < 9 then (false, stxo)
  else
    let k := readBlkDataKey it.getKeyReader
    if k.height ≠ height ∨ k.dup ≠ dupID ∨ k.txIdx ≠ txIndex then (false, stxo)
    else
      (true,
        StoredTxOut.unserializeDBValue
          { stxo with blockHeight := height, duplicateID := dupID, txIndex := txIndex,
                      txOutIndex := k.txOutIdx } it.getValueRef)

/-- The `do ... while` loop of `readStoredTxAtIter`: the rows that start with
the key of the transaction are the tx row and its tx-out rows; a row of any
other kind ends the call with false. Each round moves the iterator one row
forward, so `fuel` rounds are enough when `fuel` exceeds the number of rows.
The byte count `numBytes_` is not carried. -/
def readStoredTxLoop (height dupID : Nat) (txPfx : Bytes) :
    Nat → LDBIter → StoredTx → Outcome (Bool × LDBIter × StoredTx)
  | 0, _, _ => .fault .diverges
  | fuel + 1, it, stx =>
    let c := it.checkKeyStartsWith txPfx
    if !c.1 then .ok (true, c.2, stx)
    else
      let k := readBlkDataKey c.2.getKeyReader
      let stx1 := { stx with blockHeight := k.height, duplicateID := k.dup, txIndex := k.txIdx }
      match k.bdtype with
      | .BLKDATA_TX =>
        let stx2 := stx1.unserializeDBValue c.2.getValueRef
        let r := c.2.advanceAndReadP .TXDATA
        if r.1 then readStoredTxLoop height dupID txPfx fuel r.2 stx2 else .ok (true, r.2, stx2)
      | .BLKDATA_TXOUT =>
        let o := readStoredTxOutAtIter c.2 height dupID stx1.txIndex
          (stx1.initAndGetStxoByIndex k.txOutIdx)
        let stx2 := { stx1 with stxoMap := stxoMapSet k.txOutIdx o.2 stx1.stxoMap }
        let r := c.2.advanceAndReadP .TXDATA
        if r.1 then readStoredTxLoop height dupID txPfx fuel r.2 stx2 else .ok (true, r.2, stx2)
      | _ => .ok (false, c.2, stx1)

/-- `readStoredTxAtIter`: the answer, the cursor and the transaction as left
through the reference. -/
def readStoredTxAtIter (it : LDBIter) (height dupID : Nat) (stx : StoredTx) :
    Outcome (Bool × LDBIter × StoredTx) :=
  let key := it.getKeyRef
  if !startsWith key (getBlkDataKey height dupID) || decide (key.length < 7) then
    .ok (false, it, stx)
  else
    let k := readBlkDataKey it.getKeyReader
    if k.height ≠ height ∨ k.dup ≠ dupID then .ok (false, it, stx)
    else
      let stx1 := { stx with blockHeight := k.height, duplicateID := k.dup, txIndex := k.txIdx }
      readStoredTxLoop height dupID (getBlkDataKeyTx height dupID stx1.txIndex)
        (it.db.length + 1) it stx1

/-- `getFullTxCopy(ldbKey6B)`: a key that is not 6 bytes long gives the
uninitialized `Tx()`. Under SUPER the transaction is put together from its
rows, and a key with no row gives `Tx()`. Under FULL the reader over the
value under the block key is advanced past the header and the tx count is
read with no test that the value has bytes: with no block blob under the key
this is a read past the end of an empty value; with a blob, the transaction
is the one at the tx index, and an index past the tx count gives `Tx()`. -/
def getFullTxCopy (m : StoredTxMethods) (s : LMDBBlockDatabase) (ldbKey6B : Bytes) :
    Outcome (Option Tx) :=
  if ldbKey6B.length ≠ 6 then .ok none
  else if s.armoryDbType = .ARMORY_DB_SUPER then
    let r := (getIterator s .BLKDATA).seekToStartsWithP .TXDATA ldbKey6B
    if !r.1 then .ok none
    else
      let hgtx := ldbKey6B.take 4
      match readStoredTxAtIter r.2 (hgtxToHeight hgtx) (hgtxToDupID hgtx) StoredTx.empty with
      | .fault f => .fault f
      | .ok (_, _, stx) =>
        if !m.haveAllTxOut stx then .ok none else .ok (some (m.getTxCopy stx))
  else
    let txid := READ_UINT16_BE (ldbKey6B.drop 4)
    match getValueRefP s .BLKDATA .TXDATA (ldbKey6B.take 4) with
    | some (.block txs) => .ok txs[txid]?
    | _ => .fault .outOfBounds

/-- Modelled from the spec: the 32-byte hash embedded at offset 2 of a tx
value (section 4.4), which the by-hash lookup of SUPER compares in place. A
value of another family holds none. -/
def storedTxHash : Row → Option Bytes
  | .tx t => some t.thisHash
  | _ => none

/-- The hint loop of `getStoredTx_byHash` (FULL): the answer and the two
outputs as left through the pointers (a null pointer is a missing value). -/
def byHashLoop (m : StoredTxMethods) (s : LMDBBlockDatabase) (txHash : Bytes) (numHints : Nat)
    (stx : Option StoredTx) (DBkey : Option Bytes) :
    List Bytes → Outcome (Bool × Option StoredTx × Option Bytes)
  | [] => .ok (false, stx, DBkey)
  | hint :: rest =>
    let k := readBlkDataKeyNoPrefix hint
    match getValidDupIDForHeight s k.height with
    | .fault f => .fault f
    | .ok valid =>
      if k.dup ≠ valid ∧ numHints > 1 then byHashLoop m s txHash numHints stx DBkey rest
      else
        match getFullTxCopy m s hint with
        | .fault f => .fault f
        | .ok none => byHashLoop m s txHash numHints stx DBkey rest
        | .ok (some thisTx) =>
          if thisTx.thisHash ≠ txHash then byHashLoop m s txHash numHints stx DBkey rest
          else
            match stx with
            | some _ =>
              let stx1 := m.createFromTx thisTx
              .ok (true,
                some { stx1 with blockHeight := k.height, duplicateID := k.dup,
                                 txIndex := k.txIdx,
                                 stxoMap := stx1.stxoMap.map (fun e =>
                                   (e.1, { e.2 with blockHeight := k.height,
                                                    duplicateID := k.dup })) },
                DBkey)
            | none => .ok (true, none, DBkey.map (fun _ => hint))

/-- The hint loop of `getStoredTx_byHashSuper`. -/
def byHashSuperLoop (s : LMDBBlockDatabase) (txHash : Bytes) (numHints : Nat)
    (stx : Option StoredTx) (DBkey : Option Bytes) :
    List Bytes → LDBIter → Outcome (Bool × Option StoredTx × Option Bytes)
  | [], _ => .ok (false, stx, DBkey)
  | hint :: rest, it =>
    let r := it.seekToExactP .TXDATA hint
    if !r.1 then byHashSuperLoop s txHash numHints stx DBkey rest r.2
    else
      let k := readBlkDataKey r.2.getKeyReader
      match getValidDupIDForHeight s k.height with
      | .fault f => .fault f
      | .ok valid =>
        if k.dup ≠ valid ∧ numHints > 1 then
          byHashSuperLoop s txHash numHints stx DBkey rest r.2
        else
          let key6 := getBlkDataKeyNoPrefix k.height k.dup k.txIdx
          if key6 ≠ hint then byHashSuperLoop s txHash numHints stx DBkey rest r.2
          else if storedTxHash r.2.getValueReader = some txHash then
            match stx with
            | some stx0 =>
              match readStoredTxAtIter r.2 k.height k.dup stx0 with
              | .fault f => .fault f
              | .ok (b, _, stx1) => .ok (b, some stx1, DBkey)
            | none => .ok (true, none, DBkey.map (fun _ => key6))
          else byHashSuperLoop s txHash numHints stx DBkey rest r.2

/-- `getStoredTx_byHashSuper(txHash, stx, DBkey)`. A hint value of fewer than
two bytes holds no hint. -/
def getStoredTx_byHashSuper (s : LMDBBlockDatabase) (txHash : Bytes)
    (stx : Option StoredTx) (DBkey : Option Bytes) :
    Outcome (Bool × Option StoredTx × Option Bytes) :=
  if stx.isNone && DBkey.isNone then .ok (false, stx, DBkey)
  else
    match getValueRefP s .BLKDATA .TXHINTS (txHash.take 4) with
    | some (.hints (h :: l) _) =>
      byHashSuperLoop s txHash (h :: l).length stx DBkey (h :: l) (getIterator s .BLKDATA)
    | _ => .ok (false, stx, DBkey)

/-- `getStoredTx_byHash(txHash, stx, DBkey)`. -/
def getStoredTx_byHash (m : StoredTxMethods) (s : LMDBBlockDatabase) (txHash : Bytes)
    (stx : Option StoredTx) (DBkey : Option Bytes) :
    Outcome (Bool × Option StoredTx × Option Bytes) :=
  if s.armoryDbType = .ARMORY_DB_SUPER then getStoredTx_byHashSuper s txHash stx DBkey
  else if stx.isNone && DBkey.isNone then .ok (false, stx, DBkey)
  else
    match getValueRefP s .TXHINTS .TXHINTS (txHash.take 4) with
    | some (.hints (h :: l) _) => byHashLoop m s txHash (h :: l).length stx DBkey (h :: l)
    | _ => .ok (false, stx, DBkey)

/-! ## Example values -/

/-- A DBInfo with top height 2. -/
def exInfo : StoredDBInfo :=
  { magic := [249, 190, 180, 217], topBlkHgt := 2, topBlkHash := [9],
    armoryType := .ARMORY_DB_FULL, pruneType := 0 }

/-- A main-branch header at height 3. -/
def exHeaderA : StoredHeader :=
  { initialized := true, dataCopy := [1], thisHash := [10], blockHeight := 3,
    duplicateID := 255, isMainBranch := true, blockAppliedToDB := false, numBytes := 80 }

/-- A header at height 3 that is not on the main branch. -/
def exHeaderB : StoredHeader :=
  { initialized := true, dataCopy := [2], thisHash := [11], blockHeight := 3,
    duplicateID := 255, isMainBranch := false, blockAppliedToDB := false, numBytes := 80 }

/-- A store whose HEADERS database holds only its DBInfo. -/
def exStore : LMDBBlockDatabase :=
  { armoryDbType := .ARMORY_DB_FULL, headers := [([0], .dbinfo exInfo)], blkdata := [],
    history := [], txhints := [], validDupByHeight := [] }

/-- A store with one header listed at height 3, already preferred on disk,
and an empty height to dup table. -/
def exStorePreferred : LMDBBlockDatabase :=
  { armoryDbType := .ARMORY_DB_FULL,
    headers := [([0], .dbinfo exInfo), ([2, 0, 0, 0, 3], .hhl 0 [(0, [10])])],
    blkdata := [], history := [], txhints := [], validDupByHeight := [] }

/-- A store with two headers listed at height 3, dup 0 preferred. -/
def exStoreTwo : LMDBBlockDatabase :=
  { armoryDbType := .ARMORY_DB_FULL,
    headers := [([0], .dbinfo exInfo), ([2, 0, 0, 0, 3], .hhl 0 [(0, [10]), (1, [11])])],
    blkdata := [], history := [], txhints := [], validDupByHeight := [255, 255, 255, 0] }

/-- The store `exStoreTwo` after dup 1 is marked valid at height 3. -/
def exStoreTwoMarked : LMDBBlockDatabase :=
  { armoryDbType := .ARMORY_DB_FULL,
    headers := [([0], .dbinfo exInfo), ([2, 0, 0, 0, 3], .hhl 1 [(0, [10]), (1, [11])])],
    blkdata := [], history := [], txhints := [], validDupByHeight := [255, 255, 255, 1] }

/-- A store whose only header listed at height 3 carries dup 128. -/
def exStoreHighDup : LMDBBlockDatabase :=
  { armoryDbType := .ARMORY_DB_FULL,
    headers := [([0], .dbinfo exInfo), ([2, 0, 0, 0, 3], .hhl 255 [(128, [10])])],
    blkdata := [], history := [], txhints := [], validDupByHeight := [] }

/-- The largest dup of a list of (dup, hash) pairs as an unsigned value. -/
def maxDupOf (l : List (Nat × Bytes)) : Nat :=
  (l.map Prod.fst).foldl max 0

/-- A header at height 3, not on the main branch, with a hash of its own. -/
def exHeaderC : StoredHeader :=
  { initialized := true, dataCopy := [3], thisHash := [12], blockHeight := 3,
    duplicateID := 255, isMainBranch := false, blockAppliedToDB := false, numBytes := 80 }

/-- Agreement of the in-memory table with the stored preferred dups: for every
height below 0xFFFFFFFF the table answers the preferred dup stored for the
height, a missing row and an uncovered table index both counting as 255. -/
def tableAgrees (s : LMDBBlockDatabase) : Prop :=
  ∀ h, h < UINT32_MAX →
    getValidDupIDForHeight s h = .ok (getStoredHeadHgtList s h).2.preferredDup

/-- A store with one header listed at height 3 and no preferred dup, as left
by `putBareHeader` of a header that is not on the main branch. -/
def exStoreUnset : LMDBBlockDatabase :=
  { armoryDbType := .ARMORY_DB_FULL,
    headers := [([0], .dbinfo exInfo),
                ([1, 10], .header { exHeaderA with duplicateID := 0, isMainBranch := false }),
                ([2, 0, 0, 0, 3], .hhl 255 [(0, [10])])],
    blkdata := [], history := [], txhints := [], validDupByHeight := [] }

/-- The dups of a list are the positions of its entries counted from `k`,
capped at 128: the values `putBareHeader` assigns to successive headers of
one height. -/
def canonFrom : Nat → List (Nat × Bytes) → Prop
  | _, [] => True
  | k, (d, _) :: rest => d = min k 128 ∧ canonFrom (k + 1) rest

/-- The stores reachable by `putBareHeader` and `markBlockHeaderValid` calls
from a store whose HEADERS database holds no height list (in particular from
an empty HEADERS database). -/
inductive Reachable : LMDBBlockDatabase → Prop where
  | init (s : LMDBBlockDatabase)
      (h : ∀ key p l, dbGet key s.headers ≠ some (.hhl p l)) : Reachable s
  | put (s s' : LMDBBlockDatabase) (sbh sbh' : StoredHeader) (upd : Bool) (d : Nat)
      (hr : Reachable s) (hp : putBareHeader s sbh upd = .ok (s', sbh', d)) : Reachable s'
  | mark (s s' : LMDBBlockDatabase) (h d : Nat) (r : Bool)
      (hr : Reachable s) (hp : markBlockHeaderValid s h d = .ok (s', r)) : Reachable s'

/-- A store with an empty HEADERS database. -/
def exStoreEmpty : LMDBBlockDatabase :=
  { armoryDbType := .ARMORY_DB_FULL, headers := [], blkdata := [], history := [],
    txhints := [], validDupByHeight := [] }

/-- Every height list stored in HEADERS has the dups 0, 1, 2, ... in list
order (capped at 128) and a preferred dup that is unset (255) or listed. -/
def goodRows (s : LMDBBlockDatabase) : Prop :=
  ∀ key p l, dbGet key s.headers = some (.hhl p l) →
    canonFrom 0 l ∧ (p = 255 ∨ ∃ e ∈ l, e.1 = p)

/-- The store reached from `exStoreEmpty` by `putBareHeader` of header A. -/
def exStoreOne : LMDBBlockDatabase :=
  { armoryDbType := .ARMORY_DB_FULL,
    headers := [([1, 10], .header { exHeaderA with duplicateID := 0 }),
                ([2, 0, 0, 0, 3], .hhl 0 [(0, [10])])],
    blkdata := [], history := [], txhints := [], validDupByHeight := [255, 255, 255, 0] }

/-- A transaction at height 3, dup 0, index 1, with one embedded tx-out. -/
def exTx : StoredTx :=
  { thisHash := List.replicate 32 7, blockHeight := 3, duplicateID := 0, txIndex := 1,
    dataCopy := [1, 0, 0, 0, 9],
    stxoMap := [(0, { blockHeight := 0, duplicateID := 0, txIndex := 0, txOutIndex := 0,
                      txVersion := 0, dataCopy := [5] })] }

/-- A supernode store with empty databases. -/
def exStoreSuper : LMDBBlockDatabase :=
  { armoryDbType := .ARMORY_DB_SUPER, headers := [], blkdata := [], history := [],
    txhints := [], validDupByHeight := [] }

/-- The rows of a sub-database are in strictly ascending key order. -/
def dbSorted (db : DB) : Prop :=
  db.Pairwise (fun a b => bytesLt a.1 b.1 = true)

/-- The sub-history read from the row `SCRIPT | addr | hgtX` with value
`v`. -/
def subHistOf (addr hgtX : Bytes) (v : Row) : StoredSubHistory :=
  { uniqueKey := addr, hgtX := hgtX, height := hgtxToHeight hgtX,
    dupID := hgtxToDupID hgtX, value := v }

/-- A fullnode store whose HISTORY database holds the script history of the
address [7, 7] with sub-histories at heights 50, 100 and 200. -/
def exStoreHist : LMDBBlockDatabase :=
  { armoryDbType := .ARMORY_DB_FULL, headers := [], blkdata := [],
    history := [([5, 7, 7], .raw [1]),
                ([5, 7, 7, 0, 0, 50, 0], .raw [50]),
                ([5, 7, 7, 0, 0, 100, 0], .raw [100]),
                ([5, 7, 7, 0, 0, 200, 0], .raw [200])],
    txhints := [], validDupByHeight := [] }

/-- The store `exStoreHist` with one more row: a sub-history at height 120 of
the address [7, 7, 0, 0, 70], whose bytes start with [7, 7]. -/
def exStoreHistLeak : LMDBBlockDatabase :=
  { armoryDbType := .ARMORY_DB_FULL, headers := [], blkdata := [],
    history := [([5, 7, 7], .raw [1]),
                ([5, 7, 7, 0, 0, 50, 0], .raw [50]),
                ([5, 7, 7, 0, 0, 70, 0, 0, 120, 0], .raw [66]),
                ([5, 7, 7, 0, 0, 100, 0], .raw [100]),
                ([5, 7, 7, 0, 0, 200, 0], .raw [200])],
    txhints := [], validDupByHeight := [] }

/-- A fresh script history object. -/
def exSsh : StoredScriptHistory :=
  { uniqueKey := [], value := .raw [], subHistMap := [] }

/-- The cursor states reached from a freshly constructed cursor by the steps
the methods of `LDBIter` are made of, each with the row materialized by the
last successful `readIterData` (none while no read has succeeded). The steps
are: a read that succeeds on the row under the iterator; a read that fails; a
move of the engine iterator that sets the dirty flag (`advance`, `retreat`);
and a repositioning of the engine iterator that leaves the flag alone (the
seek inside `seekTo` and `seekToBefore`, `toFirst`, the assignment
operators). -/
inductive Traced : LDBIter → Option (Bytes × Row) → Prop where
  | fresh (db : DB) (pos : Nat) :
      Traced { db := db, pos := pos, isDirty := true, currKey := [], currValue := .raw [] }
        none
  | read (it it' : LDBIter) (last : Option (Bytes × Row)) (k : Bytes) (v : Row)
      (ht : Traced it last) (hrow : it.db[it.pos]? = some (k, v))
      (hr : it.readIterData = (true, it')) : Traced it' (some (k, v))
  | failedRead (it it' : LDBIter) (last : Option (Bytes × Row))
      (ht : Traced it last) (hr : it.readIterData = (false, it')) : Traced it' last
  | move (it : LDBIter) (last : Option (Bytes × Row)) (db : DB) (pos : Nat)
      (ht : Traced it last) : Traced { it with db := db, pos := pos, isDirty := true } last
  | reseat (it : LDBIter) (last : Option (Bytes × Row)) (db : DB) (pos : Nat)
      (ht : Traced it last) : Traced { it with db := db, pos := pos } last

/-- A cursor over the HISTORY database of `exStoreHist` right after
`seekTo` of the script-history key [5, 7, 7]. -/
def exCursorRead : LDBIter :=
  ((getIterator exStoreHist .HISTORY).seekTo [5, 7, 7]).2

/-- The cursor `exCursorRead` after one `advance()`. -/
def exCursorMoved : LDBIter :=
  exCursorRead.advance.2

/-- An empty base directory: no headers file and no row in any database. -/
def BaseDir.empty : BaseDir :=
  { headersFileExists := false, headers := [], blocks := [], history := [], txhints := [],
    superHeaders := [], superBlkdata := [] }

/-- The DBInfo a fresh open seeds. -/
def seededDBInfo (genesisBlkHash magic : Bytes) (dbtype : ARMORY_DB_TYPE) (pruneType : Nat) :
    StoredDBInfo :=
  { magic := magic, topBlkHgt := 0, topBlkHash := genesisBlkHash, armoryType := dbtype,
    pruneType := pruneType }

/-- A second transaction whose hash shares its first four bytes with the hash
of `exTx`, at height 4. -/
def exTx2 : StoredTx :=
  { thisHash := List.replicate 4 7 ++ List.replicate 28 8, blockHeight := 4, duplicateID := 0,
    txIndex := 2, dataCopy := [1, 0, 0, 0, 9], stxoMap := [] }

/-- The invariant of a hint list: the preferred key is one of the listed
keys. -/
def StoredTxHints.preferredListed (sths : StoredTxHints) : Prop :=
  sths.preferredDBKey ∈ sths.dbKeyList

/-- Part (a) of the by-hash contract for a hint: its dup is the one the
height to dup table answers for its height, or it is the only hint of the
list. -/
def hintOnMainBranch (s : LMDBBlockDatabase) (numHints : Nat) (hint : Bytes) : Bool :=
  decide (getValidDupIDForHeight s (hgtxToHeight (hint.take 4)) =
    .ok (hgtxToDupID (hint.take 4))) || decide (numHints = 1)

/-- Part (b) of the by-hash contract for a hint: it locates a stored
transaction whose hash is the requested one. Under SUPER the transaction is
the tx row under the hint; under FULL it is the transaction at the tx index
of the hint in the block blob under the height|dup of the hint. -/
def hintLocates (s : LMDBBlockDatabase) (txHash hint : Bytes) : Bool :=
  if s.armoryDbType = .ARMORY_DB_SUPER then
    match dbGet (DB_PREFIX.TXDATA.toByte :: hint) s.blkdata with
    | some (.tx t) => decide (t.thisHash = txHash)
    | _ => false
  else
    match dbGet (DB_PREFIX.TXDATA.toByte :: hint.take 4) s.blkdata with
    | some (.block txs) =>
      match txs[READ_UINT16_BE (hint.drop 4)]? with
      | some tx => decide (tx.thisHash = txHash)
      | none => false
    | _ => false

/-- The block of a hint is stored: BLKDATA holds a block blob under the
height|dup of the hint. -/
def hintBlockStored (s : LMDBBlockDatabase) (hint : Bytes) : Bool :=
  match dbGet (DB_PREFIX.TXDATA.toByte :: hint.take 4) s.blkdata with
  | some (.block _) => true
  | _ => false

/-- A hint that satisfies both parts of the by-hash contract. -/
def hintGood (s : LMDBBlockDatabase) (txHash : Bytes) (numHints : Nat) (hint : Bytes) : Bool :=
  hintOnMainBranch s numHints hint && hintLocates s txHash hint

/-- Every key of the database that carries the TXDATA tag has one of the
legal lengths of a block-data key: 5, 7 or 9 bytes. -/
def txdataLegal (db : DB) : Prop :=
  ∀ e ∈ db, e.1.head? = some DB_PREFIX.TXDATA.toByte →
    e.1.length = 5 ∨ e.1.length = 7 ∨ e.1.length = 9

/-- A hint as the value format holds it: six bytes. -/
def hintWellFormed (hint : Bytes) : Prop :=
  hint.length = 6 ∧ ∀ b ∈ hint, b < 256

/-- The contract of the hint loops of the by-hash lookup, for a list of hints
and the outcome of the loop: with no good hint in the list the answer is
false and the outputs are untouched; otherwise the answer is true and the
output carries the first good hint of the list: the transaction handed back
has its height, dup and tx index, or the key handed back is that hint. -/
def byHashPost (s : LMDBBlockDatabase) (txHash : Bytes) (numHints : Nat)
    (stx : Option StoredTx) (DBkey : Option Bytes) (l : List Bytes)
    (res : Outcome (Bool × Option StoredTx × Option Bytes)) : Prop :=
  match l.find? (hintGood s txHash numHints) with
  | none => res = .ok (false, stx, DBkey)
  | some hint =>
    ∃ r, res = .ok r ∧ r.1 = true ∧
      (stx.isSome = true →
        ∃ stx1, r.2.1 = some stx1 ∧ stx1.blockHeight = hgtxToHeight (hint.take 4) ∧
          stx1.duplicateID = hgtxToDupID (hint.take 4) ∧
          stx1.txIndex = READ_UINT16_BE (hint.drop 4)) ∧
      (stx.isSome = false → r.2.2 = DBkey.map (fun _ => hint))

/-- A supernode store that holds `exTx` under its key, with its tx-out row
and the hint row of its hash; dup 0 is the valid one at height 3. -/
def exStoreByHash : LMDBBlockDatabase :=
  { armoryDbType := .ARMORY_DB_SUPER, headers := [],
    blkdata := [([3, 0, 0, 3, 0, 0, 1], .tx exTx),
                ([3, 0, 0, 3, 0, 0, 1, 0, 0],
                  .txout { blockHeight := 3, duplicateID := 0, txIndex := 1, txOutIndex := 0,
                           txVersion := 1, dataCopy := [5] }),
                ([4, 7, 7, 7, 7], .hints [[0, 0, 3, 0, 0, 1]] [0, 0, 3, 0, 0, 1])],
    history := [], txhints := [], validDupByHeight := [255, 255, 255, 0] }

/-- Methods of `StoredTx` for the examples. -/
def exMethods : StoredTxMethods :=
  { createFromTx := fun tx =>
      { StoredTx.empty with thisHash := tx.thisHash, dataCopy := tx.dataCopy },
    haveAllTxOut := fun _ => true,
    getTxCopy := fun stx => { dataCopy := stx.dataCopy, thisHash := stx.thisHash, txOuts := [] } }

/-- A fullnode store whose block at height 3, dup 0 holds two transactions;
the hint row of the hash of the second one lists a key on dup 1 first. -/
def exStoreByHashFull : LMDBBlockDatabase :=
  { armoryDbType := .ARMORY_DB_FULL, headers := [],
    blkdata := [([3, 0, 0, 3, 0],
                  .block [{ dataCopy := [1], thisHash := List.replicate 32 6, txOuts := [] },
                          { dataCopy := [2], thisHash := List.replicate 32 7, txOuts := [] }]),
                ([3, 0, 0, 3, 1],
                  .block [{ dataCopy := [1], thisHash := List.replicate 32 6, txOuts := [] },
                          { dataCopy := [2], thisHash := List.replicate 32 7, txOuts := [] }])],
    history := [],
    txhints := [([4, 7, 7, 7, 7], .hints [[0, 0, 3, 1, 0, 1], [0, 0, 3, 0, 0, 1]]
                  [0, 0, 3, 0, 0, 1])],
    validDupByHeight := [255, 255, 255, 0] }

/-- The store `exStoreSuper` after `putStoredTx` of `exTx` with its
tx-outs. -/
def exStoreSuperOne : LMDBBlockDatabase :=
  match putStoredTx exStoreSuper exTx true with
  | .ok s => s
  | .fault _ => exStoreSuper

/-- The store `exStoreSuperOne` after `putStoredTx` of `exTx2`. -/
def exStoreSuperTwo : LMDBBlockDatabase :=
  match putStoredTx exStoreSuperOne exTx2 false with
  | .ok s => s
  | .fault _ => exStoreSuperOne

/-! ## Dumping a sub-database -/

/-- `databasesAreOpen()`: the open flag. -/
def databasesAreOpen (s : LMDBBlockDatabase) : Bool :=
  s.dbIsOpen

/-- The loop of `getAllDatabaseEntries`:
`for(...; ldbIter.isValid(); ldbIter.advanceAndRead())`, each round pushing
the pair `(getKey(), getValue())`. It ends because a valid iterator moves one
row forward in each round. -/
def getAllDatabaseEntriesLoop (ldbIter : LDBIter) (outList : List (Bytes × Row)) :
    List (Bytes × Row) :=
  if ldbIter.isValid = true then
    getAllDatabaseEntriesLoop ldbIter.advanceAndRead.2
      (outList ++ [(ldbIter.getKey, ldbIter.getValue)])
  else outList
termination_by ldbIter.db.length - ldbIter.pos
decreasing_by
  rename_i hv
  have hv' : ldbIter.pos < ldbIter.db.length := by
    simpa [LDBIter.isValid] using hv
  unfold LDBIter.advanceAndRead LDBIter.advance LDBIter.readIterData
  simp only [if_pos hv']
  split
  · simp only []
    omega
  · split
    · simp only []
      omega
    · simp only []
      omega

/-- `getAllDatabaseEntries(db)`: the empty list when the databases are not
open; otherwise a fresh cursor is moved to the first row (twice) and the
loop collects the rows. -/
def getAllDatabaseEntries (s : LMDBBlockDatabase) (d : DB_SELECT) : List (Bytes × Row) :=
  if !databasesAreOpen s then []
  else
    let ldbIter := getIterator s d
    let ldbIter := ldbIter.seekToFirst.2
    getAllDatabaseEntriesLoop ldbIter.seekToFirst.2 []

/-- A cursor that has just read the row it is on. -/
def LDBIter.onRow (it : LDBIter) : Prop :=
  ∀ k v, it.db[it.pos]? = some (k, v) →
    it.isDirty = false ∧ it.currKey = k ∧ it.currValue = v

/-! ## Top-of-chain accessors -/

/-- `getTopBlockHash(db)`: refuses BLKDATA outside the SUPER profile, else
the top hash of the DBInfo read from the sub-database. -/
def getTopBlockHash (s : LMDBBlockDatabase) (db : DB_SELECT) : Outcome Bytes :=
  if s.armoryDbType ≠ .ARMORY_DB_SUPER ∧ db = .BLKDATA then
    .fault (.runtimeErrorWith "No SDBI in BLKDATA in Fullnode")
  else .ok (getStoredDBInfo s db StoredDBInfo.default true).2.topBlkHash

/-- `getTopBlockHeight(db)`: the top height of the DBInfo read from the
sub-database (of the default-constructed DBInfo when the row is missing);
there is no throw statement in it. -/
def getTopBlockHeight (s : LMDBBlockDatabase) (db : DB_SELECT) : Outcome Nat :=
  .ok (getStoredDBInfo s db StoredDBInfo.default true).2.topBlkHgt

/-- The rows an open with the given profile finds behind the handle of a
sub-database. -/
def BaseDir.opened (dir : BaseDir) (dbtype : ARMORY_DB_TYPE) (d : DB_SELECT) : DB :=
  if dbtype = .ARMORY_DB_SUPER then dir.super d else dir.full d

/-- A base directory that holds a FULL store written with the main-network
magic: a headers file, and a DBInfo row in `headers`, `blocks` and
`history`. -/
def exDirFull : BaseDir :=
  { headersFileExists := true,
    headers := [([0], .dbinfo (seededDBInfo [111] [249, 190, 180, 217] .ARMORY_DB_FULL 0))],
    blocks := [([0], .dbinfo (seededDBInfo [111] [249, 190, 180, 217] .ARMORY_DB_FULL 0))],
    history := [([0], .dbinfo (seededDBInfo [111] [249, 190, 180, 217] .ARMORY_DB_FULL 0))],
    txhints := [], superHeaders := [], superBlkdata := [] }

/-- A base directory that holds a SUPER store written with the main-network
magic: no headers file, and a DBInfo row in the `headers` and `blkdata`
databases of the blocks file. -/
def exDirSuper : BaseDir :=
  { headersFileExists := false, headers := [], blocks := [], history := [], txhints := [],
    superHeaders :=
      [([0], .dbinfo (seededDBInfo [111] [249, 190, 180, 217] .ARMORY_DB_SUPER 0))],
    superBlkdata :=
      [([0], .dbinfo (seededDBInfo [111] [249, 190, 180, 217] .ARMORY_DB_SUPER 0))] }

/-! ## Transactions by height and index -/

/-- `getFullTxCopy(hgt, dup, txIndex)`: hands the key made by
`DBUtils::getBlkDataKey(hgt, dup, txIndex)`, which carries the TXDATA tag, to
`getFullTxCopy(ldbKey6B)`. -/
def getFullTxCopy_byIndex (m : StoredTxMethods) (s : LMDBBlockDatabase)
    (hgt dup txIndex : Nat) : Outcome (Option Tx) :=
  let ldbKey := getBlkDataKeyTx hgt dup txIndex
  getFullTxCopy m s ldbKey

/-- `getFullTxCopy(hgt, txIndex)`: the dup is the valid one of the height (a
dup of 255 is only logged). -/
def getFullTxCopy_byHeight (m : StoredTxMethods) (s : LMDBBlockDatabase)
    (hgt txIndex : Nat) : Outcome (Option Tx) :=
  match getValidDupIDForHeight s hgt with
  | .fault f => .fault f
  | .ok dup =>
    let ldbKey := getBlkDataKeyTx hgt dup txIndex
    getFullTxCopy m s ldbKey

/-! ## The valid dup read from the database -/

/-- The four bytes of a `uint32_t` as `BinaryData hgt4((uint8_t*)&blockHgt, 4)`
copies them from memory: lowest byte first on a little-endian machine. -/
def uint32Bytes (n : Nat) : Bytes :=
  [n % 256, n / 256 % 256, n / 65536 % 256, n / 16777216 % 256]

/-- The bytes a value reader reads from a row. A `raw` row is its bytes; the
serializers of the typed rows are in StoredBlockObj and are left open as
`ser`. -/
def Row.bytes (ser : Row → Bytes) : Row → Bytes
  | .raw b => b
  | r => ser r

/-- The `for` loop of `getValidDupIDForHeight_fromDB` over the bytes it
reads: each round reads one byte with `get_uint8_t()` (the statement that
would skip the 32 hash bytes is commented out), and returns its low 7 bits
if bit 0x80 is set; 255 after the last round. -/
def fromDBLoop : List Nat → Nat
  | [] => UINT8_MAX
  | dup8 :: rest => if dup8 / 128 % 2 = 1 then dup8 % 128 else fromDBLoop rest

/-- `getValidDupIDForHeight_fromDB`: `return false` (0) on a missing or empty
value; otherwise `numDup = (uint8_t)(size / 33)` rounds of the loop, which
read the first `numDup` bytes of the value. -/
def getValidDupIDForHeight_fromDB (ser : Row → Bytes) (s : LMDBBlockDatabase)
    (blockHgt : Nat) : Nat :=
  let hgt4 := uint32Bytes blockHgt
  let brrHgts : Bytes :=
    match getValueRefP s .HEADERS .HEADHGT hgt4 with
    | some r => r.bytes ser
    | none => []
  if brrHgts.length = 0 then 0
  else
    let lenEntry := 33
    let numDup := brrHgts.length / lenEntry % 256
    fromDBLoop (brrHgts.take numDup)

/-- The entries of a HEADHGT value: consecutive runs of 33 bytes, one dup byte
followed by a 32-byte hash. -/
def hgtEntries : Nat → Bytes → List (Nat × Bytes)
  | 0, _ => []
  | _ + 1, [] => []
  | n + 1, dup8 :: rest => (dup8, rest.take 32) :: hgtEntries n (rest.drop 32)

/-- The result stated for `getValidDupIDForHeight_fromDB` on a value of 33-byte
entries: the low 7 bits of the dup byte of the first entry whose dup byte has
bit 0x80 set, 255 when there is none. -/
def firstMarkedDup (value : Bytes) : Nat :=
  match (hgtEntries (value.length / 33) value).find? (fun e => decide (e.1 / 128 % 2 = 1)) with
  | some e => e.1 % 128
  | none => UINT8_MAX

/-- A store whose HEADHGT row of height 0 holds two 33-byte entries: dup 0
with a hash that starts with the byte 0x85, then dup 1 marked with bit
0x80. -/
def exStoreHgtBytes : LMDBBlockDatabase :=
  { armoryDbType := .ARMORY_DB_FULL,
    headers := [([2, 0, 0, 0, 0],
      .raw ([0, 133] ++ List.replicate 31 0 ++ [129] ++ List.replicate 32 0))],
    blkdata := [], history := [], txhints := [], validDupByHeight := [] }

/-! ## Sub-histories: put and fetch -/

/-- `txioMap_` of a sub-history: the txio pairs held in its value. -/
def StoredSubHistory.txioMap (subssh : StoredSubHistory) : List (Bytes × Bytes) :=
  match subssh.value with
  | .subssh m => m
  | _ => []

/-- Modelled from the spec: `StoredSubHistory::getDBKey` (StoredBlockObj):
section 3, the SCRIPT tag, the script address and the 4-byte height|dup
suffix. -/
def StoredSubHistory.getDBKey (subssh : StoredSubHistory) : Bytes :=
  DB_PREFIX.SCRIPT.toByte :: (subssh.uniqueKey ++ subssh.hgtX)

/-- `putStoredSubHistory`: BLKDATA under SUPER, HISTORY otherwise; nothing is
written for an empty txio map. -/
def putStoredSubHistory (s : LMDBBlockDatabase) (subssh : StoredSubHistory) :
    LMDBBlockDatabase :=
  let db := if s.armoryDbType = .ARMORY_DB_SUPER then DB_SELECT.BLKDATA else DB_SELECT.HISTORY
  if subssh.txioMap.length > 0 then
    putValue s db subssh.getDBKey (.subssh subssh.txioMap)
  else s

/-- `brr.getSize() > 0` for the reader of `getValueReader(db, prefix, key)`:
there is a row under the key and its value has bytes. -/
def readerHasBytes : Option Row → Bool
  | none => false
  | some (.raw []) => false
  | some _ => true

/-- `fetchStoredSubHistory(ssh, hgtX, createIfDNE, forceReadDB)`: the value is
read from BLKDATA under `SCRIPT | uniqueKey | hgtX`. `mergeSubHistory` is the
method of `StoredScriptHistory` (StoredBlockObj), left open. Returns the
answer and the script history. -/
def fetchStoredSubHistory
    (mergeSubHistory : StoredScriptHistory → StoredSubHistory → StoredScriptHistory)
    (s : LMDBBlockDatabase) (ssh : StoredScriptHistory) (hgtX : Bytes)
    (createIfDNE forceReadDB : Bool) : Bool × StoredScriptHistory :=
  if !forceReadDB && (ssh.subHistMap.lookup hgtX).isSome then (true, ssh)
  else
    let key := ssh.uniqueKey ++ hgtX
    let brr := getValueRefP s .BLKDATA .SCRIPT key
    let subssh := { StoredSubHistory.empty with uniqueKey := ssh.uniqueKey, hgtX := hgtX }
    if readerHasBytes brr then
      (true, mergeSubHistory ssh (subssh.unserializeDBValue (brr.getD (.raw []))))
    else if !createIfDNE then (false, ssh)
    else (true, mergeSubHistory ssh subssh)

/-- `getStoredSubHistoryAtHgtX(subssh, scrAddrStr, hgtX)`: the cursor is
taken on `getDbSelect(HISTORY)`. Returns the answer and the sub-history. -/
def getStoredSubHistoryAtHgtX (s : LMDBBlockDatabase) (subssh : StoredSubHistory)
    (scrAddrStr hgtX : Bytes) : Bool × StoredSubHistory :=
  let ldbIter := getIterator s (getDbSelect s.armoryDbType .HISTORY)
  let r := ldbIter.seekToExactP .SCRIPT (scrAddrStr ++ hgtX)
  if !r.1 then (false, subssh)
  else (true, { subssh with hgtX := hgtX }.unserializeDBValue r.2.getValueReader)

/-- A sub-history of the script address `[7, 7]` at height 50, dup 0, with one
txio pair. -/
def exSubHist : StoredSubHistory :=
  { uniqueKey := [7, 7], hgtX := [0, 0, 50, 0], height := 50, dupID := 0,
    value := .subssh [([0, 0, 50, 0, 0, 1, 0, 0], [1])] }

/-- A script history of the script address `[7, 7]` with no sub-history
loaded. -/
def exSshAddr : StoredScriptHistory :=
  { uniqueKey := [7, 7], value := .raw [], subHistMap := [] }

/-! ## Writers bound to a profile -/

/-- `putStoredTx` as a step on the store: the store as the call leaves it,
and whether the call returned or threw. The profile test is the first
statement; the read of the version from a raw transaction shorter than four
bytes comes after the hint list and the tx row are written. -/
def putStoredTx_st (s : LMDBBlockDatabase) (stx : StoredTx) (withTxOut : Bool) :
    LMDBBlockDatabase × Outcome Unit :=
  if s.armoryDbType ≠ .ARMORY_DB_SUPER then (s, .fault .runtimeError)
  else
    let ldbKey := getBlkDataKeyNoPrefix stx.blockHeight stx.duplicateID stx.txIndex
    let sths := (getStoredTxHints s StoredTxHints.empty stx.thisHash).2
    let r := updateHints sths ldbKey
    let s1 := if r.2 then (putStoredTxHints s r.1).1 else s
    let s2 := putValueP s1 .BLKDATA .TXDATA ldbKey (.tx stx)
    if withTxOut then
      match stx.stxoMap with
      | [] => (s2, .ok ())
      | e :: rest =>
        match READ_UINT32_LE stx.dataCopy with
        | none => (s2, .fault .outOfBounds)
        | some version => (putStoredTxOuts stx version (e :: rest) s2, .ok ())
    else (s2, .ok ())

/-- The tx loop of `putStoredHeader`, `for(uint32_t i=0; i<sbh.numTx_; i++)`
over the indexes it visits: `stxMap_` is keyed by `uint16_t`, the entry found
gets the index and is put with its tx-outs. -/
def putStoredHeaderTxs (stxMap : List (Nat × StoredTx)) :
    List Nat → LMDBBlockDatabase → LMDBBlockDatabase × Outcome Unit
  | [], s => (s, .ok ())
  | i :: rest, s =>
    match stxMap.lookup (i % 65536) with
    | none => putStoredHeaderTxs stxMap rest s
    | some stx =>
      match putStoredTx_st s { stx with txIndex := i % 65536 } true with
      | (s1, .ok _) => putStoredHeaderTxs stxMap rest s1
      | (s1, .fault f) => (s1, .fault f)

/-- `putStoredHeader(sbh, withBlkData, updateDupID)`: supernode only. `numTx`
and `stxMap` are the block-data members `numTx_` and `stxMap_` of the header,
which the bare-header record leaves out. Returns the store as the call leaves
it and, when it returns, the header as updated through the reference and the
dup. `putBareHeader` throws or spins before its first write, so the store is
then the one it was entered with. -/
def putStoredHeader (s : LMDBBlockDatabase) (sbh : StoredHeader) (numTx : Nat)
    (stxMap : List (Nat × StoredTx)) (withBlkData updateDupID : Bool) :
    LMDBBlockDatabase × Outcome (StoredHeader × Nat) :=
  if s.armoryDbType ≠ .ARMORY_DB_SUPER then
    (s, .fault (.runtimeErrorWith "dbType incompatible with putStoredHeader"))
  else
    match putBareHeader s sbh updateDupID with
    | .fault f => (s, .fault f)
    | .ok (s1, sbh1, newDup) =>
      if !withBlkData then (s1, .ok (sbh1, newDup))
      else
        let key := getBlkDataKey sbh1.blockHeight sbh1.duplicateID
        let s2 := putValue s1 .BLKDATA key (.header sbh1)
        match putStoredHeaderTxs stxMap (List.range numTx) s2 with
        | (s3, .fault f) => (s3, .fault f)
        | (s3, .ok _) =>
          if sbh1.isMainBranch && withBlkData then
            let sdbiB := (getStoredDBInfo s3 .BLKDATA StoredDBInfo.default true).2
            if sbh1.blockHeight > sdbiB.topBlkHgt then
              (putStoredDBInfo s3 .BLKDATA
                { sdbiB with topBlkHgt := sbh1.blockHeight, topBlkHash := sbh1.thisHash },
               .ok (sbh1, newDup))
            else (s3, .ok (sbh1, newDup))
          else (s3, .ok (sbh1, newDup))

/-- The fields of a `BlockHeader` that `putRawBlockData` reads. -/
structure BlockHeader where
  thisHash : Bytes
  blockHeight : Nat
  duplicateID : Nat
  isMainBranch : Bool
  blockSize : Nat
deriving DecidableEq

/-- `putRawBlockData(brr, getBH)`: fullnode only. The raw block is given by
what it parses to: the hash of its header and its transactions. The blob goes
under the block key in BLKDATA and the top of chain is kept in the DBInfo of
HISTORY. Returns the store as the call leaves it and the dup. -/
def putRawBlockData (s : LMDBBlockDatabase) (blockHash : Bytes) (txs : List Tx)
    (getBH : Bytes → BlockHeader) : LMDBBlockDatabase × Outcome Nat :=
  if s.armoryDbType = .ARMORY_DB_SUPER then
    (s, .fault (.runtimeErrorWith "dbType incompatible with putRawBlockData"))
  else
    let bh := getBH blockHash
    let dbKey := getBlkDataKey bh.blockHeight bh.duplicateID
    let s1 := putValue s .BLKDATA dbKey (.block txs)
    if bh.isMainBranch then
      let sdbiB := (getStoredDBInfo s1 .HISTORY StoredDBInfo.default true).2
      if bh.blockHeight > sdbiB.topBlkHgt then
        (putStoredDBInfo s1 .HISTORY
          { sdbiB with topBlkHgt := bh.blockHeight, topBlkHash := bh.thisHash },
         .ok bh.duplicateID)
      else (s1, .ok bh.duplicateID)
    else (s1, .ok bh.duplicateID)

/-! ## Erasing rows -/

/-- `LMDB::erase`: the row under the key is removed. -/
def dbErase (k : Bytes) (db : DB) : DB :=
  db.filter (fun e => decide (e.1 ≠ k))

/-- `deleteValue(db, key)`. -/
def deleteValue (s : LMDBBlockDatabase) (d : DB_SELECT) (key : Bytes) : LMDBBlockDatabase :=
  s.setDb d (dbErase key (s.db d))

/-- `deleteValue(db, prefix, key)`. -/
def deleteValueP (s : LMDBBlockDatabase) (d : DB_SELECT) (p : DB_PREFIX) (key : Bytes) :
    LMDBBlockDatabase :=
  deleteValue s d (p.toByte :: key)

/-- `nukeHeadersDB`: every key of HEADERS is erased, then the DBInfo of
HEADERS is seeded from the members set at open. -/
def nukeHeadersDB (s : LMDBBlockDatabase) : LMDBBlockDatabase :=
  putStoredDBInfo { s with headers := [] } .HEADERS
    { magic := s.magicBytes, topBlkHgt := 0, topBlkHash := s.genesisBlkHash,
      armoryType := s.armoryDbType, pruneType := s.dbPruneType }

/-- The store `exStoreOne` as an open store with the main-network magic. -/
def exStoreOneOpen : LMDBBlockDatabase :=
  { exStoreOne with dbIsOpen := true, magicBytes := [249, 190, 180, 217],
                    genesisBlkHash := [111] }

/-- A block header record for height 3, dup 0, on the main branch. -/
def exBlockHeader : BlockHeader :=
  { thisHash := [10], blockHeight := 3, duplicateID := 0, isMainBranch := true,
    blockSize := 200 }

/-- A store whose height 3 lists 256 headers, none with the hash of header
A. -/
def exStoreFullHeight : LMDBBlockDatabase :=
  { armoryDbType := .ARMORY_DB_FULL,
    headers := [([0], .dbinfo exInfo),
                ([2, 0, 0, 0, 3],
                  .hhl 0 ((List.range 256).map (fun i => (i % 128, [100, i]))))],
    blkdata := [], history := [], txhints := [], validDupByHeight := [255, 255, 255, 0] }

/-- The store `exStoreOne` after `putStoredHeadHgtList` of a list for height
3 in which the hashes of the headers A and B both carry dup 0. -/
def exStoreSharedDup : LMDBBlockDatabase :=
  (putStoredHeadHgtList exStoreOne
    { height := 3, dupAndHashList := [(0, [10]), (0, [11])], preferredDup := 0 }).1

/-- A store whose height 3 lists 128 headers with the dups 0, 1, ..., 127, as
128 calls of `putBareHeader` for the height leave the list. -/
def exStoreCanon128 : LMDBBlockDatabase :=
  { armoryDbType := .ARMORY_DB_FULL,
    headers := [([0], .dbinfo exInfo),
                ([2, 0, 0, 0, 3], .hhl 0 ((List.range 128).map (fun i => (i, [100, i]))))],
    blkdata := [], history := [], txhints := [], validDupByHeight := [255, 255, 255, 0] }

/-- The supernode store `exStoreByHash` with one more row: an 8-byte key that
starts with the key of `exTx`, a length no block-data key has. -/
def exStoreByHashOddKey : LMDBBlockDatabase :=
  { armoryDbType := .ARMORY_DB_SUPER, headers := [],
    blkdata := [([3, 0, 0, 3, 0, 0, 1], .tx exTx),
                ([3, 0, 0, 3, 0, 0, 1, 9], .raw [1]),
                ([4, 7, 7, 7, 7], .hints [[0, 0, 3, 0, 0, 1]] [0, 0, 3, 0, 0, 1])],
    history := [], txhints := [], validDupByHeight := [255, 255, 255, 0] }

/-- A fullnode store whose hint row lists one key, with no block stored under
the height|dup of the key. -/
def exStoreByHashNoBlock : LMDBBlockDatabase :=
  { armoryDbType := .ARMORY_DB_FULL, headers := [], blkdata := [], history := [],
    txhints := [([4, 7, 7, 7, 7], .hints [[0, 0, 3, 0, 0, 1]] [0, 0, 3, 0, 0, 1])],
    validDupByHeight := [255, 255, 255, 0] }

/-! ## The engine: lookup after insert -/

theorem dbGet_dbInsert_same (k : Bytes) (v : Row) (db : DB) :
    dbGet k (dbInsert k v db) = some v := by
  induction db with
  | nil => simp [dbInsert, dbGet]
  | cons e rest ih =>
    obtain ⟨k', v'⟩ := e
    unfold dbInsert
    by_cases h1 : k = k'
    · simp [h1, dbGet]
    · by_cases h2 : bytesLt k k' = true
      · simp [h1, h2, dbGet]
      · simp [h1, h2, dbGet, ih]

theorem dbGet_dbInsert_ne (k k' : Bytes) (v : Row) (db : DB) (h : k' ≠ k) :
    dbGet k' (dbInsert k v db) = dbGet k' db := by
  induction db with
  | nil => simp [dbInsert, dbGet, h]
  | cons e rest ih =>
    obtain ⟨k2, v2⟩ := e
    unfold dbInsert
    by_cases h1 : k = k2
    · subst h1
      simp [dbGet, h]
    · by_cases h2 : bytesLt k k2 = true
      · simp [h1, h2, dbGet, h]
      · simp only [h1, h2, if_false, dbGet, ih]

theorem db_setDb (s : LMDBBlockDatabase) (d d' : DB_SELECT) (c : DB) :
    (s.setDb d c).db d' = if d' = d then c else s.db d' := by
  cases d <;> cases d' <;> simp [LMDBBlockDatabase.setDb, LMDBBlockDatabase.db]

theorem getValueRef_putValue (s : LMDBBlockDatabase) (d d' : DB_SELECT) (k k' : Bytes)
    (v : Row) :
    getValueRef (putValue s d k v) d' k' =
      if d' = d ∧ k' = k then some v else getValueRef s d' k' := by
  unfold getValueRef putValue
  rw [db_setDb]
  by_cases hd : d' = d
  · subst hd
    by_cases hk : k' = k
    · subst hk
      simp [dbGet_dbInsert_same]
    · simp [hk, dbGet_dbInsert_ne _ _ _ _ hk]
  · simp [hd]

theorem putValue_tbl (s : LMDBBlockDatabase) (d : DB_SELECT) (k : Bytes) (v : Row) :
    (putValue s d k v).validDupByHeight = s.validDupByHeight := by
  cases d <;> rfl

theorem putValue_type (s : LMDBBlockDatabase) (d : DB_SELECT) (k : Bytes) (v : Row) :
    (putValue s d k v).armoryDbType = s.armoryDbType := by
  cases d <;> rfl

/-! ## The height to dup table -/

theorem growTable_getD (tbl : List Nat) (h j : Nat) :
    (growTable tbl h).getD j 255 = tbl.getD j 255 := by
  unfold growTable
  split
  · simp only [List.getD_eq_getElem?_getD, UINT8_MAX]
    by_cases hj : j < tbl.length
    · rw [List.getElem?_append_left hj]
    · have hj' : tbl.length ≤ j := Nat.le_of_not_lt hj
      rw [List.getElem?_append_right hj', List.getElem?_eq_none hj']
      by_cases h2 : j - tbl.length < h + 1 - tbl.length
      · simp [List.getElem?_replicate, h2]
      · simp [List.getElem?_replicate, h2]
  · rfl

theorem growTable_length (tbl : List Nat) (h : Nat) (hh : h ≠ UINT32_MAX) :
    h < (growTable tbl h).length := by
  unfold growTable
  simp only [hh, ne_eq, not_false_eq_true, if_true, List.length_append, List.length_replicate]
  omega

theorem getValid_eq (s : LMDBBlockDatabase) (h : Nat) (hh : h ≠ UINT32_MAX) :
    getValidDupIDForHeight s h = .ok (s.validDupByHeight.getD h 255) := by
  unfold getValidDupIDForHeight
  by_cases hl : s.validDupByHeight.length < h + 1
  · have : s.validDupByHeight.length ≤ h := by omega
    simp [hh, hl, UINT8_MAX, List.getD_eq_getElem?_getD, List.getElem?_eq_none this]
  · have hlt : h < s.validDupByHeight.length := by omega
    simp [hl, List.getD_eq_getElem?_getD, List.getElem?_eq_getElem hlt]

theorem setValidDupTable_spec (tbl : List Nat) (h d : Nat) (o : Bool) (hh : h ≠ UINT32_MAX) :
    ∃ t, setValidDupTable tbl h d o = some t ∧
      t.getD h 255 = (if o = true ∨ tbl.getD h 255 = 255 then d else tbl.getD h 255) ∧
      (∀ j, j ≠ h → t.getD j 255 = tbl.getD j 255) := by
  have hlen := growTable_length tbl h hh
  have hg := growTable_getD tbl h
  simp only [List.getD_eq_getElem?_getD] at hg ⊢
  have hold : (growTable tbl h)[h]? = some (tbl[h]?.getD 255) := by
    have := hg h
    rw [List.getElem?_eq_getElem hlen] at this
    rw [List.getElem?_eq_getElem hlen]
    simpa using this
  unfold setValidDupTable
  simp only [hold]
  by_cases hc : o = true ∨ tbl[h]?.getD 255 = 255
  · refine ⟨(growTable tbl h).set h d, ?_, ?_, ?_⟩
    · rcases hc with hc | hc
      · simp [hc]
      · simp [hc, UINT8_MAX]
    · simp [hc, List.getElem?_set, hlen]
    · intro j hj
      rw [← hg j, List.getElem?_set_ne (Ne.symm hj)]
  · have h1 : o = false := by
      cases o
      · rfl
      · exact absurd (Or.inl rfl) hc
    have h2 : tbl[h]?.getD 255 ≠ 255 := fun e => hc (Or.inr e)
    refine ⟨growTable tbl h, ?_, ?_, ?_⟩
    · simp [h1, h2, UINT8_MAX]
    · simp [hc, hg]
    · intro j _
      exact hg j

/-! ## Observations of the primitives -/

@[simp] theorem getDbSelect_headers (t : ARMORY_DB_TYPE) :
    getDbSelect t .HEADERS = .HEADERS := by
  simp [getDbSelect]

/-- The key of the height list of a height. -/
theorem hhl_key (hhl : StoredHeadHgtList) :
    hhl.getDBKey = DB_PREFIX.HEADHGT.toByte :: WRITE_UINT32_BE hhl.height := rfl

theorem getStoredHeadHgtList_congr (s1 s2 : LMDBBlockDatabase) (h : Nat)
    (he : getValueRef s1 .HEADERS (DB_PREFIX.HEADHGT.toByte :: WRITE_UINT32_BE h) =
          getValueRef s2 .HEADERS (DB_PREFIX.HEADHGT.toByte :: WRITE_UINT32_BE h)) :
    getStoredHeadHgtList s1 h = getStoredHeadHgtList s2 h := by
  unfold getStoredHeadHgtList getValueRefP
  simp only [getDbSelect_headers, he]

theorem getStoredHeadHgtList_row (s : LMDBBlockDatabase) (h p : Nat) (e : Nat × Bytes)
    (l : List (Nat × Bytes))
    (he : getValueRef s .HEADERS (DB_PREFIX.HEADHGT.toByte :: WRITE_UINT32_BE h) =
          some (.hhl p (e :: l))) :
    getStoredHeadHgtList s h =
      (true, { height := h, dupAndHashList := e :: l, preferredDup := p }) := by
  unfold getStoredHeadHgtList getValueRefP
  simp only [getDbSelect_headers, he]

theorem getStoredHeadHgtList_height (s : LMDBBlockDatabase) (h : Nat) :
    (getStoredHeadHgtList s h).2.height = h := by
  unfold getStoredHeadHgtList
  split <;> rfl

theorem getValueRef_putStoredHeadHgtList (s : LMDBBlockDatabase) (hhl : StoredHeadHgtList)
    (d : DB_SELECT) (k : Bytes) :
    getValueRef (putStoredHeadHgtList s hhl).1 d k =
      if hhl.height ≠ UINT32_MAX ∧ d = .HEADERS ∧ k = hhl.getDBKey then
        some (.hhl hhl.preferredDup hhl.dupAndHashList)
      else getValueRef s d k := by
  unfold putStoredHeadHgtList
  by_cases hh : hhl.height = UINT32_MAX
  · simp [hh]
  · simp [hh, getValueRef_putValue]

theorem putStoredHeadHgtList_tbl (s : LMDBBlockDatabase) (hhl : StoredHeadHgtList) :
    (putStoredHeadHgtList s hhl).1.validDupByHeight = s.validDupByHeight := by
  unfold putStoredHeadHgtList
  split
  · rfl
  · exact putValue_tbl _ _ _ _

theorem putStoredHeadHgtList_type (s : LMDBBlockDatabase) (hhl : StoredHeadHgtList) :
    (putStoredHeadHgtList s hhl).1.armoryDbType = s.armoryDbType := by
  unfold putStoredHeadHgtList
  split
  · rfl
  · exact putValue_type _ _ _ _

theorem getValueRef_putStoredDBInfo (s : LMDBBlockDatabase) (d d' : DB_SELECT)
    (i : StoredDBInfo) (k : Bytes) :
    getValueRef (putStoredDBInfo s d i) d' k =
      if i.isInitialized = true ∧ d' = d ∧ k = StoredDBInfo.getDBKey then some (.dbinfo i)
      else getValueRef s d' k := by
  unfold putStoredDBInfo
  by_cases hi : i.isInitialized = true
  · simp [hi, getValueRef_putValue]
  · simp [hi]

theorem putStoredDBInfo_tbl (s : LMDBBlockDatabase) (d : DB_SELECT) (i : StoredDBInfo) :
    (putStoredDBInfo s d i).validDupByHeight = s.validDupByHeight := by
  unfold putStoredDBInfo
  split
  · rfl
  · exact putValue_tbl _ _ _ _

theorem putStoredDBInfo_type (s : LMDBBlockDatabase) (d : DB_SELECT) (i : StoredDBInfo) :
    (putStoredDBInfo s d i).armoryDbType = s.armoryDbType := by
  unfold putStoredDBInfo
  split
  · rfl
  · exact putValue_type _ _ _ _

theorem resolveDup_height (hhl hhl1 : StoredHeadHgtList) (sbh : StoredHeader) (upd : Bool)
    (d : Nat) (w : Bool) (hr : resolveDup hhl sbh upd = some (hhl1, d, w)) :
    hhl1.height = hhl.height := by
  unfold resolveDup at hr
  split at hr
  · simp only [Option.some.injEq, Prod.mk.injEq] at hr
    rw [← hr.1]
    split <;> rfl
  · split at hr
    · split at hr
      · simp only [Option.some.injEq, Prod.mk.injEq] at hr
        rw [← hr.1]
      · simp only [Option.some.injEq, Prod.mk.injEq] at hr
        rw [← hr.1]
    · split at hr
      · simp only [Option.some.injEq, Prod.mk.injEq] at hr
        rw [← hr.1]
        split <;> rfl
      · exact absurd hr (by simp)

/-! ## What `putBareHeader` does, in terms of the rows and the table -/

@[simp] theorem setKeyData_isMainBranch (sbh : StoredHeader) (h d : Nat) :
    (sbh.setKeyData h d).isMainBranch = sbh.isMainBranch := rfl

@[simp] theorem setKeyData_blockHeight (sbh : StoredHeader) (h d : Nat) :
    (sbh.setKeyData h d).blockHeight = h := rfl

@[simp] theorem setKeyData_duplicateID (sbh : StoredHeader) (h d : Nat) :
    (sbh.setKeyData h d).duplicateID = d := rfl

@[simp] theorem setKeyData_thisHash (sbh : StoredHeader) (h d : Nat) :
    (sbh.setKeyData h d).thisHash = sbh.thisHash := rfl

theorem setValidDupIDForHeight_eq (s : LMDBBlockDatabase) (h d : Nat) (o : Bool)
    (t : List Nat) (ht : setValidDupTable s.validDupByHeight h d o = some t) :
    setValidDupIDForHeight s h d o = .ok { s with validDupByHeight := t } := by
  unfold setValidDupIDForHeight
  rw [ht]

theorem getValueRef_withTbl (s : LMDBBlockDatabase) (t : List Nat) (d : DB_SELECT) (k : Bytes) :
    getValueRef { s with validDupByHeight := t } d k = getValueRef s d k := by
  cases d <;> rfl

theorem putBareHeader_spec (s : LMDBBlockDatabase) (sbh : StoredHeader) (upd : Bool)
    (hhl1 : StoredHeadHgtList) (d : Nat) (w : Bool)
    (hinit : sbh.initialized = true) (hh : sbh.blockHeight ≠ UINT32_MAX)
    (hr : resolveDup (getStoredHeadHgtList s sbh.blockHeight).2 sbh upd = some (hhl1, d, w)) :
    ∃ s', putBareHeader s sbh upd = .ok (s', sbh.setKeyData sbh.blockHeight d, d) ∧
      s'.armoryDbType = s.armoryDbType ∧
      (∀ d' k, getValueRef s' d' k =
        if d' = .HEADERS ∧ k = StoredDBInfo.getDBKey ∧ sbh.isMainBranch = true ∧
            (getStoredDBInfo s .HEADERS StoredDBInfo.default true).2.topBlkHgt ≤ sbh.blockHeight ∧
            (getStoredDBInfo s .HEADERS StoredDBInfo.default true).2.isInitialized = true then
          some (.dbinfo { (getStoredDBInfo s .HEADERS StoredDBInfo.default true).2 with
                          topBlkHgt := sbh.blockHeight, topBlkHash := sbh.thisHash })
        else if d' = .HEADERS ∧ k = DB_PREFIX.HEADHASH.toByte :: sbh.thisHash then
          some (.header (sbh.setKeyData sbh.blockHeight d))
        else if d' = .HEADERS ∧ k = DB_PREFIX.HEADHGT.toByte :: WRITE_UINT32_BE sbh.blockHeight ∧
            w = true then
          some (.hhl hhl1.preferredDup hhl1.dupAndHashList)
        else getValueRef s d' k) ∧
      (sbh.isMainBranch = true →
        setValidDupTable s.validDupByHeight sbh.blockHeight d upd = some s'.validDupByHeight) ∧
      (sbh.isMainBranch = false → s'.validDupByHeight = s.validDupByHeight) := by
  have hheight : hhl1.height = sbh.blockHeight := by
    rw [resolveDup_height _ _ _ _ _ _ hr, getStoredHeadHgtList_height]
  have hkey : hhl1.getDBKey = DB_PREFIX.HEADHGT.toByte :: WRITE_UINT32_BE sbh.blockHeight := by
    rw [hhl_key, hheight]
  have hne : hhl1.height ≠ UINT32_MAX := by rw [hheight]; exact hh
  have hk1 : StoredDBInfo.getDBKey ≠ DB_PREFIX.HEADHASH.toByte :: sbh.thisHash := by
    simp [StoredDBInfo.getDBKey, DB_PREFIX.toByte]
  have hk2 : StoredDBInfo.getDBKey ≠ DB_PREFIX.HEADHGT.toByte :: WRITE_UINT32_BE sbh.blockHeight := by
    simp [StoredDBInfo.getDBKey, DB_PREFIX.toByte]
  have hk3 : DB_PREFIX.HEADHASH.toByte :: sbh.thisHash ≠
      DB_PREFIX.HEADHGT.toByte :: WRITE_UINT32_BE sbh.blockHeight := by
    simp [DB_PREFIX.toByte]
  -- the store after the height list is written
  obtain ⟨s1, hs1⟩ : ∃ s1, s1 = (if w = true then (putStoredHeadHgtList s hhl1).1 else s) :=
    ⟨_, rfl⟩
  have o1 : ∀ d' k, getValueRef s1 d' k =
      if d' = .HEADERS ∧ k = DB_PREFIX.HEADHGT.toByte :: WRITE_UINT32_BE sbh.blockHeight ∧
          w = true then some (.hhl hhl1.preferredDup hhl1.dupAndHashList)
      else getValueRef s d' k := by
    intro d' k
    rw [hs1]
    by_cases hw : w = true
    · simp only [hw, if_true, getValueRef_putStoredHeadHgtList, hkey, hne, ne_eq,
        not_false_eq_true, true_and, and_true]
    · have hw' : w = false := by simpa using hw
      subst hw'
      simp
  have t1 : s1.validDupByHeight = s.validDupByHeight := by
    rw [hs1]; split
    · exact putStoredHeadHgtList_tbl _ _
    · rfl
  have y1 : s1.armoryDbType = s.armoryDbType := by
    rw [hs1]; split
    · exact putStoredHeadHgtList_type _ _
    · rfl
  -- the store after the header row is written
  obtain ⟨s2, hs2⟩ : ∃ s2, s2 = putValueP s1 .HEADERS .HEADHASH sbh.thisHash
      (.header (sbh.setKeyData sbh.blockHeight d)) := ⟨_, rfl⟩
  have o2 : ∀ d' k, getValueRef s2 d' k =
      if d' = .HEADERS ∧ k = DB_PREFIX.HEADHASH.toByte :: sbh.thisHash then
        some (.header (sbh.setKeyData sbh.blockHeight d))
      else getValueRef s1 d' k := by
    intro d' k
    rw [hs2, putValueP, getValueRef_putValue]
  have t2 : s2.validDupByHeight = s.validDupByHeight := by
    rw [hs2, putValueP, putValue_tbl, t1]
  have y2 : s2.armoryDbType = s.armoryDbType := by
    rw [hs2, putValueP, putValue_type, y1]
  unfold putBareHeader
  simp only [hinit, hh, hr, Bool.not_true, Bool.false_eq_true, if_false,
    setKeyData_isMainBranch, setKeyData_blockHeight, setKeyData_duplicateID, setKeyData_thisHash,
    ← hs1, ← hs2]
  by_cases hmain : sbh.isMainBranch = true
  · obtain ⟨t, ht, -, -⟩ := setValidDupTable_spec s.validDupByHeight sbh.blockHeight d upd hh
    have ht2 := ht
    rw [← t2] at ht2
    simp only [hmain, if_true, setValidDupIDForHeight_eq _ _ _ _ _ ht2]
    by_cases htop : (getStoredDBInfo s .HEADERS StoredDBInfo.default true).2.topBlkHgt ≤
        sbh.blockHeight
    · simp only [ge_iff_le, htop, if_true]
      refine ⟨_, rfl, ?_, ?_, ?_, ?_⟩
      · rw [putStoredDBInfo_type]
        exact y2
      · intro d' k
        rw [getValueRef_putStoredDBInfo, getValueRef_withTbl, o2, o1]
        simp only [StoredDBInfo.isInitialized, true_and]
        by_cases c1 : d' = .HEADERS ∧ k = StoredDBInfo.getDBKey
        · obtain ⟨c1a, c1b⟩ := c1
          subst c1a c1b
          simp only [true_and, hk1, hk2, false_and, if_false, and_true]
        · by_cases c0 : d' = .HEADERS
          · have c1' : k ≠ StoredDBInfo.getDBKey := fun e => c1 ⟨c0, e⟩
            simp only [c0, c1', true_and, false_and, and_false, if_false]
          · simp only [c0, false_and, and_false, if_false]
      · intro _
        rw [putStoredDBInfo_tbl, ht]
      · intro hf
        simp at hf
    · simp only [ge_iff_le, htop, if_false]
      refine ⟨_, rfl, y2, ?_, ?_, ?_⟩
      · intro d' k
        rw [getValueRef_withTbl, o2, o1]
        simp only [false_and, and_false, if_false]
      · intro _
        rw [ht]
      · intro hf
        simp at hf
  · simp only [hmain, if_false, Bool.false_eq_true]
    refine ⟨_, rfl, y2, ?_, ?_, ?_⟩
    · intro d' k
      rw [o2, o1]
      simp only [hmain, false_and, and_false, if_false]
    · intro hf
      exact hf.elim
    · intro _
      exact t2

/-! ## The height-list step of `putBareHeader` -/

theorem scanDupList_none (hash : Bytes) (l : List (Nat × Bytes)) (m : Int) :
    (scanDupList hash l m).2 = none ↔ ∀ e ∈ l, e.2 ≠ hash := by
  induction l generalizing m with
  | nil => simp [scanDupList]
  | cons e rest ih =>
    obtain ⟨dup, h⟩ := e
    unfold scanDupList
    by_cases hc : hash = h
    · subst hc
      simp
    · simp only [hc, if_false, ih, List.mem_cons, forall_eq_or_imp, ne_eq]
      constructor
      · intro hh
        exact ⟨fun e => hc e.symm, hh⟩
      · intro hh
        exact hh.2

theorem scanDupList_some (hash : Bytes) (l : List (Nat × Bytes)) (m : Int) (dup : Nat)
    (h : (scanDupList hash l m).2 = some dup) : (dup, hash) ∈ l := by
  induction l generalizing m with
  | nil => simp [scanDupList] at h
  | cons e rest ih =>
    obtain ⟨dup', h'⟩ := e
    unfold scanDupList at h
    by_cases hc : hash = h'
    · subst hc
      simp only [if_true, Option.some.injEq] at h
      subst h
      exact List.mem_cons_self _ _
    · simp only [hc, if_false] at h
      exact List.mem_cons_of_mem _ (ih _ h)

/-- The height-list step returns whenever the list has fewer than 256
entries. -/
theorem resolveDup_total (hhl : StoredHeadHgtList) (sbh : StoredHeader) (upd : Bool)
    (hlen : hhl.dupAndHashList.length < 256) :
    ∃ r, resolveDup hhl sbh upd = some r := by
  unfold resolveDup
  split
  · exact ⟨_, rfl⟩
  · split
    · split
      · exact ⟨_, rfl⟩
      · exact ⟨_, rfl⟩
    · simp only [hlen, if_true]
      exact ⟨_, rfl⟩

/-- A call that returns went through the height-list step. -/
theorem putBareHeader_ok_resolve (s : LMDBBlockDatabase) (sbh : StoredHeader) (upd : Bool)
    (r : LMDBBlockDatabase × StoredHeader × Nat)
    (hinit : sbh.initialized = true) (hh : sbh.blockHeight ≠ UINT32_MAX)
    (hp : putBareHeader s sbh upd = .ok r) :
    ∃ q, resolveDup (getStoredHeadHgtList s sbh.blockHeight).2 sbh upd = some q := by
  cases hq : resolveDup (getStoredHeadHgtList s sbh.blockHeight).2 sbh upd with
  | some q => exact ⟨q, rfl⟩
  | none =>
    unfold putBareHeader at hp
    simp [hinit, hh, hq] at hp

theorem getStoredDBInfo_row (s : LMDBBlockDatabase) (d : DB_SELECT) (i sd : StoredDBInfo)
    (w : Bool) (h : getValueRef s d StoredDBInfo.getDBKey = some (.dbinfo i)) :
    getStoredDBInfo s d sd w = (true, i) := by
  unfold getStoredDBInfo
  rw [h]

set_option maxRecDepth 100000 in
/-- Counterexample to C2 as stated: in a store whose HEADERS database holds no
DBInfo row, the top height reads as 0; `putBareHeader` of the main-branch
header A at height 3 returns, `putStoredDBInfo` refuses the DBInfo that was
never initialized, and the top height still reads as 0, not max(0, 3). With
256 headers listed at the height and none holding the hash, the call does not
return. -/
theorem putBareHeader_top_counterexample :
    (getStoredDBInfo exStoreEmpty .HEADERS StoredDBInfo.default true).2.topBlkHgt = 0 ∧
    (∃ s', putBareHeader exStoreEmpty exHeaderA true = .ok (s', exHeaderA.setKeyData 3 0, 0) ∧
      getValueRef s' .HEADERS StoredDBInfo.getDBKey = none ∧
      (getStoredDBInfo s' .HEADERS StoredDBInfo.default true).2.topBlkHgt = 0) ∧
    max 0 exHeaderA.blockHeight = 3 ∧
    (getStoredHeadHgtList exStoreFullHeight 3).2.dupAndHashList.length = 256 ∧
    putBareHeader exStoreFullHeight exHeaderA true = .fault .diverges := by
  refine ⟨rfl, ⟨_, rfl, rfl, rfl⟩, rfl, ?_, ?_⟩
  · decide
  · decide

/-- C2 (amended). Top-of-chain monotonicity: when the HEADERS DBInfo row is
present and initialized (as after a successful open), a returning
`putBareHeader` of an initialized main-branch header with a height other than
0xFFFFFFFF leaves the DBInfo row with `topBlkHgt = max(previous top, height)`,
with `topBlkHash` the hash of the header whenever the height is at least the
previous top (and the old hash otherwise), and with every other field as
before, so the row is again present and initialized for the next call of a
sequence; the call returns whenever the height has fewer than 256 listed
headers. -/
theorem putBareHeader_top_of_chain (s : LMDBBlockDatabase) (sbh : StoredHeader) (upd : Bool)
    (i : StoredDBInfo)
    (hinit : sbh.initialized = true) (hmain : sbh.isMainBranch = true)
    (hh : sbh.blockHeight ≠ UINT32_MAX)
    (hrow : getValueRef s .HEADERS StoredDBInfo.getDBKey = some (.dbinfo i))
    (hi : i.isInitialized = true) :
    (∀ s' sbh' d, putBareHeader s sbh upd = .ok (s', sbh', d) →
      getValueRef s' .HEADERS StoredDBInfo.getDBKey =
        some (.dbinfo { i with
          topBlkHgt := max i.topBlkHgt sbh.blockHeight,
          topBlkHash := if i.topBlkHgt ≤ sbh.blockHeight then sbh.thisHash
                        else i.topBlkHash })) ∧
    ((getStoredHeadHgtList s sbh.blockHeight).2.dupAndHashList.length < 256 →
      ∃ s' sbh' d, putBareHeader s sbh upd = .ok (s', sbh', d)) := by
  constructor
  · intro s' sbh' d hp
    obtain ⟨⟨hhl1, d1, w⟩, hq⟩ := putBareHeader_ok_resolve s sbh upd _ hinit hh hp
    obtain ⟨s'', hp', -, hobs, -, -⟩ := putBareHeader_spec s sbh upd hhl1 d1 w hinit hh hq
    rw [hp] at hp'
    simp only [Outcome.ok.injEq, Prod.mk.injEq] at hp'
    obtain ⟨rfl, -, -⟩ := hp'
    rw [hobs, getStoredDBInfo_row s .HEADERS i _ _ hrow]
    simp only [hmain, hi, true_and, and_true]
    by_cases htop : i.topBlkHgt ≤ sbh.blockHeight
    · simp [htop]
    · have hk1 : StoredDBInfo.getDBKey ≠ DB_PREFIX.HEADHASH.toByte :: sbh.thisHash := by
        simp [StoredDBInfo.getDBKey, DB_PREFIX.toByte]
      have hk2 : StoredDBInfo.getDBKey ≠
          DB_PREFIX.HEADHGT.toByte :: WRITE_UINT32_BE sbh.blockHeight := by
        simp [StoredDBInfo.getDBKey, DB_PREFIX.toByte]
      have hmax : max i.topBlkHgt sbh.blockHeight = i.topBlkHgt := by omega
      simp only [htop, if_false, hk1, hk2, false_and, and_false, hmax, hrow]
  · intro hlen
    obtain ⟨⟨hhl1, d1, w⟩, hq⟩ :=
      resolveDup_total (getStoredHeadHgtList s sbh.blockHeight).2 sbh upd hlen
    obtain ⟨s'', hp', -⟩ := putBareHeader_spec s sbh upd hhl1 d1 w hinit hh hq
    exact ⟨_, _, _, hp'⟩

theorem resolveDup_cases (hhl hhl1 : StoredHeadHgtList) (sbh : StoredHeader) (upd : Bool)
    (d : Nat) (w : Bool) (hr : resolveDup hhl sbh upd = some (hhl1, d, w)) :
    (hhl.dupAndHashList = [] ∧ d = 0 ∧ w = true ∧
      hhl1.dupAndHashList = [(0, sbh.thisHash)] ∧
      hhl1.preferredDup = (if sbh.isMainBranch = true then 0 else hhl.preferredDup)) ∨
    (hhl.dupAndHashList ≠ [] ∧
      (scanDupList sbh.thisHash (hhl.dupAndHashList.take 256) (-1)).2 = some d ∧
      hhl1.dupAndHashList = hhl.dupAndHashList ∧
      hhl1.preferredDup =
        (if sbh.isMainBranch = true ∧ upd = true then d else hhl.preferredDup) ∧
      (w = false → hhl1 = hhl)) ∨
    (hhl.dupAndHashList ≠ [] ∧
      (scanDupList sbh.thisHash (hhl.dupAndHashList.take 256) (-1)).2 = none ∧
      hhl.dupAndHashList.length < 256 ∧
      d = toUInt8 ((scanDupList sbh.thisHash (hhl.dupAndHashList.take 256) (-1)).1 + 1) ∧
      hhl1.dupAndHashList = hhl.dupAndHashList ++ [(d, sbh.thisHash)] ∧
      hhl1.preferredDup =
        (if sbh.isMainBranch = true ∧ upd = true then d else hhl.preferredDup) ∧
      w = true) := by
  unfold resolveDup at hr
  by_cases hl : hhl.dupAndHashList.length = 0
  · left
    have hnil : hhl.dupAndHashList = [] := List.length_eq_zero.mp hl
    simp only [hl, if_true, Option.some.injEq, Prod.mk.injEq] at hr
    obtain ⟨h1, h2, h3⟩ := hr
    refine ⟨hnil, h2.symm, h3.symm, ?_, ?_⟩
    · rw [← h1]
      by_cases hm : sbh.isMainBranch = true <;>
        simp [hm, StoredHeadHgtList.addDupAndHash, hnil]
    · rw [← h1]
      by_cases hm : sbh.isMainBranch = true <;>
        simp [hm, StoredHeadHgtList.addDupAndHash]
  · right
    have hne : hhl.dupAndHashList ≠ [] := fun e => hl (by rw [e]; rfl)
    simp only [hl, if_false] at hr
    cases hs : scanDupList sbh.thisHash (hhl.dupAndHashList.take 256) (-1) with
    | mk m o =>
      rw [hs] at hr
      cases o with
      | some dup =>
        left
        simp only at hr
        by_cases hc : (decide (hhl.preferredDup ≠ dup) && sbh.isMainBranch && upd) = true
        · simp only [hc, if_true, Option.some.injEq, Prod.mk.injEq] at hr
          obtain ⟨h1, h2, h3⟩ := hr
          subst h2
          simp only [Bool.and_eq_true, decide_eq_true_eq] at hc
          refine ⟨hne, rfl, ?_, ?_, ?_⟩
          · rw [← h1]
          · rw [← h1]
            simp [hc.1.2, hc.2]
          · intro hw
            rw [hw] at h3
            exact absurd h3 (by simp)
        · simp only [hc, Bool.false_eq_true, if_false, Option.some.injEq, Prod.mk.injEq] at hr
          obtain ⟨h1, h2, h3⟩ := hr
          subst h2
          subst h1
          refine ⟨hne, rfl, rfl, ?_, fun _ => rfl⟩
          by_cases hmu : sbh.isMainBranch = true ∧ upd = true
          · simp only [hmu, and_self, if_true]
            by_contra hpd
            apply hc
            simp [hmu.1, hmu.2, hpd]
          · simp only [hmu, if_false]
      | none =>
        right
        simp only at hr
        by_cases hlen : hhl.dupAndHashList.length < 256
        · simp only [hlen, if_true, Option.some.injEq, Prod.mk.injEq] at hr
          obtain ⟨h1, h2, h3⟩ := hr
          refine ⟨hne, rfl, hlen, h2.symm, ?_, ?_, h3.symm⟩
          · rw [← h1, ← h2]
            by_cases hmu : (sbh.isMainBranch && upd) = true <;>
              simp [hmu, StoredHeadHgtList.addDupAndHash]
          · rw [← h1, ← h2]
            by_cases hm : sbh.isMainBranch = true <;> by_cases hu : upd = true <;>
              simp [hm, hu, StoredHeadHgtList.addDupAndHash]
        · simp only [hlen, if_false] at hr
          exact absurd hr (by simp)

/-- `WRITE_UINT32_BE` keeps 32-bit values apart. -/
theorem WRITE_UINT32_BE_inj (a b : Nat) (ha : a ≤ UINT32_MAX) (hb : b ≤ UINT32_MAX)
    (h : WRITE_UINT32_BE a = WRITE_UINT32_BE b) : a = b := by
  unfold WRITE_UINT32_BE at h
  unfold UINT32_MAX at ha hb
  simp only [List.cons.injEq, and_true] at h
  omega

theorem getStoredHeadHgtList_fst (s : LMDBBlockDatabase) (h : Nat)
    (hne : (getStoredHeadHgtList s h).2.dupAndHashList ≠ []) :
    (getStoredHeadHgtList s h).1 = true := by
  unfold getStoredHeadHgtList at hne ⊢
  split
  · rfl
  · rename_i hx
    split at hne
    · rename_i p e l heq
      exact absurd heq (hx p e l)
    · exact absurd rfl hne

/-- After a returning `putBareHeader`, the height list read back for the
height of the header is the list computed by the height-list step. -/
theorem putBareHeader_hhl_after (s s' : LMDBBlockDatabase) (sbh sbh' : StoredHeader)
    (upd : Bool) (hhl1 : StoredHeadHgtList) (d d' : Nat) (w : Bool)
    (hinit : sbh.initialized = true) (hh : sbh.blockHeight ≠ UINT32_MAX)
    (hr : resolveDup (getStoredHeadHgtList s sbh.blockHeight).2 sbh upd = some (hhl1, d, w))
    (hp : putBareHeader s sbh upd = .ok (s', sbh', d')) :
    d' = d ∧ sbh' = sbh.setKeyData sbh.blockHeight d ∧
    getStoredHeadHgtList s' sbh.blockHeight = (true, hhl1) := by
  obtain ⟨s'', hp', -, hobs, -, -⟩ := putBareHeader_spec s sbh upd hhl1 d w hinit hh hr
  rw [hp] at hp'
  simp only [Outcome.ok.injEq, Prod.mk.injEq] at hp'
  obtain ⟨rfl, rfl, rfl⟩ := hp'
  refine ⟨rfl, rfl, ?_⟩
  have hheight : hhl1.height = sbh.blockHeight := by
    rw [resolveDup_height _ _ _ _ _ _ hr, getStoredHeadHgtList_height]
  have hk1 : DB_PREFIX.HEADHGT.toByte :: WRITE_UINT32_BE sbh.blockHeight ≠
      StoredDBInfo.getDBKey := by
    simp [StoredDBInfo.getDBKey, DB_PREFIX.toByte]
  have hk3 : DB_PREFIX.HEADHGT.toByte :: WRITE_UINT32_BE sbh.blockHeight ≠
      DB_PREFIX.HEADHASH.toByte :: sbh.thisHash := by
    simp [DB_PREFIX.toByte]
  have hrow := hobs .HEADERS (DB_PREFIX.HEADHGT.toByte :: WRITE_UINT32_BE sbh.blockHeight)
  simp only [hk1, hk3, false_and, and_false, if_false, true_and] at hrow
  have hlist1 : hhl1.dupAndHashList ≠ [] := by
    rcases resolveDup_cases _ _ _ _ _ _ hr with c | c | c
    · rw [c.2.2.2.1]; simp
    · rw [c.2.2.1]; exact c.1
    · rw [c.2.2.2.2.1]; simp
  by_cases hw : w = true
  · simp only [hw, if_true] at hrow
    obtain ⟨e, l, hel⟩ := List.exists_cons_of_ne_nil hlist1
    rw [hel] at hrow
    rw [getStoredHeadHgtList_row s' _ _ e l hrow, ← hel, ← hheight]
  · have hw' : w = false := by simpa using hw
    simp only [hw, if_false] at hrow
    have hsame : hhl1 = (getStoredHeadHgtList s sbh.blockHeight).2 := by
      rcases resolveDup_cases _ _ _ _ _ _ hr with c | c | c
      · rw [c.2.2.1] at hw'; exact absurd hw' (by simp)
      · exact c.2.2.2.2 hw'
      · rw [c.2.2.2.2.2.2] at hw'; exact absurd hw' (by simp)
    rw [getStoredHeadHgtList_congr s' s _ hrow]
    have hf := getStoredHeadHgtList_fst s sbh.blockHeight (by rw [← hsame]; exact hlist1)
    rw [hsame]
    exact Prod.ext hf rfl

/-- Witness of C2: the main-branch header at height 3 put into a store whose
DBInfo has top height 2. -/
theorem putBareHeader_top_of_chain_witness :
    (∀ s' sbh' d, putBareHeader exStore exHeaderA true = .ok (s', sbh', d) →
      getValueRef s' .HEADERS StoredDBInfo.getDBKey =
        some (.dbinfo { exInfo with
          topBlkHgt := max exInfo.topBlkHgt exHeaderA.blockHeight,
          topBlkHash := if exInfo.topBlkHgt ≤ exHeaderA.blockHeight then exHeaderA.thisHash
                        else exInfo.topBlkHash })) ∧
    ((getStoredHeadHgtList exStore exHeaderA.blockHeight).2.dupAndHashList.length < 256 →
      ∃ s' sbh' d, putBareHeader exStore exHeaderA true = .ok (s', sbh', d)) :=
  putBareHeader_top_of_chain exStore exHeaderA true exInfo rfl rfl (by decide) rfl rfl

/-! ## `markBlockHeaderValid` -/

/-- Counterexample to C3: dup 0 is listed at height 3 and already preferred on
disk, the table does not cover height 3; the call returns true at once and
the table still answers 255 for height 3, not 0. -/
theorem markBlockHeaderValid_table_counterexample :
    (0, [10]) ∈ (getStoredHeadHgtList exStorePreferred 3).2.dupAndHashList ∧
    markBlockHeaderValid exStorePreferred 3 0 = .ok (exStorePreferred, true) ∧
    getValidDupIDForHeight exStorePreferred 3 = .ok 255 := by
  decide

/-- C3 (amended). For every height other than 0xFFFFFFFF and every dup listed
at that height, `markBlockHeaderValid` returns true, afterwards the stored
preferred dup of the height is that dup, and the table answers that dup for
the height provided the stored preferred dup differed from it before the call
or the table already answered it. -/
theorem markBlockHeaderValid_sets_preferred (s : LMDBBlockDatabase) (h d : Nat) (hash : Bytes)
    (hh : h ≠ UINT32_MAX)
    (hl : (d, hash) ∈ (getStoredHeadHgtList s h).2.dupAndHashList) :
    ∃ s', markBlockHeaderValid s h d = .ok (s', true) ∧
      (getStoredHeadHgtList s' h).2.preferredDup = d ∧
      ((getStoredHeadHgtList s h).2.preferredDup ≠ d ∨ getValidDupIDForHeight s h = .ok d →
        getValidDupIDForHeight s' h = .ok d) := by
  unfold markBlockHeaderValid
  by_cases hp : (getStoredHeadHgtList s h).2.preferredDup = d
  · simp only [hp, if_true]
    refine ⟨s, rfl, hp, ?_⟩
    intro hc
    rcases hc with hc | hc
    · exact absurd rfl hc
    · exact hc
  · have hany : (getStoredHeadHgtList s h).2.dupAndHashList.any (fun e => decide (e.1 = d))
        = true := by
      rw [List.any_eq_true]
      exact ⟨(d, hash), hl, by simp⟩
    simp only [hp, if_false, hany, if_true]
    obtain ⟨t, ht, htd, -⟩ := setValidDupTable_spec s.validDupByHeight h d true hh
    have ht' : setValidDupTable
        (putStoredHeadHgtList s ((getStoredHeadHgtList s h).2.setPreferredDupID d)).1.validDupByHeight
        h d true = some t := by
      rw [putStoredHeadHgtList_tbl]; exact ht
    rw [setValidDupIDForHeight_eq _ _ _ _ _ ht']
    refine ⟨_, rfl, ?_, ?_⟩
    · obtain ⟨e, l, hel⟩ := List.exists_cons_of_ne_nil (List.ne_nil_of_mem hl)
      have hrow : getValueRef
          { (putStoredHeadHgtList s ((getStoredHeadHgtList s h).2.setPreferredDupID d)).1 with
            validDupByHeight := t } .HEADERS
          (DB_PREFIX.HEADHGT.toByte :: WRITE_UINT32_BE h) = some (.hhl d (e :: l)) := by
        rw [getValueRef_withTbl, getValueRef_putStoredHeadHgtList]
        simp [StoredHeadHgtList.setPreferredDupID, hhl_key, getStoredHeadHgtList_height, hh, hel]
      rw [getStoredHeadHgtList_row _ _ _ _ _ hrow]
    · intro _
      rw [getValid_eq _ _ hh]
      simp only [htd, true_or, if_true]

/-- Witness of C3 (amended): dup 1 is listed but not preferred at height 3. -/
theorem markBlockHeaderValid_sets_preferred_witness :
    ∃ s', markBlockHeaderValid exStoreTwo 3 1 = .ok (s', true) ∧
      (getStoredHeadHgtList s' 3).2.preferredDup = 1 ∧
      ((getStoredHeadHgtList exStoreTwo 3).2.preferredDup ≠ 1 ∨
          getValidDupIDForHeight exStoreTwo 3 = .ok 1 →
        getValidDupIDForHeight s' 3 = .ok 1) :=
  markBlockHeaderValid_sets_preferred exStoreTwo 3 1 [11] (by decide) (by decide)

theorem growTable_getElem_gt (tbl : List Nat) (h j : Nat) (hj : h < j) :
    (growTable tbl h)[j]? = tbl[j]? := by
  unfold growTable
  split
  · by_cases hl : j < tbl.length
    · rw [List.getElem?_append_left hl]
    · have hl' : tbl.length ≤ j := Nat.le_of_not_lt hl
      rw [List.getElem?_append_right hl', List.getElem?_eq_none hl']
      apply List.getElem?_eq_none
      simp only [List.length_replicate]
      omega
  · rfl

/-- Entries of the table other than the one written keep their value. -/
theorem setValidDupTable_frame (tbl : List Nat) (h d : Nat) (o : Bool) (t : List Nat)
    (ht : setValidDupTable tbl h d o = some t) :
    (∀ j, j ≠ h → t.getD j 255 = tbl.getD j 255) ∧ (∀ j, h < j → t[j]? = tbl[j]?) := by
  unfold setValidDupTable at ht
  simp only at ht
  split at ht
  · exact absurd ht (by simp)
  · split at ht
    · simp only [Option.some.injEq] at ht
      subst ht
      exact ⟨fun j _ => growTable_getD tbl h j, fun j hj => growTable_getElem_gt tbl h j hj⟩
    · simp only [Option.some.injEq] at ht
      subst ht
      constructor
      · intro j hj
        rw [← growTable_getD tbl h j]
        simp only [List.getD_eq_getElem?_getD]
        rw [List.getElem?_set_ne (Ne.symm hj)]
      · intro j hj
        rw [List.getElem?_set_ne (by omega), growTable_getElem_gt tbl h j hj]

theorem getValid_frame (s s' : LMDBBlockDatabase) (h d : Nat) (o : Bool)
    (hh32 : h ≤ UINT32_MAX)
    (ht : setValidDupTable s.validDupByHeight h d o = some s'.validDupByHeight)
    (h' : Nat) (hne : h' ≠ h) :
    getValidDupIDForHeight s' h' = getValidDupIDForHeight s h' := by
  obtain ⟨f1, f2⟩ := setValidDupTable_frame _ _ _ _ _ ht
  by_cases hm : h' = UINT32_MAX
  · have hlt : h < h' := by omega
    unfold getValidDupIDForHeight
    simp only [hm, ne_eq, not_true_eq_false, false_and, if_false]
    rw [← hm, f2 h' hlt]
  · rw [getValid_eq _ _ hm, getValid_eq _ _ hm, f1 h' hne]

/-- C8. Frame of `markBlockHeaderValid(h, d)` for a 32-bit height: whenever the
call returns, the ordered list of (dup, hash) pairs stored for `h` is the same
as before, every row of every sub-database other than the HEADHGT row of `h`
is unchanged, the table answers as before for every other height, and a call
that returns false leaves the whole store and table unchanged. -/
theorem markBlockHeaderValid_frame (s s' : LMDBBlockDatabase) (h d : Nat) (r : Bool)
    (hh32 : h ≤ UINT32_MAX)
    (hp : markBlockHeaderValid s h d = .ok (s', r)) :
    (getStoredHeadHgtList s' h).2.dupAndHashList =
      (getStoredHeadHgtList s h).2.dupAndHashList ∧
    (∀ db key, (db ≠ .HEADERS ∨ key ≠ DB_PREFIX.HEADHGT.toByte :: WRITE_UINT32_BE h) →
      getValueRef s' db key = getValueRef s db key) ∧
    (∀ h', h' ≠ h → getValidDupIDForHeight s' h' = getValidDupIDForHeight s h') ∧
    s'.armoryDbType = s.armoryDbType ∧
    (r = false → s' = s) := by
  unfold markBlockHeaderValid at hp
  by_cases hpd : (getStoredHeadHgtList s h).2.preferredDup = d
  · simp only [hpd, if_true, Outcome.ok.injEq, Prod.mk.injEq] at hp
    obtain ⟨rfl, rfl⟩ := hp
    exact ⟨rfl, fun _ _ _ => rfl, fun _ _ => rfl, rfl, fun hf => absurd hf (by simp)⟩
  · simp only [hpd, if_false] at hp
    by_cases hany : (getStoredHeadHgtList s h).2.dupAndHashList.any (fun e => decide (e.1 = d))
        = true
    · simp only [hany, if_true] at hp
      unfold setValidDupIDForHeight at hp
      rw [putStoredHeadHgtList_tbl] at hp
      cases ht : setValidDupTable s.validDupByHeight h d true with
      | none => rw [ht] at hp; exact absurd hp (by simp)
      | some t =>
        rw [ht] at hp
        simp only [Outcome.ok.injEq, Prod.mk.injEq] at hp
        obtain ⟨rfl, rfl⟩ := hp
        have hobs : ∀ db key,
            getValueRef { (putStoredHeadHgtList s
                ((getStoredHeadHgtList s h).2.setPreferredDupID d)).1 with
              validDupByHeight := t } db key =
            if h ≠ UINT32_MAX ∧ db = .HEADERS ∧
                key = DB_PREFIX.HEADHGT.toByte :: WRITE_UINT32_BE h then
              some (.hhl d (getStoredHeadHgtList s h).2.dupAndHashList)
            else getValueRef s db key := by
          intro db key
          rw [getValueRef_withTbl, getValueRef_putStoredHeadHgtList]
          simp only [StoredHeadHgtList.setPreferredDupID, hhl_key, getStoredHeadHgtList_height]
        refine ⟨?_, ?_, ?_, ?_, fun hf => absurd hf (by simp)⟩
        · have hne : (getStoredHeadHgtList s h).2.dupAndHashList ≠ [] := by
            intro e
            rw [e] at hany
            simp at hany
          by_cases hm : h = UINT32_MAX
          · have := hobs .HEADERS (DB_PREFIX.HEADHGT.toByte :: WRITE_UINT32_BE h)
            simp only [hm, ne_eq, not_true_eq_false, false_and, if_false] at this
            rw [hm, getStoredHeadHgtList_congr _ s _ this]
          · obtain ⟨e, l, hel⟩ := List.exists_cons_of_ne_nil hne
            have := hobs .HEADERS (DB_PREFIX.HEADHGT.toByte :: WRITE_UINT32_BE h)
            simp only [hm, ne_eq, not_false_eq_true, true_and, if_true, hel] at this
            rw [getStoredHeadHgtList_row _ _ _ _ _ this, hel]
        · intro db key hk
          rw [hobs]
          rcases hk with hk | hk
          · simp [hk]
          · simp [hk]
        · intro h' hne
          exact getValid_frame s _ h d true hh32 ht h' hne
        · exact putStoredHeadHgtList_type _ _
    · simp only [hany, Bool.false_eq_true, if_false, Outcome.ok.injEq, Prod.mk.injEq] at hp
      obtain ⟨rfl, rfl⟩ := hp
      exact ⟨rfl, fun _ _ _ => rfl, fun _ _ => rfl, rfl, fun _ => rfl⟩

/-- Witness of C8: dup 1 marked valid at height 3 in a store where dup 0 was
preferred. -/
theorem markBlockHeaderValid_frame_witness :
    (getStoredHeadHgtList exStoreTwoMarked 3).2.dupAndHashList =
      (getStoredHeadHgtList exStoreTwo 3).2.dupAndHashList ∧
    (∀ db key, (db ≠ .HEADERS ∨ key ≠ DB_PREFIX.HEADHGT.toByte :: WRITE_UINT32_BE 3) →
      getValueRef exStoreTwoMarked db key = getValueRef exStoreTwo db key) ∧
    (∀ h', h' ≠ 3 →
      getValidDupIDForHeight exStoreTwoMarked h' = getValidDupIDForHeight exStoreTwo h') ∧
    exStoreTwoMarked.armoryDbType = exStoreTwo.armoryDbType ∧
    (true = false → exStoreTwoMarked = exStoreTwo) :=
  markBlockHeaderValid_frame exStoreTwo exStoreTwoMarked 3 1 true (by decide) (by decide)

/-! ## Scenarios of `putBareHeader` -/

theorem getStoredHeadHgtList_none (s : LMDBBlockDatabase) (h : Nat)
    (hrow : getValueRef s .HEADERS (DB_PREFIX.HEADHGT.toByte :: WRITE_UINT32_BE h) = none) :
    getStoredHeadHgtList s h =
      (false, { height := h, dupAndHashList := [], preferredDup := UINT8_MAX }) := by
  unfold getStoredHeadHgtList getValueRefP
  simp only [getDbSelect_headers, hrow]

/-- C7. Two headers A (main branch) and B (not main branch) with different
hashes at a height `h` other than 0xFFFFFFFF that has no HEADHGT row and
whose table entry is unset: `putBareHeader(A)` then `putBareHeader(B)` return
dups 0 and 1, and leave HEADHGT[h] with the list [(0, hash A), (1, hash B)]
and preferred dup 0, and the table answers 0 for `h`; this holds for both
values of `updateDupID` in either call. -/
theorem putBareHeader_two_headers (s : LMDBBlockDatabase) (a b : StoredHeader) (h : Nat)
    (u1 u2 : Bool)
    (ha : a.initialized = true) (hb : b.initialized = true)
    (hah : a.blockHeight = h) (hbh : b.blockHeight = h) (hh : h ≠ UINT32_MAX)
    (hmain : a.isMainBranch = true) (hside : b.isMainBranch = false)
    (hne : a.thisHash ≠ b.thisHash)
    (hrow : getValueRef s .HEADERS (DB_PREFIX.HEADHGT.toByte :: WRITE_UINT32_BE h) = none)
    (htbl : getValidDupIDForHeight s h = .ok UINT8_MAX) :
    ∃ s1 s2, putBareHeader s a u1 = .ok (s1, a.setKeyData h 0, 0) ∧
      putBareHeader s1 b u2 = .ok (s2, b.setKeyData h 1, 1) ∧
      getStoredHeadHgtList s2 h =
        (true, { height := h, dupAndHashList := [(0, a.thisHash), (1, b.thisHash)],
                 preferredDup := 0 }) ∧
      getValidDupIDForHeight s2 h = .ok 0 := by
  subst hah
  have hha : a.blockHeight ≠ UINT32_MAX := hh
  have hhb : b.blockHeight ≠ UINT32_MAX := by rw [hbh]; exact hh
  -- first call
  have hr1 : resolveDup (getStoredHeadHgtList s a.blockHeight).2 a u1 =
      some ({ height := a.blockHeight, dupAndHashList := [(0, a.thisHash)],
              preferredDup := 0 }, 0, true) := by
    rw [getStoredHeadHgtList_none s _ hrow]
    simp [resolveDup, hmain, StoredHeadHgtList.addDupAndHash]
  obtain ⟨s1, hp1, -, -, ht1, -⟩ := putBareHeader_spec s a u1 _ 0 true ha hha hr1
  obtain ⟨-, -, hl1⟩ := putBareHeader_hhl_after s s1 a _ u1 _ 0 0 true ha hha hr1 hp1
  -- second call
  have hr2 : resolveDup (getStoredHeadHgtList s1 b.blockHeight).2 b u2 =
      some ({ height := a.blockHeight,
              dupAndHashList := [(0, a.thisHash), (1, b.thisHash)],
              preferredDup := 0 }, 1, true) := by
    rw [hbh, hl1]
    have hne' : ¬ b.thisHash = a.thisHash := fun e => hne e.symm
    simp [resolveDup, hside, scanDupList, hne', StoredHeadHgtList.addDupAndHash, toInt8,
      toUInt8]
  obtain ⟨s2, hp2, -, -, -, ht2⟩ := putBareHeader_spec s1 b u2 _ 1 true hb hhb hr2
  obtain ⟨-, -, hl2⟩ := putBareHeader_hhl_after s1 s2 b _ u2 _ 1 1 true hb hhb hr2 hp2
  rw [hbh] at hp2 hl2
  refine ⟨s1, s2, hp1, hp2, hl2, ?_⟩
  rw [getValid_eq _ _ hh] at htbl ⊢
  simp only [Outcome.ok.injEq] at htbl
  obtain ⟨t, ht, htd, -⟩ := setValidDupTable_spec s.validDupByHeight a.blockHeight 0 u1 hh
  have e1 := ht1 hmain
  rw [ht] at e1
  simp only [Option.some.injEq] at e1
  rw [ht2 hside, ← e1, htd]
  simp only [UINT8_MAX] at htbl
  rw [if_pos (Or.inr htbl)]

/-- Witness of C7: headers A and B at height 3 in a store with no header. -/
theorem putBareHeader_two_headers_witness :
    ∃ s1 s2, putBareHeader exStore exHeaderA true = .ok (s1, exHeaderA.setKeyData 3 0, 0) ∧
      putBareHeader s1 exHeaderB true = .ok (s2, exHeaderB.setKeyData 3 1, 1) ∧
      getStoredHeadHgtList s2 3 =
        (true, { height := 3,
                 dupAndHashList := [(0, exHeaderA.thisHash), (1, exHeaderB.thisHash)],
                 preferredDup := 0 }) ∧
      getValidDupIDForHeight s2 3 = .ok 0 :=
  putBareHeader_two_headers exStore exHeaderA exHeaderB 3 true true rfl rfl rfl rfl
    (by decide) rfl rfl (by decide) (by decide) (by decide)

/-- Counterexample to C6: the only entry listed at height 3 has dup 128 and
another hash; `putBareHeader` returns dup 0 (the signed maximum of the list is
the initial -1), not 129, and appends (0, hash). -/
theorem putBareHeader_high_dup_counterexample :
    (getStoredHeadHgtList exStoreHighDup 3).2.dupAndHashList = [(128, [10])] ∧
    ∃ s', putBareHeader exStoreHighDup exHeaderB true =
        .ok (s', exHeaderB.setKeyData 3 0, 0) ∧
      (getStoredHeadHgtList s' 3).2.dupAndHashList = [(128, [10]), (0, [11])] :=
  ⟨by decide, _, rfl, rfl⟩

theorem toInt8_small (d : Nat) (hd : d < 128) : toInt8 d = (d : Int) := by
  unfold toInt8
  have h1 : d % 256 = d := Nat.mod_eq_of_lt (by omega)
  rw [h1]
  simp [hd]

theorem scanDupList_max_eq (hash : Bytes) (l : List (Nat × Bytes)) (m : Int) (M : Nat)
    (hm : m = (M : Int)) (hsmall : ∀ e ∈ l, e.1 < 128) (hnf : ∀ e ∈ l, e.2 ≠ hash) :
    (scanDupList hash l m).1 = (((l.map Prod.fst).foldl max M : Nat) : Int) := by
  induction l generalizing m M with
  | nil => simpa [scanDupList] using hm
  | cons e rest ih =>
    obtain ⟨dup, h⟩ := e
    have hc : ¬ hash = h := fun e => hnf (dup, h) (List.mem_cons_self _ _) e.symm
    unfold scanDupList
    simp only [hc, if_false, List.map_cons, List.foldl_cons]
    apply ih
    · rw [toInt8_small dup (hsmall (dup, h) (List.mem_cons_self _ _)), hm]
      omega
    · exact fun e he => hsmall e (List.mem_cons_of_mem _ he)
    · exact fun e he => hnf e (List.mem_cons_of_mem _ he)

theorem scanDupList_max (hash : Bytes) (l : List (Nat × Bytes))
    (hne : l ≠ []) (hsmall : ∀ e ∈ l, e.1 < 128) (hnf : ∀ e ∈ l, e.2 ≠ hash) :
    (scanDupList hash l (-1)).1 = ((maxDupOf l : Nat) : Int) := by
  cases l with
  | nil => exact absurd rfl hne
  | cons e rest =>
    obtain ⟨dup, h⟩ := e
    have hc : ¬ hash = h := fun e => hnf (dup, h) (List.mem_cons_self _ _) e.symm
    unfold scanDupList maxDupOf
    simp only [hc, if_false, List.map_cons, List.foldl_cons]
    apply scanDupList_max_eq
    · rw [toInt8_small dup (hsmall (dup, h) (List.mem_cons_self _ _))]
      omega
    · exact fun e he => hsmall e (List.mem_cons_of_mem _ he)
    · exact fun e he => hnf e (List.mem_cons_of_mem _ he)

theorem foldl_max_le (l : List Nat) (M b : Nat) (hM : M ≤ b) (hl : ∀ x ∈ l, x ≤ b) :
    l.foldl max M ≤ b := by
  induction l generalizing M with
  | nil => simpa using hM
  | cons x rest ih =>
    simp only [List.foldl_cons]
    apply ih
    · have := hl x (List.mem_cons_self _ _)
      omega
    · exact fun y hy => hl y (List.mem_cons_of_mem _ hy)

theorem le_foldl_max (l : List Nat) (M : Nat) :
    M ≤ l.foldl max M ∧ ∀ x ∈ l, x ≤ l.foldl max M := by
  induction l generalizing M with
  | nil => simp
  | cons x rest ih =>
    simp only [List.foldl_cons, List.mem_cons, forall_eq_or_imp]
    obtain ⟨h1, h2⟩ := ih (max M x)
    refine ⟨by omega, by omega, h2⟩

theorem maxDupOf_lt (l : List (Nat × Bytes)) (hsmall : ∀ e ∈ l, e.1 < 128) :
    maxDupOf l < 128 := by
  unfold maxDupOf
  have := foldl_max_le (l.map Prod.fst) 0 127 (by omega) (by
    intro x hx
    rw [List.mem_map] at hx
    obtain ⟨e, he, rfl⟩ := hx
    have := hsmall e he
    omega)
  omega

theorem le_maxDupOf (l : List (Nat × Bytes)) (e : Nat × Bytes) (he : e ∈ l) :
    e.1 ≤ maxDupOf l := by
  unfold maxDupOf
  exact (le_foldl_max (l.map Prod.fst) 0).2 e.1 (List.mem_map_of_mem _ he)

/-- C6 (amended). For every initialized header whose height (other than
0xFFFFFFFF) already has a non-empty HEADHGT list of fewer than 256 entries,
all with a dup below 128: the call returns; if the hash of the header is in
the list it returns a dup stored with that hash and the list is unchanged;
otherwise it returns 1 + the maximum dup of the list and appends
(that dup, hash) at the end of the list. -/
theorem putBareHeader_dup_assignment (s : LMDBBlockDatabase) (sbh : StoredHeader) (upd : Bool)
    (hinit : sbh.initialized = true) (hh : sbh.blockHeight ≠ UINT32_MAX)
    (hne : (getStoredHeadHgtList s sbh.blockHeight).2.dupAndHashList ≠ [])
    (hsmall : ∀ e ∈ (getStoredHeadHgtList s sbh.blockHeight).2.dupAndHashList, e.1 < 128)
    (hlen : (getStoredHeadHgtList s sbh.blockHeight).2.dupAndHashList.length < 256) :
    ∃ s' d, putBareHeader s sbh upd = .ok (s', sbh.setKeyData sbh.blockHeight d, d) ∧
      ((∃ e ∈ (getStoredHeadHgtList s sbh.blockHeight).2.dupAndHashList, e.2 = sbh.thisHash) →
        (d, sbh.thisHash) ∈ (getStoredHeadHgtList s sbh.blockHeight).2.dupAndHashList ∧
        (getStoredHeadHgtList s' sbh.blockHeight).2.dupAndHashList =
          (getStoredHeadHgtList s sbh.blockHeight).2.dupAndHashList) ∧
      ((∀ e ∈ (getStoredHeadHgtList s sbh.blockHeight).2.dupAndHashList, e.2 ≠ sbh.thisHash) →
        d = 1 + maxDupOf (getStoredHeadHgtList s sbh.blockHeight).2.dupAndHashList ∧
        (getStoredHeadHgtList s' sbh.blockHeight).2.dupAndHashList =
          (getStoredHeadHgtList s sbh.blockHeight).2.dupAndHashList ++ [(d, sbh.thisHash)]) := by
  obtain ⟨⟨hhl1, d, w⟩, hr⟩ :=
    resolveDup_total (getStoredHeadHgtList s sbh.blockHeight).2 sbh upd hlen
  obtain ⟨s', hp, -⟩ := putBareHeader_spec s sbh upd hhl1 d w hinit hh hr
  obtain ⟨-, -, hl⟩ := putBareHeader_hhl_after s s' sbh _ upd hhl1 d d w hinit hh hr hp
  have htake : (getStoredHeadHgtList s sbh.blockHeight).2.dupAndHashList.take 256 =
      (getStoredHeadHgtList s sbh.blockHeight).2.dupAndHashList :=
    List.take_of_length_le (by omega)
  refine ⟨s', d, hp, ?_, ?_⟩
  · rintro ⟨e, he, heq⟩
    rcases resolveDup_cases _ _ _ _ _ _ hr with c | c | c
    · exact absurd c.1 hne
    · rw [htake] at c
      refine ⟨scanDupList_some _ _ _ _ c.2.1, ?_⟩
      rw [hl]
      exact c.2.2.1
    · rw [htake] at c
      exact absurd heq ((scanDupList_none _ _ _).mp c.2.1 e he)
  · intro hnf
    rcases resolveDup_cases _ _ _ _ _ _ hr with c | c | c
    · exact absurd c.1 hne
    · rw [htake] at c
      have := scanDupList_some _ _ _ _ c.2.1
      exact absurd rfl (hnf _ this)
    · rw [htake] at c
      have hd : d = 1 + maxDupOf (getStoredHeadHgtList s sbh.blockHeight).2.dupAndHashList := by
        rw [c.2.2.2.1, scanDupList_max _ _ hne hsmall hnf]
        have := maxDupOf_lt _ hsmall
        unfold toUInt8
        omega
      refine ⟨hd, ?_⟩
      rw [hl]
      exact c.2.2.2.2.1

/-- Witness of C6 (amended): a third header at height 3, where dups 0 and 1
are listed. -/
theorem putBareHeader_dup_assignment_witness :
    ∃ s' d, putBareHeader exStoreTwo exHeaderC true =
        .ok (s', exHeaderC.setKeyData exHeaderC.blockHeight d, d) ∧
      ((∃ e ∈ (getStoredHeadHgtList exStoreTwo exHeaderC.blockHeight).2.dupAndHashList,
          e.2 = exHeaderC.thisHash) →
        (d, exHeaderC.thisHash) ∈
          (getStoredHeadHgtList exStoreTwo exHeaderC.blockHeight).2.dupAndHashList ∧
        (getStoredHeadHgtList s' exHeaderC.blockHeight).2.dupAndHashList =
          (getStoredHeadHgtList exStoreTwo exHeaderC.blockHeight).2.dupAndHashList) ∧
      ((∀ e ∈ (getStoredHeadHgtList exStoreTwo exHeaderC.blockHeight).2.dupAndHashList,
          e.2 ≠ exHeaderC.thisHash) →
        d = 1 + maxDupOf (getStoredHeadHgtList exStoreTwo exHeaderC.blockHeight).2.dupAndHashList ∧
        (getStoredHeadHgtList s' exHeaderC.blockHeight).2.dupAndHashList =
          (getStoredHeadHgtList exStoreTwo exHeaderC.blockHeight).2.dupAndHashList ++
            [(d, exHeaderC.thisHash)]) :=
  putBareHeader_dup_assignment exStoreTwo exHeaderC true rfl (by decide) (by decide)
    (by decide) (by decide)

/-! ## Reading a header back -/

set_option maxRecDepth 100000 in
/-- Counterexample to C5 as stated: at height 3 the hashes of the headers A
and B are both listed with dup 0 (a list written by `putStoredHeadHgtList`);
`putBareHeader` of header B returns dup 0, and `getBareHeader(3, 0)` yields
header A, the first entry with dup 0, not the header just put. With the 128
dups 0..127 listed at a height, `putBareHeader` of a further header returns
dup 128, a value whose dup byte `getValidDupIDForHeight_fromDB` reads as dup 0
with the main-branch bit. -/
theorem putBareHeader_shared_dup_counterexample :
    (getStoredHeadHgtList exStoreSharedDup 3).2.dupAndHashList = [(0, [10]), (0, [11])] ∧
    (∃ s', putBareHeader exStoreSharedDup exHeaderB true =
        .ok (s', exHeaderB.setKeyData 3 0, 0) ∧
      getBareHeader_byHgtDup s' exHeaderB 3 0 = (true, { exHeaderA with duplicateID := 0 }) ∧
      exHeaderA.thisHash ≠ exHeaderB.thisHash) ∧
    (∃ s', putBareHeader exStoreCanon128 exHeaderB true =
      .ok (s', exHeaderB.setKeyData 3 128, 128)) ∧
    fromDBLoop [128] = 0 := by
  refine ⟨rfl, ⟨_, rfl, rfl, by decide⟩, ⟨_, rfl⟩, rfl⟩

theorem findDup_of_first (l : List (Nat × Bytes)) (d : Nat) (hash : Bytes)
    (hm : (d, hash) ∈ l) (hu : ∀ e ∈ l, e.1 = d → e.2 = hash) :
    findDup d l = some hash := by
  induction l with
  | nil => simp at hm
  | cons e rest ih =>
    obtain ⟨d', h'⟩ := e
    unfold findDup
    by_cases hd : d = d'
    · have := hu (d', h') (List.mem_cons_self _ _) hd.symm
      simp only at this
      simp [hd, this]
    · simp only [hd, if_false]
      rcases List.mem_cons.mp hm with heq | hin
      · simp only [Prod.mk.injEq] at heq
        exact absurd heq.1 hd
      · exact ih hin (fun e he => hu e (List.mem_cons_of_mem _ he))

/-- C5 (amended). For every initialized header with a height other than
0xFFFFFFFF and every prior store state, after `putBareHeader` returns a dup
`d` below 128 (a dup that fits the 7 bits a HEADHGT entry keeps for it): the
row HEADHASH[hash] holds the header with duplicate-id `d`, HEADHGT[height]
lists the pair (d, hash), and `getBareHeader` by hash returns true and yields
that header; `getBareHeader(height, d)` returns true and yields that header
provided no header with another hash was listed with dup `d` at that height
before the call. The call returns whenever fewer than 256 headers are listed
at the height. -/
theorem putBareHeader_then_getBareHeader (s : LMDBBlockDatabase) (sbh x : StoredHeader)
    (upd : Bool)
    (hinit : sbh.initialized = true) (hh : sbh.blockHeight ≠ UINT32_MAX) :
    (∀ s' sbh' d, putBareHeader s sbh upd = .ok (s', sbh', d) → d < 128 →
      sbh' = sbh.setKeyData sbh.blockHeight d ∧
      getValueRefP s' .HEADERS .HEADHASH sbh.thisHash = some (.header sbh') ∧
      (d, sbh.thisHash) ∈ (getStoredHeadHgtList s' sbh.blockHeight).2.dupAndHashList ∧
      getBareHeader_byHash s' x sbh.thisHash = (true, sbh') ∧
      ((∀ e ∈ (getStoredHeadHgtList s sbh.blockHeight).2.dupAndHashList,
          e.1 = d → e.2 = sbh.thisHash) →
        getBareHeader_byHgtDup s' x sbh.blockHeight d = (true, sbh'))) ∧
    ((getStoredHeadHgtList s sbh.blockHeight).2.dupAndHashList.length < 256 →
      ∃ s' sbh' d, putBareHeader s sbh upd = .ok (s', sbh', d)) := by
  constructor
  · intro s' sbh' d hp _
    obtain ⟨⟨hhl1, d1, w⟩, hr⟩ := putBareHeader_ok_resolve s sbh upd _ hinit hh hp
    obtain ⟨rfl, rfl, hl⟩ := putBareHeader_hhl_after s s' sbh sbh' upd hhl1 d1 d w hinit hh hr hp
    obtain ⟨s'', hp', -, hobs, -, -⟩ := putBareHeader_spec s sbh upd hhl1 d w hinit hh hr
    rw [hp] at hp'
    simp only [Outcome.ok.injEq, Prod.mk.injEq, true_and, and_true] at hp'
    subst hp'
    have hrow : getValueRefP s' .HEADERS .HEADHASH sbh.thisHash =
        some (.header (sbh.setKeyData sbh.blockHeight d)) := by
      unfold getValueRefP
      rw [hobs]
      have hk1 : DB_PREFIX.HEADHASH.toByte :: sbh.thisHash ≠ StoredDBInfo.getDBKey := by
        simp [StoredDBInfo.getDBKey, DB_PREFIX.toByte]
      simp only [hk1, false_and, and_false, if_false, and_self, if_true]
    have hbyHash : getBareHeader_byHash s' x sbh.thisHash =
        (true, sbh.setKeyData sbh.blockHeight d) := by
      unfold getBareHeader_byHash
      rw [hrow]
    have hmem : (d, sbh.thisHash) ∈ hhl1.dupAndHashList ∧
        ((∀ e ∈ (getStoredHeadHgtList s sbh.blockHeight).2.dupAndHashList,
            e.1 = d → e.2 = sbh.thisHash) →
          ∀ e ∈ hhl1.dupAndHashList, e.1 = d → e.2 = sbh.thisHash) := by
      rcases resolveDup_cases _ _ _ _ _ _ hr with c | c | c
      · rw [c.2.2.2.1, c.2.1]
        simp
      · rw [c.2.2.1]
        exact ⟨List.mem_of_mem_take (scanDupList_some _ _ _ _ c.2.1), fun hu => hu⟩
      · rw [c.2.2.2.2.1]
        refine ⟨by simp, ?_⟩
        intro hu e he
        rcases List.mem_append.mp he with h1 | h1
        · exact hu e h1
        · simp only [List.mem_singleton] at h1
          subst h1
          exact fun _ => rfl
    refine ⟨rfl, hrow, ?_, hbyHash, ?_⟩
    · rw [hl]
      exact hmem.1
    · intro hu
      unfold getBareHeader_byHgtDup
      simp only [hl, Bool.not_true, Bool.false_eq_true, if_false,
        findDup_of_first _ _ _ hmem.1 (hmem.2 hu)]
      exact hbyHash
  · intro hlen
    obtain ⟨⟨hhl1, d1, w⟩, hq⟩ :=
      resolveDup_total (getStoredHeadHgtList s sbh.blockHeight).2 sbh upd hlen
    obtain ⟨s'', hp', -⟩ := putBareHeader_spec s sbh upd hhl1 d1 w hinit hh hq
    exact ⟨_, _, _, hp'⟩

/-- Witness of C5 (amended): header C put where dups 0 and 1 are listed. -/
theorem putBareHeader_then_getBareHeader_witness :
    (∀ s' sbh' d, putBareHeader exStoreTwo exHeaderC true = .ok (s', sbh', d) → d < 128 →
      sbh' = exHeaderC.setKeyData exHeaderC.blockHeight d ∧
      getValueRefP s' .HEADERS .HEADHASH exHeaderC.thisHash = some (.header sbh') ∧
      (d, exHeaderC.thisHash) ∈
        (getStoredHeadHgtList s' exHeaderC.blockHeight).2.dupAndHashList ∧
      getBareHeader_byHash s' exHeaderA exHeaderC.thisHash = (true, sbh') ∧
      ((∀ e ∈ (getStoredHeadHgtList exStoreTwo exHeaderC.blockHeight).2.dupAndHashList,
          e.1 = d → e.2 = exHeaderC.thisHash) →
        getBareHeader_byHgtDup s' exHeaderA exHeaderC.blockHeight d = (true, sbh'))) ∧
    ((getStoredHeadHgtList exStoreTwo exHeaderC.blockHeight).2.dupAndHashList.length < 256 →
      ∃ s' sbh' d, putBareHeader exStoreTwo exHeaderC true = .ok (s', sbh', d)) :=
  putBareHeader_then_getBareHeader exStoreTwo exHeaderC exHeaderA true rfl (by decide)

/-! ## Agreement of the table with the stored preferred dups -/

theorem tableAgrees_exStoreUnset : tableAgrees exStoreUnset := by
  intro h hh
  have hne : h ≠ UINT32_MAX := by omega
  rw [getValid_eq _ _ hne]
  have h1 : exStoreUnset.validDupByHeight.getD h 255 = 255 := by
    simp [exStoreUnset]
  rw [h1]
  unfold getStoredHeadHgtList getValueRefP getValueRef
  simp only [getDbSelect_headers, LMDBBlockDatabase.db, exStoreUnset, dbGet,
    DB_PREFIX.toByte]
  by_cases hk : (2 :: WRITE_UINT32_BE h) = [2, 0, 0, 0, 3]
  · simp [hk, UINT8_MAX]
  · simp [hk, UINT8_MAX]

/-- Counterexample to C9: one header is listed at height 3 with no preferred
dup, and the table agrees (255 everywhere). Putting the same header again as
main branch with `updateDupID = false` sets the table entry of height 3 to 0
while the stored preferred dup stays 255. -/
theorem putBareHeader_agreement_counterexample :
    tableAgrees exStoreUnset ∧
    ∃ s', putBareHeader exStoreUnset exHeaderA false =
        .ok (s', exHeaderA.setKeyData 3 0, 0) ∧
      getValidDupIDForHeight s' 3 = .ok 0 ∧
      (getStoredHeadHgtList s' 3).2.preferredDup = 255 :=
  ⟨tableAgrees_exStoreUnset, _, rfl, rfl, rfl⟩

theorem getStoredHeadHgtList_pref_of_nil (s : LMDBBlockDatabase) (h : Nat)
    (hnil : (getStoredHeadHgtList s h).2.dupAndHashList = []) :
    (getStoredHeadHgtList s h).2.preferredDup = UINT8_MAX := by
  unfold getStoredHeadHgtList at hnil ⊢
  split
  · rename_i heq
    rw [heq] at hnil
    simp at hnil
  · rfl

/-- The preferred dup computed by the height-list step. -/
theorem resolveDup_pref (hhl hhl1 : StoredHeadHgtList) (sbh : StoredHeader) (upd : Bool)
    (d : Nat) (w : Bool) (hr : resolveDup hhl sbh upd = some (hhl1, d, w)) :
    hhl1.preferredDup =
      if hhl.dupAndHashList = [] then (if sbh.isMainBranch = true then 0 else hhl.preferredDup)
      else if sbh.isMainBranch = true ∧ upd = true then d else hhl.preferredDup := by
  rcases resolveDup_cases _ _ _ _ _ _ hr with c | c | c
  · rw [if_pos c.1, c.2.2.2.2]
  · rw [if_neg c.1, c.2.2.2.1]
  · rw [if_neg c.1, c.2.2.2.2.2.1]

/-- C9 (amended). Agreement between the table and the stored preferred dups
(at every height below 0xFFFFFFFF) is kept by a returning `putBareHeader` of
a header with a 32-bit height whenever `updateDupID` is true, or the header is
not on the main branch, or no header was listed at its height, or the
preferred dup of its height was already set (not 255). -/
theorem putBareHeader_preserves_agreement (s s' : LMDBBlockDatabase) (sbh sbh' : StoredHeader)
    (upd : Bool) (d : Nat)
    (hag : tableAgrees s) (h32 : sbh.blockHeight ≤ UINT32_MAX)
    (hp : putBareHeader s sbh upd = .ok (s', sbh', d))
    (hcond : upd = true ∨ sbh.isMainBranch = false ∨
      (getStoredHeadHgtList s sbh.blockHeight).2.dupAndHashList = [] ∨
      (getStoredHeadHgtList s sbh.blockHeight).2.preferredDup ≠ UINT8_MAX) :
    tableAgrees s' := by
  by_cases hinit : sbh.initialized = true
  swap
  · unfold putBareHeader at hp
    simp only [hinit, Bool.not_false, if_true, Outcome.ok.injEq, Prod.mk.injEq] at hp
    rw [← hp.1]
    exact hag
  by_cases hh : sbh.blockHeight = UINT32_MAX
  · unfold putBareHeader at hp
    simp [hinit, hh] at hp
  obtain ⟨⟨hhl1, d1, w⟩, hr⟩ := putBareHeader_ok_resolve s sbh upd _ hinit hh hp
  obtain ⟨rfl, -, hl⟩ := putBareHeader_hhl_after s s' sbh sbh' upd hhl1 d1 d w hinit hh hr hp
  obtain ⟨s'', hp', -, hobs, htm, hts⟩ := putBareHeader_spec s sbh upd hhl1 d w hinit hh hr
  rw [hp] at hp'
  simp only [Outcome.ok.injEq, Prod.mk.injEq] at hp'
  obtain ⟨rfl, -, -⟩ := hp'
  intro h' hh'
  have hne' : h' ≠ UINT32_MAX := by omega
  rw [getValid_eq _ _ hne']
  have hold := hag h' hh'
  rw [getValid_eq _ _ hne'] at hold
  simp only [Outcome.ok.injEq] at hold ⊢
  by_cases heq : h' = sbh.blockHeight
  · subst heq
    rw [hl]
    simp only
    rw [resolveDup_pref _ _ _ _ _ _ hr]
    by_cases hmain : sbh.isMainBranch = true
    · obtain ⟨t, ht, htd, -⟩ := setValidDupTable_spec s.validDupByHeight sbh.blockHeight d upd hh
      have e1 := htm hmain
      rw [ht] at e1
      simp only [Option.some.injEq] at e1
      rw [← e1, htd, hold]
      by_cases hnil : (getStoredHeadHgtList s sbh.blockHeight).2.dupAndHashList = []
      · have hpref := getStoredHeadHgtList_pref_of_nil s _ hnil
        have hd0 : d = 0 := by
          rcases resolveDup_cases _ _ _ _ _ _ hr with c | c | c
          · exact c.2.1
          · exact absurd hnil c.1
          · exact absurd hnil c.1
        simp only [hnil, hmain, if_true, hpref, UINT8_MAX, or_true, hd0]
      · simp only [hnil, if_false, hmain, true_and]
        by_cases hu : upd = true
        · simp only [hu, true_or, if_true]
        · have hpne : (getStoredHeadHgtList s sbh.blockHeight).2.preferredDup ≠ UINT8_MAX := by
            rcases hcond with c | c | c | c
            · exact absurd c hu
            · rw [hmain] at c; exact absurd c (by simp)
            · exact absurd c hnil
            · exact c
          simp only [UINT8_MAX] at hpne
          have hu' : upd = false := by simpa using hu
          subst hu'
          simp [hpne]
    · have hmf : sbh.isMainBranch = false := by simpa using hmain
      rw [hts hmf, hold]
      by_cases hnil : (getStoredHeadHgtList s sbh.blockHeight).2.dupAndHashList = []
      · simp [hnil, hmf]
      · simp [hnil, hmf]
  · have hkne : WRITE_UINT32_BE h' ≠ WRITE_UINT32_BE sbh.blockHeight := by
      intro e
      exact heq (WRITE_UINT32_BE_inj _ _ (by omega) h32 e)
    have hrow := hobs .HEADERS (DB_PREFIX.HEADHGT.toByte :: WRITE_UINT32_BE h')
    have hk1 : DB_PREFIX.HEADHGT.toByte :: WRITE_UINT32_BE h' ≠ StoredDBInfo.getDBKey := by
      simp [StoredDBInfo.getDBKey, DB_PREFIX.toByte]
    have hk3 : DB_PREFIX.HEADHGT.toByte :: WRITE_UINT32_BE h' ≠
        DB_PREFIX.HEADHASH.toByte :: sbh.thisHash := by
      simp [DB_PREFIX.toByte]
    simp only [hk1, hk3, false_and, and_false, if_false, List.cons.injEq, hkne, true_and] at hrow
    rw [getStoredHeadHgtList_congr s' s h' hrow, ← hold]
    by_cases hmain : sbh.isMainBranch = true
    · obtain ⟨-, hf⟩ := setValidDupTable_spec s.validDupByHeight sbh.blockHeight d upd hh
      have hfr := (setValidDupTable_frame _ _ _ _ _ (htm hmain)).1 h' heq
      exact hfr
    · have hmf : sbh.isMainBranch = false := by simpa using hmain
      rw [hts hmf]


/-- Witness of C9 (amended): the header listed at height 3 is put again as
main branch with `updateDupID = true`. -/
theorem putBareHeader_preserves_agreement_witness :
    tableAgrees exStoreUnset ∧
    ∃ s', putBareHeader exStoreUnset exHeaderA true =
        .ok (s', exHeaderA.setKeyData 3 0, 0) ∧ tableAgrees s' :=
  ⟨tableAgrees_exStoreUnset, _, rfl,
    putBareHeader_preserves_agreement exStoreUnset _ exHeaderA _ true 0
      tableAgrees_exStoreUnset (by decide) rfl (Or.inl rfl)⟩

/-! ## Reachable height lists -/

/-- What every stored height list satisfies in a reachable store. -/
theorem canonFrom_append (k : Nat) (l : List (Nat × Bytes)) (hash : Bytes)
    (hc : canonFrom k l) : canonFrom k (l ++ [(min (k + l.length) 128, hash)]) := by
  induction l generalizing k with
  | nil => simp [canonFrom]
  | cons e rest ih =>
    obtain ⟨d, h⟩ := e
    simp only [canonFrom] at hc
    simp only [List.cons_append, canonFrom, List.length_cons]
    refine ⟨hc.1, ?_⟩
    have := ih (k + 1) hc.2
    have e1 : k + 1 + rest.length = k + (rest.length + 1) := by omega
    rw [e1] at this
    exact this

theorem toInt8_128 : toInt8 128 = -128 := by decide

theorem scanDupList_canon (hash : Bytes) (l : List (Nat × Bytes)) (k : Nat) (m : Int)
    (hc : canonFrom k l) (hm : m = ((min k 128 : Nat) : Int) - 1)
    (hnf : ∀ e ∈ l, e.2 ≠ hash) :
    (scanDupList hash l m).1 = ((min (k + l.length) 128 : Nat) : Int) - 1 := by
  induction l generalizing k m with
  | nil => simpa [scanDupList] using hm
  | cons e rest ih =>
    obtain ⟨d, h⟩ := e
    simp only [canonFrom] at hc
    have hne : ¬ hash = h := fun e => hnf (d, h) (List.mem_cons_self _ _) e.symm
    unfold scanDupList
    simp only [hne, if_false, List.length_cons]
    have e1 : k + (rest.length + 1) = k + 1 + rest.length := by omega
    rw [e1]
    apply ih (k + 1) _ hc.2 _ (fun e he => hnf e (List.mem_cons_of_mem _ he))
    rw [hm, hc.1]
    by_cases hk : k < 128
    · have h1 : min k 128 = k := by omega
      have h2 : min (k + 1) 128 = k + 1 := by omega
      rw [h1, h2, toInt8_small k hk]
      omega
    · have h1 : min k 128 = 128 := by omega
      have h2 : min (k + 1) 128 = 128 := by omega
      rw [h1, h2, toInt8_128]
      omega

theorem canonFrom_small (k : Nat) (l : List (Nat × Bytes)) (hc : canonFrom k l)
    (hlen : k + l.length ≤ 128) : ∀ e ∈ l, e.1 < 128 := by
  induction l generalizing k with
  | nil => simp
  | cons e rest ih =>
    obtain ⟨d, h⟩ := e
    simp only [canonFrom] at hc
    simp only [List.length_cons] at hlen
    intro e he
    rcases List.mem_cons.mp he with heq | hin
    · rw [heq]
      simp only
      rw [hc.1]
      omega
    · exact ih (k + 1) hc.2 (by omega) e hin

theorem canonFrom_lower (k : Nat) (l : List (Nat × Bytes)) (hc : canonFrom k l)
    (hlen : k + l.length ≤ 129) :
    (∀ e ∈ l, k ≤ e.1) ∧ (l.map Prod.fst).Nodup := by
  induction l generalizing k with
  | nil => simp
  | cons e rest ih =>
    obtain ⟨d, h⟩ := e
    simp only [canonFrom] at hc
    simp only [List.length_cons] at hlen
    obtain ⟨h1, h2⟩ := ih (k + 1) hc.2 (by omega)
    have hd : d = k := by rw [hc.1]; omega
    constructor
    · intro e he
      rcases List.mem_cons.mp he with heq | hin
      · rw [heq]; simp only; omega
      · have := h1 e hin; omega
    · simp only [List.map_cons, List.nodup_cons]
      refine ⟨?_, h2⟩
      intro hmem
      rw [List.mem_map] at hmem
      obtain ⟨e, he, heq⟩ := hmem
      have := h1 e he
      omega

/-- The property kept by every stored height list. -/
theorem resolveDup_good (hhl hhl1 : StoredHeadHgtList) (sbh : StoredHeader) (upd : Bool)
    (d : Nat) (w : Bool) (hr : resolveDup hhl sbh upd = some (hhl1, d, w))
    (hc : canonFrom 0 hhl.dupAndHashList)
    (hp : hhl.preferredDup = 255 ∨ ∃ e ∈ hhl.dupAndHashList, e.1 = hhl.preferredDup) :
    canonFrom 0 hhl1.dupAndHashList ∧
    (hhl1.preferredDup = 255 ∨ ∃ e ∈ hhl1.dupAndHashList, e.1 = hhl1.preferredDup) := by
  rcases resolveDup_cases _ _ _ _ _ _ hr with c | c | c
  · obtain ⟨hnil, -, -, hl1, hp1⟩ := c
    rw [hl1, hp1]
    refine ⟨by simp [canonFrom], ?_⟩
    by_cases hm : sbh.isMainBranch = true
    · right
      exact ⟨(0, sbh.thisHash), by simp, by simp [hm]⟩
    · left
      simp only [hm, if_false]
      rcases hp with hp | ⟨e, he, -⟩
      · exact hp
      · rw [hnil] at he; simp at he
  · obtain ⟨-, hs, hl1, hp1, -⟩ := c
    rw [hl1, hp1]
    refine ⟨hc, ?_⟩
    by_cases hmu : sbh.isMainBranch = true ∧ upd = true
    · right
      simp only [hmu, and_self, if_true]
      exact ⟨(d, sbh.thisHash), List.mem_of_mem_take (scanDupList_some _ _ _ _ hs), rfl⟩
    · simp only [hmu, if_false]
      exact hp
  · obtain ⟨-, hs, hlen, hd, hl1, hp1, -⟩ := c
    have htake : hhl.dupAndHashList.take 256 = hhl.dupAndHashList :=
      List.take_of_length_le (by omega)
    rw [htake] at hs hd
    have hnf := (scanDupList_none _ _ _).mp hs
    have hdv : d = min (0 + hhl.dupAndHashList.length) 128 := by
      rw [hd, scanDupList_canon _ _ 0 (-1) hc (by simp) hnf]
      unfold toUInt8
      omega
    rw [hl1, hp1]
    constructor
    · rw [hdv]
      exact canonFrom_append 0 _ _ hc
    · by_cases hmu : sbh.isMainBranch = true ∧ upd = true
      · right
        simp only [hmu, and_self, if_true]
        exact ⟨(d, sbh.thisHash), by simp, rfl⟩
      · simp only [hmu, if_false]
        rcases hp with hp | ⟨e, he, heq⟩
        · exact Or.inl hp
        · exact Or.inr ⟨e, List.mem_append_left _ he, heq⟩

theorem getStoredHeadHgtList_good (s : LMDBBlockDatabase) (h : Nat) (hg : goodRows s) :
    canonFrom 0 (getStoredHeadHgtList s h).2.dupAndHashList ∧
    ((getStoredHeadHgtList s h).2.preferredDup = 255 ∨
      ∃ e ∈ (getStoredHeadHgtList s h).2.dupAndHashList,
        e.1 = (getStoredHeadHgtList s h).2.preferredDup) := by
  unfold getStoredHeadHgtList
  split
  · rename_i p e l heq
    simp only [getValueRefP, getDbSelect_headers, getValueRef, LMDBBlockDatabase.db] at heq
    exact hg _ _ _ heq
  · exact ⟨by simp [canonFrom], Or.inl rfl⟩

theorem putBareHeader_goodRows (s s' : LMDBBlockDatabase) (sbh sbh' : StoredHeader)
    (upd : Bool) (d : Nat) (hg : goodRows s)
    (hp : putBareHeader s sbh upd = .ok (s', sbh', d)) : goodRows s' := by
  by_cases hinit : sbh.initialized = true
  swap
  · unfold putBareHeader at hp
    simp only [hinit, Bool.not_false, if_true, Outcome.ok.injEq, Prod.mk.injEq] at hp
    rw [← hp.1]
    exact hg
  by_cases hh : sbh.blockHeight = UINT32_MAX
  · unfold putBareHeader at hp
    simp [hinit, hh] at hp
  obtain ⟨⟨hhl1, d1, w⟩, hr⟩ := putBareHeader_ok_resolve s sbh upd _ hinit hh hp
  obtain ⟨s'', hp', -, hobs, -, -⟩ := putBareHeader_spec s sbh upd hhl1 d1 w hinit hh hr
  rw [hp] at hp'
  simp only [Outcome.ok.injEq, Prod.mk.injEq] at hp'
  obtain ⟨rfl, -, -⟩ := hp'
  obtain ⟨g1, g2⟩ := getStoredHeadHgtList_good s sbh.blockHeight hg
  have hgood := resolveDup_good _ _ _ _ _ _ hr g1 g2
  intro key p l hrow
  have hrow' : getValueRef s' .HEADERS key = some (.hhl p l) := hrow
  rw [hobs] at hrow'
  split at hrow'
  · simp at hrow'
  · split at hrow'
    · simp at hrow'
    · split at hrow'
      · simp only [Option.some.injEq, Row.hhl.injEq] at hrow'
        rw [← hrow'.1, ← hrow'.2]
        exact hgood
      · exact hg key p l hrow'

theorem markBlockHeaderValid_goodRows (s s' : LMDBBlockDatabase) (h d : Nat) (r : Bool)
    (hg : goodRows s) (hp : markBlockHeaderValid s h d = .ok (s', r)) : goodRows s' := by
  unfold markBlockHeaderValid at hp
  by_cases hpd : (getStoredHeadHgtList s h).2.preferredDup = d
  · simp only [hpd, if_true, Outcome.ok.injEq, Prod.mk.injEq] at hp
    rw [← hp.1]
    exact hg
  · simp only [hpd, if_false] at hp
    by_cases hany : (getStoredHeadHgtList s h).2.dupAndHashList.any (fun e => decide (e.1 = d))
        = true
    · simp only [hany, if_true] at hp
      unfold setValidDupIDForHeight at hp
      cases ht : setValidDupTable
          (putStoredHeadHgtList s
            ((getStoredHeadHgtList s h).2.setPreferredDupID d)).1.validDupByHeight h d true with
      | none => rw [ht] at hp; exact absurd hp (by simp)
      | some t =>
        rw [ht] at hp
        simp only [Outcome.ok.injEq, Prod.mk.injEq] at hp
        obtain ⟨rfl, -⟩ := hp
        obtain ⟨g1, -⟩ := getStoredHeadHgtList_good s h hg
        intro key p l hrow
        have hrow' : getValueRef { (putStoredHeadHgtList s
            ((getStoredHeadHgtList s h).2.setPreferredDupID d)).1 with
            validDupByHeight := t } .HEADERS key = some (.hhl p l) := hrow
        rw [getValueRef_withTbl, getValueRef_putStoredHeadHgtList] at hrow'
        split at hrow'
        · simp only [StoredHeadHgtList.setPreferredDupID, Option.some.injEq,
            Row.hhl.injEq] at hrow'
          rw [← hrow'.1, ← hrow'.2]
          refine ⟨g1, Or.inr ?_⟩
          rw [List.any_eq_true] at hany
          obtain ⟨e, he, hed⟩ := hany
          exact ⟨e, he, by simpa using hed⟩
        · exact hg key p l hrow'
    · simp only [hany, Bool.false_eq_true, if_false, Outcome.ok.injEq, Prod.mk.injEq] at hp
      rw [← hp.1]
      exact hg

theorem reachable_goodRows (s : LMDBBlockDatabase) (hr : Reachable s) : goodRows s := by
  induction hr with
  | init s h =>
    intro key p l hrow
    exact absurd hrow (h key p l)
  | put s s' sbh sbh' upd d _ hp ih => exact putBareHeader_goodRows s s' sbh sbh' upd d ih hp
  | mark s s' h d r _ hp ih => exact markBlockHeaderValid_goodRows s s' h d r ih hp

/-- In a reachable store, a height that lists 128 headers lists the dups
0..127, and `putBareHeader` of an initialized header with a further hash
returns dup 128. -/
theorem reachable_next_dup_128 (s : LMDBBlockDatabase) (sbh : StoredHeader) (upd : Bool)
    (hr : Reachable s) (hinit : sbh.initialized = true) (hh : sbh.blockHeight ≠ UINT32_MAX)
    (hlen : (getStoredHeadHgtList s sbh.blockHeight).2.dupAndHashList.length = 128)
    (hnew : ∀ e ∈ (getStoredHeadHgtList s sbh.blockHeight).2.dupAndHashList,
      e.2 ≠ sbh.thisHash) :
    ∃ s', putBareHeader s sbh upd = .ok (s', sbh.setKeyData sbh.blockHeight 128, 128) := by
  obtain ⟨g1, -⟩ := getStoredHeadHgtList_good s sbh.blockHeight (reachable_goodRows s hr)
  have htake : (getStoredHeadHgtList s sbh.blockHeight).2.dupAndHashList.take 256 =
      (getStoredHeadHgtList s sbh.blockHeight).2.dupAndHashList :=
    List.take_of_length_le (by omega)
  have hscan1 := scanDupList_canon sbh.thisHash _ 0 (-1) g1 (by simp) hnew
  have hscan2 := (scanDupList_none sbh.thisHash
    (getStoredHeadHgtList s sbh.blockHeight).2.dupAndHashList (-1)).mpr hnew
  rw [hlen] at hscan1
  have hres : ∃ hhl1, resolveDup (getStoredHeadHgtList s sbh.blockHeight).2 sbh upd =
      some (hhl1, 128, true) := by
    unfold resolveDup
    rw [if_neg (by omega), htake]
    cases hsc : scanDupList sbh.thisHash
        (getStoredHeadHgtList s sbh.blockHeight).2.dupAndHashList (-1) with
    | mk m o =>
      rw [hsc] at hscan1 hscan2
      simp only at hscan1 hscan2
      subst hscan2
      simp only []
      rw [if_pos (by omega), hscan1]
      exact ⟨_, rfl⟩
  obtain ⟨hhl1, hres⟩ := hres
  obtain ⟨s', hp, -⟩ := putBareHeader_spec s sbh upd hhl1 128 true hinit hh hres
  exact ⟨s', hp⟩

set_option maxRecDepth 100000 in
/-- Counterexample to C10 as stated: one header that is not on the main
branch put into an empty HEADERS database; its height then has a listed
header and the preferred dup 255. With the 128 dups 0..127 listed at a height
(in every reachable store that lists 128 headers at a height, and in the
store `exStoreCanon128`), `putBareHeader` of a main-branch header with a
further hash returns dup 128, a value whose dup byte
`getValidDupIDForHeight_fromDB` reads as dup 0 with the main-branch bit. -/
theorem putBareHeader_unset_preferred_counterexample :
    Reachable exStoreEmpty ∧
    (∃ s', putBareHeader exStoreEmpty exHeaderB true = .ok (s', exHeaderB.setKeyData 3 0, 0) ∧
      getStoredHeadHgtList s' 3 =
        (true, { height := 3, dupAndHashList := [(0, [11])], preferredDup := 255 })) ∧
    (∀ s sbh upd, Reachable s → sbh.initialized = true → sbh.blockHeight ≠ UINT32_MAX →
      (getStoredHeadHgtList s sbh.blockHeight).2.dupAndHashList.length = 128 →
      (∀ e ∈ (getStoredHeadHgtList s sbh.blockHeight).2.dupAndHashList,
        e.2 ≠ sbh.thisHash) →
      ∃ s', putBareHeader s sbh upd = .ok (s', sbh.setKeyData sbh.blockHeight 128, 128)) ∧
    (∃ s', putBareHeader exStoreCanon128 exHeaderA true =
      .ok (s', exHeaderA.setKeyData 3 128, 128)) ∧
    fromDBLoop [128] = 0 :=
  ⟨Reachable.init _ (by intro key p l; simp [exStoreEmpty, dbGet]), ⟨_, rfl, rfl⟩,
   fun s sbh upd hr hinit hh hlen hnew => reachable_next_dup_128 s sbh upd hr hinit hh hlen hnew,
   ⟨_, rfl⟩, rfl⟩

/-- C10 (amended). In every store reachable by `putBareHeader` and
`markBlockHeaderValid` calls from a HEADERS database without height lists,
every height that lists at most 128 headers lists only dups below 128 (dups
that fit the 7 bits a HEADHGT entry keeps for them), lists no dup twice, and
has a preferred dup that is either the unset value 255 or the dup of exactly
one listed entry. -/
theorem reachable_preferredDup (s : LMDBBlockDatabase) (h : Nat) (hr : Reachable s)
    (hlen : (getStoredHeadHgtList s h).2.dupAndHashList.length ≤ 128) :
    (∀ e ∈ (getStoredHeadHgtList s h).2.dupAndHashList, e.1 < 128) ∧
    ((getStoredHeadHgtList s h).2.dupAndHashList.map Prod.fst).Nodup ∧
    ((getStoredHeadHgtList s h).2.preferredDup = 255 ∨
      ((∃ e ∈ (getStoredHeadHgtList s h).2.dupAndHashList,
          e.1 = (getStoredHeadHgtList s h).2.preferredDup) ∧
        List.count (getStoredHeadHgtList s h).2.preferredDup
          ((getStoredHeadHgtList s h).2.dupAndHashList.map Prod.fst) = 1)) := by
  obtain ⟨g1, g2⟩ := getStoredHeadHgtList_good s h (reachable_goodRows s hr)
  obtain ⟨-, hnd⟩ := canonFrom_lower 0 _ g1 (by omega)
  refine ⟨canonFrom_small 0 _ g1 (by omega), hnd, ?_⟩
  rcases g2 with g2 | ⟨e, he, heq⟩
  · exact Or.inl g2
  · right
    refine ⟨⟨e, he, heq⟩, ?_⟩
    apply List.count_eq_one_of_mem hnd
    rw [← heq]
    exact List.mem_map_of_mem Prod.fst he

/-- Witness of C10 (amended): the store reached from the empty one by putting
the main-branch header A. -/
theorem reachable_preferredDup_witness :
    (∀ e ∈ (getStoredHeadHgtList exStoreOne 3).2.dupAndHashList, e.1 < 128) ∧
    ((getStoredHeadHgtList exStoreOne 3).2.dupAndHashList.map Prod.fst).Nodup ∧
    ((getStoredHeadHgtList exStoreOne 3).2.preferredDup = 255 ∨
      ((∃ e ∈ (getStoredHeadHgtList exStoreOne 3).2.dupAndHashList,
          e.1 = (getStoredHeadHgtList exStoreOne 3).2.preferredDup) ∧
        List.count (getStoredHeadHgtList exStoreOne 3).2.preferredDup
          ((getStoredHeadHgtList exStoreOne 3).2.dupAndHashList.map Prod.fst) = 1)) :=
  reachable_preferredDup exStoreOne 3
    (Reachable.put exStoreEmpty exStoreOne exHeaderA (exHeaderA.setKeyData 3 0) true 0
      (Reachable.init _ (by intro key p l; simp [exStoreEmpty, dbGet])) (by decide))
    (by decide)

/-! ## `putStoredTx` -/

theorem heightAndDupToHgtx_length (h d : Nat) : (heightAndDupToHgtx h d).length = 4 := rfl

theorem getBlkDataKeyNoPrefix_length (h d i : Nat) :
    (getBlkDataKeyNoPrefix h d i).length = 6 := rfl

theorem StoredTxOut.getDBKey_length (o : StoredTxOut) : o.getDBKey.length = 8 := rfl

theorem getValueRef_putStoredTxOut (s : LMDBBlockDatabase) (o : StoredTxOut) (d : DB_SELECT)
    (k : Bytes) (hk : k.length ≠ 9) :
    getValueRef (putStoredTxOut s o) d k = getValueRef s d k := by
  unfold putStoredTxOut putValueP
  rw [getValueRef_putValue]
  have : k ≠ DB_PREFIX.TXDATA.toByte :: o.getDBKey := by
    intro e
    apply hk
    rw [e]
    simp [StoredTxOut.getDBKey_length]
  simp [this]

theorem getValueRef_putStoredTxOuts (stx : StoredTx) (v : Nat) (l : List (Nat × StoredTxOut))
    (s : LMDBBlockDatabase) (d : DB_SELECT) (k : Bytes) (hk : k.length ≠ 9) :
    getValueRef (putStoredTxOuts stx v l s) d k = getValueRef s d k := by
  induction l generalizing s with
  | nil => rfl
  | cons e rest ih =>
    obtain ⟨idx, o⟩ := e
    unfold putStoredTxOuts
    rw [ih, getValueRef_putStoredTxOut _ _ _ _ hk]

theorem putStoredTxOut_type (s : LMDBBlockDatabase) (o : StoredTxOut) :
    (putStoredTxOut s o).armoryDbType = s.armoryDbType := by
  unfold putStoredTxOut putValueP
  exact putValue_type _ _ _ _

theorem putStoredTxOuts_type (stx : StoredTx) (v : Nat) (l : List (Nat × StoredTxOut))
    (s : LMDBBlockDatabase) :
    (putStoredTxOuts stx v l s).armoryDbType = s.armoryDbType := by
  induction l generalizing s with
  | nil => rfl
  | cons e rest ih =>
    obtain ⟨idx, o⟩ := e
    unfold putStoredTxOuts
    rw [ih, putStoredTxOut_type]

theorem getStoredTxHints_congr (s1 s2 : LMDBBlockDatabase) (x : StoredTxHints) (hash : Bytes)
    (ht : s1.armoryDbType = s2.armoryDbType)
    (he : ∀ d, getValueRef s1 d (DB_PREFIX.TXHINTS.toByte :: hash.take 4) =
               getValueRef s2 d (DB_PREFIX.TXHINTS.toByte :: hash.take 4)) :
    getStoredTxHints s1 x hash = getStoredTxHints s2 x hash := by
  unfold getStoredTxHints getValueRefP
  simp only [ht, he]

/-- The hint row and the tx row right after the two writes of `putStoredTx`,
before the tx-out loop. -/
theorem putStoredTx_core (s : LMDBBlockDatabase) (stx : StoredTx)
    (hsuper : s.armoryDbType = .ARMORY_DB_SUPER) (hlen : stx.thisHash.length = 32) :
    ∃ s2, s2 = putValueP
        (if (updateHints (getStoredTxHints s StoredTxHints.empty stx.thisHash).2
              (getBlkDataKeyNoPrefix stx.blockHeight stx.duplicateID stx.txIndex)).2 = true
         then (putStoredTxHints s
              (updateHints (getStoredTxHints s StoredTxHints.empty stx.thisHash).2
                (getBlkDataKeyNoPrefix stx.blockHeight stx.duplicateID stx.txIndex)).1).1
         else s) .BLKDATA .TXDATA
        (getBlkDataKeyNoPrefix stx.blockHeight stx.duplicateID stx.txIndex) (.tx stx) ∧
      s2.armoryDbType = .ARMORY_DB_SUPER ∧
      (∃ l, getValueRef s2 .BLKDATA (DB_PREFIX.TXHINTS.toByte :: stx.thisHash.take 4) =
          some (.hints l (getBlkDataKeyNoPrefix stx.blockHeight stx.duplicateID stx.txIndex)) ∧
        getBlkDataKeyNoPrefix stx.blockHeight stx.duplicateID stx.txIndex ∈ l) ∧
      getValueRef s2 .BLKDATA
        (DB_PREFIX.TXDATA.toByte ::
          getBlkDataKeyNoPrefix stx.blockHeight stx.duplicateID stx.txIndex) =
        some (.tx stx) := by
  refine ⟨_, rfl, ?_, ?_, ?_⟩
  · unfold putValueP
    rw [putValue_type]
    split
    · unfold putStoredTxHints
      split
      · exact hsuper
      · simp only [putValue_type]; exact hsuper
    · exact hsuper
  · have hkne : DB_PREFIX.TXHINTS.toByte :: stx.thisHash.take 4 ≠
        DB_PREFIX.TXDATA.toByte ::
          getBlkDataKeyNoPrefix stx.blockHeight stx.duplicateID stx.txIndex := by
      simp [DB_PREFIX.toByte]
    unfold putValueP
    rw [getValueRef_putValue]
    simp only [hkne, and_false, if_false]
    have h4 : ¬ stx.thisHash.length < 4 := by omega
    have hpl : (stx.thisHash.take 4).length ≠ 0 := by
      simp only [List.length_take]
      omega
    -- the hint list read before the call
    have hget : getStoredTxHints s StoredTxHints.empty stx.thisHash =
        match getValueRef s .BLKDATA (DB_PREFIX.TXHINTS.toByte :: stx.thisHash.take 4) with
        | some (.hints l p) =>
          (true, { txHashPrefix := stx.thisHash.take 4, dbKeyList := l, preferredDBKey := p })
        | _ => (false, { txHashPrefix := stx.thisHash.take 4, dbKeyList := [],
                         preferredDBKey := [] }) := by
      unfold getStoredTxHints getValueRefP
      simp only [h4, if_false, hsuper, getDbSelect]
      simp
    rw [hget]
    cases hrow : getValueRef s .BLKDATA (DB_PREFIX.TXHINTS.toByte :: stx.thisHash.take 4) with
    | none =>
      simp only [updateHints, List.not_mem_nil, if_false, if_true, putStoredTxHints, hpl,
        StoredTxHints.getDBKey, hsuper, getDbSelect, List.nil_append]
      simp [getValueRef_putValue]
    | some row =>
      cases row with
      | hints l p =>
        simp only
        by_cases hm : getBlkDataKeyNoPrefix stx.blockHeight stx.duplicateID stx.txIndex ∈ l
        · by_cases hp : p = getBlkDataKeyNoPrefix stx.blockHeight stx.duplicateID stx.txIndex
          · simp only [updateHints, hm, if_true, hp, ne_eq, not_true_eq_false, decide_False,
              Bool.false_eq_true, if_false]
            rw [hrow, hp]
            exact ⟨l, rfl, hm⟩
          · simp only [updateHints, hm, if_true, hp, ne_eq, not_false_eq_true, decide_True,
              putStoredTxHints, hpl, if_false, StoredTxHints.getDBKey, hsuper, getDbSelect]
            simp only [getValueRef_putValue]
            simp
            exact hm
        · simp only [updateHints, hm, if_false, if_true, putStoredTxHints, hpl,
            StoredTxHints.getDBKey, hsuper, getDbSelect]
          simp only [getValueRef_putValue]
          simp
      | raw b =>
        simp only [updateHints, List.not_mem_nil, if_false, if_true, putStoredTxHints, hpl,
          StoredTxHints.getDBKey, hsuper, getDbSelect, List.nil_append]
        simp [getValueRef_putValue]
      | dbinfo i =>
        simp only [updateHints, List.not_mem_nil, if_false, if_true, putStoredTxHints, hpl,
          StoredTxHints.getDBKey, hsuper, getDbSelect, List.nil_append]
        simp [getValueRef_putValue]
      | header h =>
        simp only [updateHints, List.not_mem_nil, if_false, if_true, putStoredTxHints, hpl,
          StoredTxHints.getDBKey, hsuper, getDbSelect, List.nil_append]
        simp [getValueRef_putValue]
      | hhl p l =>
        simp only [updateHints, List.not_mem_nil, if_false, if_true, putStoredTxHints, hpl,
          StoredTxHints.getDBKey, hsuper, getDbSelect, List.nil_append]
        simp [getValueRef_putValue]
      | tx t =>
        simp only [updateHints, List.not_mem_nil, if_false, if_true, putStoredTxHints, hpl,
          StoredTxHints.getDBKey, hsuper, getDbSelect, List.nil_append]
        simp [getValueRef_putValue]
      | txout o =>
        simp only [updateHints, List.not_mem_nil, if_false, if_true, putStoredTxHints, hpl,
          StoredTxHints.getDBKey, hsuper, getDbSelect, List.nil_append]
        simp [getValueRef_putValue]
      | block txs =>
        simp only [updateHints, List.not_mem_nil, if_false, if_true, putStoredTxHints, hpl,
          StoredTxHints.getDBKey, hsuper, getDbSelect, List.nil_append]
        simp [getValueRef_putValue]
      | subssh txioMap =>
        simp only [updateHints, List.not_mem_nil, if_false, if_true, putStoredTxHints, hpl,
          StoredTxHints.getDBKey, hsuper, getDbSelect, List.nil_append]
        simp [getValueRef_putValue]
  · unfold putValueP
    rw [getValueRef_putValue]
    simp

/-- C1. Hint integrity under the SUPER profile: for every StoredTx with a
32-byte hash and every prior store, after a returning `putStoredTx` the hint
list stored for the first 4 bytes of the hash has `preferredDBKey` equal to
the 6-byte key of (height, dup, txIndex), that key is in `dbKeyList`, and the
TXDATA row at that key holds the transaction (so its stored hash is the hash
of the transaction). The call returns unless the tx-out loop has to read the
version from a raw transaction shorter than 4 bytes. -/
theorem putStoredTx_hint_integrity (s : LMDBBlockDatabase) (stx : StoredTx) (withTxOut : Bool)
    (x : StoredTxHints)
    (hsuper : s.armoryDbType = .ARMORY_DB_SUPER) (hlen : stx.thisHash.length = 32) :
    (∀ s', putStoredTx s stx withTxOut = .ok s' →
      (∃ sths, getStoredTxHints s' x stx.thisHash = (true, sths) ∧
        sths.preferredDBKey =
          getBlkDataKeyNoPrefix stx.blockHeight stx.duplicateID stx.txIndex ∧
        getBlkDataKeyNoPrefix stx.blockHeight stx.duplicateID stx.txIndex ∈ sths.dbKeyList) ∧
      getValueRefP s' .BLKDATA .TXDATA
          (getBlkDataKeyNoPrefix stx.blockHeight stx.duplicateID stx.txIndex) =
        some (.tx stx)) ∧
    ((withTxOut = false ∨ stx.stxoMap = [] ∨ 4 ≤ stx.dataCopy.length) →
      ∃ s', putStoredTx s stx withTxOut = .ok s') := by
  obtain ⟨s2, hs2, hty, ⟨l, hhint, hmem⟩, htx⟩ := putStoredTx_core s stx hsuper hlen
  have h4 : ¬ stx.thisHash.length < 4 := by omega
  have hk5 : (DB_PREFIX.TXHINTS.toByte :: stx.thisHash.take 4).length ≠ 9 := by
    simp only [List.length_cons, List.length_take]
    omega
  have hk7 : (DB_PREFIX.TXDATA.toByte ::
      getBlkDataKeyNoPrefix stx.blockHeight stx.duplicateID stx.txIndex).length ≠ 9 := by
    simp [getBlkDataKeyNoPrefix_length]
  -- the conclusion holds for every store that agrees with `s2` on the two rows
  have hfin : ∀ s', s'.armoryDbType = .ARMORY_DB_SUPER →
      getValueRef s' .BLKDATA (DB_PREFIX.TXHINTS.toByte :: stx.thisHash.take 4) =
        getValueRef s2 .BLKDATA (DB_PREFIX.TXHINTS.toByte :: stx.thisHash.take 4) →
      getValueRef s' .BLKDATA (DB_PREFIX.TXDATA.toByte ::
          getBlkDataKeyNoPrefix stx.blockHeight stx.duplicateID stx.txIndex) =
        getValueRef s2 .BLKDATA (DB_PREFIX.TXDATA.toByte ::
          getBlkDataKeyNoPrefix stx.blockHeight stx.duplicateID stx.txIndex) →
      (∃ sths, getStoredTxHints s' x stx.thisHash = (true, sths) ∧
        sths.preferredDBKey =
          getBlkDataKeyNoPrefix stx.blockHeight stx.duplicateID stx.txIndex ∧
        getBlkDataKeyNoPrefix stx.blockHeight stx.duplicateID stx.txIndex ∈ sths.dbKeyList) ∧
      getValueRefP s' .BLKDATA .TXDATA
          (getBlkDataKeyNoPrefix stx.blockHeight stx.duplicateID stx.txIndex) =
        some (.tx stx) := by
    intro s' hty' e1 e2
    constructor
    · refine ⟨{ txHashPrefix := stx.thisHash.take 4, dbKeyList := l,
                preferredDBKey :=
                  getBlkDataKeyNoPrefix stx.blockHeight stx.duplicateID stx.txIndex },
        ?_, rfl, hmem⟩
      unfold getStoredTxHints getValueRefP
      simp only [h4, if_false, hty', getDbSelect]
      simp only [reduceCtorEq, if_false, if_true]
      rw [e1, hhint]
    · unfold getValueRefP
      rw [e2, htx]
  unfold putStoredTx
  simp only [hsuper, ne_eq, not_true_eq_false, if_false, ← hs2]
  by_cases hw : withTxOut = true
  · simp only [hw, if_true]
    cases hmap : stx.stxoMap with
    | nil =>
      simp only
      refine ⟨?_, fun _ => ⟨s2, rfl⟩⟩
      intro s' hp
      simp only [Outcome.ok.injEq] at hp
      subst hp
      exact hfin _ hty rfl rfl
    | cons e rest =>
      simp only
      cases hv : READ_UINT32_LE stx.dataCopy with
      | none =>
        simp only
        refine ⟨fun s' hp => absurd hp (by simp), ?_⟩
        intro hc
        exfalso
        rcases hc with hc | hc | hc
        · exact absurd hc (by simp)
        · exact absurd hc (by simp)
        · unfold READ_UINT32_LE at hv
          split at hv
          · exact absurd hv (by simp)
          · rename_i hx
            match hd : stx.dataCopy, hc with
            | b0 :: b1 :: b2 :: b3 :: r, _ => exact hx b0 b1 b2 b3 r hd
      | some v =>
        simp only
        refine ⟨?_, fun _ => ⟨_, rfl⟩⟩
        intro s' hp
        simp only [Outcome.ok.injEq] at hp
        subst hp
        refine hfin _ ?_ ?_ ?_
        · rw [putStoredTxOuts_type]; exact hty
        · exact getValueRef_putStoredTxOuts _ _ _ _ _ _ hk5
        · exact getValueRef_putStoredTxOuts _ _ _ _ _ _ hk7
  · simp only [hw, if_false, Bool.false_eq_true]
    refine ⟨?_, fun _ => ⟨s2, rfl⟩⟩
    intro s' hp
    simp only [Outcome.ok.injEq] at hp
    subst hp
    exact hfin _ hty rfl rfl

/-- Witness of C1: a transaction with one tx-out put into an empty supernode
store. -/
theorem putStoredTx_hint_integrity_witness :
    (∀ s', putStoredTx exStoreSuper exTx true = .ok s' →
      (∃ sths, getStoredTxHints s' StoredTxHints.empty exTx.thisHash = (true, sths) ∧
        sths.preferredDBKey =
          getBlkDataKeyNoPrefix exTx.blockHeight exTx.duplicateID exTx.txIndex ∧
        getBlkDataKeyNoPrefix exTx.blockHeight exTx.duplicateID exTx.txIndex ∈
          sths.dbKeyList) ∧
      getValueRefP s' .BLKDATA .TXDATA
          (getBlkDataKeyNoPrefix exTx.blockHeight exTx.duplicateID exTx.txIndex) =
        some (.tx exTx)) ∧
    ((true = false ∨ exTx.stxoMap = [] ∨ 4 ≤ exTx.dataCopy.length) →
      ∃ s', putStoredTx exStoreSuper exTx true = .ok s') :=
  putStoredTx_hint_integrity exStoreSuper exTx true StoredTxHints.empty rfl rfl

/-! ## The key order -/

theorem bytesLt_irrefl (a : Bytes) : bytesLt a a = false := by
  induction a with
  | nil => rfl
  | cons x xs ih => simp [bytesLt, ih]

theorem bytesLt_trans (a b c : Bytes) (h1 : bytesLt a b = true) (h2 : bytesLt b c = true) :
    bytesLt a c = true := by
  induction a generalizing b c with
  | nil =>
    cases b with
    | nil => simp [bytesLt] at h1
    | cons y ys =>
      cases c with
      | nil => simp [bytesLt] at h2
      | cons z zs => simp [bytesLt]
  | cons x xs ih =>
    cases b with
    | nil => simp [bytesLt] at h1
    | cons y ys =>
      cases c with
      | nil => simp [bytesLt] at h2
      | cons z zs =>
        simp only [bytesLt, Bool.or_eq_true, decide_eq_true_eq, Bool.and_eq_true] at h1 h2 ⊢
        rcases h1 with h1 | ⟨h1, h1'⟩
        · rcases h2 with h2 | ⟨h2, -⟩
          · left; omega
          · left; omega
        · rcases h2 with h2 | ⟨h2, h2'⟩
          · left; omega
          · right
            exact ⟨by omega, ih ys zs h1' h2'⟩

theorem bytesLt_total (a b : Bytes) : bytesLt a b = true ∨ a = b ∨ bytesLt b a = true := by
  induction a generalizing b with
  | nil =>
    cases b with
    | nil => right; left; rfl
    | cons y ys => left; rfl
  | cons x xs ih =>
    cases b with
    | nil => right; right; rfl
    | cons y ys =>
      simp only [bytesLt, Bool.or_eq_true, decide_eq_true_eq, Bool.and_eq_true,
        List.cons.injEq]
      rcases Nat.lt_trichotomy x y with h | h | h
      · left; left; exact h
      · rcases ih ys with h' | h' | h'
        · left; right; exact ⟨h, h'⟩
        · right; left; exact ⟨h, h'⟩
        · right; right; right; exact ⟨h.symm, h'⟩
      · right; right; left; exact h

theorem bytesLt_append_left (p a b : Bytes) :
    bytesLt (p ++ a) (p ++ b) = bytesLt a b := by
  induction p with
  | nil => rfl
  | cons x xs ih => simp [bytesLt, ih]

theorem bytesLt_self_append (p a : Bytes) (ha : a ≠ []) : bytesLt p (p ++ a) = true := by
  have := bytesLt_append_left p [] a
  rw [List.append_nil] at this
  rw [this]
  cases a with
  | nil => exact absurd rfl ha
  | cons x xs => rfl

theorem startsWith_iff (x p : Bytes) : startsWith x p = true ↔ ∃ r, x = p ++ r := by
  induction p generalizing x with
  | nil =>
    cases x <;> simp [startsWith]
  | cons a as ih =>
    cases x with
    | nil => simp [startsWith]
    | cons b bs =>
      simp only [startsWith, Bool.and_eq_true, decide_eq_true_eq, ih, List.cons_append,
        List.cons.injEq]
      constructor
      · rintro ⟨h1, r, h2⟩
        exact ⟨r, h1, h2⟩
      · rintro ⟨r, h1, h2⟩
        exact ⟨h1, r, h2⟩

/-- A key strictly between `p` and an extension of `p` starts with `p`. -/
theorem startsWith_of_between (p x k : Bytes) (h1 : bytesLt p x = true)
    (h2 : bytesLt x (p ++ k) = true) : startsWith x p = true := by
  induction p generalizing x with
  | nil => cases x <;> rfl
  | cons a as ih =>
    cases x with
    | nil => simp [bytesLt] at h1
    | cons b bs =>
      simp only [List.cons_append, bytesLt, Bool.or_eq_true, decide_eq_true_eq,
        Bool.and_eq_true] at h1 h2
      simp only [startsWith, Bool.and_eq_true, decide_eq_true_eq]
      rcases h1 with h1 | ⟨h1, h1'⟩
      · rcases h2 with h2 | ⟨h2, -⟩
        · omega
        · omega
      · rcases h2 with h2 | ⟨-, h2'⟩
        · omega
        · exact ⟨h1.symm, ih bs h1' h2'⟩

/-- On 4-byte composites the key order follows the decoded height. -/
theorem hgtxToHeight_mono (a b : Bytes) (ha : a.length = 4) (hb : b.length = 4)
    (hba : ∀ x ∈ a, x < 256) (hbb : ∀ x ∈ b, x < 256) (hlt : bytesLt a b = true) :
    hgtxToHeight a ≤ hgtxToHeight b := by
  match a, ha, b, hb with
  | [a0, a1, a2, a3], _, [b0, b1, b2, b3], _ =>
    simp only [List.mem_cons, List.mem_singleton, forall_eq_or_imp, forall_eq,
      List.not_mem_nil, false_implies, implies_true, and_true] at hba hbb
    simp only [bytesLt, Bool.or_eq_true, decide_eq_true_eq, Bool.and_eq_true, Bool.or_false,
      Bool.and_false] at hlt
    simp only [hgtxToHeight, List.getD_cons_zero, List.getD_cons_succ]
    omega

/-! ## Seeking in sorted rows -/

theorem seekGE_le (key : Bytes) (db : DB) : seekGE key db ≤ db.length := by
  induction db with
  | nil => simp [seekGE]
  | cons e rest ih =>
    obtain ⟨k, v⟩ := e
    unfold seekGE
    split
    · simp only [List.length_cons]; omega
    · omega

theorem seekGE_take (key : Bytes) (db : DB) :
    ∀ e ∈ db.take (seekGE key db), bytesLt e.1 key = true := by
  induction db with
  | nil => simp [seekGE]
  | cons e rest ih =>
    obtain ⟨k, v⟩ := e
    unfold seekGE
    by_cases h : bytesLt k key = true
    · rw [if_pos h]
      simp only [List.take_succ_cons, List.mem_cons, forall_eq_or_imp]
      exact ⟨h, ih⟩
    · rw [if_neg h]
      simp

theorem seekGE_drop (key : Bytes) (db : DB) (hs : dbSorted db) :
    ∀ e ∈ db.drop (seekGE key db), bytesLt e.1 key = false := by
  induction db with
  | nil => simp [seekGE]
  | cons e rest ih =>
    obtain ⟨k, v⟩ := e
    unfold dbSorted at hs
    rw [List.pairwise_cons] at hs
    unfold seekGE
    by_cases h : bytesLt k key = true
    · rw [if_pos h]
      simp only [List.drop_succ_cons]
      exact ih hs.2
    · rw [if_neg h]
      simp only [List.drop_zero, List.mem_cons, forall_eq_or_imp]
      have hk : bytesLt k key = false := by simpa using h
      refine ⟨hk, ?_⟩
      intro e he
      by_contra hc
      have hc' : bytesLt e.1 key = true := by simpa using hc
      exact h (bytesLt_trans _ _ _ (hs.1 e he) hc')

theorem seekGE_exact (k : Bytes) (v : Row) (db : DB) (hs : dbSorted db) (hm : (k, v) ∈ db) :
    db[seekGE k db]? = some (k, v) := by
  induction db with
  | nil => simp at hm
  | cons e rest ih =>
    obtain ⟨k', v'⟩ := e
    unfold dbSorted at hs
    rw [List.pairwise_cons] at hs
    unfold seekGE
    by_cases h : bytesLt k' k = true
    · rw [if_pos h]
      simp only [List.getElem?_cons_succ]
      apply ih hs.2
      rcases List.mem_cons.mp hm with heq | hin
      · simp only [Prod.mk.injEq] at heq
        rw [heq.1, bytesLt_irrefl] at h
        exact absurd h (by simp)
      · exact hin
    · rw [if_neg h]
      simp only [List.getElem?_cons_zero, Option.some.injEq]
      rcases List.mem_cons.mp hm with heq | hin
      · exact heq.symm
      · exact absurd (hs.1 _ hin) h

theorem sorted_drop_gt (db : DB) (hs : dbSorted db) (p : Nat) (k : Bytes) (v : Row)
    (hp : db[p]? = some (k, v)) : ∀ e ∈ db.drop (p + 1), bytesLt k e.1 = true := by
  induction db generalizing p with
  | nil => simp at hp
  | cons e rest ih =>
    unfold dbSorted at hs
    rw [List.pairwise_cons] at hs
    cases p with
    | zero =>
      simp only [List.getElem?_cons_zero, Option.some.injEq] at hp
      subst hp
      simpa using hs.1
    | succ q =>
      simp only [List.getElem?_cons_succ] at hp
      simpa using ih hs.2 q hp

theorem sorted_take_lt (db : DB) (hs : dbSorted db) (p : Nat) (k : Bytes) (v : Row)
    (hp : db[p]? = some (k, v)) : ∀ e ∈ db.take p, bytesLt e.1 k = true := by
  induction db generalizing p with
  | nil => simp at hp
  | cons e rest ih =>
    unfold dbSorted at hs
    rw [List.pairwise_cons] at hs
    cases p with
    | zero => simp
    | succ q =>
      simp only [List.getElem?_cons_succ] at hp
      simp only [List.take_succ_cons, List.mem_cons, forall_eq_or_imp]
      refine ⟨hs.1 _ (List.mem_iff_getElem?.mpr ⟨q, hp⟩), ih hs.2 q hp⟩

theorem drop_eq_cons (db : DB) (p : Nat) (e : Bytes × Row) (hp : db[p]? = some e) :
    db.drop p = e :: db.drop (p + 1) := by
  induction db generalizing p with
  | nil => simp at hp
  | cons x rest ih =>
    cases p with
    | zero =>
      simp only [List.getElem?_cons_zero, Option.some.injEq] at hp
      subst hp
      simp
    | succ q =>
      simp only [List.getElem?_cons_succ] at hp
      simpa using ih q hp

/-! ## Sub-history keys -/

theorem key_decompose (key addr : Bytes) (hsw : startsWith (key.drop 1) addr = true)
    (hhead : key.head? = some DB_PREFIX.SCRIPT.toByte)
    (hlen : key.length = addr.length + 5) :
    ∃ k4, key = DB_PREFIX.SCRIPT.toByte :: (addr ++ k4) ∧ k4.length = 4 := by
  cases key with
  | nil => simp at hhead
  | cons x rest =>
    simp only [List.head?_cons, Option.some.injEq] at hhead
    simp only [List.drop_succ_cons, List.drop_zero] at hsw
    obtain ⟨r, hr⟩ := (startsWith_iff _ _).mp hsw
    refine ⟨r, by rw [hhead, hr], ?_⟩
    rw [hr] at hlen
    simp only [List.length_cons, List.length_append] at hlen
    omega

theorem unserializeDBKey_script (addr k4 : Bytes) (h4 : k4.length = 4) :
    StoredSubHistory.empty.unserializeDBKey (DB_PREFIX.SCRIPT.toByte :: (addr ++ k4)) =
      subHistOf addr k4 (.raw []) := by
  unfold StoredSubHistory.unserializeDBKey subHistOf StoredSubHistory.empty
  simp only [List.drop_succ_cons, List.drop_zero, List.length_append, h4,
    Nat.add_sub_cancel, List.drop_left, List.take_left]

theorem first_script (addr k4 : Bytes) (h4 : k4.length = 4) :
    (((DB_PREFIX.SCRIPT.toByte :: (addr ++ k4)).drop 1).drop
      ((DB_PREFIX.SCRIPT.toByte :: (addr ++ k4)).length - 5)).take 4 = k4 := by
  simp only [List.drop_succ_cons, List.drop_zero, List.length_cons, List.length_append, h4]
  have : addr.length + 4 + 1 - 5 = addr.length := by omega
  rw [this, List.drop_left]
  exact List.take_of_length_le (by omega)

theorem mem_mapInsert (k k' : Bytes) (v v' : StoredSubHistory)
    (m : List (Bytes × StoredSubHistory)) (hfresh : ∀ e ∈ m, e.1 ≠ k') :
    (k, v) ∈ mapInsert k' v' m ↔ (k, v) ∈ m ∨ (k = k' ∧ v = v') := by
  induction m with
  | nil => simp [mapInsert]
  | cons e rest ih =>
    obtain ⟨k2, v2⟩ := e
    have hne : k' ≠ k2 := fun e => hfresh (k2, v2) (List.mem_cons_self _ _) e.symm
    unfold mapInsert
    rw [if_neg hne]
    by_cases hlt : bytesLt k' k2 = true
    · rw [if_pos hlt]
      simp only [List.mem_cons, Prod.mk.injEq]
      tauto
    · rw [if_neg hlt]
      simp only [List.mem_cons, Prod.mk.injEq,
        ih (fun e he => hfresh e (List.mem_cons_of_mem _ he))]
      tauto

/-! ## The cursor on a row -/

theorem advanceAndReadP_clean (db : DB) (p : Nat) (key : Bytes) (v : Row)
    (hp : db[p]? = some (key, v)) :
    LDBIter.advanceAndReadP
        { db := db, pos := p, isDirty := false, currKey := key, currValue := v } .SCRIPT =
      match db[p + 1]? with
      | some (x :: xs, v2) =>
        if x = DB_PREFIX.SCRIPT.toByte then
          (true, { db := db, pos := p + 1, isDirty := false, currKey := x :: xs,
                   currValue := v2 })
        else (false, { db := db, pos := p + 1, isDirty := true, currKey := key,
                       currValue := v })
      | _ => (false, { db := db, pos := p + 1, isDirty := true, currKey := key,
                       currValue := v }) := by
  have hlt : p < db.length := by
    by_contra hc
    rw [List.getElem?_eq_none (by omega)] at hp
    exact absurd hp (by simp)
  unfold LDBIter.advanceAndReadP LDBIter.advanceP LDBIter.isValidP LDBIter.readIterData
  simp only [hlt, if_true]
  cases hq : db[p + 1]? with
  | none => simp
  | some e =>
    obtain ⟨k2, v2⟩ := e
    cases k2 with
    | nil => simp
    | cons x xs =>
      by_cases hx : x = DB_PREFIX.SCRIPT.toByte
      · simp [hx, hq]
      · simp [hx]

theorem no_later_match (db : DB) (hs : dbSorted db) (p : Nat) (key pfx : Bytes) (v : Row)
    (hp : db[p]? = some (key, v)) (hK : bytesLt pfx key = true)
    (hns : startsWith key pfx = false) :
    ∀ r ∈ db.drop p, ∀ k, r.1 ≠ pfx ++ k := by
  intro r hr k heq
  rw [drop_eq_cons db p _ hp] at hr
  rcases List.mem_cons.mp hr with h1 | h1
  · rw [h1] at heq
    simp only at heq
    have : startsWith key pfx = true := (startsWith_iff _ _).mpr ⟨k, heq⟩
    rw [hns] at this
    exact absurd this (by simp)
  · have hlt := sorted_drop_gt db hs p key v hp r h1
    rw [heq] at hlt
    have := startsWith_of_between pfx key k hK hlt
    rw [hns] at this
    exact absurd this (by simp)

/-! ## The sub-history loop -/

theorem or_iff_of_not {A B C : Prop} (h : ¬ C) : (A ∨ B) ↔ (A ∨ (B ∨ C)) := by
  tauto

theorem subHistLoop_spec (db : DB) (addr : Bytes) (endBlock : Nat)
    (hs : dbSorted db)
    (hbytes : ∀ e ∈ db, ∀ b ∈ e.1, b < 256)
    (hfree : ∀ e ∈ db, startsWith (e.1.drop 1) addr = true →
      e.1 = DB_PREFIX.SCRIPT.toByte :: addr ∨
      (e.1.head? = some DB_PREFIX.SCRIPT.toByte ∧ e.1.length = addr.length + 5)) :
    ∀ (fuel p : Nat) (key : Bytes) (v val : Row) (m : List (Bytes × StoredSubHistory)),
      db[p]? = some (key, v) → db.length < fuel + p →
      bytesLt (DB_PREFIX.SCRIPT.toByte :: addr) key = true →
      (∀ e ∈ m, ∀ r ∈ db.drop p,
        r.1 ≠ (DB_PREFIX.SCRIPT.toByte :: addr) ++ e.1) →
      ∃ it' m',
        subHistLoop endBlock fuel
          { db := db, pos := p, isDirty := false, currKey := key, currValue := v }
          { uniqueKey := addr, value := val, subHistMap := m } =
          .ok (it', { uniqueKey := addr, value := val, subHistMap := m' }) ∧
        ∀ k sub, (k, sub) ∈ m' ↔
          ((k, sub) ∈ m ∨
            ∃ v', ((DB_PREFIX.SCRIPT.toByte :: addr) ++ k, v') ∈ db.drop p ∧ k.length = 4 ∧
              hgtxToHeight k ≤ endBlock ∧ sub = subHistOf addr k v') := by
  intro fuel
  induction fuel with
  | zero =>
    intro p key v val m hp hlen
    have : p < db.length := by
      by_contra hc
      rw [List.getElem?_eq_none (by omega)] at hp
      exact absurd hp (by simp)
    omega
  | succ fuel ih =>
    intro p key v val m hp hlen hK hJ
    have hmemdb : (key, v) ∈ db := List.mem_iff_getElem?.mpr ⟨p, hp⟩
    have hdrop := drop_eq_cons db p _ hp
    have hsub : ∀ r ∈ db.drop (p + 1), r ∈ db := fun r hr => List.mem_of_mem_drop hr
    have hkne : key.length ≠ 0 := by
      intro e
      have : key = [] := List.length_eq_zero.mp e
      rw [this] at hK
      simp [bytesLt] at hK
    unfold subHistLoop
    simp only [LDBIter.getKeyRef, Bool.false_eq_true, if_false, hkne]
    by_cases hsw : startsWith (key.drop 1) addr = true
    swap
    · -- the key does not continue the address: the loop ends
      have hsw' : startsWith (key.drop 1) addr = false := by simpa using hsw
      simp only [hsw', Bool.not_false, if_true]
      refine ⟨_, m, rfl, ?_⟩
      intro k sub
      constructor
      · exact fun h => Or.inl h
      · rintro (h | ⟨v', hv', -⟩)
        · exact h
        · exfalso
          have hns : startsWith key (DB_PREFIX.SCRIPT.toByte :: addr) = false := by
            by_contra hc
            have hc' : startsWith key (DB_PREFIX.SCRIPT.toByte :: addr) = true := by
              simpa using hc
            obtain ⟨r, hr⟩ := (startsWith_iff _ _).mp hc'
            rw [hr] at hsw
            apply hsw
            simp only [List.cons_append, List.drop_succ_cons, List.drop_zero]
            exact (startsWith_iff _ _).mpr ⟨r, rfl⟩
          exact no_later_match db hs p key _ v hp hK hns _ hv' k rfl
    · -- the key continues the address: it is the address followed by 4 bytes
      simp only [hsw, Bool.not_true, Bool.false_eq_true, if_false]
      have hform : ∃ k4, key = DB_PREFIX.SCRIPT.toByte :: (addr ++ k4) ∧ k4.length = 4 := by
        rcases hfree _ hmemdb hsw with h1 | ⟨h1, h2⟩
        · simp only at h1
          rw [h1, bytesLt_irrefl] at hK
          exact absurd hK (by simp)
        · exact key_decompose key addr hsw h1 h2
      obtain ⟨k4, hkey, hk4⟩ := hform
      have hsz : ¬ key.length < 5 := by
        rw [hkey]
        simp only [List.length_cons, List.length_append, hk4]
        omega
      have hb4 : ∀ x ∈ k4, x < 256 := by
        intro x hx
        apply hbytes _ hmemdb
        simp only [hkey]
        exact List.mem_cons_of_mem _ (List.mem_append_right _ hx)
      simp only [hsz, if_false]
      rw [hkey, unserializeDBKey_script addr k4 hk4, first_script addr k4 hk4]
      -- rows after the current one that continue the address have a larger suffix
      have hlater : ∀ r ∈ db.drop (p + 1), ∀ k,
          r.1 = (DB_PREFIX.SCRIPT.toByte :: addr) ++ k → k.length = 4 →
          hgtxToHeight k4 ≤ hgtxToHeight k := by
        intro r hr k hrk hk
        have hlt := sorted_drop_gt db hs p key v hp r hr
        rw [hkey, hrk] at hlt
        have e1 : DB_PREFIX.SCRIPT.toByte :: (addr ++ k4) =
            (DB_PREFIX.SCRIPT.toByte :: addr) ++ k4 := rfl
        rw [e1, bytesLt_append_left] at hlt
        have hbk : ∀ x ∈ k, x < 256 := by
          intro x hx
          apply hbytes _ (hsub r hr)
          rw [hrk]
          exact List.mem_append_right _ hx
        exact hgtxToHeight_mono k4 k hk4 hk hb4 hbk hlt
      by_cases hend : (subHistOf addr k4 (.raw [])).height > endBlock
      · -- past the window: the loop ends
        simp only [hend, if_true]
        refine ⟨_, m, rfl, ?_⟩
        intro k sub
        constructor
        · exact fun h => Or.inl h
        · rintro (h | ⟨v', hv', hk, hle, -⟩)
          · exact h
          · exfalso
            have hend' : hgtxToHeight k4 > endBlock := hend
            rw [hdrop] at hv'
            rcases List.mem_cons.mp hv' with h1 | h1
            · simp only [Prod.mk.injEq] at h1
              rw [hkey] at h1
              have e1 : DB_PREFIX.SCRIPT.toByte :: (addr ++ k4) =
                  (DB_PREFIX.SCRIPT.toByte :: addr) ++ k4 := rfl
              rw [e1] at h1
              have := List.append_cancel_left h1.1
              rw [this] at hle
              omega
            · have := hlater _ h1 k rfl hk
              omega
      · -- in the window: the sub-history is inserted and the cursor advances
        simp only [hend, if_false]
        have hfresh : ∀ e ∈ m, e.1 ≠ k4 := by
          intro e he heq
          apply hJ e he (key, v) (by rw [hdrop]; exact List.mem_cons_self _ _)
          simp only [hkey, heq]
          rfl
        have hins : ∀ k sub,
            (k, sub) ∈ mapInsert k4 (subHistOf addr k4 v) m ↔
            ((k, sub) ∈ m ∨ (k = k4 ∧ sub = subHistOf addr k4 v)) := by
          intro k sub
          exact mem_mapInsert k k4 sub _ _ hfresh
        have hval : (subHistOf addr k4 (.raw [])).unserializeDBValue v =
            subHistOf addr k4 v := rfl
        have hle4 : hgtxToHeight k4 ≤ endBlock := by
          have : ¬ hgtxToHeight k4 > endBlock := hend
          omega
        rw [← hkey]
        simp only [LDBIter.getValueReader, hval]
        rw [advanceAndReadP_clean db p key v hp]
        -- what the rows from the current one on contribute
        have hhead : ∀ k sub,
            (∃ v', ((DB_PREFIX.SCRIPT.toByte :: addr) ++ k, v') ∈ db.drop p ∧ k.length = 4 ∧
              hgtxToHeight k ≤ endBlock ∧ sub = subHistOf addr k v') ↔
            ((k = k4 ∧ sub = subHistOf addr k4 v) ∨
              ∃ v', ((DB_PREFIX.SCRIPT.toByte :: addr) ++ k, v') ∈ db.drop (p + 1) ∧
                k.length = 4 ∧ hgtxToHeight k ≤ endBlock ∧ sub = subHistOf addr k v') := by
          intro k sub
          rw [hdrop]
          constructor
          · rintro ⟨v', hv', hk, hle, hsub'⟩
            rcases List.mem_cons.mp hv' with h1 | h1
            · left
              simp only [Prod.mk.injEq] at h1
              rw [hkey] at h1
              have e1 : DB_PREFIX.SCRIPT.toByte :: (addr ++ k4) =
                  (DB_PREFIX.SCRIPT.toByte :: addr) ++ k4 := rfl
              rw [e1] at h1
              have hkk := List.append_cancel_left h1.1
              refine ⟨hkk, ?_⟩
              rw [hsub', hkk, h1.2]
            · right
              exact ⟨v', h1, hk, hle, hsub'⟩
          · rintro (⟨hk, hsub'⟩ | ⟨v', hv', hk, hle, hsub'⟩)
            · refine ⟨v, ?_, by rw [hk]; exact hk4, by rw [hk]; exact hle4, by rw [hsub', hk]⟩
              rw [hk]
              have e1 : (DB_PREFIX.SCRIPT.toByte :: addr) ++ k4 =
                  DB_PREFIX.SCRIPT.toByte :: (addr ++ k4) := rfl
              rw [e1, ← hkey]
              exact List.mem_cons_self _ _
            · exact ⟨v', List.mem_cons_of_mem _ hv', hk, hle, hsub'⟩
        -- when the cursor cannot advance within the SCRIPT family, no later row counts
        have hstop : ∀ (k2 : Bytes) (v2 : Row), db[p + 1]? = some (k2, v2) →
            startsWith k2 (DB_PREFIX.SCRIPT.toByte :: addr) = false →
            ∀ k sub, ¬ ∃ v', ((DB_PREFIX.SCRIPT.toByte :: addr) ++ k, v') ∈ db.drop (p + 1) ∧
              k.length = 4 ∧ hgtxToHeight k ≤ endBlock ∧ sub = subHistOf addr k v' := by
          intro k2 v2 hq hns k sub
          rintro ⟨v', hv', -⟩
          have hK2 : bytesLt (DB_PREFIX.SCRIPT.toByte :: addr) k2 = true :=
            bytesLt_trans _ _ _ hK
              (sorted_drop_gt db hs p key v hp (k2, v2)
                (by rw [drop_eq_cons db (p + 1) _ hq]; exact List.mem_cons_self _ _))
          exact no_later_match db hs (p + 1) k2 _ v2 hq hK2 hns _ hv' k rfl
        cases hq : db[p + 1]? with
        | none =>
          simp only [Bool.false_eq_true, if_false]
          refine ⟨_, _, rfl, ?_⟩
          intro k sub
          rw [hins, hhead]
          have hnil : db.drop (p + 1) = [] := by
            apply List.drop_eq_nil_of_le
            by_contra hc
            rw [List.getElem?_eq_getElem (by omega)] at hq
            exact absurd hq (by simp)
          rw [hnil]
          simp
        | some e =>
          obtain ⟨k2, v2⟩ := e
          cases k2 with
          | nil =>
            simp only [Bool.false_eq_true, if_false]
            refine ⟨_, _, rfl, ?_⟩
            intro k sub
            rw [hins, hhead]
            exact or_iff_of_not (hstop [] v2 hq (by simp [startsWith]) k sub)
          | cons x xs =>
            by_cases hx : x = DB_PREFIX.SCRIPT.toByte
            · simp only [hx, if_true]
              have hq' : db[p + 1]? = some (DB_PREFIX.SCRIPT.toByte :: xs, v2) := by
                rw [hq, hx]
              have hK2 : bytesLt (DB_PREFIX.SCRIPT.toByte :: addr)
                  (DB_PREFIX.SCRIPT.toByte :: xs) = true :=
                bytesLt_trans _ _ _ hK
                  (sorted_drop_gt db hs p key v hp (DB_PREFIX.SCRIPT.toByte :: xs, v2)
                    (by rw [drop_eq_cons db (p + 1) _ hq']; exact List.mem_cons_self _ _))
              obtain ⟨it', m', hloop, hmem'⟩ :=
                ih (p + 1) (DB_PREFIX.SCRIPT.toByte :: xs) v2 val
                  (mapInsert k4 (subHistOf addr k4 v) m)
                  hq' (by omega) hK2 (by
                    intro e he r hr
                    have he' := (hins e.1 e.2).mp he
                    rcases he' with h1 | ⟨h1, -⟩
                    · exact hJ e h1 r (by rw [hdrop]; exact List.mem_cons_of_mem _ hr)
                    · intro heq
                      have hlt := sorted_drop_gt db hs p key v hp r hr
                      rw [heq, h1] at hlt
                      have e1 : (DB_PREFIX.SCRIPT.toByte :: addr) ++ k4 = key := by
                        rw [hkey]; rfl
                      rw [e1, bytesLt_irrefl] at hlt
                      exact absurd hlt (by simp))
              refine ⟨it', m', hloop, ?_⟩
              intro k sub
              rw [hmem' k sub, hins, hhead]
              exact or_assoc
            · simp only [hx, if_false, Bool.false_eq_true]
              refine ⟨_, _, rfl, ?_⟩
              intro k sub
              rw [hins, hhead]
              exact or_iff_of_not (hstop (x :: xs) v2 hq (by simp [startsWith, hx]) k sub)

/-! ## The window of a script-history scan -/

theorem mem_take_or_drop (db : DB) (n : Nat) (e : Bytes × Row) (he : e ∈ db) :
    e ∈ db.take n ∨ e ∈ db.drop n := by
  rw [← List.take_append_drop n db] at he
  exact List.mem_append.mp he

theorem mem_drop_of_gt (db : DB) (hs : dbSorted db) (p : Nat) (k0 : Bytes) (v0 : Row)
    (hp : db[p]? = some (k0, v0)) (e : Bytes × Row) (he : e ∈ db)
    (h : bytesLt k0 e.1 = true) : e ∈ db.drop (p + 1) := by
  rcases mem_take_or_drop db (p + 1) e he with h1 | h1
  · exfalso
    rw [List.take_succ, hp] at h1
    simp only [Option.toList, List.mem_append, List.mem_singleton] at h1
    rcases h1 with h1 | h1
    · have := bytesLt_trans _ _ _ h (sorted_take_lt db hs p k0 v0 hp e h1)
      rw [bytesLt_irrefl] at this
      exact absurd this (by simp)
    · rw [h1] at h
      simp only [bytesLt_irrefl] at h
      exact absurd h (by simp)
  · exact h1

theorem mem_drop_seek (db : DB) (key : Bytes) (e : Bytes × Row) (he : e ∈ db)
    (h : bytesLt e.1 key = false) : e ∈ db.drop (seekGE key db) := by
  rcases mem_take_or_drop db (seekGE key db) e he with h1 | h1
  · have := seekGE_take key db e h1
    rw [h] at this
    exact absurd this (by simp)
  · exact h1

/-- Below the start of the window in key order means below it in height. -/
theorem bytesLt_hgtx_iff (k : Bytes) (startBlock : Nat) (hk : k.length = 4)
    (hb : ∀ x ∈ k, x < 256) (hsb : startBlock < 16777216) :
    bytesLt k (heightAndDupToHgtx startBlock 0) = true ↔ hgtxToHeight k < startBlock := by
  match k, hk with
  | [a0, a1, a2, a3], _ =>
    simp only [List.mem_cons, List.mem_singleton, forall_eq_or_imp, forall_eq,
      List.not_mem_nil, false_implies, implies_true, and_true] at hb
    simp only [heightAndDupToHgtx, WRITE_UINT32_BE, bytesLt, Bool.or_eq_true,
      decide_eq_true_eq, Bool.and_eq_true, Bool.or_false, Bool.and_false, hgtxToHeight,
      List.getD_cons_zero, List.getD_cons_succ]
    omega

theorem seekToExactP_found (s : LMDBBlockDatabase) (d : DB_SELECT) (addr : Bytes) (v0 : Row)
    (hs : dbSorted (s.db d))
    (hrow : (DB_PREFIX.SCRIPT.toByte :: addr, v0) ∈ s.db d) :
    (getIterator s d).seekToExactP .SCRIPT addr =
      (true, { db := s.db d, pos := seekGE (DB_PREFIX.SCRIPT.toByte :: addr) (s.db d),
               isDirty := false, currKey := DB_PREFIX.SCRIPT.toByte :: addr,
               currValue := v0 }) := by
  have h := seekGE_exact _ _ _ hs hrow
  unfold LDBIter.seekToExactP LDBIter.seekToP LDBIter.seekTo LDBIter.readIterData getIterator
  simp only [h]
  simp [LDBIter.checkKeyExactP]

/-- The scan started on the SSH row of `addr`. -/
theorem readStoredScriptHistoryAtIter_window (db : DB) (addr : Bytes) (v0 val0 : Row)
    (u0 : Bytes) (startBlock endBlock : Nat)
    (hs : dbSorted db)
    (hbytes : ∀ e ∈ db, ∀ b ∈ e.1, b < 256)
    (hrow : (DB_PREFIX.SCRIPT.toByte :: addr, v0) ∈ db)
    (hfree : ∀ e ∈ db, startsWith (e.1.drop 1) addr = true →
      e.1 = DB_PREFIX.SCRIPT.toByte :: addr ∨
      (e.1.head? = some DB_PREFIX.SCRIPT.toByte ∧ e.1.length = addr.length + 5))
    (hsb : startBlock < 16777216) :
    ∃ b it' m',
      readStoredScriptHistoryAtIter
          { db := db, pos := seekGE (DB_PREFIX.SCRIPT.toByte :: addr) db, isDirty := false,
            currKey := DB_PREFIX.SCRIPT.toByte :: addr, currValue := v0 }
          { uniqueKey := u0, value := val0, subHistMap := [] } startBlock endBlock =
        .ok (b, it', { uniqueKey := addr, value := v0, subHistMap := m' }) ∧
      ∀ k sub, (k, sub) ∈ m' ↔
        ∃ v, ((DB_PREFIX.SCRIPT.toByte :: addr) ++ k, v) ∈ db ∧ k.length = 4 ∧
          startBlock ≤ hgtxToHeight k ∧ hgtxToHeight k ≤ endBlock ∧
          sub = subHistOf addr k v := by
  have hp0 := seekGE_exact _ _ _ hs hrow
  unfold readStoredScriptHistoryAtIter
  simp only [StoredScriptHistory.unserializeDBKey, StoredScriptHistory.unserializeDBValue,
    LDBIter.verifyPrefix, Bool.false_eq_true, if_false, Bool.not_true,
    LDBIter.getKeyRef, LDBIter.getValueReader, List.length_cons, Nat.add_one_ne_zero,
    List.drop_succ_cons, List.drop_zero]
  by_cases hz : startBlock = 0
  · -- the scan starts on the row after the SSH row
    subst hz
    simp only [ne_eq, not_true_eq_false, if_false]
    rw [advanceAndReadP_clean db _ _ v0 hp0]
    have hall : ∀ k v, ((DB_PREFIX.SCRIPT.toByte :: addr) ++ k, v) ∈ db → k.length = 4 →
        ((DB_PREFIX.SCRIPT.toByte :: addr) ++ k, v) ∈
          db.drop (seekGE (DB_PREFIX.SCRIPT.toByte :: addr) db + 1) := by
      intro k v hm hk
      apply mem_drop_of_gt db hs _ _ v0 hp0 _ hm
      apply bytesLt_self_append
      intro e
      rw [e] at hk
      simp at hk
    have hstop : ∀ (k2 : Bytes) (v2 : Row),
        db[seekGE (DB_PREFIX.SCRIPT.toByte :: addr) db + 1]? = some (k2, v2) →
        startsWith k2 (DB_PREFIX.SCRIPT.toByte :: addr) = false →
        ∀ k v, ((DB_PREFIX.SCRIPT.toByte :: addr) ++ k, v) ∈ db → k.length = 4 → False := by
      intro k2 v2 hq hns k v hm hk
      have hK2 : bytesLt (DB_PREFIX.SCRIPT.toByte :: addr) k2 = true :=
        sorted_drop_gt db hs _ _ v0 hp0 (k2, v2)
          (by rw [drop_eq_cons db _ _ hq]; exact List.mem_cons_self _ _)
      exact no_later_match db hs _ k2 _ v2 hq hK2 hns _ (hall k v hm hk) k rfl
    cases hq : db[seekGE (DB_PREFIX.SCRIPT.toByte :: addr) db + 1]? with
    | none =>
      simp only [Bool.false_eq_true, Bool.not_false, if_true]
      refine ⟨false, _, [], rfl, ?_⟩
      intro k sub
      simp only [List.not_mem_nil, false_iff, not_exists, not_and]
      intro v hm hk
      exfalso
      have := hall k v hm hk
      rw [List.drop_eq_nil_of_le] at this
      · simp at this
      · by_contra hc
        rw [List.getElem?_eq_getElem (by omega)] at hq
        exact absurd hq (by simp)
    | some e =>
      obtain ⟨k2, v2⟩ := e
      cases k2 with
      | nil =>
        simp only [Bool.false_eq_true, Bool.not_false, if_true]
        refine ⟨false, _, [], rfl, ?_⟩
        intro k sub
        simp only [List.not_mem_nil, false_iff, not_exists, not_and]
        intro v hm hk
        exact (hstop [] v2 hq (by simp [startsWith]) k v hm hk).elim
      | cons x xs =>
        by_cases hx : x = DB_PREFIX.SCRIPT.toByte
        · simp only [hx, if_true, Bool.not_true, Bool.false_eq_true, if_false]
          have hq' : db[seekGE (DB_PREFIX.SCRIPT.toByte :: addr) db + 1]? =
              some (DB_PREFIX.SCRIPT.toByte :: xs, v2) := by rw [hq, hx]
          have hK2 : bytesLt (DB_PREFIX.SCRIPT.toByte :: addr)
              (DB_PREFIX.SCRIPT.toByte :: xs) = true :=
            sorted_drop_gt db hs _ _ v0 hp0 (DB_PREFIX.SCRIPT.toByte :: xs, v2)
              (by rw [drop_eq_cons db _ _ hq']; exact List.mem_cons_self _ _)
          obtain ⟨it', m', hloop, hmem⟩ :=
            subHistLoop_spec db addr endBlock hs hbytes hfree (db.length + 1) _
              (DB_PREFIX.SCRIPT.toByte :: xs) v2 v0 [] hq' (by omega) hK2
              (by intro e he; simp at he)
          rw [hloop]
          refine ⟨true, it', m', rfl, ?_⟩
          intro k sub
          rw [hmem]
          simp only [List.not_mem_nil, false_or, Nat.zero_le, true_and]
          constructor
          · rintro ⟨v, hv, hk, hle, hsub⟩
            exact ⟨v, List.mem_of_mem_drop hv, hk, hle, hsub⟩
          · rintro ⟨v, hv, hk, hle, hsub⟩
            exact ⟨v, hall k v hv hk, hk, hle, hsub⟩
        · simp only [hx, if_false, Bool.false_eq_true, Bool.not_false, if_true]
          refine ⟨false, _, [], rfl, ?_⟩
          intro k sub
          simp only [List.not_mem_nil, false_iff, not_exists, not_and]
          intro v hm hk
          exact (hstop (x :: xs) v2 hq (by simp [startsWith, hx]) k v hm hk).elim
  · -- the scan starts at the first key at or after `addr | hgtX(startBlock, 0)`
    simp only [ne_eq, hz, not_false_eq_true, if_true, LDBIter.seekTo, LDBIter.readIterData]
    have hT : bytesLt (DB_PREFIX.SCRIPT.toByte :: addr)
        ((DB_PREFIX.SCRIPT.toByte :: addr) ++ heightAndDupToHgtx startBlock 0) = true :=
      bytesLt_self_append _ _ (by simp [heightAndDupToHgtx, WRITE_UINT32_BE])
    have hwin : ∀ k v, ((DB_PREFIX.SCRIPT.toByte :: addr) ++ k, v) ∈ db → k.length = 4 →
        (bytesLt ((DB_PREFIX.SCRIPT.toByte :: addr) ++ k)
            ((DB_PREFIX.SCRIPT.toByte :: addr) ++ heightAndDupToHgtx startBlock 0) = false ↔
          startBlock ≤ hgtxToHeight k) := by
      intro k v hm hk
      have hbk : ∀ x ∈ k, x < 256 := by
        intro x hx
        exact hbytes _ hm x (List.mem_append_right _ hx)
      rw [bytesLt_append_left]
      have := bytesLt_hgtx_iff k startBlock hk hbk hsb
      constructor
      · intro h1
        by_contra hc
        have := this.mpr (by omega)
        rw [h1] at this
        exact absurd this (by simp)
      · intro h1
        by_contra hc
        have hc' : bytesLt k (heightAndDupToHgtx startBlock 0) = true := by simpa using hc
        have := this.mp hc'
        omega
    cases hq : db[seekGE ((DB_PREFIX.SCRIPT.toByte :: addr) ++
        heightAndDupToHgtx startBlock 0) db]? with
    | none =>
      simp only [Bool.false_eq_true, Bool.not_false, if_true]
      refine ⟨false, _, [], rfl, ?_⟩
      intro k sub
      simp only [List.not_mem_nil, false_iff, not_exists, not_and]
      intro v hm hk hge
      exfalso
      have := mem_drop_seek db _ _ hm ((hwin k v hm hk).mpr hge)
      rw [List.drop_eq_nil_of_le] at this
      · simp at this
      · by_contra hc
        rw [List.getElem?_eq_getElem (by omega)] at hq
        exact absurd hq (by simp)
    | some e =>
      obtain ⟨key, v⟩ := e
      simp only [Bool.not_true, Bool.false_eq_true, if_false]
      have hnlt : bytesLt key
          ((DB_PREFIX.SCRIPT.toByte :: addr) ++ heightAndDupToHgtx startBlock 0) = false := by
        apply seekGE_drop _ db hs (key, v)
        rw [drop_eq_cons db _ _ hq]
        exact List.mem_cons_self _ _
      have hK : bytesLt (DB_PREFIX.SCRIPT.toByte :: addr) key = true := by
        rcases bytesLt_total key
            ((DB_PREFIX.SCRIPT.toByte :: addr) ++ heightAndDupToHgtx startBlock 0)
          with h1 | h1 | h1
        · rw [hnlt] at h1; exact absurd h1 (by simp)
        · rw [h1]; exact hT
        · exact bytesLt_trans _ _ _ hT h1
      obtain ⟨it', m', hloop, hmem⟩ :=
        subHistLoop_spec db addr endBlock hs hbytes hfree (db.length + 1) _
          key v v0 [] hq (by omega) hK (by intro e he; simp at he)
      rw [hloop]
      refine ⟨true, it', m', rfl, ?_⟩
      intro k sub
      rw [hmem]
      simp only [List.not_mem_nil, false_or]
      constructor
      · rintro ⟨v', hv, hk, hle, hsub⟩
        have hm := List.mem_of_mem_drop hv
        refine ⟨v', hm, hk, ?_, hle, hsub⟩
        apply (hwin k v' hm hk).mp
        exact seekGE_drop _ db hs _ hv
      · rintro ⟨v', hv, hk, hge, hle, hsub⟩
        refine ⟨v', ?_, hk, hle, hsub⟩
        exact mem_drop_seek db _ _ hv ((hwin k v' hv hk).mpr hge)

/-- Counterexample to C4: the HISTORY database is in key order and holds the
address [7, 7] with sub-histories at heights 50, 100, 200, and a sub-history
at height 120 of the address [7, 7, 0, 0, 70]. The scan of [7, 7] over the
window (60, 150) returns the row of the other address (under the key of
height 120) next to the one at height 100. -/
theorem getStoredScriptHistory_leak_counterexample :
    dbSorted exStoreHistLeak.history ∧
    getStoredScriptHistory exStoreHistLeak exSsh [7, 7] 60 150 =
      .ok (true,
        { uniqueKey := [7, 7], value := .raw [1],
          subHistMap :=
            [([0, 0, 100, 0], subHistOf [7, 7] [0, 0, 100, 0] (.raw [100])),
             ([0, 0, 120, 0], subHistOf [7, 7, 0, 0, 70] [0, 0, 120, 0] (.raw [66]))] }) := by
  constructor
  · unfold dbSorted
    decide
  · decide

/-- C4 (amended). Let the history database be in key order with byte-valued
keys, let `addr` have an SSH row, let every stored key whose bytes after the
tag start with `addr` be either that SSH row or a SCRIPT key with exactly 4
more bytes (no other stored address, and no row of another family, continues
`addr`), and let `startBlock` be below 2^24. Then `getStoredScriptHistory`
on a script history with an empty `subHistMap` returns, and fills
`subHistMap` with exactly the stored rows `SCRIPT | addr | hgtX` whose decoded
height `h` satisfies `startBlock <= h <= endBlock`, each under its 4-byte
`hgtX`. -/
theorem getStoredScriptHistory_window (s : LMDBBlockDatabase) (addr : Bytes) (v0 : Row)
    (ssh0 : StoredScriptHistory) (startBlock endBlock : Nat)
    (hs : dbSorted (s.db (getDbSelect s.armoryDbType .HISTORY)))
    (hbytes : ∀ e ∈ s.db (getDbSelect s.armoryDbType .HISTORY), ∀ b ∈ e.1, b < 256)
    (hrow : (DB_PREFIX.SCRIPT.toByte :: addr, v0) ∈ s.db (getDbSelect s.armoryDbType .HISTORY))
    (hfree : ∀ e ∈ s.db (getDbSelect s.armoryDbType .HISTORY),
      startsWith (e.1.drop 1) addr = true →
      e.1 = DB_PREFIX.SCRIPT.toByte :: addr ∨
      (e.1.head? = some DB_PREFIX.SCRIPT.toByte ∧ e.1.length = addr.length + 5))
    (hsb : startBlock < 16777216)
    (hempty : ssh0.subHistMap = []) :
    ∃ b m, getStoredScriptHistory s ssh0 addr startBlock endBlock =
        .ok (b, { uniqueKey := addr, value := v0, subHistMap := m }) ∧
      ∀ k sub, (k, sub) ∈ m ↔
        ∃ v, (DB_PREFIX.SCRIPT.toByte :: (addr ++ k), v) ∈
            s.db (getDbSelect s.armoryDbType .HISTORY) ∧
          k.length = 4 ∧ startBlock ≤ hgtxToHeight k ∧ hgtxToHeight k ≤ endBlock ∧
          sub = subHistOf addr k v := by
  obtain ⟨u0, val0, m0⟩ := ssh0
  simp only at hempty
  subst hempty
  obtain ⟨b, it', m', hread, hmem⟩ :=
    readStoredScriptHistoryAtIter_window _ addr v0 val0 u0 startBlock endBlock hs hbytes hrow
      hfree hsb
  unfold getStoredScriptHistory
  simp only [seekToExactP_found s _ addr v0 hs hrow, Bool.not_true, Bool.false_eq_true,
    if_false, hread]
  exact ⟨b, m', rfl, hmem⟩

/-- Witness of C4 (amended): sub-histories at heights 50, 100, 200 and the
window (60, 150). -/
theorem getStoredScriptHistory_window_witness :
    ∃ b m, getStoredScriptHistory exStoreHist exSsh [7, 7] 60 150 =
        .ok (b, { uniqueKey := [7, 7], value := .raw [1], subHistMap := m }) ∧
      ∀ k sub, (k, sub) ∈ m ↔
        ∃ v, (DB_PREFIX.SCRIPT.toByte :: ([7, 7] ++ k), v) ∈
            exStoreHist.db (getDbSelect exStoreHist.armoryDbType .HISTORY) ∧
          k.length = 4 ∧ 60 ≤ hgtxToHeight k ∧ hgtxToHeight k ≤ 150 ∧
          sub = subHistOf [7, 7] k v :=
  getStoredScriptHistory_window exStoreHist [7, 7] (.raw [1]) exSsh 60 150
    (by unfold dbSorted; decide) (by decide) (by decide) (by decide) (by decide) rfl

/-- Scenario S6: sub-histories at heights 50, 100, 200; the window (60, 150)
yields only the one at height 100. -/
theorem getStoredScriptHistory_scenario :
    getStoredScriptHistory exStoreHist exSsh [7, 7] 60 150 =
      .ok (true,
        { uniqueKey := [7, 7], value := .raw [1],
          subHistMap := [([0, 0, 100, 0], subHistOf [7, 7] [0, 0, 100, 0] (.raw [100]))] }) := by
  decide

theorem mem_dbInsert (k : Bytes) (v : Row) (db : DB) (e : Bytes × Row)
    (he : e ∈ dbInsert k v db) : e = (k, v) ∨ e ∈ db := by
  induction db with
  | nil =>
    simp only [dbInsert, List.mem_singleton] at he
    exact Or.inl he
  | cons x rest ih =>
    obtain ⟨k', v'⟩ := x
    unfold dbInsert at he
    by_cases h1 : k = k'
    · rw [if_pos h1] at he
      rcases List.mem_cons.mp he with h | h
      · exact Or.inl h
      · exact Or.inr (List.mem_cons_of_mem _ h)
    · rw [if_neg h1] at he
      by_cases h2 : bytesLt k k' = true
      · rw [if_pos h2] at he
        rcases List.mem_cons.mp he with h | h
        · exact Or.inl h
        · exact Or.inr h
      · rw [if_neg h2] at he
        rcases List.mem_cons.mp he with h | h
        · exact Or.inr (by rw [h]; exact List.mem_cons_self _ _)
        · rcases ih h with h' | h'
          · exact Or.inl h'
          · exact Or.inr (List.mem_cons_of_mem _ h')

/-- `putValue` keeps a sub-database in key order. -/
theorem dbInsert_sorted (k : Bytes) (v : Row) (db : DB) (hs : dbSorted db) :
    dbSorted (dbInsert k v db) := by
  induction db with
  | nil => simp [dbInsert, dbSorted]
  | cons x rest ih =>
    obtain ⟨k', v'⟩ := x
    unfold dbSorted at hs ih ⊢
    rw [List.pairwise_cons] at hs
    unfold dbInsert
    by_cases h1 : k = k'
    · rw [if_pos h1, List.pairwise_cons]
      subst h1
      exact ⟨hs.1, hs.2⟩
    · rw [if_neg h1]
      by_cases h2 : bytesLt k k' = true
      · rw [if_pos h2, List.pairwise_cons, List.pairwise_cons]
        refine ⟨?_, hs.1, hs.2⟩
        intro e he
        rcases List.mem_cons.mp he with h | h
        · rw [h]; exact h2
        · exact bytesLt_trans _ _ _ h2 (hs.1 e h)
      · rw [if_neg h2, List.pairwise_cons]
        refine ⟨?_, ih hs.2⟩
        intro e he
        rcases mem_dbInsert k v rest e he with h | h
        · rw [h]
          rcases bytesLt_total k k' with h3 | h3 | h3
          · exact absurd h3 h2
          · exact absurd h3 h1
          · exact h3
        · exact hs.1 e h

/-! ## The dirty flag and the cached row -/

theorem readIterData_fst (it : LDBIter) :
    it.readIterData.1 = it.isValid := by
  unfold LDBIter.readIterData LDBIter.isValid
  cases h : it.db[it.pos]? with
  | none =>
    have := List.getElem?_eq_none_iff.mp h
    simp only
    symm
    simp only [decide_eq_false_iff_not, not_lt]
    exact this
  | some e =>
    obtain ⟨k, v⟩ := e
    have := (List.getElem?_eq_some_iff.mp h).1
    simp only
    symm
    simp only [decide_eq_true_eq]
    exact this

theorem readIterData_some (it : LDBIter) (k : Bytes) (v : Row)
    (h : it.db[it.pos]? = some (k, v)) :
    it.readIterData = (true, { it with currKey := k, currValue := v, isDirty := false }) := by
  unfold LDBIter.readIterData
  rw [h]

theorem readIterData_none (it : LDBIter) (h : it.db[it.pos]? = none) :
    it.readIterData = (false, { it with isDirty := true }) := by
  unfold LDBIter.readIterData
  rw [h]

/-- The cache of a traced cursor is the last row read, whatever the flag. -/
theorem Traced_cache (it : LDBIter) (last : Option (Bytes × Row)) (ht : Traced it last) :
    it.currKey = (last.map Prod.fst).getD [] ∧
    it.currValue = (last.map Prod.snd).getD (.raw []) ∧
    (it.isDirty = false → last.isSome = true) := by
  induction ht with
  | fresh db pos => simp
  | read it it' last k v _ hrow hr ih =>
    rw [readIterData_some it k v hrow] at hr
    simp only [Prod.mk.injEq, true_and] at hr
    subst hr
    simp
  | failedRead it it' last _ hr ih =>
    cases hrow : it.db[it.pos]? with
    | none =>
      rw [readIterData_none it hrow] at hr
      simp only [Prod.mk.injEq, true_and] at hr
      subst hr
      exact ⟨ih.1, ih.2.1, fun h => absurd h (by simp)⟩
    | some e =>
      obtain ⟨k, v⟩ := e
      rw [readIterData_some it k v hrow] at hr
      simp at hr
  | move it last db pos _ ih => exact ⟨ih.1, ih.2.1, fun h => absurd h (by simp)⟩
  | reseat it last db pos _ ih => exact ⟨ih.1, ih.2.1, ih.2.2⟩

/-- A read keeps a cursor traced. -/
theorem Traced_readIterData (it : LDBIter) (last : Option (Bytes × Row))
    (ht : Traced it last) : ∃ last', Traced it.readIterData.2 last' := by
  cases hrow : it.db[it.pos]? with
  | none =>
    exact ⟨last, Traced.failedRead it _ last ht (by rw [readIterData_none it hrow])⟩
  | some e =>
    obtain ⟨k, v⟩ := e
    exact ⟨some (k, v), Traced.read it _ last k v ht hrow (by rw [readIterData_some it k v hrow])⟩

/-- Every cursor method keeps a cursor traced: each is a composition of the
steps of `Traced`. -/
theorem Traced_methods (it : LDBIter) (last : Option (Bytes × Row)) (ht : Traced it last)
    (key : Bytes) (p : DB_PREFIX) :
    (∃ l, Traced it.advance.2 l) ∧ (∃ l, Traced it.retreat.2 l) ∧
    (∃ l, Traced (it.advanceP p).2 l) ∧ (∃ l, Traced it.advanceAndRead.2 l) ∧
    (∃ l, Traced (it.advanceAndReadP p).2 l) ∧ (∃ l, Traced (it.seekTo key).2 l) ∧
    (∃ l, Traced (it.seekToBefore key).2 l) ∧ (∃ l, Traced it.seekToFirst.2 l) ∧
    (∃ l, Traced (it.checkKeyExact key).2 l) ∧ (∃ l, Traced (it.checkKeyStartsWith key).2 l) ∧
    (∃ l, Traced (it.seekToExact key).2 l) ∧ (∃ l, Traced (it.seekToStartsWith key).2 l) ∧
    (∃ l, Traced (it.verifyPrefix p).2 l) := by
  have hadv : Traced it.advance.2 last := Traced.move it last it.db _ ht
  have hadvP : Traced (it.advanceP p).2 last := Traced.move it last it.db _ ht
  have hseek : ∃ l, Traced (it.seekTo key).2 l :=
    Traced_readIterData _ last (Traced.reseat it last it.db _ ht)
  have hchk : ∀ (c : LDBIter) (lc : Option (Bytes × Row)), Traced c lc →
      (∃ l, Traced (c.checkKeyExact key).2 l) ∧ (∃ l, Traced (c.checkKeyStartsWith key).2 l) := by
    intro c lc hc
    obtain ⟨l', hl'⟩ := Traced_readIterData c lc hc
    constructor
    · unfold LDBIter.checkKeyExact
      by_cases hd : c.isDirty = true
      · rw [if_pos hd]
        by_cases hr : c.readIterData.1 = true
        · simp only [hr, Bool.not_true, Bool.false_eq_true, if_false]
          exact ⟨l', hl'⟩
        · simp only [hr, Bool.not_false, if_true]
          exact ⟨l', hl'⟩
      · rw [if_neg hd]
        exact ⟨lc, hc⟩
    · unfold LDBIter.checkKeyStartsWith
      by_cases hd : c.isDirty = true
      · rw [if_pos hd]
        by_cases hr : c.readIterData.1 = true
        · simp only [hr, Bool.not_true, Bool.false_eq_true, if_false]
          exact ⟨l', hl'⟩
        · simp only [hr, Bool.not_false, if_true]
          exact ⟨l', hl'⟩
      · rw [if_neg hd]
        exact ⟨lc, hc⟩
  refine ⟨⟨last, hadv⟩, ⟨last, Traced.move it last it.db _ ht⟩, ⟨last, hadvP⟩, ?_, ?_, hseek,
    Traced_readIterData _ last (Traced.reseat it last it.db _ ht),
    Traced_readIterData _ last (Traced.reseat it last it.db _ ht),
    (hchk it last ht).1, (hchk it last ht).2, ?_, ?_, ?_⟩
  · unfold LDBIter.advanceAndRead
    by_cases hr : it.advance.1 = true
    · simp only [hr, Bool.not_true, Bool.false_eq_true, if_false]
      exact Traced_readIterData _ last hadv
    · simp only [hr, Bool.not_false, if_true]
      exact ⟨last, hadv⟩
  · unfold LDBIter.advanceAndReadP
    by_cases hr : (it.advanceP p).1 = true
    · simp only [hr, Bool.not_true, Bool.false_eq_true, if_false]
      exact Traced_readIterData _ last hadvP
    · simp only [hr, Bool.not_false, if_true]
      exact ⟨last, hadvP⟩
  · obtain ⟨l, hl⟩ := hseek
    unfold LDBIter.seekToExact
    by_cases hr : (it.seekTo key).1 = true
    · simp only [hr, Bool.not_true, Bool.false_eq_true, if_false]
      exact (hchk _ l hl).1
    · simp only [hr, Bool.not_false, if_true]
      exact ⟨l, hl⟩
  · obtain ⟨l, hl⟩ := hseek
    unfold LDBIter.seekToStartsWith
    by_cases hr : (it.seekTo key).1 = true
    · simp only [hr, Bool.not_true, Bool.false_eq_true, if_false]
      exact (hchk _ l hl).2
    · simp only [hr, Bool.not_false, if_true]
      exact ⟨l, hl⟩
  · obtain ⟨l', hl'⟩ := Traced_readIterData it last ht
    unfold LDBIter.verifyPrefix
    by_cases hd : it.isDirty = true
    · simp only [hd, if_true]
      by_cases hr : it.readIterData.1 = true
      · simp only [hr, Bool.not_true, Bool.false_eq_true, if_false]
        split <;> exact ⟨l', hl'⟩
      · simp only [hr, Bool.not_false, if_true]
        exact ⟨l', hl'⟩
    · simp only [hd, Bool.false_eq_true, if_false, Bool.not_true]
      split <;> exact ⟨last, ht⟩

/-- C14. For every cursor state whose dirty flag is set, `getKey`, `getValue`,
`getKeyRef` and `getValueRef` each return the empty byte string; for every
cursor state reached from a fresh cursor by the cursor's steps whose flag is
clear, a read has succeeded and the four return exactly the key and the value
materialized by the last successful `readIterData`. -/
theorem accessors_dirty_or_last_read (it : LDBIter) :
    (it.isDirty = true →
      it.getKey = [] ∧ it.getValue = .raw [] ∧ it.getKeyRef = [] ∧ it.getValueRef = .raw []) ∧
    (∀ last, Traced it last → it.isDirty = false →
      ∃ k v, last = some (k, v) ∧
        it.getKey = k ∧ it.getValue = v ∧ it.getKeyRef = k ∧ it.getValueRef = v) := by
  constructor
  · intro hd
    simp [LDBIter.getKey, LDBIter.getValue, LDBIter.getKeyRef, LDBIter.getValueRef, hd]
  · intro last ht hd
    obtain ⟨hk, hv, hsome⟩ := Traced_cache it last ht
    cases last with
    | none => exact absurd (hsome hd) (by simp)
    | some e =>
      obtain ⟨k, v⟩ := e
      refine ⟨k, v, rfl, ?_⟩
      simp only [Option.map_some', Option.getD_some] at hk hv
      simp [LDBIter.getKey, LDBIter.getValue, LDBIter.getKeyRef, LDBIter.getValueRef, hd, hk, hv]

/-- Witness of C14: the cursor moved by `advance()` is dirty and answers
empty; the cursor right after `seekTo` of [5, 7, 7] is clean and answers the
row it read. -/
theorem accessors_dirty_or_last_read_witness :
    (exCursorMoved.getKey = [] ∧ exCursorMoved.getValue = .raw [] ∧
      exCursorMoved.getKeyRef = [] ∧ exCursorMoved.getValueRef = .raw []) ∧
    (∃ k v, some (([5, 7, 7] : Bytes), Row.raw [1]) = some (k, v) ∧
      exCursorRead.getKey = k ∧ exCursorRead.getValue = v ∧
      exCursorRead.getKeyRef = k ∧ exCursorRead.getValueRef = v) :=
  ⟨(accessors_dirty_or_last_read exCursorMoved).1 rfl,
   (accessors_dirty_or_last_read exCursorRead).2 (some ([5, 7, 7], .raw [1]))
     (Traced.read { db := exStoreHist.history, pos := 0, isDirty := true, currKey := [],
                    currValue := .raw [] } exCursorRead none [5, 7, 7] (.raw [1])
        (Traced.fresh exStoreHist.history 0) rfl rfl) rfl⟩

/-! ## Positional moves -/

/-- The flag and the accessors after a read at any position. -/
theorem readIterData_flag (it : LDBIter) :
    (it.readIterData.2.isDirty = true ↔ it.readIterData.2.isValid = false) ∧
    (it.readIterData.2.isDirty = true →
      it.readIterData.1 = false ∧ it.readIterData.2.getKeyRef = [] ∧
      it.readIterData.2.getValueRef = .raw []) ∧
    (it.readIterData.2.isDirty = false →
      it.readIterData.1 = true ∧
      ∃ k v, it.readIterData.2.db[it.readIterData.2.pos]? = some (k, v) ∧
        it.readIterData.2.getKeyRef = k ∧ it.readIterData.2.getValueRef = v) := by
  cases hrow : it.db[it.pos]? with
  | none =>
    rw [readIterData_none it hrow]
    have hlen := List.getElem?_eq_none_iff.mp hrow
    simp only [LDBIter.isValid, LDBIter.getKeyRef, LDBIter.getValueRef, if_true,
      decide_eq_false_iff_not, not_lt, true_iff, and_self, implies_true, true_and]
    exact ⟨hlen, fun h => absurd h (by simp)⟩
  | some e =>
    obtain ⟨k, v⟩ := e
    rw [readIterData_some it k v hrow]
    have hlen := (List.getElem?_eq_some_iff.mp hrow).1
    refine ⟨?_, fun h => absurd h (by simp), fun _ => ⟨rfl, k, v, hrow, ?_, ?_⟩⟩
    · simp only [LDBIter.isValid, Bool.false_eq_true, decide_eq_false_iff_not, not_lt,
        false_iff, not_le]
      exact hlen
    · simp [LDBIter.getKeyRef]
    · simp [LDBIter.getValueRef]

/-- A key check after a read that succeeded leaves the cursor as it is. -/
theorem check_after_read (it : LDBIter) (key : Bytes) (h : it.readIterData.1 = true) :
    (it.readIterData.2.checkKeyExact key).2 = it.readIterData.2 ∧
    (it.readIterData.2.checkKeyStartsWith key).2 = it.readIterData.2 := by
  cases hrow : it.db[it.pos]? with
  | none =>
    rw [readIterData_none it hrow] at h
    simp at h
  | some e =>
    obtain ⟨k, v⟩ := e
    rw [readIterData_some it k v hrow]
    simp [LDBIter.checkKeyExact, LDBIter.checkKeyStartsWith]

/-- The cursor left by `seekToExact` and `seekToStartsWith` is the one left by
the `seekTo` they start with. -/
theorem seekToExact_cursor (it : LDBIter) (key : Bytes) :
    (it.seekToExact key).2 = (it.seekTo key).2 ∧
    (it.seekToStartsWith key).2 = (it.seekTo key).2 := by
  unfold LDBIter.seekToExact LDBIter.seekToStartsWith
  by_cases hr : (it.seekTo key).1 = true
  · simp only [hr, Bool.not_true, Bool.false_eq_true, if_false]
    unfold LDBIter.seekTo at hr ⊢
    exact check_after_read _ key hr
  · simp only [hr, Bool.not_false, if_true, and_self]

/-- Counterexample to C15 as stated: right after `seekTo` of a key that is in
the database, with no `readIterData` call by the caller, the dirty flag is
clear and `getKeyRef` / `getValueRef` return the row, not the empty
reference (and likewise after `seekToExact`, `seekToStartsWith` and
`seekToBefore`). -/
theorem seekTo_clean_counterexample :
    ((getIterator exStoreHist .HISTORY).seekTo [5, 7, 7]).2.isDirty = false ∧
    ((getIterator exStoreHist .HISTORY).seekTo [5, 7, 7]).2.getKeyRef = [5, 7, 7] ∧
    ((getIterator exStoreHist .HISTORY).seekTo [5, 7, 7]).2.getValueRef = .raw [1] ∧
    ((getIterator exStoreHist .HISTORY).seekToExact [5, 7, 7]).2.isDirty = false ∧
    ((getIterator exStoreHist .HISTORY).seekToStartsWith [5, 7]).2.getKeyRef = [5, 7, 7] ∧
    ((getIterator exStoreHist .HISTORY).seekToBefore [5, 7, 8]).2.getKeyRef =
      [5, 7, 7, 0, 0, 200, 0] := by
  refine ⟨rfl, rfl, rfl, rfl, rfl, rfl⟩

/-- C15, amended. `advance()`, `retreat()` and `advance(prefix)` leave the
cursor dirty, so `getKeyRef` / `getValueRef` return the empty reference.
`seekTo`, `seekToExact`, `seekToStartsWith` and `seekToBefore` end with a read:
they leave the cursor dirty exactly when the engine iterator ended on no row
(then they answer false and the references are empty); otherwise the cursor
is clean and `getKeyRef` / `getValueRef` return the key and value of the row
the iterator is on. -/
theorem positional_move_flag (it : LDBIter) (key : Bytes) (p : DB_PREFIX) :
    (∀ c, (c = it.advance.2 ∨ c = it.retreat.2 ∨ c = (it.advanceP p).2) →
      c.isDirty = true ∧ c.getKeyRef = [] ∧ c.getValueRef = .raw []) ∧
    (∀ r, (r = it.seekTo key ∨ r = it.seekToExact key ∨ r = it.seekToStartsWith key ∨
           r = it.seekToBefore key) →
      (r.2.isDirty = true ↔ r.2.isValid = false) ∧
      (r.2.isDirty = true → r.1 = false ∧ r.2.getKeyRef = [] ∧ r.2.getValueRef = .raw []) ∧
      (r.2.isDirty = false →
        ∃ k v, r.2.db[r.2.pos]? = some (k, v) ∧ r.2.getKeyRef = k ∧ r.2.getValueRef = v)) := by
  constructor
  · intro c hc
    rcases hc with h | h | h <;> subst h <;>
      simp [LDBIter.advance, LDBIter.retreat, LDBIter.advanceP, LDBIter.getKeyRef,
        LDBIter.getValueRef]
  · intro r hr
    have hseek := readIterData_flag { it with pos := seekGE key it.db }
    have hbefore := readIterData_flag { it with pos := seekLE key it.db }
    have hcur := seekToExact_cursor it key
    rcases hr with h | h | h | h
    · subst h
      exact ⟨hseek.1, hseek.2.1, fun hd => (hseek.2.2 hd).2⟩
    · subst h
      rw [hcur.1]
      refine ⟨hseek.1, ?_, fun hd => (hseek.2.2 hd).2⟩
      intro hd
      have h1 := hseek.2.1 hd
      refine ⟨?_, h1.2⟩
      unfold LDBIter.seekToExact
      have : (it.seekTo key).1 = false := h1.1
      simp [this]
    · subst h
      rw [hcur.2]
      refine ⟨hseek.1, ?_, fun hd => (hseek.2.2 hd).2⟩
      intro hd
      have h1 := hseek.2.1 hd
      refine ⟨?_, h1.2⟩
      unfold LDBIter.seekToStartsWith
      have : (it.seekTo key).1 = false := h1.1
      simp [this]
    · subst h
      exact ⟨hbefore.1, hbefore.2.1, fun hd => (hbefore.2.2 hd).2⟩

/-- Witness of C15, amended: on the HISTORY database of `exStoreHist`,
`advance()` leaves the cursor dirty; `seekTo` of a key above every row leaves
it dirty and `seekTo` of a stored key leaves it clean on that row. -/
theorem positional_move_flag_witness :
    (exCursorMoved.isDirty = true ∧ exCursorMoved.getKeyRef = [] ∧
      exCursorMoved.getValueRef = .raw []) ∧
    (((getIterator exStoreHist .HISTORY).seekTo [5, 7, 7]).2.isDirty = true ↔
      ((getIterator exStoreHist .HISTORY).seekTo [5, 7, 7]).2.isValid = false) ∧
    (((getIterator exStoreHist .HISTORY).seekTo [9]).2.isDirty = true →
      ((getIterator exStoreHist .HISTORY).seekTo [9]).1 = false ∧
      ((getIterator exStoreHist .HISTORY).seekTo [9]).2.getKeyRef = [] ∧
      ((getIterator exStoreHist .HISTORY).seekTo [9]).2.getValueRef = .raw []) :=
  ⟨(positional_move_flag exCursorRead [] .SCRIPT).1 exCursorMoved (Or.inl rfl),
   ((positional_move_flag (getIterator exStoreHist .HISTORY) [5, 7, 7] .SCRIPT).2 _
      (Or.inl rfl)).1,
   ((positional_move_flag (getIterator exStoreHist .HISTORY) [9] .SCRIPT).2 _
      (Or.inl rfl)).2.1⟩

/-! ## The typed readers -/

/-- Counterexample to C16 as stated: the cursor moved by `advance()` after a
read is dirty, and its key and value readers are still over the key and the
value cached by that read, not over zero bytes. -/
theorem getKeyReader_dirty_counterexample :
    exCursorMoved.isDirty = true ∧
    exCursorMoved.getKeyReader = [5, 7, 7] ∧ exCursorMoved.getValueReader = .raw [1] := by
  refine ⟨rfl, rfl, rfl⟩

/-- C16, amended. `getKeyReader()` and `getValueReader()` return the cached
readers whatever the dirty flag (a dirty cursor only logs): for every cursor
state reached from a fresh cursor by the cursor's steps, the readers are over
the key and the value materialized by the last successful `readIterData`, and
over zero bytes only while no read has succeeded. -/
theorem getKeyReader_last_read (it : LDBIter) (last : Option (Bytes × Row))
    (ht : Traced it last) :
    it.getKeyReader = (last.map Prod.fst).getD [] ∧
    it.getValueReader = (last.map Prod.snd).getD (.raw []) := by
  obtain ⟨hk, hv, _⟩ := Traced_cache it last ht
  exact ⟨hk, hv⟩

/-- Witness of C16, amended: the dirty cursor `exCursorMoved`, whose last
read was the row [5, 7, 7]. -/
theorem getKeyReader_last_read_witness :
    exCursorMoved.getKeyReader = ((some (([5, 7, 7] : Bytes), Row.raw [1])).map Prod.fst).getD [] ∧
    exCursorMoved.getValueReader =
      ((some (([5, 7, 7] : Bytes), Row.raw [1])).map Prod.snd).getD (.raw []) :=
  getKeyReader_last_read exCursorMoved (some ([5, 7, 7], .raw [1]))
    (Traced.move exCursorRead (some ([5, 7, 7], .raw [1])) exStoreHist.history 1
      (Traced.read { db := exStoreHist.history, pos := 0, isDirty := true, currKey := [],
                     currValue := .raw [] } exCursorRead none [5, 7, 7] (.raw [1])
        (Traced.fresh exStoreHist.history 0) rfl rfl))

/-! ## Exact and prefix seeks in sorted rows -/

theorem mem_of_dbGet (k : Bytes) (v : Row) (db : DB) (h : dbGet k db = some v) :
    (k, v) ∈ db := by
  induction db with
  | nil => simp [dbGet] at h
  | cons e rest ih =>
    obtain ⟨k', v'⟩ := e
    unfold dbGet at h
    by_cases hk : k = k'
    · rw [if_pos hk] at h
      simp only [Option.some.injEq] at h
      rw [hk, h]
      exact List.mem_cons_self _ _
    · rw [if_neg hk] at h
      exact List.mem_cons_of_mem _ (ih h)

theorem dbGet_of_mem_sorted (k : Bytes) (v : Row) (db : DB) (hs : dbSorted db)
    (h : (k, v) ∈ db) : dbGet k db = some v := by
  induction db with
  | nil => simp at h
  | cons e rest ih =>
    obtain ⟨k', v'⟩ := e
    unfold dbSorted at hs ih
    rw [List.pairwise_cons] at hs
    unfold dbGet
    rcases List.mem_cons.mp h with h1 | h1
    · simp only [Prod.mk.injEq] at h1
      rw [if_pos h1.1, h1.2]
    · have hlt := hs.1 (k, v) h1
      have hne : k ≠ k' := by
        intro e
        rw [e] at hlt
        simp only [bytesLt_irrefl] at hlt
        exact absurd hlt (by simp)
      rw [if_neg hne]
      exact ih hs.2 h1

/-- The row `seekTo` lands on: the first one whose key is not below the
target. -/
theorem seekTo_eq (it : LDBIter) (key : Bytes) :
    it.seekTo key =
      match it.db[seekGE key it.db]? with
      | none => (false, { it with pos := seekGE key it.db, isDirty := true })
      | some (k, v) =>
        (true, { it with pos := seekGE key it.db, currKey := k, currValue := v,
                         isDirty := false }) := by
  unfold LDBIter.seekTo LDBIter.readIterData
  rfl

theorem seekGE_row_ge (key : Bytes) (db : DB) (hs : dbSorted db) (k : Bytes) (v : Row)
    (h : db[seekGE key db]? = some (k, v)) : bytesLt k key = false := by
  have hmem : (k, v) ∈ db.drop (seekGE key db) := by
    rw [drop_eq_cons db _ _ h]
    exact List.mem_cons_self _ _
  exact seekGE_drop key db hs (k, v) hmem

theorem seekToExact_spec (it : LDBIter) (key : Bytes) (hs : dbSorted it.db) :
    ((it.seekToExact key).1 = true ↔ ∃ v, (key, v) ∈ it.db) ∧
    ((it.seekToExact key).1 = true →
      (it.seekToExact key).2.isDirty = false ∧ (it.seekToExact key).2.currKey = key ∧
      dbGet key it.db = some (it.seekToExact key).2.currValue ∧
      (it.seekToExact key).2.getKeyRef = key ∧
      (it.seekToExact key).2.getValueRef = (it.seekToExact key).2.currValue) := by
  unfold LDBIter.seekToExact
  rw [seekTo_eq]
  cases hrow : it.db[seekGE key it.db]? with
  | none =>
    simp only [Bool.not_false, if_true, Bool.false_eq_true, false_iff, not_exists,
      false_implies, and_true]
    intro v hv
    have := seekGE_exact key v it.db hs hv
    rw [hrow] at this
    exact absurd this (by simp)
  | some e =>
    obtain ⟨k, v⟩ := e
    simp only [Bool.not_true, Bool.false_eq_true, if_false, LDBIter.checkKeyExact,
      decide_eq_true_eq, LDBIter.getKeyRef, LDBIter.getValueRef]
    have hmem : (k, v) ∈ it.db := List.mem_iff_getElem?.mpr ⟨_, hrow⟩
    constructor
    · constructor
      · intro h
        exact ⟨v, by rw [h]; exact hmem⟩
      · intro ⟨v', hv'⟩
        have := seekGE_exact key v' it.db hs hv'
        rw [hrow] at this
        simp only [Option.some.injEq, Prod.mk.injEq] at this
        exact this.1.symm
    · intro h
      refine ⟨trivial, h.symm, ?_, h.symm, trivial⟩
      rw [h]
      exact dbGet_of_mem_sorted k v it.db hs hmem

theorem seekToExactP_eq (it : LDBIter) (p : DB_PREFIX) (key : Bytes) :
    it.seekToExactP p key = it.seekToExact (p.toByte :: key) := rfl

/-- C17. For every database content in byte-wise key order and every key k,
`seekToExact(k)` returns true if and only if k is a key of the database, and
`seekToExact(prefix, k)` returns true if and only if the tag byte followed by
k is a key of the database; when either returns true the cursor is clean and
its cached key and value are that key and the value stored under it. -/
theorem seekToExact_iff_key (it : LDBIter) (k : Bytes) (p : DB_PREFIX)
    (hs : dbSorted it.db) :
    (((it.seekToExact k).1 = true ↔ ∃ v, dbGet k it.db = some v) ∧
     ((it.seekToExact k).1 = true →
       (it.seekToExact k).2.isDirty = false ∧ (it.seekToExact k).2.currKey = k ∧
       dbGet k it.db = some (it.seekToExact k).2.currValue ∧
       (it.seekToExact k).2.getKeyRef = k ∧
       (it.seekToExact k).2.getValueRef = (it.seekToExact k).2.currValue)) ∧
    (((it.seekToExactP p k).1 = true ↔ ∃ v, dbGet (p.toByte :: k) it.db = some v) ∧
     ((it.seekToExactP p k).1 = true →
       (it.seekToExactP p k).2.isDirty = false ∧
       (it.seekToExactP p k).2.currKey = p.toByte :: k ∧
       dbGet (p.toByte :: k) it.db = some (it.seekToExactP p k).2.currValue ∧
       (it.seekToExactP p k).2.getKeyRef = p.toByte :: k ∧
       (it.seekToExactP p k).2.getValueRef = (it.seekToExactP p k).2.currValue)) := by
  have hmem : ∀ key, (∃ v, (key, v) ∈ it.db) ↔ ∃ v, dbGet key it.db = some v := by
    intro key
    constructor
    · intro ⟨v, hv⟩
      exact ⟨v, dbGet_of_mem_sorted key v it.db hs hv⟩
    · intro ⟨v, hv⟩
      exact ⟨v, mem_of_dbGet key v it.db hv⟩
  have h1 := seekToExact_spec it k hs
  have h2 := seekToExact_spec it (p.toByte :: k) hs
  rw [hmem] at h1 h2
  rw [seekToExactP_eq]
  exact ⟨h1, h2⟩

/-- Witness of C17: the HISTORY database of `exStoreHist`, the key of the
script history of [7, 7], with and without the tag split off. -/
theorem seekToExact_iff_key_witness :
    (((getIterator exStoreHist .HISTORY).seekToExact [5, 7, 7]).1 = true ↔
        ∃ v, dbGet [5, 7, 7] (getIterator exStoreHist .HISTORY).db = some v) ∧
    (((getIterator exStoreHist .HISTORY).seekToExactP .SCRIPT [7, 7]).1 = true →
       ((getIterator exStoreHist .HISTORY).seekToExactP .SCRIPT [7, 7]).2.isDirty = false ∧
       ((getIterator exStoreHist .HISTORY).seekToExactP .SCRIPT [7, 7]).2.currKey =
         DB_PREFIX.SCRIPT.toByte :: [7, 7] ∧
       dbGet (DB_PREFIX.SCRIPT.toByte :: [7, 7]) (getIterator exStoreHist .HISTORY).db =
         some ((getIterator exStoreHist .HISTORY).seekToExactP .SCRIPT [7, 7]).2.currValue ∧
       ((getIterator exStoreHist .HISTORY).seekToExactP .SCRIPT [7, 7]).2.getKeyRef =
         DB_PREFIX.SCRIPT.toByte :: [7, 7] ∧
       ((getIterator exStoreHist .HISTORY).seekToExactP .SCRIPT [7, 7]).2.getValueRef =
         ((getIterator exStoreHist .HISTORY).seekToExactP .SCRIPT [7, 7]).2.currValue) :=
  ⟨(seekToExact_iff_key (getIterator exStoreHist .HISTORY) [5, 7, 7] .SCRIPT (by
      simp [dbSorted, getIterator, LMDBBlockDatabase.db, exStoreHist, bytesLt])).1.1,
   (seekToExact_iff_key (getIterator exStoreHist .HISTORY) [7, 7] .SCRIPT (by
      simp [dbSorted, getIterator, LMDBBlockDatabase.db, exStoreHist, bytesLt])).2.2⟩

theorem startsWith_self_append (p r : Bytes) : startsWith (p ++ r) p = true :=
  (startsWith_iff _ _).mpr ⟨r, rfl⟩

theorem bytesLt_prefix_or_eq (p r : Bytes) : p ++ r = p ∨ bytesLt p (p ++ r) = true := by
  cases r with
  | nil => left; simp
  | cons x xs => right; exact bytesLt_self_append p (x :: xs) (by simp)

theorem seekToStartsWith_spec (it : LDBIter) (key : Bytes) (hs : dbSorted it.db) :
    ((it.seekToStartsWith key).1 = true ↔ ∃ e ∈ it.db, startsWith e.1 key = true) ∧
    ((it.seekToStartsWith key).1 = true →
      (it.seekToStartsWith key).2.isDirty = false ∧
      (it.seekToStartsWith key).2.db[(it.seekToStartsWith key).2.pos]? =
        some ((it.seekToStartsWith key).2.currKey, (it.seekToStartsWith key).2.currValue) ∧
      startsWith (it.seekToStartsWith key).2.currKey key = true ∧
      (∀ e ∈ it.db, startsWith e.1 key = true →
        e.1 = (it.seekToStartsWith key).2.currKey ∨
        bytesLt (it.seekToStartsWith key).2.currKey e.1 = true) ∧
      (it.seekToStartsWith key).2.getKeyRef = (it.seekToStartsWith key).2.currKey ∧
      (it.seekToStartsWith key).2.getValueRef = (it.seekToStartsWith key).2.currValue) := by
  -- every row with the prefix is at or after the landing position
  have hdrop : ∀ e ∈ it.db, startsWith e.1 key = true → e ∈ it.db.drop (seekGE key it.db) := by
    intro e he hsw
    obtain ⟨r, hr⟩ := (startsWith_iff _ _).mp hsw
    apply mem_drop_seek it.db key e he
    rcases bytesLt_prefix_or_eq key r with h | h
    · rw [hr, h]
      exact bytesLt_irrefl key
    · rw [← hr] at h
      cases hlt : bytesLt e.1 key with
      | false => rfl
      | true =>
        have := bytesLt_trans _ _ _ hlt h
        rw [bytesLt_irrefl] at this
        exact absurd this (by simp)
  unfold LDBIter.seekToStartsWith
  rw [seekTo_eq]
  cases hrow : it.db[seekGE key it.db]? with
  | none =>
    simp only [Bool.not_false, if_true, Bool.false_eq_true, false_iff, not_exists, not_and,
      false_implies, and_true]
    intro e he hsw
    have := hdrop e he hsw
    have hlen := List.getElem?_eq_none_iff.mp hrow
    rw [List.drop_eq_nil_of_le hlen] at this
    exact absurd this (by simp)
  | some e0 =>
    obtain ⟨k, v⟩ := e0
    simp only [Bool.not_true, Bool.false_eq_true, if_false, LDBIter.checkKeyStartsWith,
      LDBIter.getKeyRef, LDBIter.getValueRef]
    have hmem : (k, v) ∈ it.db := List.mem_iff_getElem?.mpr ⟨_, hrow⟩
    have hge : bytesLt k key = false := seekGE_row_ge key it.db hs k v hrow
    -- a row with the prefix is the landing row or above it
    have hmin : ∀ e ∈ it.db, startsWith e.1 key = true → e.1 = k ∨ bytesLt k e.1 = true := by
      intro e he hsw
      have h1 := hdrop e he hsw
      rw [drop_eq_cons it.db _ _ hrow] at h1
      rcases List.mem_cons.mp h1 with h2 | h2
      · left; rw [h2]
      · right; exact sorted_drop_gt it.db hs _ k v hrow e h2
    constructor
    · constructor
      · intro h
        exact ⟨(k, v), hmem, h⟩
      · intro ⟨e, he, hsw⟩
        obtain ⟨r, hr⟩ := (startsWith_iff _ _).mp hsw
        rcases hmin e he hsw with h1 | h1
        · rw [← h1]; exact hsw
        · rcases bytesLt_total key k with h2 | h2 | h2
          · rw [hr] at h1
            exact startsWith_of_between key k r h2 h1
          · rw [← h2]
            exact (startsWith_iff _ _).mpr ⟨[], by simp⟩
          · rw [hge] at h2
            exact absurd h2 (by simp)
    · intro h
      exact ⟨trivial, hrow, h, hmin, trivial, trivial⟩

theorem seekToStartsWithP_eq (it : LDBIter) (p : DB_PREFIX) (key : Bytes) :
    it.seekToStartsWithP p key = it.seekToStartsWith (p.toByte :: key) := rfl

theorem seekToStartsWithTag_eq (it : LDBIter) (p : DB_PREFIX) :
    it.seekToStartsWithTag p = it.seekToStartsWith [p.toByte] := rfl

/-- C18. For every database content in byte-wise key order and every byte
string (a bare prefix tag, a prefix tag followed by a key, or any key bytes),
`seekToStartsWith` returns true if and only if at least one database key
begins with it, and when it returns true the cursor is positioned, clean, on
the smallest database key that begins with it. -/
theorem seekToStartsWith_smallest (it : LDBIter) (key : Bytes) (p : DB_PREFIX)
    (hs : dbSorted it.db) :
    ∀ r q, ((r = it.seekToStartsWith key ∧ q = key) ∨
            (r = it.seekToStartsWithTag p ∧ q = [p.toByte]) ∨
            (r = it.seekToStartsWithP p key ∧ q = p.toByte :: key)) →
      (r.1 = true ↔ ∃ e ∈ it.db, startsWith e.1 q = true) ∧
      (r.1 = true →
        r.2.isDirty = false ∧
        r.2.db[r.2.pos]? = some (r.2.currKey, r.2.currValue) ∧
        startsWith r.2.currKey q = true ∧
        (∀ e ∈ it.db, startsWith e.1 q = true →
          e.1 = r.2.currKey ∨ bytesLt r.2.currKey e.1 = true) ∧
        r.2.getKeyRef = r.2.currKey ∧ r.2.getValueRef = r.2.currValue) := by
  intro r q h
  rcases h with ⟨h1, h2⟩ | ⟨h1, h2⟩ | ⟨h1, h2⟩
  · rw [h1, h2]
    exact seekToStartsWith_spec it key hs
  · rw [h1, h2, seekToStartsWithTag_eq]
    exact seekToStartsWith_spec it [p.toByte] hs
  · rw [h1, h2, seekToStartsWithP_eq]
    exact seekToStartsWith_spec it (p.toByte :: key) hs

/-- Witness of C18: on the HISTORY database of `exStoreHist`, the smallest
key that begins with SCRIPT | 7 is the script-history key [5, 7, 7]. -/
theorem seekToStartsWith_smallest_witness :
    (((getIterator exStoreHist .HISTORY).seekToStartsWithP .SCRIPT [7]).1 = true ↔
      ∃ e ∈ (getIterator exStoreHist .HISTORY).db,
        startsWith e.1 (DB_PREFIX.SCRIPT.toByte :: [7]) = true) ∧
    ((getIterator exStoreHist .HISTORY).seekToStartsWithP .SCRIPT [7]).1 = true ∧
    ((getIterator exStoreHist .HISTORY).seekToStartsWithP .SCRIPT [7]).2.currKey = [5, 7, 7] :=
  ⟨((seekToStartsWith_smallest (getIterator exStoreHist .HISTORY) [7] .SCRIPT (by
      simp [dbSorted, getIterator, LMDBBlockDatabase.db, exStoreHist, bytesLt])) _ _
      (Or.inr (Or.inr ⟨rfl, rfl⟩))).1, rfl, rfl⟩

/-! ## Advancing within a prefix -/

/-- C19. For every cursor positioned on a database entry and every prefix
tag, `advanceAndRead(prefix)` returns true if and only if a next entry exists
in key order and the first byte of its key equals the prefix tag; when it
returns true the cursor is clean and its cached key and value are that next
entry's, and when it returns false the cursor is dirty so `getKeyRef` returns
empty. `advanceAndRead()` without a prefix returns true if and only if a next
entry exists. -/
theorem advanceAndRead_iff_next (it : LDBIter) (p : DB_PREFIX)
    (hpos : it.pos < it.db.length) :
    ((it.advanceAndReadP p).1 = true ↔
      ∃ k v, it.db[it.pos + 1]? = some (k, v) ∧ k.head? = some p.toByte) ∧
    ((it.advanceAndReadP p).1 = true →
      (it.advanceAndReadP p).2.isDirty = false ∧
      it.db[it.pos + 1]? =
        some ((it.advanceAndReadP p).2.currKey, (it.advanceAndReadP p).2.currValue) ∧
      (it.advanceAndReadP p).2.getKeyRef = (it.advanceAndReadP p).2.currKey ∧
      (it.advanceAndReadP p).2.getValueRef = (it.advanceAndReadP p).2.currValue) ∧
    ((it.advanceAndReadP p).1 = false →
      (it.advanceAndReadP p).2.isDirty = true ∧ (it.advanceAndReadP p).2.getKeyRef = []) ∧
    (it.advanceAndRead.1 = true ↔ ∃ k v, it.db[it.pos + 1]? = some (k, v)) ∧
    (it.advanceAndRead.1 = true →
      it.advanceAndRead.2.isDirty = false ∧
      it.db[it.pos + 1]? = some (it.advanceAndRead.2.currKey, it.advanceAndRead.2.currValue)) := by
  unfold LDBIter.advanceAndReadP LDBIter.advanceAndRead LDBIter.advanceP LDBIter.advance
    LDBIter.isValidP LDBIter.isValid LDBIter.readIterData
  simp only [hpos, if_true]
  cases hrow : it.db[it.pos + 1]? with
  | none =>
    have hlen := List.getElem?_eq_none_iff.mp hrow
    have hnv : ¬ it.pos + 1 < it.db.length := by omega
    simp [hnv, LDBIter.getKeyRef]
  | some e =>
    obtain ⟨k, v⟩ := e
    have hlen := (List.getElem?_eq_some_iff.mp hrow).1
    cases k with
    | nil => simp [hlen, hrow, LDBIter.getKeyRef, LDBIter.getValueRef]
    | cons x xs =>
      by_cases hx : x = p.toByte
      · simp [hlen, hrow, hx, LDBIter.getKeyRef, LDBIter.getValueRef]
      · simp [hlen, hrow, hx, LDBIter.getKeyRef, LDBIter.getValueRef]

/-- Witness of C19: the cursor on the script-history row of `exStoreHist`
steps to the sub-history at height 50. -/
theorem advanceAndRead_iff_next_witness :
    ((exCursorRead.advanceAndReadP .SCRIPT).1 = true ↔
      ∃ k v, exCursorRead.db[exCursorRead.pos + 1]? = some (k, v) ∧
        k.head? = some DB_PREFIX.SCRIPT.toByte) ∧
    (exCursorRead.advanceAndReadP .SCRIPT).1 = true ∧
    (exCursorRead.advanceAndReadP .SCRIPT).2.currKey = [5, 7, 7, 0, 0, 50, 0] :=
  ⟨(advanceAndRead_iff_next exCursorRead .SCRIPT (by decide)).1, rfl, rfl⟩

/-! ## Opening a fresh store -/

theorem openDatabases_fresh (s : LMDBBlockDatabase) (genesisBlkHash genesisTxHash magic : Bytes)
    (pruneType : Nat) (hm : magic ≠ []) (hg : genesisBlkHash ≠ []) :
    openDatabases s BaseDir.empty genesisBlkHash genesisTxHash magic .ARMORY_DB_FULL pruneType =
      ({ armoryDbType := .ARMORY_DB_FULL,
         headers := [([0], .dbinfo (seededDBInfo genesisBlkHash magic .ARMORY_DB_FULL pruneType))],
         blkdata := [([0], .dbinfo (seededDBInfo genesisBlkHash magic .ARMORY_DB_FULL pruneType))],
         history := [([0], .dbinfo (seededDBInfo genesisBlkHash magic .ARMORY_DB_FULL pruneType))],
         txhints := [],
         validDupByHeight := s.validDupByHeight,
         dbIsOpen := true, magicBytes := magic, genesisBlkHash := genesisBlkHash,
         genesisTxHash := genesisTxHash, dbPruneType := pruneType }, .ok ()) := by
  have hm1 : magic.length ≠ 0 := by
    intro h; exact hm (List.length_eq_zero.mp h)
  have hg1 : genesisBlkHash.length ≠ 0 := by
    intro h; exact hg (List.length_eq_zero.mp h)
  have hm2 : magic.isEmpty = false := by
    cases magic with
    | nil => exact absurd rfl hm
    | cons x xs => rfl
  simp [openDatabases, hm1, hg1, closeDatabases, BaseDir.empty, dbGet, openLoop,
    seedOrCheckDBInfo, getStoredDBInfo, getValueRef, LMDBBlockDatabase.db,
    LMDBBlockDatabase.setDb, BaseDir.full, StoredDBInfo.default, StoredDBInfo.isInitialized,
    putStoredDBInfo, putValue, dbInsert, StoredDBInfo.getDBKey, DB_PREFIX.toByte, hm2,
    seededDBInfo]

/-- Counterexample to C20 as stated: after a FULL open of an empty base
directory the TXHINTS sub-database holds no DBInfo row (it holds no row at
all), while HEADERS holds the seeded one. -/
theorem openDatabases_txhints_counterexample :
    (openDatabases exStoreEmpty BaseDir.empty [111] [222] [249, 190, 180, 217]
        .ARMORY_DB_FULL 0).2 = .ok () ∧
    (openDatabases exStoreEmpty BaseDir.empty [111] [222] [249, 190, 180, 217]
        .ARMORY_DB_FULL 0).1.dbIsOpen = true ∧
    getValueRef (openDatabases exStoreEmpty BaseDir.empty [111] [222] [249, 190, 180, 217]
        .ARMORY_DB_FULL 0).1 .TXHINTS StoredDBInfo.getDBKey = none ∧
    (openDatabases exStoreEmpty BaseDir.empty [111] [222] [249, 190, 180, 217]
        .ARMORY_DB_FULL 0).1.txhints = [] ∧
    getValueRef (openDatabases exStoreEmpty BaseDir.empty [111] [222] [249, 190, 180, 217]
        .ARMORY_DB_FULL 0).1 .HEADERS StoredDBInfo.getDBKey =
      some (.dbinfo (seededDBInfo [111] [249, 190, 180, 217] .ARMORY_DB_FULL 0)) := by
  refine ⟨rfl, rfl, rfl, rfl, rfl⟩

/-- C20, amended. Opening with profile FULL on an empty base directory, with
non-empty magic and genesis hash, succeeds, marks the store open, and leaves
each of the three sub-databases HEADERS, BLKDATA and HISTORY with a DBInfo row
whose magic is the given magic, whose top height is 0 and whose top hash is
the given genesis block hash (and whose profile and prune type are the given
ones); TXHINTS is opened and left without any row. -/
theorem openDatabases_fresh_full (s : LMDBBlockDatabase)
    (genesisBlkHash genesisTxHash magic : Bytes) (pruneType : Nat) (x : StoredDBInfo)
    (hm : magic ≠ []) (hg : genesisBlkHash ≠ []) :
    ∃ s', openDatabases s BaseDir.empty genesisBlkHash genesisTxHash magic
            .ARMORY_DB_FULL pruneType = (s', .ok ()) ∧
      s'.dbIsOpen = true ∧ s'.armoryDbType = .ARMORY_DB_FULL ∧
      (∀ d, d = DB_SELECT.HEADERS ∨ d = DB_SELECT.BLKDATA ∨ d = DB_SELECT.HISTORY →
        ∃ i, getStoredDBInfo s' d x true = (true, i) ∧
          i.magic = magic ∧ i.topBlkHgt = 0 ∧ i.topBlkHash = genesisBlkHash ∧
          i.armoryType = .ARMORY_DB_FULL ∧ i.pruneType = pruneType) ∧
      getStoredDBInfo s' .TXHINTS x true = (false, x) ∧
      s'.txhints = [] := by
  refine ⟨_, openDatabases_fresh s genesisBlkHash genesisTxHash magic pruneType hm hg,
    rfl, rfl, ?_, rfl, rfl⟩
  intro d hd
  refine ⟨seededDBInfo genesisBlkHash magic .ARMORY_DB_FULL pruneType, ?_, rfl, rfl, rfl, rfl,
    rfl⟩
  rcases hd with h | h | h <;> subst h <;> rfl

/-- Witness of C20, amended: a store that was never opened, the main-network
magic and one-byte stand-ins for the genesis hashes. -/
theorem openDatabases_fresh_full_witness :
    ∃ s', openDatabases exStoreEmpty BaseDir.empty [111] [222] [249, 190, 180, 217]
            .ARMORY_DB_FULL 0 = (s', .ok ()) ∧
      s'.dbIsOpen = true ∧ s'.armoryDbType = .ARMORY_DB_FULL ∧
      (∀ d, d = DB_SELECT.HEADERS ∨ d = DB_SELECT.BLKDATA ∨ d = DB_SELECT.HISTORY →
        ∃ i, getStoredDBInfo s' d StoredDBInfo.default true = (true, i) ∧
          i.magic = [249, 190, 180, 217] ∧ i.topBlkHgt = 0 ∧ i.topBlkHash = [111] ∧
          i.armoryType = .ARMORY_DB_FULL ∧ i.pruneType = 0) ∧
      getStoredDBInfo s' .TXHINTS StoredDBInfo.default true = (false, StoredDBInfo.default) ∧
      s'.txhints = [] :=
  openDatabases_fresh_full exStoreEmpty [111] [222] [249, 190, 180, 217] 0
    StoredDBInfo.default (by decide) (by decide)

/-! ## Hint lists -/

/-- Reading a hint list: the row under TXHINTS | first four bytes. -/
theorem getStoredTxHints_eq (s : LMDBBlockDatabase) (x : StoredTxHints) (hash : Bytes)
    (h4 : 4 ≤ hash.length) :
    getStoredTxHints s x hash =
      match getValueRef s (getDbSelect s.armoryDbType .TXHINTS)
          (DB_PREFIX.TXHINTS.toByte :: hash.take 4) with
      | some (.hints l p) =>
        (true, { txHashPrefix := hash.take 4, dbKeyList := l, preferredDBKey := p })
      | _ => (false, { txHashPrefix := hash.take 4, dbKeyList := [], preferredDBKey := [] }) := by
  have : ¬ hash.length < 4 := by omega
  unfold getStoredTxHints getValueRefP
  simp only [this, if_false]

theorem getStoredTxHints_hit (s : LMDBBlockDatabase) (x : StoredTxHints) (hash : Bytes)
    (h4 : 4 ≤ hash.length) (l : List Bytes) (p : Bytes)
    (hrow : getValueRef s (getDbSelect s.armoryDbType .TXHINTS)
      (DB_PREFIX.TXHINTS.toByte :: hash.take 4) = some (.hints l p)) :
    getStoredTxHints s x hash =
      (true, { txHashPrefix := hash.take 4, dbKeyList := l, preferredDBKey := p }) := by
  rw [getStoredTxHints_eq s x hash h4, hrow]

theorem getStoredTxHints_miss (s : LMDBBlockDatabase) (x : StoredTxHints) (hash : Bytes)
    (h4 : 4 ≤ hash.length)
    (hrow : ∀ l p, getValueRef s (getDbSelect s.armoryDbType .TXHINTS)
      (DB_PREFIX.TXHINTS.toByte :: hash.take 4) ≠ some (.hints l p)) :
    getStoredTxHints s x hash =
      (false, { txHashPrefix := hash.take 4, dbKeyList := [], preferredDBKey := [] }) := by
  rw [getStoredTxHints_eq s x hash h4]
  split
  · rename_i l p heq
    exact absurd heq (hrow l p)
  · rfl

/-- The result of reading a hint list by a prefix of four bytes or more does
not depend on the object passed in. -/
theorem getStoredTxHints_indep (s : LMDBBlockDatabase) (x y : StoredTxHints) (hash : Bytes)
    (h4 : 4 ≤ hash.length) : getStoredTxHints s x hash = getStoredTxHints s y hash := by
  rw [getStoredTxHints_eq s x hash h4, getStoredTxHints_eq s y hash h4]

theorem take4_length (hash : Bytes) (h4 : 4 ≤ hash.length) : (hash.take 4).length = 4 := by
  simp only [List.length_take]
  omega

/-- A hint list that is put is the one read back. -/
theorem getStoredTxHints_putStoredTxHints (s : LMDBBlockDatabase) (x : StoredTxHints)
    (hash : Bytes) (h4 : 4 ≤ hash.length) (l : List Bytes) (p : Bytes) :
    getStoredTxHints
        (putStoredTxHints s { txHashPrefix := hash.take 4, dbKeyList := l,
                              preferredDBKey := p }).1 x hash =
      (true, { txHashPrefix := hash.take 4, dbKeyList := l, preferredDBKey := p }) := by
  have hl := take4_length hash h4
  have hne : ¬ (hash.take 4).length = 0 := by omega
  apply getStoredTxHints_hit _ x hash h4
  unfold putStoredTxHints
  simp only [hne, if_false, putValue_type, StoredTxHints.getDBKey]
  rw [getValueRef_putValue]
  simp

/-- A put of the hint list of one prefix leaves the row of a key that is not
its key alone. -/
theorem getValueRef_putStoredTxHints_ne (s : LMDBBlockDatabase) (sths : StoredTxHints)
    (d : DB_SELECT) (k : Bytes) (hk : k ≠ DB_PREFIX.TXHINTS.toByte :: sths.txHashPrefix) :
    getValueRef (putStoredTxHints s sths).1 d k = getValueRef s d k := by
  unfold putStoredTxHints
  split
  · rfl
  · simp only [StoredTxHints.getDBKey]
    rw [getValueRef_putValue]
    simp [hk]

theorem putStoredTxHints_type (s : LMDBBlockDatabase) (sths : StoredTxHints) :
    (putStoredTxHints s sths).1.armoryDbType = s.armoryDbType := by
  unfold putStoredTxHints
  split
  · rfl
  · simp only [putValue_type]

/-- The hint step of `putStoredTx`: the list read before the call, updated,
is the list read after the step. -/
theorem updateHints_roundtrip (s : LMDBBlockDatabase) (x : StoredTxHints) (hash key : Bytes)
    (h4 : 4 ≤ hash.length) :
    getStoredTxHints
        (if (updateHints (getStoredTxHints s StoredTxHints.empty hash).2 key).2 = true
         then (putStoredTxHints s
                (updateHints (getStoredTxHints s StoredTxHints.empty hash).2 key).1).1
         else s) x hash =
      (true, (updateHints (getStoredTxHints s StoredTxHints.empty hash).2 key).1) := by
  by_cases hrow : ∃ l p, getValueRef s (getDbSelect s.armoryDbType .TXHINTS)
      (DB_PREFIX.TXHINTS.toByte :: hash.take 4) = some (.hints l p)
  · obtain ⟨l, p, hrow⟩ := hrow
    rw [getStoredTxHints_hit s StoredTxHints.empty hash h4 l p hrow]
    by_cases hm : key ∈ l
    · by_cases hp : p = key
      · simp only [updateHints, hm, if_true, hp, ne_eq, not_true_eq_false, decide_False,
          Bool.false_eq_true, if_false]
        rw [← hp]
        exact getStoredTxHints_hit s x hash h4 l p hrow
      · simp only [updateHints, hm, if_true, ne_eq, hp, not_false_eq_true, decide_True]
        exact getStoredTxHints_putStoredTxHints s x hash h4 l key
    · simp only [updateHints, hm, if_false, if_true]
      exact getStoredTxHints_putStoredTxHints s x hash h4 (l ++ [key]) key
  · have hrow2 : ∀ l p, getValueRef s (getDbSelect s.armoryDbType .TXHINTS)
        (DB_PREFIX.TXHINTS.toByte :: hash.take 4) ≠ some (.hints l p) :=
      fun l p h => hrow ⟨l, p, h⟩
    rw [getStoredTxHints_miss s StoredTxHints.empty hash h4 hrow2]
    simp only [updateHints, List.not_mem_nil, if_false, if_true, List.nil_append]
    exact getStoredTxHints_putStoredTxHints s x hash h4 [key] key

/-- The hint list read after a returning `putStoredTx`. -/
theorem putStoredTx_hints_after (s s' : LMDBBlockDatabase) (stx : StoredTx) (withTxOut : Bool)
    (x : StoredTxHints) (hsuper : s.armoryDbType = .ARMORY_DB_SUPER)
    (h4 : 4 ≤ stx.thisHash.length) (hput : putStoredTx s stx withTxOut = .ok s') :
    s'.armoryDbType = .ARMORY_DB_SUPER ∧
    getStoredTxHints s' x stx.thisHash =
      (true, (updateHints (getStoredTxHints s StoredTxHints.empty stx.thisHash).2
        (getBlkDataKeyNoPrefix stx.blockHeight stx.duplicateID stx.txIndex)).1) := by
  have hround := updateHints_roundtrip s x stx.thisHash
    (getBlkDataKeyNoPrefix stx.blockHeight stx.duplicateID stx.txIndex) h4
  obtain ⟨s1, hs1⟩ : ∃ s1, s1 =
      (if (updateHints (getStoredTxHints s StoredTxHints.empty stx.thisHash).2
            (getBlkDataKeyNoPrefix stx.blockHeight stx.duplicateID stx.txIndex)).2 = true
       then (putStoredTxHints s
              (updateHints (getStoredTxHints s StoredTxHints.empty stx.thisHash).2
                (getBlkDataKeyNoPrefix stx.blockHeight stx.duplicateID stx.txIndex)).1).1
       else s) := ⟨_, rfl⟩
  rw [← hs1] at hround
  have hty1 : s1.armoryDbType = .ARMORY_DB_SUPER := by
    rw [hs1]
    split
    · rw [putStoredTxHints_type]; exact hsuper
    · exact hsuper
  obtain ⟨s2, hs2⟩ : ∃ s2, s2 = putValueP s1 .BLKDATA .TXDATA
      (getBlkDataKeyNoPrefix stx.blockHeight stx.duplicateID stx.txIndex) (.tx stx) := ⟨_, rfl⟩
  have hty2 : s2.armoryDbType = .ARMORY_DB_SUPER := by
    rw [hs2]; unfold putValueP; rw [putValue_type]; exact hty1
  have hk5 : (DB_PREFIX.TXHINTS.toByte :: stx.thisHash.take 4).length ≠ 9 := by
    simp only [List.length_cons, List.length_take]
    omega
  have hrow2 : ∀ d, getValueRef s2 d (DB_PREFIX.TXHINTS.toByte :: stx.thisHash.take 4) =
      getValueRef s1 d (DB_PREFIX.TXHINTS.toByte :: stx.thisHash.take 4) := by
    intro d
    rw [hs2]
    unfold putValueP
    rw [getValueRef_putValue]
    simp [DB_PREFIX.toByte]
  -- every outcome of the call agrees with `s2` on the hint row
  have hfin : ∀ t, t.armoryDbType = .ARMORY_DB_SUPER →
      (∀ d, getValueRef t d (DB_PREFIX.TXHINTS.toByte :: stx.thisHash.take 4) =
        getValueRef s2 d (DB_PREFIX.TXHINTS.toByte :: stx.thisHash.take 4)) →
      getStoredTxHints t x stx.thisHash =
        (true, (updateHints (getStoredTxHints s StoredTxHints.empty stx.thisHash).2
          (getBlkDataKeyNoPrefix stx.blockHeight stx.duplicateID stx.txIndex)).1) := by
    intro t hty ht
    rw [← hround]
    apply getStoredTxHints_congr
    · rw [hty, hty1]
    · intro d
      rw [ht d, hrow2 d]
  unfold putStoredTx at hput
  simp only [hsuper, ne_eq, not_true_eq_false, if_false, ← hs1, ← hs2] at hput
  by_cases hw : withTxOut = true
  · simp only [hw, if_true] at hput
    cases hmap : stx.stxoMap with
    | nil =>
      rw [hmap] at hput
      simp only [Outcome.ok.injEq] at hput
      subst hput
      exact ⟨hty2, hfin _ hty2 (fun _ => rfl)⟩
    | cons e rest =>
      rw [hmap] at hput
      simp only at hput
      cases hv : READ_UINT32_LE stx.dataCopy with
      | none =>
        rw [hv] at hput
        simp at hput
      | some v =>
        rw [hv] at hput
        simp only [Outcome.ok.injEq] at hput
        subst hput
        have hty3 : (putStoredTxOuts stx v (e :: rest) s2).armoryDbType = .ARMORY_DB_SUPER := by
          rw [putStoredTxOuts_type]; exact hty2
        exact ⟨hty3, hfin _ hty3 (fun d => getValueRef_putStoredTxOuts _ _ _ _ _ _ hk5)⟩
  · simp only [hw, Bool.false_eq_true, if_false, Outcome.ok.injEq] at hput
    subst hput
    exact ⟨hty2, hfin _ hty2 (fun _ => rfl)⟩

/-- When `putStoredTx` returns. -/
theorem putStoredTx_returns (s : LMDBBlockDatabase) (stx : StoredTx) (withTxOut : Bool)
    (hsuper : s.armoryDbType = .ARMORY_DB_SUPER)
    (hc : withTxOut = false ∨ stx.stxoMap = [] ∨ 4 ≤ stx.dataCopy.length) :
    ∃ s', putStoredTx s stx withTxOut = .ok s' := by
  unfold putStoredTx
  simp only [hsuper, ne_eq, not_true_eq_false, if_false]
  by_cases hw : withTxOut = true
  · simp only [hw, if_true]
    cases hmap : stx.stxoMap with
    | nil => exact ⟨_, rfl⟩
    | cons e rest =>
      simp only
      rcases hc with hc | hc | hc
      · rw [hw] at hc; exact absurd hc (by simp)
      · rw [hmap] at hc; exact absurd hc (by simp)
      · match hd : stx.dataCopy, hc with
        | b0 :: b1 :: b2 :: b3 :: r, _ =>
          simp only [READ_UINT32_LE]
          exact ⟨_, rfl⟩
  · simp only [hw, Bool.false_eq_true, if_false]
    exact ⟨_, rfl⟩

/-- Reading a hint list depends on the hash through its first four bytes
only. -/
theorem getStoredTxHints_take (s : LMDBBlockDatabase) (x : StoredTxHints) (h1 h2 : Bytes)
    (l1 : 4 ≤ h1.length) (l2 : 4 ≤ h2.length) (e : h1.take 4 = h2.take 4) :
    getStoredTxHints s x h1 = getStoredTxHints s x h2 := by
  rw [getStoredTxHints_eq s x h1 l1, getStoredTxHints_eq s x h2 l2, e]

theorem updateHints_list (sths : StoredTxHints) (key : Bytes) :
    (key ∉ sths.dbKeyList → (updateHints sths key).1.dbKeyList = sths.dbKeyList ++ [key]) ∧
    (key ∈ sths.dbKeyList → (updateHints sths key).1.dbKeyList = sths.dbKeyList) := by
  unfold updateHints
  constructor
  · intro h; rw [if_neg h]
  · intro h; rw [if_pos h]

/-- C12. `putStoredTx` (SUPER profile, hash of four bytes or more) keeps the
hint list an insertion-ordered list: if the 6-byte key of the transaction is
not in the dbKeyList read before the call, the dbKeyList read after a
returning call is the old one with the key appended at the end; if it is
already there, the dbKeyList is unchanged, so a list without duplicates stays
without duplicates. In particular, putting two transactions with different
keys whose hashes share their first four bytes into a store with no hint row
for them yields dbKeyList = [key1, key2]. The call returns unless the tx-out
loop reads the version from a raw transaction shorter than 4 bytes. -/
theorem putStoredTx_hint_order (s : LMDBBlockDatabase) (stx : StoredTx) (withTxOut : Bool)
    (x : StoredTxHints) (hsuper : s.armoryDbType = .ARMORY_DB_SUPER)
    (h4 : 4 ≤ stx.thisHash.length) :
    (∀ s', putStoredTx s stx withTxOut = .ok s' →
      (getStoredTxHints s' x stx.thisHash).1 = true ∧
      (getBlkDataKeyNoPrefix stx.blockHeight stx.duplicateID stx.txIndex ∉
          (getStoredTxHints s x stx.thisHash).2.dbKeyList →
        (getStoredTxHints s' x stx.thisHash).2.dbKeyList =
          (getStoredTxHints s x stx.thisHash).2.dbKeyList ++
            [getBlkDataKeyNoPrefix stx.blockHeight stx.duplicateID stx.txIndex]) ∧
      (getBlkDataKeyNoPrefix stx.blockHeight stx.duplicateID stx.txIndex ∈
          (getStoredTxHints s x stx.thisHash).2.dbKeyList →
        (getStoredTxHints s' x stx.thisHash).2.dbKeyList =
          (getStoredTxHints s x stx.thisHash).2.dbKeyList) ∧
      ((getStoredTxHints s x stx.thisHash).2.dbKeyList.Nodup →
        (getStoredTxHints s' x stx.thisHash).2.dbKeyList.Nodup)) ∧
    (∀ (stx2 : StoredTx) (w2 : Bool) (s1 s2 : LMDBBlockDatabase),
      4 ≤ stx2.thisHash.length → stx2.thisHash.take 4 = stx.thisHash.take 4 →
      getBlkDataKeyNoPrefix stx2.blockHeight stx2.duplicateID stx2.txIndex ≠
        getBlkDataKeyNoPrefix stx.blockHeight stx.duplicateID stx.txIndex →
      (getStoredTxHints s x stx.thisHash).1 = false →
      putStoredTx s stx withTxOut = .ok s1 → putStoredTx s1 stx2 w2 = .ok s2 →
      (getStoredTxHints s2 x stx.thisHash).2.dbKeyList =
        [getBlkDataKeyNoPrefix stx.blockHeight stx.duplicateID stx.txIndex,
         getBlkDataKeyNoPrefix stx2.blockHeight stx2.duplicateID stx2.txIndex]) ∧
    ((withTxOut = false ∨ stx.stxoMap = [] ∨ 4 ≤ stx.dataCopy.length) →
      ∃ s', putStoredTx s stx withTxOut = .ok s') := by
  have hx : getStoredTxHints s x stx.thisHash =
      getStoredTxHints s StoredTxHints.empty stx.thisHash :=
    getStoredTxHints_indep s x _ _ h4
  have hone : ∀ s', putStoredTx s stx withTxOut = .ok s' →
      (getStoredTxHints s' x stx.thisHash).1 = true ∧
      (getBlkDataKeyNoPrefix stx.blockHeight stx.duplicateID stx.txIndex ∉
          (getStoredTxHints s x stx.thisHash).2.dbKeyList →
        (getStoredTxHints s' x stx.thisHash).2.dbKeyList =
          (getStoredTxHints s x stx.thisHash).2.dbKeyList ++
            [getBlkDataKeyNoPrefix stx.blockHeight stx.duplicateID stx.txIndex]) ∧
      (getBlkDataKeyNoPrefix stx.blockHeight stx.duplicateID stx.txIndex ∈
          (getStoredTxHints s x stx.thisHash).2.dbKeyList →
        (getStoredTxHints s' x stx.thisHash).2.dbKeyList =
          (getStoredTxHints s x stx.thisHash).2.dbKeyList) := by
    intro s' hput
    obtain ⟨_, hafter⟩ := putStoredTx_hints_after s s' stx withTxOut x hsuper h4 hput
    rw [hafter, hx]
    exact ⟨rfl, (updateHints_list _ _).1, (updateHints_list _ _).2⟩
  refine ⟨?_, ?_, putStoredTx_returns s stx withTxOut hsuper⟩
  · intro s' hput
    obtain ⟨h1, h2, h3⟩ := hone s' hput
    refine ⟨h1, h2, h3, ?_⟩
    intro hnd
    by_cases hm : getBlkDataKeyNoPrefix stx.blockHeight stx.duplicateID stx.txIndex ∈
        (getStoredTxHints s x stx.thisHash).2.dbKeyList
    · rw [h3 hm]; exact hnd
    · rw [h2 hm]
      rw [List.nodup_append]
      refine ⟨hnd, List.nodup_singleton _, ?_⟩
      intro a ha hb
      rw [List.mem_singleton] at hb
      rw [hb] at ha
      exact hm ha
  · intro stx2 w2 s1 s2 h42 htake hne hmiss hp1 hp2
    obtain ⟨hty1, hafter1⟩ := putStoredTx_hints_after s s1 stx withTxOut x hsuper h4 hp1
    obtain ⟨_, hafter2⟩ := putStoredTx_hints_after s1 s2 stx2 w2 x hty1 h42 hp2
    -- the list read before the first call is empty
    have hl0 : (getStoredTxHints s StoredTxHints.empty stx.thisHash).2.dbKeyList = [] := by
      rw [← hx]
      rw [getStoredTxHints_eq s x stx.thisHash h4] at hmiss ⊢
      split
      · rename_i l p heq
        rw [heq] at hmiss
        simp at hmiss
      · rfl
    have hl1 : (getStoredTxHints s1 StoredTxHints.empty stx2.thisHash).2.dbKeyList =
        [getBlkDataKeyNoPrefix stx.blockHeight stx.duplicateID stx.txIndex] := by
      rw [getStoredTxHints_take s1 _ stx2.thisHash stx.thisHash h42 h4 htake,
        ← getStoredTxHints_indep s1 x _ _ h4, hafter1]
      rw [(updateHints_list _ _).1 (by rw [hl0]; simp), hl0]
      rfl
    rw [← getStoredTxHints_take s2 x stx2.thisHash stx.thisHash h42 h4 htake, hafter2]
    rw [(updateHints_list _ _).1 (by rw [hl1]; simpa using hne), hl1]
    rfl

/-- Witness of C12: `exTx` and then `exTx2`, whose hashes share their first
four bytes, put into an empty supernode store. -/
theorem putStoredTx_hint_order_witness :
    (getStoredTxHints exStoreSuperTwo StoredTxHints.empty exTx.thisHash).2.dbKeyList =
      [getBlkDataKeyNoPrefix exTx.blockHeight exTx.duplicateID exTx.txIndex,
       getBlkDataKeyNoPrefix exTx2.blockHeight exTx2.duplicateID exTx2.txIndex] :=
  (putStoredTx_hint_order exStoreSuper exTx true StoredTxHints.empty rfl (by decide)).2.1
    exTx2 false exStoreSuperOne exStoreSuperTwo (by decide) (by decide) (by decide) rfl rfl rfl

/-- The hint list read by a prefix after `updatePreferredTxHint`. -/
theorem updatePreferredTxHint_read (s : LMDBBlockDatabase) (pfx key q : Bytes)
    (x : StoredTxHints) :
    getStoredTxHints (updatePreferredTxHint s pfx key) x q = getStoredTxHints s x q ∨
    ((getStoredTxHints s x q).1 = true ∧
      key ∈ (getStoredTxHints s x q).2.dbKeyList ∧
      getStoredTxHints (updatePreferredTxHint s pfx key) x q =
        (true, { (getStoredTxHints s x q).2 with preferredDBKey := key })) := by
  unfold updatePreferredTxHint
  simp only
  by_cases hp : (getStoredTxHints s StoredTxHints.empty pfx).2.preferredDBKey = key
  · rw [if_pos hp]; left; rfl
  · rw [if_neg hp]
    by_cases hm : key ∈ (getStoredTxHints s StoredTxHints.empty pfx).2.dbKeyList
    · rw [if_pos hm]
      -- the prefix has four bytes or more and its row is a hint list
      have h4 : 4 ≤ pfx.length := by
        by_contra hlt
        have : pfx.length < 4 := by omega
        simp [getStoredTxHints, this, StoredTxHints.empty] at hm
      have hrow : ∃ l p, getValueRef s (getDbSelect s.armoryDbType .TXHINTS)
          (DB_PREFIX.TXHINTS.toByte :: pfx.take 4) = some (.hints l p) := by
        by_contra hno
        have hno2 : ∀ l p, getValueRef s (getDbSelect s.armoryDbType .TXHINTS)
            (DB_PREFIX.TXHINTS.toByte :: pfx.take 4) ≠ some (.hints l p) :=
          fun l p h => hno ⟨l, p, h⟩
        rw [getStoredTxHints_miss s _ pfx h4 hno2] at hm
        simp at hm
      obtain ⟨l, p, hrow⟩ := hrow
      rw [getStoredTxHints_hit s _ pfx h4 l p hrow] at hm ⊢
      simp only at hm ⊢
      by_cases hq : 4 ≤ q.length ∧ q.take 4 = pfx.take 4
      · right
        have e1 := getStoredTxHints_take s x q pfx hq.1 h4 hq.2
        have e2 := getStoredTxHints_take
          (putStoredTxHints s { txHashPrefix := pfx.take 4, dbKeyList := l,
                                preferredDBKey := key }).1 x q pfx hq.1 h4 hq.2
        rw [e2, e1, getStoredTxHints_hit s x pfx h4 l p hrow]
        exact ⟨rfl, hm, getStoredTxHints_putStoredTxHints s x pfx h4 l key⟩
      · left
        by_cases hq4 : 4 ≤ q.length
        · apply getStoredTxHints_congr
          · exact putStoredTxHints_type _ _
          · intro d
            apply getValueRef_putStoredTxHints_ne
            intro e
            simp only [List.cons.injEq, true_and] at e
            exact hq ⟨hq4, e⟩
        · have : q.length < 4 := by omega
          simp [getStoredTxHints, this]
    · rw [if_neg hm]; left; rfl

/-- C13. `updatePreferredTxHint` preserves the invariant that preferredDBKey
is a member of dbKeyList: for every hash prefix and key, if the stored hint
row (as read by any prefix) satisfies it before the call it satisfies it
after; the dbKeyList read by any prefix is never changed by the call; and
when the requested key is not in the dbKeyList of the requested prefix the
store, and so the stored row, is left entirely unchanged. -/
theorem updatePreferredTxHint_invariant (s : LMDBBlockDatabase) (pfx key : Bytes)
    (x : StoredTxHints) :
    (∀ q, (getStoredTxHints s x q).2.preferredListed →
      (getStoredTxHints (updatePreferredTxHint s pfx key) x q).2.preferredListed) ∧
    (∀ q, (getStoredTxHints (updatePreferredTxHint s pfx key) x q).2.dbKeyList =
        (getStoredTxHints s x q).2.dbKeyList ∧
      (getStoredTxHints (updatePreferredTxHint s pfx key) x q).1 =
        (getStoredTxHints s x q).1) ∧
    (key ∉ (getStoredTxHints s StoredTxHints.empty pfx).2.dbKeyList →
      updatePreferredTxHint s pfx key = s) := by
  refine ⟨?_, ?_, ?_⟩
  · intro q hinv
    rcases updatePreferredTxHint_read s pfx key q x with h | ⟨_, hm, h⟩
    · rw [h]; exact hinv
    · rw [h]; exact hm
  · intro q
    rcases updatePreferredTxHint_read s pfx key q x with h | ⟨h1, _, h⟩
    · rw [h]; exact ⟨rfl, rfl⟩
    · rw [h]; exact ⟨rfl, h1.symm⟩
  · intro hm
    unfold updatePreferredTxHint
    simp only
    split
    · rfl
    · rfl

/-- Witness of C13: a supernode store with a hint row of two keys, the first
one preferred; the second one is requested. -/
theorem updatePreferredTxHint_invariant_witness :
    (getStoredTxHints
        (updatePreferredTxHint
          { exStoreSuper with blkdata := [([4, 7, 7, 7, 7], .hints [[0, 0, 3, 0, 0, 1],
              [0, 0, 4, 0, 0, 2]] [0, 0, 3, 0, 0, 1])] }
          [7, 7, 7, 7] [0, 0, 4, 0, 0, 2]) StoredTxHints.empty [7, 7, 7, 7]).2.preferredListed :=
  (updatePreferredTxHint_invariant
      { exStoreSuper with blkdata := [([4, 7, 7, 7, 7], .hints [[0, 0, 3, 0, 0, 1],
          [0, 0, 4, 0, 0, 2]] [0, 0, 3, 0, 0, 1])] }
      [7, 7, 7, 7] [0, 0, 4, 0, 0, 2] StoredTxHints.empty).1 [7, 7, 7, 7]
    (by simp [StoredTxHints.preferredListed, getStoredTxHints, getValueRefP, getValueRef,
      getDbSelect, exStoreSuper, LMDBBlockDatabase.db, dbGet, DB_PREFIX.toByte])

/-! ## Block-data keys -/

theorem hgtx_roundtrip (a b c d : Nat) (ha : a < 256) (hb : b < 256) (hc : c < 256)
    (hd : d < 256) :
    heightAndDupToHgtx (hgtxToHeight [a, b, c, d]) (hgtxToDupID [a, b, c, d]) = [a, b, c, d] := by
  simp only [heightAndDupToHgtx, hgtxToHeight, hgtxToDupID, WRITE_UINT32_BE,
    List.getD_cons_zero, List.getD_cons_succ, List.cons.injEq, and_true]
  refine ⟨?_, ?_, ?_, ?_⟩ <;> omega

/-- Decoding a well-formed hint and encoding it again. -/
theorem hint_decode (hint : Bytes) (hw : hintWellFormed hint) :
    readBlkDataKeyNoPrefix hint =
      { bdtype := .BLKDATA_TX, height := hgtxToHeight (hint.take 4),
        dup := hgtxToDupID (hint.take 4), txIdx := READ_UINT16_BE (hint.drop 4),
        txOutIdx := 65535 } ∧
    readBlkDataKey (DB_PREFIX.TXDATA.toByte :: hint) = readBlkDataKeyNoPrefix hint ∧
    getBlkDataKeyNoPrefix (hgtxToHeight (hint.take 4)) (hgtxToDupID (hint.take 4))
      (READ_UINT16_BE (hint.drop 4)) = hint ∧
    heightAndDupToHgtx (hgtxToHeight (hint.take 4)) (hgtxToDupID (hint.take 4)) = hint.take 4 ∧
    hgtxToHeight (hint.take 4) < 16777216 := by
  obtain ⟨hl, hb⟩ := hw
  match hint, hl with
  | [a, b, c, d, e, f], _ =>
    simp only [List.mem_cons, List.mem_singleton, forall_eq_or_imp, forall_eq,
      List.not_mem_nil, false_implies, implies_true, and_true] at hb
    obtain ⟨ha, hb', hc, hd, he, hf⟩ := hb
    have hr := hgtx_roundtrip a b c d ha hb' hc hd
    refine ⟨?_, ?_, ?_, ?_, ?_⟩
    · simp [readBlkDataKeyNoPrefix]
    · simp [readBlkDataKey]
    · simp only [getBlkDataKeyNoPrefix, List.take, List.drop, READ_UINT16_BE, hr,
        WRITE_UINT16_BE, List.cons_append, List.nil_append, List.cons.injEq, and_true, true_and]
      constructor <;> omega
    · simpa using hr
    · simp only [List.take, hgtxToHeight, List.getD_cons_zero, List.getD_cons_succ]
      omega

/-- The table answers for every height a hint can carry. -/
theorem getValid_hint (s : LMDBBlockDatabase) (hint : Bytes) (hw : hintWellFormed hint) :
    getValidDupIDForHeight s (hgtxToHeight (hint.take 4)) =
      .ok (s.validDupByHeight.getD (hgtxToHeight (hint.take 4)) 255) := by
  apply getValid_eq
  have := (hint_decode hint hw).2.2.2.2
  simp only [UINT32_MAX]
  omega

/-! ## The by-hash lookup under FULL -/

theorem getFullTxCopy_full (m : StoredTxMethods) (s : LMDBBlockDatabase) (hint : Bytes)
    (hfull : s.armoryDbType ≠ .ARMORY_DB_SUPER) (hw : hintWellFormed hint) :
    getFullTxCopy m s hint =
      (match dbGet (DB_PREFIX.TXDATA.toByte :: hint.take 4) s.blkdata with
       | some (.block txs) => .ok txs[READ_UINT16_BE (hint.drop 4)]?
       | _ => .fault .outOfBounds) := by
  unfold getFullTxCopy
  have h6 : ¬ hint.length ≠ 6 := by simp [hw.1]
  rw [if_neg h6, if_neg hfull]
  simp only [getValueRefP, getValueRef, LMDBBlockDatabase.db]

theorem getFullTxCopy_full_stored (m : StoredTxMethods) (s : LMDBBlockDatabase) (hint : Bytes)
    (hfull : s.armoryDbType ≠ .ARMORY_DB_SUPER) (hw : hintWellFormed hint)
    (hb : hintBlockStored s hint = true) :
    ∃ o, getFullTxCopy m s hint = .ok o := by
  rw [getFullTxCopy_full m s hint hfull hw]
  unfold hintBlockStored at hb
  split
  · exact ⟨_, rfl⟩
  · rename_i hne
    split at hb
    · rename_i txs heq
      exact absurd heq (hne txs)
    · exact absurd hb (by simp)

theorem hintLocates_full (m : StoredTxMethods) (s : LMDBBlockDatabase) (txHash hint : Bytes)
    (hfull : s.armoryDbType ≠ .ARMORY_DB_SUPER) (hw : hintWellFormed hint) :
    (∀ tx, getFullTxCopy m s hint = .ok (some tx) →
      hintLocates s txHash hint = decide (tx.thisHash = txHash)) ∧
    (getFullTxCopy m s hint = .ok none → hintLocates s txHash hint = false) := by
  rw [getFullTxCopy_full m s hint hfull hw]
  unfold hintLocates
  rw [if_neg hfull]
  constructor
  · intro tx h
    split at h
    · simp only [Outcome.ok.injEq] at h
      simp only [h]
    · simp at h
  · intro h
    split at h
    · simp only [Outcome.ok.injEq] at h
      simp only [h]
    · simp at h

theorem hintOnMainBranch_eq (s : LMDBBlockDatabase) (n : Nat) (hint : Bytes)
    (hw : hintWellFormed hint) (hn : 1 ≤ n) :
    ((hgtxToDupID (hint.take 4) ≠
        s.validDupByHeight.getD (hgtxToHeight (hint.take 4)) 255 ∧ n > 1) →
      hintOnMainBranch s n hint = false) ∧
    (¬ (hgtxToDupID (hint.take 4) ≠
        s.validDupByHeight.getD (hgtxToHeight (hint.take 4)) 255 ∧ n > 1) →
      hintOnMainBranch s n hint = true) := by
  unfold hintOnMainBranch
  rw [getValid_hint s hint hw]
  generalize s.validDupByHeight.getD (hgtxToHeight (hint.take 4)) 255 = v
  generalize hgtxToDupID (hint.take 4) = d
  by_cases h1 : d = v
  · simp [h1]
  · by_cases h2 : n = 1
    · simp [h2]
    · have : n > 1 := by omega
      have h3 : ¬ v = d := fun e => h1 e.symm
      simp [h1, h2, h3, this]

theorem byHashLoop_spec (m : StoredTxMethods) (s : LMDBBlockDatabase) (txHash : Bytes) (n : Nat)
    (stx : Option StoredTx) (DBkey : Option Bytes)
    (hfull : s.armoryDbType ≠ .ARMORY_DB_SUPER) (hn : 1 ≤ n) (l : List Bytes)
    (hwf : ∀ k ∈ l, hintWellFormed k)
    (hblk : ∀ k ∈ l, hintOnMainBranch s n k = true → hintBlockStored s k = true) :
    byHashPost s txHash n stx DBkey l (byHashLoop m s txHash n stx DBkey l) := by
  induction l with
  | nil => simp [byHashLoop, byHashPost]
  | cons hint rest ih =>
    have hw := hwf hint (List.mem_cons_self _ _)
    have ih' := ih (fun k hk => hwf k (List.mem_cons_of_mem _ hk))
      (fun k hk => hblk k (List.mem_cons_of_mem _ hk))
    obtain ⟨hdec, _, _, _, _⟩ := hint_decode hint hw
    have hmain := hintOnMainBranch_eq s n hint hw hn
    obtain ⟨hloc1, hloc2⟩ := hintLocates_full m s txHash hint hfull hw
    unfold byHashLoop
    rw [hdec]
    simp only
    rw [getValid_hint s hint hw]
    simp only
    by_cases hskip : hgtxToDupID (hint.take 4) ≠
        s.validDupByHeight.getD (hgtxToHeight (hint.take 4)) 255 ∧ n > 1
    · rw [if_pos hskip]
      have hg : hintGood s txHash n hint = false := by
        unfold hintGood
        rw [hmain.1 hskip]
        rfl
      unfold byHashPost
      rw [List.find?_cons_of_neg _ (by simp [hg])]
      exact ih'
    · rw [if_neg hskip]
      have hmain' : hintOnMainBranch s n hint = true := hmain.2 hskip
      cases hcopy : getFullTxCopy m s hint with
      | fault f =>
        obtain ⟨o, ho⟩ := getFullTxCopy_full_stored m s hint hfull hw
          (hblk hint (List.mem_cons_self _ _) hmain')
        rw [ho] at hcopy
        exact absurd hcopy (by simp)
      | ok o =>
        cases o with
        | none =>
          simp only
          have hg : hintGood s txHash n hint = false := by
            unfold hintGood
            rw [hloc2 hcopy]
            simp
          unfold byHashPost
          rw [List.find?_cons_of_neg _ (by simp [hg])]
          exact ih'
        | some tx =>
          simp only
          by_cases hh : tx.thisHash = txHash
          · have hne : ¬ tx.thisHash ≠ txHash := by simp [hh]
            rw [if_neg hne]
            have hg : hintGood s txHash n hint = true := by
              unfold hintGood
              rw [hloc1 tx hcopy, hmain']
              simp [hh]
            unfold byHashPost
            rw [List.find?_cons_of_pos _ hg]
            cases stx with
            | none =>
              exact ⟨_, rfl, rfl, fun h => absurd h (by simp), fun _ => rfl⟩
            | some stx0 =>
              exact ⟨_, rfl, rfl, fun _ => ⟨_, rfl, rfl, rfl, rfl⟩, fun h => absurd h (by simp)⟩
          · have hne : tx.thisHash ≠ txHash := hh
            rw [if_pos hne]
            have hg : hintGood s txHash n hint = false := by
              unfold hintGood
              rw [hloc1 tx hcopy]
              simp [hh]
            unfold byHashPost
            rw [List.find?_cons_of_neg _ (by simp [hg])]
            exact ih'

/-! ## The by-hash lookup under SUPER -/

theorem seekToExact_db (it : LDBIter) (key : Bytes) : (it.seekToExact key).2.db = it.db := by
  unfold LDBIter.seekToExact
  rw [seekTo_eq]
  cases hrow : it.db[seekGE key it.db]? with
  | none => rfl
  | some e =>
    obtain ⟨k, v⟩ := e
    simp [LDBIter.checkKeyExact]

theorem seekToExact_true (it : LDBIter) (key : Bytes) (h : (it.seekToExact key).1 = true) :
    ∃ v, it.db[seekGE key it.db]? = some (key, v) ∧
      (it.seekToExact key).2 =
        { it with pos := seekGE key it.db, currKey := key, currValue := v, isDirty := false } := by
  unfold LDBIter.seekToExact at h ⊢
  rw [seekTo_eq] at h ⊢
  cases hrow : it.db[seekGE key it.db]? with
  | none =>
    rw [hrow] at h
    simp at h
  | some e =>
    obtain ⟨k, v⟩ := e
    rw [hrow] at h
    simp only [Bool.not_true, Bool.false_eq_true, if_false, LDBIter.checkKeyExact,
      decide_eq_true_eq] at h ⊢
    subst h
    exact ⟨v, rfl, rfl⟩

/-- One step forward within a tag, from a cursor on a row. -/
theorem advanceAndReadP_next (it : LDBIter) (p : DB_PREFIX) (hpos : it.pos < it.db.length)
    (h : (it.advanceAndReadP p).1 = true) :
    (it.advanceAndReadP p).2.isDirty = false ∧ (it.advanceAndReadP p).2.db = it.db ∧
    (it.advanceAndReadP p).2.pos = it.pos + 1 ∧
    it.db[it.pos + 1]? =
      some ((it.advanceAndReadP p).2.currKey, (it.advanceAndReadP p).2.currValue) := by
  unfold LDBIter.advanceAndReadP LDBIter.advanceP LDBIter.isValidP LDBIter.readIterData at h ⊢
  simp only [hpos, if_true] at h ⊢
  cases hrow : it.db[it.pos + 1]? with
  | none =>
    rw [hrow] at h
    simp at h
  | some e =>
    obtain ⟨k, v⟩ := e
    rw [hrow] at h
    cases k with
    | nil => simp at h
    | cons x xs =>
      by_cases hx : x = p.toByte
      · simp [hx]
      · simp [hx] at h

theorem unserializeDBValue_fields (stx : StoredTx) (v : Row) :
    (stx.unserializeDBValue v).blockHeight = stx.blockHeight ∧
    (stx.unserializeDBValue v).duplicateID = stx.duplicateID ∧
    (stx.unserializeDBValue v).txIndex = stx.txIndex := by
  unfold StoredTx.unserializeDBValue
  split <;> exact ⟨rfl, rfl, rfl⟩

/-- The key of a row that continues the key of a transaction decodes to the
height, dup and tx index of the transaction, as a tx or a tx-out key. -/
theorem readBlkDataKey_under_tx (hint r : Bytes) (hw : hintWellFormed hint)
    (hr : r.length = 0 ∨ r.length = 2) :
    (readBlkDataKey (DB_PREFIX.TXDATA.toByte :: (hint ++ r))).height =
      hgtxToHeight (hint.take 4) ∧
    (readBlkDataKey (DB_PREFIX.TXDATA.toByte :: (hint ++ r))).dup = hgtxToDupID (hint.take 4) ∧
    (readBlkDataKey (DB_PREFIX.TXDATA.toByte :: (hint ++ r))).txIdx =
      READ_UINT16_BE (hint.drop 4) ∧
    ((readBlkDataKey (DB_PREFIX.TXDATA.toByte :: (hint ++ r))).bdtype = .BLKDATA_TX ∨
     (readBlkDataKey (DB_PREFIX.TXDATA.toByte :: (hint ++ r))).bdtype = .BLKDATA_TXOUT) := by
  obtain ⟨hl, _⟩ := hw
  match hint, hl with
  | [a, b, c, d, e, f], _ =>
    rcases hr with h0 | h2
    · have : r = [] := List.length_eq_zero.mp h0
      subst this
      simp [readBlkDataKey, readBlkDataKeyNoPrefix, READ_UINT16_BE]
    · match r, h2 with
      | [x, y], _ =>
        simp [readBlkDataKey, readBlkDataKeyNoPrefix, READ_UINT16_BE]

theorem readStoredTxLoop_spec (db : DB) (hint : Bytes) (hw : hintWellFormed hint)
    (hlegal : txdataLegal db) :
    ∀ (fuel : Nat) (it : LDBIter) (stx : StoredTx),
      it.db = db → it.isDirty = false → db[it.pos]? = some (it.currKey, it.currValue) →
      db.length < fuel + it.pos →
      stx.blockHeight = hgtxToHeight (hint.take 4) →
      stx.duplicateID = hgtxToDupID (hint.take 4) →
      stx.txIndex = READ_UINT16_BE (hint.drop 4) →
      ∃ it' stx',
        readStoredTxLoop (hgtxToHeight (hint.take 4)) (hgtxToDupID (hint.take 4))
          (DB_PREFIX.TXDATA.toByte :: hint) fuel it stx = .ok (true, it', stx') ∧
        stx'.blockHeight = hgtxToHeight (hint.take 4) ∧
        stx'.duplicateID = hgtxToDupID (hint.take 4) ∧
        stx'.txIndex = READ_UINT16_BE (hint.drop 4) := by
  intro fuel
  induction fuel with
  | zero =>
    intro it stx hdb hclean hrow hfuel
    have := (List.getElem?_eq_some_iff.mp hrow).1
    omega
  | succ fuel ih =>
    intro it stx hdb hclean hrow hfuel h1 h2 h3
    have hpos : it.pos < it.db.length := by
      rw [hdb]; exact (List.getElem?_eq_some_iff.mp hrow).1
    unfold readStoredTxLoop
    have hc : it.checkKeyStartsWith (DB_PREFIX.TXDATA.toByte :: hint) =
        (startsWith it.currKey (DB_PREFIX.TXDATA.toByte :: hint), it) := by
      unfold LDBIter.checkKeyStartsWith
      simp [hclean]
    simp only [hc]
    by_cases hsw : startsWith it.currKey (DB_PREFIX.TXDATA.toByte :: hint) = true
    · simp only [hsw, Bool.not_true, Bool.false_eq_true, if_false, LDBIter.getKeyReader]
      obtain ⟨r, hr⟩ := (startsWith_iff _ _).mp hsw
      have hmem : (it.currKey, it.currValue) ∈ db := List.mem_iff_getElem?.mpr ⟨_, hrow⟩
      have hlen := hlegal _ hmem (by rw [hr]; rfl)
      have hrl : r.length = 0 ∨ r.length = 2 := by
        rw [hr] at hlen
        simp only [List.cons_append, List.length_cons, List.length_append, hw.1] at hlen
        omega
      have hkey : it.currKey = DB_PREFIX.TXDATA.toByte :: (hint ++ r) := by
        rw [hr]; rfl
      obtain ⟨k1, k2, k3, k4⟩ := readBlkDataKey_under_tx hint r hw hrl
      rw [← hkey] at k1 k2 k3 k4
      -- the step forward, shared by the two kinds of row
      have hstep : ∀ stx2 : StoredTx,
          stx2.blockHeight = hgtxToHeight (hint.take 4) →
          stx2.duplicateID = hgtxToDupID (hint.take 4) →
          stx2.txIndex = READ_UINT16_BE (hint.drop 4) →
          ∃ it' stx',
            (if (it.advanceAndReadP .TXDATA).1 = true then
               readStoredTxLoop (hgtxToHeight (hint.take 4)) (hgtxToDupID (hint.take 4))
                 (DB_PREFIX.TXDATA.toByte :: hint) fuel (it.advanceAndReadP .TXDATA).2 stx2
             else .ok (true, (it.advanceAndReadP .TXDATA).2, stx2)) = .ok (true, it', stx') ∧
            stx'.blockHeight = hgtxToHeight (hint.take 4) ∧
            stx'.duplicateID = hgtxToDupID (hint.take 4) ∧
            stx'.txIndex = READ_UINT16_BE (hint.drop 4) := by
        intro stx2 e1 e2 e3
        by_cases hadv : (it.advanceAndReadP .TXDATA).1 = true
        · rw [if_pos hadv]
          obtain ⟨a1, a2, a3, a4⟩ := advanceAndReadP_next it .TXDATA hpos hadv
          apply ih _ stx2 (by rw [a2, hdb]) a1 _ _ e1 e2 e3
          · rw [a3, ← hdb]; exact a4
          · rw [a3]; omega
        · rw [if_neg hadv]
          exact ⟨_, _, rfl, e1, e2, e3⟩
      rcases k4 with k4 | k4
      · rw [k4]
        simp only
        apply hstep
        · rw [(unserializeDBValue_fields _ _).1]; exact k1
        · rw [(unserializeDBValue_fields _ _).2.1]; exact k2
        · rw [(unserializeDBValue_fields _ _).2.2]; exact k3
      · rw [k4]
        simp only
        exact hstep _ k1 k2 k3
    · simp only [hsw, Bool.not_false, if_true]
      exact ⟨_, _, rfl, h1, h2, h3⟩

/-- Reading the transaction under a cursor that sits, clean, on its tx row. -/
theorem readStoredTxAtIter_spec (db : DB) (hint : Bytes) (hw : hintWellFormed hint)
    (hlegal : txdataLegal db) (it : LDBIter) (stx : StoredTx) (v : Row)
    (hdb : it.db = db) (hclean : it.isDirty = false)
    (hkey : it.currKey = DB_PREFIX.TXDATA.toByte :: hint) (hval : it.currValue = v)
    (hrow : db[it.pos]? = some (DB_PREFIX.TXDATA.toByte :: hint, v)) :
    ∃ it' stx',
      readStoredTxAtIter it (hgtxToHeight (hint.take 4)) (hgtxToDupID (hint.take 4)) stx =
        .ok (true, it', stx') ∧
      stx'.blockHeight = hgtxToHeight (hint.take 4) ∧
      stx'.duplicateID = hgtxToDupID (hint.take 4) ∧
      stx'.txIndex = READ_UINT16_BE (hint.drop 4) := by
  obtain ⟨hdec, hdecP, hk6, hk4, _⟩ := hint_decode hint hw
  unfold readStoredTxAtIter
  have hgk : it.getKeyRef = DB_PREFIX.TXDATA.toByte :: hint := by
    simp [LDBIter.getKeyRef, hclean, hkey]
  have hsw : startsWith (DB_PREFIX.TXDATA.toByte :: hint) (getBlkDataKey (hgtxToHeight (hint.take 4))
      (hgtxToDupID (hint.take 4))) = true := by
    unfold getBlkDataKey
    rw [hk4]
    apply (startsWith_iff _ _).mpr
    exact ⟨hint.drop 4, by simp⟩
  have hl7 : ¬ (DB_PREFIX.TXDATA.toByte :: hint).length < 7 := by
    simp [hw.1]
  simp only [hgk, hsw, hl7, Bool.not_true, decide_False, Bool.or_false, Bool.false_eq_true,
    if_false, LDBIter.getKeyReader, hkey, hdecP, hdec, ne_eq, not_true_eq_false, or_self,
    getBlkDataKeyTx, hk6]
  apply readStoredTxLoop_spec db hint hw hlegal _ it _ hdb hclean
  · rw [hkey, hval]; exact hrow
  · rw [hdb]
    have := (List.getElem?_eq_some_iff.mp hrow).1
    omega
  · rfl
  · rfl
  · rfl

theorem hintLocates_super (s : LMDBBlockDatabase) (txHash hint : Bytes)
    (hsuper : s.armoryDbType = .ARMORY_DB_SUPER) :
    (∀ v, dbGet (DB_PREFIX.TXDATA.toByte :: hint) s.blkdata = some v →
      (hintLocates s txHash hint = true ↔ storedTxHash v = some txHash)) ∧
    (dbGet (DB_PREFIX.TXDATA.toByte :: hint) s.blkdata = none →
      hintLocates s txHash hint = false) := by
  unfold hintLocates
  rw [if_pos hsuper]
  constructor
  · intro v hv
    rw [hv]
    cases v <;> simp [storedTxHash]
  · intro hv
    rw [hv]

theorem byHashSuperLoop_spec (s : LMDBBlockDatabase) (txHash : Bytes) (n : Nat)
    (stx : Option StoredTx) (DBkey : Option Bytes)
    (hsuper : s.armoryDbType = .ARMORY_DB_SUPER) (hn : 1 ≤ n)
    (hsorted : dbSorted s.blkdata)
    (hlegal : stx.isSome = true → txdataLegal s.blkdata) (l : List Bytes)
    (hwf : ∀ k ∈ l, hintWellFormed k) :
    ∀ it : LDBIter, it.db = s.blkdata →
      byHashPost s txHash n stx DBkey l (byHashSuperLoop s txHash n stx DBkey l it) := by
  induction l with
  | nil =>
    intro it _
    simp [byHashSuperLoop, byHashPost]
  | cons hint rest ih =>
    intro it hdb
    have hw := hwf hint (List.mem_cons_self _ _)
    have ih' := ih (fun k hk => hwf k (List.mem_cons_of_mem _ hk))
    obtain ⟨hdec, hdecP, hk6, hk4, _⟩ := hint_decode hint hw
    have hmain := hintOnMainBranch_eq s n hint hw hn
    obtain ⟨hloc1, hloc2⟩ := hintLocates_super s txHash hint hsuper
    have hsorted' : dbSorted it.db := by rw [hdb]; exact hsorted
    have hspec := (seekToExact_spec it (DB_PREFIX.TXDATA.toByte :: hint) hsorted').1
    unfold byHashSuperLoop
    rw [seekToExactP_eq]
    by_cases hfound : (it.seekToExact (DB_PREFIX.TXDATA.toByte :: hint)).1 = true
    · simp only [hfound, Bool.not_true, Bool.false_eq_true, if_false]
      obtain ⟨v, hrow, hit⟩ := seekToExact_true it _ hfound
      have hmem : (DB_PREFIX.TXDATA.toByte :: hint, v) ∈ s.blkdata := by
        rw [← hdb]; exact List.mem_iff_getElem?.mpr ⟨_, hrow⟩
      have hget := dbGet_of_mem_sorted _ v s.blkdata hsorted hmem
      rw [hit]
      simp only [LDBIter.getKeyReader, LDBIter.getValueReader, hdecP, hdec]
      rw [getValid_hint s hint hw]
      simp only
      by_cases hskip : hgtxToDupID (hint.take 4) ≠
          s.validDupByHeight.getD (hgtxToHeight (hint.take 4)) 255 ∧ n > 1
      · rw [if_pos hskip]
        have hg : hintGood s txHash n hint = false := by
          unfold hintGood
          rw [hmain.1 hskip]
          rfl
        unfold byHashPost
        rw [List.find?_cons_of_neg _ (by simp [hg])]
        exact ih' _ hdb
      · rw [if_neg hskip]
        have hmain' : hintOnMainBranch s n hint = true := hmain.2 hskip
        have hk6' : ¬ getBlkDataKeyNoPrefix (hgtxToHeight (hint.take 4))
            (hgtxToDupID (hint.take 4)) (READ_UINT16_BE (hint.drop 4)) ≠ hint := by
          simp [hk6]
        rw [if_neg hk6']
        by_cases hh : storedTxHash v = some txHash
        · rw [if_pos hh]
          have hg : hintGood s txHash n hint = true := by
            unfold hintGood
            rw [hmain', (hloc1 v hget).mpr hh]
            rfl
          unfold byHashPost
          rw [List.find?_cons_of_pos _ hg]
          cases stx with
          | none =>
            simp only [hk6]
            exact ⟨_, rfl, rfl, fun h => absurd h (by simp), fun _ => rfl⟩
          | some stx0 =>
            simp only
            obtain ⟨it', stx', hread, f1, f2, f3⟩ :=
              readStoredTxAtIter_spec s.blkdata hint hw (hlegal rfl)
                { it with pos := seekGE (DB_PREFIX.TXDATA.toByte :: hint) it.db,
                          currKey := DB_PREFIX.TXDATA.toByte :: hint, currValue := v,
                          isDirty := false }
                stx0 v hdb rfl rfl rfl (by rw [← hdb]; exact hrow)
            rw [hread]
            exact ⟨_, rfl, rfl, fun _ => ⟨stx', rfl, f1, f2, f3⟩, fun h => absurd h (by simp)⟩
        · rw [if_neg hh]
          have hg : hintGood s txHash n hint = false := by
            unfold hintGood
            have : hintLocates s txHash hint = false := by
              cases hl : hintLocates s txHash hint with
              | false => rfl
              | true => exact absurd ((hloc1 v hget).mp hl) hh
            rw [this]
            simp
          unfold byHashPost
          rw [List.find?_cons_of_neg _ (by simp [hg])]
          exact ih' _ hdb
    · simp only [hfound, Bool.not_false, if_true]
      have hnone : dbGet (DB_PREFIX.TXDATA.toByte :: hint) s.blkdata = none := by
        cases hg : dbGet (DB_PREFIX.TXDATA.toByte :: hint) s.blkdata with
        | none => rfl
        | some v =>
          exfalso
          apply hfound
          apply hspec.mpr
          exact ⟨v, by rw [hdb]; exact mem_of_dbGet _ v _ hg⟩
      have hg : hintGood s txHash n hint = false := by
        unfold hintGood
        rw [hloc2 hnone]
        simp
      unfold byHashPost
      rw [List.find?_cons_of_neg _ (by simp [hg])]
      exact ih' _ (by rw [seekToExact_db, hdb])

/-! ## The contract of the by-hash lookup -/

theorem byHashPost_contract (s : LMDBBlockDatabase) (txHash : Bytes)
    (stx : Option StoredTx) (DBkey : Option Bytes) (l : List Bytes)
    (res : Outcome (Bool × Option StoredTx × Option Bytes))
    (hout : ¬ (stx.isSome = false ∧ DBkey.isSome = false))
    (hp : byHashPost s txHash l.length stx DBkey l res) :
    ∃ r, res = .ok r ∧
      (r.1 = true ↔ ∃ hint ∈ l, hintGood s txHash l.length hint = true) ∧
      (r.1 = true →
        ∃ hint, l.find? (hintGood s txHash l.length) = some hint ∧
          (stx.isSome = true →
            ∃ stx1, r.2.1 = some stx1 ∧ stx1.blockHeight = hgtxToHeight (hint.take 4) ∧
              stx1.duplicateID = hgtxToDupID (hint.take 4) ∧
              stx1.txIndex = READ_UINT16_BE (hint.drop 4)) ∧
          (stx.isSome = false → r.2.2 = some hint)) := by
  unfold byHashPost at hp
  cases hf : l.find? (hintGood s txHash l.length) with
  | none =>
    rw [hf] at hp
    simp only at hp
    refine ⟨_, hp, ?_, fun h => absurd h (by simp)⟩
    simp only [Bool.false_eq_true, false_iff, not_exists, not_and]
    intro hint hmem hg
    have := List.find?_eq_none.mp hf hint hmem
    exact this hg
  | some hint =>
    rw [hf] at hp
    simp only at hp
    obtain ⟨r, hr, h1, h2, h3⟩ := hp
    refine ⟨r, hr, ?_, fun _ => ⟨hint, rfl, h2, ?_⟩⟩
    · simp only [h1, true_iff]
      exact ⟨hint, List.mem_of_find?_eq_some hf, List.find?_some hf⟩
    · intro hs
      rw [h3 hs]
      cases DBkey with
      | none => exact absurd ⟨hs, rfl⟩ hout
      | some k0 => rfl

/-- Counterexample to C11 as stated: in the supernode store
`exStoreByHashOddKey` the only hint for the hash of `exTx` satisfies (a) and
(b), and the lookup with a StoredTx output returns false: after the tx row,
`readStoredTxAtIter` meets the 8-byte key, which is no block-data key, and
answers false. In the fullnode store `exStoreByHashNoBlock` the only hint
names a block that is not stored, and the lookup does not return: the tx
count is read from a value of no bytes. -/
theorem getStoredTx_byHash_odd_key_counterexample :
    (getStoredTxHints exStoreByHashOddKey StoredTxHints.empty exTx.thisHash).2.dbKeyList =
      [[0, 0, 3, 0, 0, 1]] ∧
    hintGood exStoreByHashOddKey exTx.thisHash 1 [0, 0, 3, 0, 0, 1] = true ∧
    (∃ stx1, getStoredTx_byHash exMethods exStoreByHashOddKey exTx.thisHash
      (some StoredTx.empty) none = .ok (false, some stx1, none)) ∧
    getStoredTx_byHash exMethods exStoreByHashNoBlock (List.replicate 32 7) none (some []) =
      .fault .outOfBounds := by
  refine ⟨rfl, rfl, ⟨_, rfl⟩, rfl⟩

/-- C11 (amended). For every 32-byte txHash and every store whose BLKDATA rows
are in key order, whose hints for the first 4 bytes of txHash are 6-byte
keys, whose TXDATA keys have the legal lengths 5, 7 or 9 (needed for SUPER
with a StoredTx output) and, under FULL, in which the block of every hint
that passes (a) is stored: `getStoredTx_byHash` returns, and it returns true
exactly when at least one output is non-null and some key in the hint list
stored for the first 4 bytes of txHash (a) has dup equal to
`getValidDupIDForHeight` of its height, or is the only hint in the list, and
(b) locates a stored transaction whose full hash equals txHash; the output
(the StoredTx's height/dup/txIndex, or the returned DB key when no StoredTx
is asked for) is then the first such key in list order. With both outputs
null, or with no hint row, it returns false. -/
theorem getStoredTx_byHash_first_hint (m : StoredTxMethods) (s : LMDBBlockDatabase)
    (txHash : Bytes) (stx : Option StoredTx) (DBkey : Option Bytes)
    (hlen : txHash.length = 32)
    (hsorted : dbSorted s.blkdata)
    (hhints : ∀ k ∈ (getStoredTxHints s StoredTxHints.empty txHash).2.dbKeyList,
      hintWellFormed k)
    (hlegal : s.armoryDbType = .ARMORY_DB_SUPER → stx.isSome = true → txdataLegal s.blkdata)
    (hblocks : s.armoryDbType ≠ .ARMORY_DB_SUPER →
      ∀ k ∈ (getStoredTxHints s StoredTxHints.empty txHash).2.dbKeyList,
        hintOnMainBranch s (getStoredTxHints s StoredTxHints.empty txHash).2.dbKeyList.length
          k = true →
        hintBlockStored s k = true) :
    ∃ r, getStoredTx_byHash m s txHash stx DBkey = .ok r ∧
      (r.1 = true ↔
        (stx.isSome = true ∨ DBkey.isSome = true) ∧
        ∃ hint ∈ (getStoredTxHints s StoredTxHints.empty txHash).2.dbKeyList,
          hintGood s txHash (getStoredTxHints s StoredTxHints.empty txHash).2.dbKeyList.length
            hint = true) ∧
      (r.1 = true →
        ∃ hint,
          (getStoredTxHints s StoredTxHints.empty txHash).2.dbKeyList.find?
            (hintGood s txHash
              (getStoredTxHints s StoredTxHints.empty txHash).2.dbKeyList.length) = some hint ∧
          (stx.isSome = true →
            ∃ stx1, r.2.1 = some stx1 ∧ stx1.blockHeight = hgtxToHeight (hint.take 4) ∧
              stx1.duplicateID = hgtxToDupID (hint.take 4) ∧
              stx1.txIndex = READ_UINT16_BE (hint.drop 4)) ∧
          (stx.isSome = false → r.2.2 = some hint)) ∧
      ((stx.isSome = false ∧ DBkey.isSome = false) → r.1 = false) ∧
      ((getStoredTxHints s StoredTxHints.empty txHash).1 = false → r.1 = false) := by
  have h4 : 4 ≤ txHash.length := by omega
  rw [getStoredTxHints_eq s StoredTxHints.empty txHash h4] at hhints hblocks ⊢
  -- the answer when nothing is looked up
  have hnothing : ∀ (l : List Bytes),
      (¬ (stx.isSome = false ∧ DBkey.isSome = false) → l = []) →
      ∃ r, (Outcome.ok (false, stx, DBkey) : Outcome (Bool × Option StoredTx × Option Bytes)) =
          .ok r ∧
        (r.1 = true ↔ (stx.isSome = true ∨ DBkey.isSome = true) ∧
          ∃ hint ∈ l, hintGood s txHash l.length hint = true) ∧
        (r.1 = true →
          ∃ hint, l.find? (hintGood s txHash l.length) = some hint ∧
            (stx.isSome = true →
              ∃ stx1, r.2.1 = some stx1 ∧ stx1.blockHeight = hgtxToHeight (hint.take 4) ∧
                stx1.duplicateID = hgtxToDupID (hint.take 4) ∧
                stx1.txIndex = READ_UINT16_BE (hint.drop 4)) ∧
            (stx.isSome = false → r.2.2 = some hint)) ∧
        ((stx.isSome = false ∧ DBkey.isSome = false) → r.1 = false) := by
    intro l hl
    refine ⟨_, rfl, ?_, fun h => absurd h (by simp), fun _ => rfl⟩
    simp only [Bool.false_eq_true, false_iff, not_and, not_exists]
    intro hout hint hmem
    have : l = [] := by
      apply hl
      intro hboth
      rcases hout with h | h
      · rw [hboth.1] at h; exact absurd h (by simp)
      · rw [hboth.2] at h; exact absurd h (by simp)
    rw [this] at hmem
    simp at hmem
  -- the answer of a hint loop
  have hloop : ∀ (l : List Bytes) (res : Outcome (Bool × Option StoredTx × Option Bytes)),
      ¬ (stx.isSome = false ∧ DBkey.isSome = false) →
      byHashPost s txHash l.length stx DBkey l res →
      ∃ r, res = .ok r ∧
        (r.1 = true ↔ (stx.isSome = true ∨ DBkey.isSome = true) ∧
          ∃ hint ∈ l, hintGood s txHash l.length hint = true) ∧
        (r.1 = true →
          ∃ hint, l.find? (hintGood s txHash l.length) = some hint ∧
            (stx.isSome = true →
              ∃ stx1, r.2.1 = some stx1 ∧ stx1.blockHeight = hgtxToHeight (hint.take 4) ∧
                stx1.duplicateID = hgtxToDupID (hint.take 4) ∧
                stx1.txIndex = READ_UINT16_BE (hint.drop 4)) ∧
            (stx.isSome = false → r.2.2 = some hint)) ∧
        ((stx.isSome = false ∧ DBkey.isSome = false) → r.1 = false) := by
    intro l res hout hp
    obtain ⟨r, hr, c1, c2⟩ := byHashPost_contract s txHash stx DBkey l res hout hp
    refine ⟨r, hr, ?_, c2, fun h => absurd h hout⟩
    rw [c1]
    constructor
    · intro h
      refine ⟨?_, h⟩
      by_contra hno
      apply hout
      constructor
      · cases hs : stx.isSome with
        | false => rfl
        | true => exact absurd (Or.inl hs) hno
      · cases hs : DBkey.isSome with
        | false => rfl
        | true => exact absurd (Or.inr hs) hno
    · intro h; exact h.2
  by_cases hboth : stx.isSome = false ∧ DBkey.isSome = false
  · -- both outputs null
    have hres : getStoredTx_byHash m s txHash stx DBkey = .ok (false, stx, DBkey) := by
      have e1 : stx.isNone = true := by
        cases stx with
        | none => rfl
        | some x => simp at hboth
      have e2 : DBkey.isNone = true := by
        cases DBkey with
        | none => rfl
        | some x => simp at hboth
      unfold getStoredTx_byHash getStoredTx_byHashSuper
      simp [e1, e2]
    rw [hres]
    refine ⟨_, rfl, ?_, fun h => absurd h (by simp), fun _ => rfl, fun _ => rfl⟩
    simp only [Bool.false_eq_true, false_iff, not_and]
    intro hout
    rcases hout with h | h
    · rw [hboth.1] at h; exact absurd h (by simp)
    · rw [hboth.2] at h; exact absurd h (by simp)
  · have hnn : (stx.isNone && DBkey.isNone) = false := by
      cases stx with
      | none =>
        cases DBkey with
        | none => exact absurd ⟨rfl, rfl⟩ hboth
        | some x => rfl
      | some x => rfl
    by_cases hsuper : s.armoryDbType = .ARMORY_DB_SUPER
    · have hsel : getDbSelect s.armoryDbType .TXHINTS = .BLKDATA := by
        rw [hsuper]; rfl
      rw [hsel] at hhints ⊢
      unfold getStoredTx_byHash getStoredTx_byHashSuper
      simp only [hsuper, if_true, hnn, Bool.false_eq_true, if_false, getValueRefP]
      cases hrow : getValueRef s .BLKDATA (DB_PREFIX.TXHINTS.toByte :: txHash.take 4) with
      | none =>
        obtain ⟨r, hr, c1, c2, c3⟩ := hnothing [] (fun _ => rfl)
        exact ⟨r, hr, c1, c2, c3, fun _ => by
          simp only [Outcome.ok.injEq] at hr; rw [← hr]⟩
      | some row =>
        cases row with
        | hints l p =>
          rw [hrow] at hhints
          cases l with
          | nil =>
            obtain ⟨r, hr, c1, c2, c3⟩ := hnothing [] (fun _ => rfl)
            exact ⟨r, hr, c1, c2, c3, fun h => absurd h (by simp)⟩
          | cons h0 l0 =>
            simp only
            obtain ⟨r, hr, c1, c2, c3⟩ := hloop (h0 :: l0) _ hboth
              (byHashSuperLoop_spec s txHash (h0 :: l0).length stx DBkey hsuper
                (by simp) hsorted (hlegal hsuper) (h0 :: l0) hhints
                (getIterator s .BLKDATA) rfl)
            exact ⟨r, hr, c1, c2, c3, fun h => absurd h (by simp)⟩
        | raw b =>
          obtain ⟨r, hr, c1, c2, c3⟩ := hnothing [] (fun _ => rfl)
          exact ⟨r, hr, c1, c2, c3, fun _ => by simp only [Outcome.ok.injEq] at hr; rw [← hr]⟩
        | dbinfo i =>
          obtain ⟨r, hr, c1, c2, c3⟩ := hnothing [] (fun _ => rfl)
          exact ⟨r, hr, c1, c2, c3, fun _ => by simp only [Outcome.ok.injEq] at hr; rw [← hr]⟩
        | header h =>
          obtain ⟨r, hr, c1, c2, c3⟩ := hnothing [] (fun _ => rfl)
          exact ⟨r, hr, c1, c2, c3, fun _ => by simp only [Outcome.ok.injEq] at hr; rw [← hr]⟩
        | hhl p l =>
          obtain ⟨r, hr, c1, c2, c3⟩ := hnothing [] (fun _ => rfl)
          exact ⟨r, hr, c1, c2, c3, fun _ => by simp only [Outcome.ok.injEq] at hr; rw [← hr]⟩
        | tx t =>
          obtain ⟨r, hr, c1, c2, c3⟩ := hnothing [] (fun _ => rfl)
          exact ⟨r, hr, c1, c2, c3, fun _ => by simp only [Outcome.ok.injEq] at hr; rw [← hr]⟩
        | txout o =>
          obtain ⟨r, hr, c1, c2, c3⟩ := hnothing [] (fun _ => rfl)
          exact ⟨r, hr, c1, c2, c3, fun _ => by simp only [Outcome.ok.injEq] at hr; rw [← hr]⟩
        | block txs =>
          obtain ⟨r, hr, c1, c2, c3⟩ := hnothing [] (fun _ => rfl)
          exact ⟨r, hr, c1, c2, c3, fun _ => by simp only [Outcome.ok.injEq] at hr; rw [← hr]⟩
        | subssh txioMap =>
          obtain ⟨r, hr, c1, c2, c3⟩ := hnothing [] (fun _ => rfl)
          exact ⟨r, hr, c1, c2, c3, fun _ => by simp only [Outcome.ok.injEq] at hr; rw [← hr]⟩
    · have hsel : getDbSelect s.armoryDbType .TXHINTS = .TXHINTS := by
        unfold getDbSelect
        simp [hsuper]
      rw [hsel] at hhints hblocks ⊢
      unfold getStoredTx_byHash
      simp only [hsuper, if_false, hnn, Bool.false_eq_true, getValueRefP]
      cases hrow : getValueRef s .TXHINTS (DB_PREFIX.TXHINTS.toByte :: txHash.take 4) with
      | none =>
        obtain ⟨r, hr, c1, c2, c3⟩ := hnothing [] (fun _ => rfl)
        exact ⟨r, hr, c1, c2, c3, fun _ => by
          simp only [Outcome.ok.injEq] at hr; rw [← hr]⟩
      | some row =>
        cases row with
        | hints l p =>
          rw [hrow] at hhints hblocks
          cases l with
          | nil =>
            obtain ⟨r, hr, c1, c2, c3⟩ := hnothing [] (fun _ => rfl)
            exact ⟨r, hr, c1, c2, c3, fun h => absurd h (by simp)⟩
          | cons h0 l0 =>
            simp only
            obtain ⟨r, hr, c1, c2, c3⟩ := hloop (h0 :: l0) _ hboth
              (byHashLoop_spec m s txHash (h0 :: l0).length stx DBkey hsuper
                (by simp) (h0 :: l0) hhints (hblocks hsuper))
            exact ⟨r, hr, c1, c2, c3, fun h => absurd h (by simp)⟩
        | raw b =>
          obtain ⟨r, hr, c1, c2, c3⟩ := hnothing [] (fun _ => rfl)
          exact ⟨r, hr, c1, c2, c3, fun _ => by simp only [Outcome.ok.injEq] at hr; rw [← hr]⟩
        | dbinfo i =>
          obtain ⟨r, hr, c1, c2, c3⟩ := hnothing [] (fun _ => rfl)
          exact ⟨r, hr, c1, c2, c3, fun _ => by simp only [Outcome.ok.injEq] at hr; rw [← hr]⟩
        | header h =>
          obtain ⟨r, hr, c1, c2, c3⟩ := hnothing [] (fun _ => rfl)
          exact ⟨r, hr, c1, c2, c3, fun _ => by simp only [Outcome.ok.injEq] at hr; rw [← hr]⟩
        | hhl p l =>
          obtain ⟨r, hr, c1, c2, c3⟩ := hnothing [] (fun _ => rfl)
          exact ⟨r, hr, c1, c2, c3, fun _ => by simp only [Outcome.ok.injEq] at hr; rw [← hr]⟩
        | tx t =>
          obtain ⟨r, hr, c1, c2, c3⟩ := hnothing [] (fun _ => rfl)
          exact ⟨r, hr, c1, c2, c3, fun _ => by simp only [Outcome.ok.injEq] at hr; rw [← hr]⟩
        | txout o =>
          obtain ⟨r, hr, c1, c2, c3⟩ := hnothing [] (fun _ => rfl)
          exact ⟨r, hr, c1, c2, c3, fun _ => by simp only [Outcome.ok.injEq] at hr; rw [← hr]⟩
        | block txs =>
          obtain ⟨r, hr, c1, c2, c3⟩ := hnothing [] (fun _ => rfl)
          exact ⟨r, hr, c1, c2, c3, fun _ => by simp only [Outcome.ok.injEq] at hr; rw [← hr]⟩
        | subssh txioMap =>
          obtain ⟨r, hr, c1, c2, c3⟩ := hnothing [] (fun _ => rfl)
          exact ⟨r, hr, c1, c2, c3, fun _ => by simp only [Outcome.ok.injEq] at hr; rw [← hr]⟩

/-- Witness of C11 (amended): the supernode store `exStoreByHash`, the hash of
`exTx` and a StoredTx output; the fullnode store `exStoreByHashFull`, whose
hinted blocks are stored. -/
theorem getStoredTx_byHash_first_hint_witness :
    (∃ r, getStoredTx_byHash exMethods exStoreByHash exTx.thisHash (some StoredTx.empty) none =
        .ok r ∧
      (r.1 = true ↔
        ((some StoredTx.empty).isSome = true ∨ (none : Option Bytes).isSome = true) ∧
        ∃ hint ∈ (getStoredTxHints exStoreByHash StoredTxHints.empty exTx.thisHash).2.dbKeyList,
          hintGood exStoreByHash exTx.thisHash
            (getStoredTxHints exStoreByHash StoredTxHints.empty exTx.thisHash).2.dbKeyList.length
            hint = true) ∧
      (r.1 = true →
        ∃ hint,
          (getStoredTxHints exStoreByHash StoredTxHints.empty exTx.thisHash).2.dbKeyList.find?
            (hintGood exStoreByHash exTx.thisHash
              (getStoredTxHints exStoreByHash StoredTxHints.empty
                exTx.thisHash).2.dbKeyList.length) = some hint ∧
          ((some StoredTx.empty).isSome = true →
            ∃ stx1, r.2.1 = some stx1 ∧ stx1.blockHeight = hgtxToHeight (hint.take 4) ∧
              stx1.duplicateID = hgtxToDupID (hint.take 4) ∧
              stx1.txIndex = READ_UINT16_BE (hint.drop 4)) ∧
          ((some StoredTx.empty).isSome = false → r.2.2 = some hint)) ∧
      (((some StoredTx.empty).isSome = false ∧ (none : Option Bytes).isSome = false) →
        r.1 = false) ∧
      ((getStoredTxHints exStoreByHash StoredTxHints.empty exTx.thisHash).1 = false →
        r.1 = false)) ∧
    (∃ r, getStoredTx_byHash exMethods exStoreByHashFull (List.replicate 32 7) none
        (some []) = .ok r) :=
  ⟨getStoredTx_byHash_first_hint exMethods exStoreByHash exTx.thisHash (some StoredTx.empty) none
    rfl
    (by simp [dbSorted, exStoreByHash, bytesLt])
    (by
      intro k hk
      have : k = [0, 0, 3, 0, 0, 1] := by
        simpa [getStoredTxHints, getValueRefP, getValueRef, getDbSelect, exStoreByHash,
          LMDBBlockDatabase.db, dbGet, DB_PREFIX.toByte, exTx] using hk
      subst this
      exact ⟨rfl, by decide⟩)
    (by
      intro _ _ e he
      simp only [exStoreByHash, List.mem_cons, List.mem_singleton, List.not_mem_nil,
        or_false] at he
      rcases he with h | h | h <;> subst h <;> simp [DB_PREFIX.toByte])
    (fun h => absurd rfl h),
   (getStoredTx_byHash_first_hint exMethods exStoreByHashFull (List.replicate 32 7) none
      (some []) rfl
      (by simp [dbSorted, exStoreByHashFull, bytesLt])
      (by
        intro k hk
        have : k = [0, 0, 3, 1, 0, 1] ∨ k = [0, 0, 3, 0, 0, 1] := by
          simpa [getStoredTxHints, getValueRefP, getValueRef, getDbSelect, exStoreByHashFull,
            LMDBBlockDatabase.db, dbGet, DB_PREFIX.toByte] using hk
        rcases this with h | h <;> subst h <;> exact ⟨rfl, by decide⟩)
      (fun h => absurd h (by decide))
      (by
        intro _ k hk _
        have : k = [0, 0, 3, 1, 0, 1] ∨ k = [0, 0, 3, 0, 0, 1] := by
          simpa [getStoredTxHints, getValueRefP, getValueRef, getDbSelect, exStoreByHashFull,
            LMDBBlockDatabase.db, dbGet, DB_PREFIX.toByte] using hk
        rcases this with h | h <;> subst h <;> rfl)).imp (fun _ h => h.1)⟩

/-- The lookup of the witness of C11 finds `exTx` at height 3, dup 0,
index 1; with no StoredTx asked for it hands back the key. -/
theorem getStoredTx_byHash_scenario :
    (∃ stx1, getStoredTx_byHash exMethods exStoreByHash exTx.thisHash (some StoredTx.empty)
        none = .ok (true, some stx1, none) ∧
      stx1.blockHeight = 3 ∧ stx1.duplicateID = 0 ∧ stx1.txIndex = 1 ∧
      stx1.thisHash = exTx.thisHash) ∧
    getStoredTx_byHash exMethods exStoreByHash exTx.thisHash none (some []) =
      .ok (true, none, some [0, 0, 3, 0, 0, 1]) ∧
    getStoredTx_byHash exMethods exStoreByHash (List.replicate 32 9) none (some []) =
      .ok (false, none, some []) := by
  refine ⟨⟨_, rfl, rfl, rfl, rfl, rfl⟩, rfl, rfl⟩

/-- Under FULL the hint on the branch that is not valid is passed over: the
lookup hands back the key on dup 0 although the key on dup 1 comes first and
locates a transaction with the same hash. -/
theorem getStoredTx_byHash_scenario_full :
    getStoredTx_byHash exMethods exStoreByHashFull (List.replicate 32 7) none (some []) =
      .ok (true, none, some [0, 0, 3, 0, 0, 1]) ∧
    (∃ stx1, getStoredTx_byHash exMethods exStoreByHashFull (List.replicate 32 7)
        (some StoredTx.empty) (some []) = .ok (true, some stx1, some []) ∧
      stx1.blockHeight = 3 ∧ stx1.duplicateID = 0 ∧ stx1.txIndex = 1) := by
  refine ⟨rfl, ⟨_, rfl, rfl, rfl, rfl⟩⟩

/-! ## The height to dup table as a map -/

/-- Counterexample to C30 as stated: at height 0xFFFFFFFF the size test of
both functions is skipped, so the table is not grown and is indexed outside
its bounds: the write and the read are out-of-bounds accesses. -/
theorem setValidDupIDForHeight_max_counterexample :
    setValidDupIDForHeight exStoreEmpty 4294967295 0 true = .fault .outOfBounds ∧
    getValidDupIDForHeight exStoreEmpty 4294967295 = .fault .outOfBounds ∧
    getValidDupIDForHeight exStoreOne 4294967295 = .fault .outOfBounds := by
  refine ⟨rfl, rfl, rfl⟩

/-- C30, amended. The in-memory height to dup table is a map with default 255
over the heights below 0xFFFFFFFF: for every such height h and dup d,
`setValidDupIDForHeight(h, d, overwrite=true)` returns and
`getValidDupIDForHeight(h)` then returns d, `getValidDupIDForHeight(h')` is
unchanged for every 32-bit h' other than h, a height the table does not
cover reads as 255, and with overwrite=false an entry that is already
different from 255 is left unchanged (an entry that reads 255 is set). -/
theorem setValidDupIDForHeight_map (s : LMDBBlockDatabase) (h d : Nat)
    (hh : h < UINT32_MAX) :
    (∃ s', setValidDupIDForHeight s h d true = .ok s' ∧
      getValidDupIDForHeight s' h = .ok d ∧
      (∀ h', h' ≤ UINT32_MAX → h' ≠ h →
        getValidDupIDForHeight s' h' = getValidDupIDForHeight s h')) ∧
    (s.validDupByHeight.length ≤ h → getValidDupIDForHeight s h = .ok 255) ∧
    (∃ s', setValidDupIDForHeight s h d false = .ok s' ∧
      (getValidDupIDForHeight s h ≠ .ok 255 →
        getValidDupIDForHeight s' h = getValidDupIDForHeight s h) ∧
      (getValidDupIDForHeight s h = .ok 255 → getValidDupIDForHeight s' h = .ok d) ∧
      (∀ h', h' ≤ UINT32_MAX → h' ≠ h →
        getValidDupIDForHeight s' h' = getValidDupIDForHeight s h')) := by
  have hne : h ≠ UINT32_MAX := by omega
  have h32 : h ≤ UINT32_MAX := by omega
  refine ⟨?_, ?_, ?_⟩
  · obtain ⟨t, ht, hget, _⟩ := setValidDupTable_spec s.validDupByHeight h d true hne
    refine ⟨{ s with validDupByHeight := t }, ?_, ?_, ?_⟩
    · unfold setValidDupIDForHeight
      rw [ht]
    · rw [getValid_eq _ _ hne, hget]
      simp
    · intro h' _ hne'
      exact getValid_frame s { s with validDupByHeight := t } h d true h32 ht h' hne'
  · intro hlen
    rw [getValid_eq _ _ hne]
    simp [List.getD_eq_getElem?_getD, List.getElem?_eq_none hlen]
  · obtain ⟨t, ht, hget, _⟩ := setValidDupTable_spec s.validDupByHeight h d false hne
    refine ⟨{ s with validDupByHeight := t }, ?_, ?_, ?_, ?_⟩
    · unfold setValidDupIDForHeight
      rw [ht]
    · intro hset
      rw [getValid_eq _ _ hne] at hset ⊢
      rw [getValid_eq _ _ hne, hget]
      have hx : ¬ (false = true ∨ s.validDupByHeight.getD h 255 = 255) := by
        rintro (e | e)
        · exact absurd e (by decide)
        · exact hset (by rw [e])
      rw [if_neg hx]
    · intro hunset
      rw [getValid_eq _ _ hne] at hunset ⊢
      simp only [Outcome.ok.injEq] at hunset
      rw [hget, if_pos (Or.inr hunset)]
    · intro h' _ hne'
      exact getValid_frame s { s with validDupByHeight := t } h d false h32 ht h' hne'

/-- Witness of C30, amended: height 3 is set to dup 1 in the store
`exStoreTwo`, whose table holds dup 0 there. -/
theorem setValidDupIDForHeight_map_witness :
    (∃ s', setValidDupIDForHeight exStoreTwo 3 1 true = .ok s' ∧
      getValidDupIDForHeight s' 3 = .ok 1 ∧
      (∀ h', h' ≤ UINT32_MAX → h' ≠ 3 →
        getValidDupIDForHeight s' h' = getValidDupIDForHeight exStoreTwo h')) ∧
    (exStoreTwo.validDupByHeight.length ≤ 3 → getValidDupIDForHeight exStoreTwo 3 = .ok 255) ∧
    (∃ s', setValidDupIDForHeight exStoreTwo 3 1 false = .ok s' ∧
      (getValidDupIDForHeight exStoreTwo 3 ≠ .ok 255 →
        getValidDupIDForHeight s' 3 = getValidDupIDForHeight exStoreTwo 3) ∧
      (getValidDupIDForHeight exStoreTwo 3 = .ok 255 → getValidDupIDForHeight s' 3 = .ok 1) ∧
      (∀ h', h' ≤ UINT32_MAX → h' ≠ 3 →
        getValidDupIDForHeight s' h' = getValidDupIDForHeight exStoreTwo h')) :=
  setValidDupIDForHeight_map exStoreTwo 3 1 (by decide)

/-! ## A header that is not on the main branch -/

/-- C27. `putBareHeader` of an initialized header that is not main-branch
changes neither the top-of-chain metadata nor the in-memory table: for every
such header and prior state, after a returning call the HEADERS DBInfo row
and `getValidDupIDForHeight(h)` for every height h are the same as before;
every row other than HEADHGT[height] and HEADHASH[hash] is unchanged in
every sub-database. The call returns whenever the height is not 0xFFFFFFFF
and fewer than 256 headers are listed at the height. -/
theorem putBareHeader_not_main_frame (s : LMDBBlockDatabase) (sbh : StoredHeader) (upd : Bool)
    (hinit : sbh.initialized = true) (hmain : sbh.isMainBranch = false) :
    (∀ s' sbh' d, putBareHeader s sbh upd = .ok (s', sbh', d) →
      getValueRef s' .HEADERS StoredDBInfo.getDBKey =
        getValueRef s .HEADERS StoredDBInfo.getDBKey ∧
      (∀ x w, getStoredDBInfo s' .HEADERS x w = getStoredDBInfo s .HEADERS x w) ∧
      (∀ h, getValidDupIDForHeight s' h = getValidDupIDForHeight s h) ∧
      s'.validDupByHeight = s.validDupByHeight ∧
      (∀ db k, ¬ (db = .HEADERS ∧
            (k = DB_PREFIX.HEADHGT.toByte :: WRITE_UINT32_BE sbh.blockHeight ∨
             k = DB_PREFIX.HEADHASH.toByte :: sbh.thisHash)) →
          getValueRef s' db k = getValueRef s db k)) ∧
    (sbh.blockHeight ≠ UINT32_MAX →
      (getStoredHeadHgtList s sbh.blockHeight).2.dupAndHashList.length < 256 →
      ∃ r, putBareHeader s sbh upd = .ok r) := by
  constructor
  · intro s' sbh' d hp
    have hh : sbh.blockHeight ≠ UINT32_MAX := by
      intro e
      unfold putBareHeader at hp
      simp [hinit, e] at hp
    obtain ⟨⟨hhl1, d1, w⟩, hr⟩ := putBareHeader_ok_resolve s sbh upd _ hinit hh hp
    obtain ⟨s'', hp', -, hobs, -, htbl⟩ := putBareHeader_spec s sbh upd hhl1 d1 w hinit hh hr
    rw [hp] at hp'
    simp only [Outcome.ok.injEq, Prod.mk.injEq] at hp'
    obtain ⟨rfl, -, -⟩ := hp'
    have hframe : ∀ db k, ¬ (db = .HEADERS ∧
          (k = DB_PREFIX.HEADHGT.toByte :: WRITE_UINT32_BE sbh.blockHeight ∨
           k = DB_PREFIX.HEADHASH.toByte :: sbh.thisHash)) →
        getValueRef s' db k = getValueRef s db k := by
      intro db k hk
      rw [hobs db k]
      have h1 : ¬ (db = .HEADERS ∧ k = DB_PREFIX.HEADHASH.toByte :: sbh.thisHash) :=
        fun e => hk ⟨e.1, Or.inr e.2⟩
      have h2 : ¬ (db = .HEADERS ∧
          k = DB_PREFIX.HEADHGT.toByte :: WRITE_UINT32_BE sbh.blockHeight ∧ w = true) :=
        fun e => hk ⟨e.1, Or.inl e.2.1⟩
      have h0 : ¬ (db = .HEADERS ∧ k = StoredDBInfo.getDBKey ∧ sbh.isMainBranch = true ∧
          (getStoredDBInfo s .HEADERS StoredDBInfo.default true).2.topBlkHgt ≤ sbh.blockHeight ∧
          (getStoredDBInfo s .HEADERS StoredDBInfo.default true).2.isInitialized = true) := by
        intro e
        rw [hmain] at e
        exact absurd e.2.2.1 (by simp)
      rw [if_neg h0, if_neg h1, if_neg h2]
    have hinfo : getValueRef s' .HEADERS StoredDBInfo.getDBKey =
        getValueRef s .HEADERS StoredDBInfo.getDBKey := by
      apply hframe
      intro e
      rcases e.2 with e1 | e1 <;> simp [StoredDBInfo.getDBKey, DB_PREFIX.toByte] at e1
    refine ⟨hinfo, ?_, ?_, htbl hmain, hframe⟩
    · intro x w'
      unfold getStoredDBInfo
      rw [hinfo]
    · intro h
      unfold getValidDupIDForHeight
      rw [htbl hmain]
  · intro hh hlen
    obtain ⟨⟨hhl1, d1, w⟩, hr⟩ := resolveDup_total _ sbh upd hlen
    obtain ⟨s'', hp', -⟩ := putBareHeader_spec s sbh upd hhl1 d1 w hinit hh hr
    exact ⟨_, hp'⟩

/-- Witness of C27: header B, which is not on the main branch, put into the
store `exStoreOne`. -/
theorem putBareHeader_not_main_frame_witness :
    (∀ s' sbh' d, putBareHeader exStoreOne exHeaderB true = .ok (s', sbh', d) →
      getValueRef s' .HEADERS StoredDBInfo.getDBKey =
        getValueRef exStoreOne .HEADERS StoredDBInfo.getDBKey ∧
      (∀ x w, getStoredDBInfo s' .HEADERS x w = getStoredDBInfo exStoreOne .HEADERS x w) ∧
      (∀ h, getValidDupIDForHeight s' h = getValidDupIDForHeight exStoreOne h) ∧
      s'.validDupByHeight = exStoreOne.validDupByHeight ∧
      (∀ db k, ¬ (db = .HEADERS ∧
            (k = DB_PREFIX.HEADHGT.toByte :: WRITE_UINT32_BE exHeaderB.blockHeight ∨
             k = DB_PREFIX.HEADHASH.toByte :: exHeaderB.thisHash)) →
          getValueRef s' db k = getValueRef exStoreOne db k)) ∧
    (exHeaderB.blockHeight ≠ UINT32_MAX →
      (getStoredHeadHgtList exStoreOne exHeaderB.blockHeight).2.dupAndHashList.length < 256 →
      ∃ r, putBareHeader exStoreOne exHeaderB true = .ok r) :=
  putBareHeader_not_main_frame exStoreOne exHeaderB true rfl rfl

/-! ## Dumping a sub-database: every row once, in key order -/

theorem advanceAndRead_onRow (it : LDBIter) (hv : it.pos < it.db.length) :
    it.advanceAndRead.2.db = it.db ∧ it.advanceAndRead.2.pos = it.pos + 1 ∧
    it.advanceAndRead.2.onRow := by
  unfold LDBIter.advanceAndRead LDBIter.advance LDBIter.readIterData LDBIter.onRow
  simp only [if_pos hv, LDBIter.isValid]
  by_cases hn : it.pos + 1 < it.db.length
  · simp only [hn, decide_True, Bool.not_true, Bool.false_eq_true, if_false]
    cases hopt : it.db[it.pos + 1]? with
    | none =>
      rw [List.getElem?_eq_getElem hn] at hopt
      exact absurd hopt (by simp)
    | some e =>
      obtain ⟨k0, v0⟩ := e
      refine ⟨rfl, rfl, ?_⟩
      intro k v hkv
      change it.db[it.pos + 1]? = some (k, v) at hkv
      rw [hopt] at hkv
      simp only [Option.some.injEq, Prod.mk.injEq] at hkv
      exact ⟨rfl, hkv.1, hkv.2⟩
  · simp only [hn, decide_False, Bool.not_false, if_true]
    refine ⟨trivial, trivial, ?_⟩
    intro k v hkv
    rw [List.getElem?_eq_none (by omega)] at hkv
    exact absurd hkv (by simp)

theorem getAllDatabaseEntriesLoop_spec (n : Nat) :
    ∀ (it : LDBIter) (out : List (Bytes × Row)), it.db.length - it.pos = n →
      it.onRow → getAllDatabaseEntriesLoop it out = out ++ it.db.drop it.pos := by
  induction n with
  | zero =>
    intro it out hn _
    rw [getAllDatabaseEntriesLoop]
    have hv : ¬ it.pos < it.db.length := by omega
    simp only [LDBIter.isValid, hv, decide_False, Bool.false_eq_true, if_false]
    rw [List.drop_eq_nil_of_le (by omega)]
    simp
  | succ n ih =>
    intro it out hn hrow
    rw [getAllDatabaseEntriesLoop]
    have hv : it.pos < it.db.length := by omega
    simp only [LDBIter.isValid, hv, decide_True, if_true]
    obtain ⟨hdb, hpos, hrow'⟩ := advanceAndRead_onRow it hv
    rw [ih _ _ (by rw [hdb, hpos]; omega) hrow', hdb, hpos]
    have hget : it.db[it.pos]? = some (it.db[it.pos]) := List.getElem?_eq_getElem hv
    obtain ⟨h1, h2, h3⟩ := hrow (it.db[it.pos]).1 (it.db[it.pos]).2 hget
    unfold LDBIter.getKey LDBIter.getValue
    rw [h1, h2, h3]
    simp only [Bool.false_eq_true, if_false, List.append_assoc, List.singleton_append]
    rw [← List.drop_eq_getElem_cons hv]

theorem seekToFirst_onRow (it : LDBIter) :
    it.seekToFirst.2.db = it.db ∧ it.seekToFirst.2.pos = 0 ∧ it.seekToFirst.2.onRow := by
  unfold LDBIter.seekToFirst LDBIter.readIterData LDBIter.onRow
  cases hopt : it.db[0]? with
  | none =>
    refine ⟨rfl, rfl, ?_⟩
    intro k v hkv
    change it.db[0]? = some (k, v) at hkv
    rw [hopt] at hkv
    exact absurd hkv (by simp)
  | some e =>
    obtain ⟨k0, v0⟩ := e
    refine ⟨rfl, rfl, ?_⟩
    intro k v hkv
    change it.db[0]? = some (k, v) at hkv
    rw [hopt] at hkv
    simp only [Option.some.injEq, Prod.mk.injEq] at hkv
    exact ⟨rfl, hkv.1, hkv.2⟩

/-- C26. `getAllDatabaseEntries(db)` returns the rows of the sub-database,
each exactly once and in the order of the store, which is ascending key order
for a key-ordered store; when the databases are not open it returns the
empty list. -/
theorem getAllDatabaseEntries_all_rows (s : LMDBBlockDatabase) (d : DB_SELECT) :
    getAllDatabaseEntries s d = (if s.dbIsOpen = true then s.db d else []) ∧
    (s.dbIsOpen = true → dbSorted (s.db d) →
      dbSorted (getAllDatabaseEntries s d) ∧
      (getAllDatabaseEntries s d).Nodup ∧
      ∀ k v, (k, v) ∈ getAllDatabaseEntries s d ↔ getValueRef s d k = some v) := by
  have hmain : getAllDatabaseEntries s d = (if s.dbIsOpen = true then s.db d else []) := by
    unfold getAllDatabaseEntries databasesAreOpen
    by_cases ho : s.dbIsOpen = true
    · rw [if_pos ho]
      simp only [ho, Bool.not_true, Bool.false_eq_true, if_false]
      obtain ⟨h1, h2, h3⟩ := seekToFirst_onRow (getIterator s d).seekToFirst.2
      obtain ⟨h4, -, -⟩ := seekToFirst_onRow (getIterator s d)
      rw [getAllDatabaseEntriesLoop_spec _ _ _ rfl h3, h2, h1, h4]
      simp [getIterator]
    · rw [if_neg ho]
      simp only [Bool.not_eq_true] at ho
      simp [ho]
  refine ⟨hmain, ?_⟩
  intro ho hs
  rw [hmain, if_pos ho]
  refine ⟨hs, ?_, ?_⟩
  · unfold dbSorted at hs
    refine hs.imp ?_
    intro a b hlt e
    rw [e] at hlt
    exact absurd hlt (by simp [bytesLt_irrefl])
  · intro k v
    unfold getValueRef
    exact ⟨dbGet_of_mem_sorted k v _ hs, mem_of_dbGet k v _⟩

/-- Witness of C26: the HISTORY sub-database of the store `exStoreHist`,
once opened. -/
theorem getAllDatabaseEntries_all_rows_witness :
    getAllDatabaseEntries { exStoreHist with dbIsOpen := true } .HISTORY =
      [([5, 7, 7], .raw [1]),
       ([5, 7, 7, 0, 0, 50, 0], .raw [50]),
       ([5, 7, 7, 0, 0, 100, 0], .raw [100]),
       ([5, 7, 7, 0, 0, 200, 0], .raw [200])] ∧
    getAllDatabaseEntries exStoreHist .HISTORY = [] :=
  ⟨(getAllDatabaseEntries_all_rows { exStoreHist with dbIsOpen := true } .HISTORY).1,
   (getAllDatabaseEntries_all_rows exStoreHist .HISTORY).1⟩

/-! ## Opening a store that was written with other parameters -/

theorem setDb_db_same (s : LMDBBlockDatabase) (d : DB_SELECT) (c : DB) :
    (s.setDb d c).db d = c := by
  cases d <;> rfl

theorem setDb_members (s : LMDBBlockDatabase) (d : DB_SELECT) (c : DB) :
    (s.setDb d c).magicBytes = s.magicBytes ∧
    (s.setDb d c).armoryDbType = s.armoryDbType ∧
    (s.setDb d c).dbPruneType = s.dbPruneType ∧
    (s.setDb d c).dbIsOpen = s.dbIsOpen := by
  cases d <;> exact ⟨rfl, rfl, rfl, rfl⟩

theorem seedOrCheckDBInfo_members (s : LMDBBlockDatabase) (d : DB_SELECT) :
    (seedOrCheckDBInfo s d).1.magicBytes = s.magicBytes ∧
    (seedOrCheckDBInfo s d).1.armoryDbType = s.armoryDbType ∧
    (seedOrCheckDBInfo s d).1.dbPruneType = s.dbPruneType ∧
    (seedOrCheckDBInfo s d).1.dbIsOpen = s.dbIsOpen := by
  unfold seedOrCheckDBInfo
  simp only []
  split
  · unfold putStoredDBInfo
    split
    · exact ⟨rfl, rfl, rfl, rfl⟩
    · exact setDb_members s d _
  · split
    · exact ⟨rfl, rfl, rfl, rfl⟩
    · split
      · exact ⟨rfl, rfl, rfl, rfl⟩
      · split <;> exact ⟨rfl, rfl, rfl, rfl⟩

/-- An initialized DBInfo row that differs from the members set at open makes
the check of its sub-database throw. -/
theorem seedOrCheckDBInfo_mismatch (s : LMDBBlockDatabase) (d : DB_SELECT) (info : StoredDBInfo)
    (hrow : dbGet StoredDBInfo.getDBKey (s.db d) = some (.dbinfo info))
    (hinit : info.isInitialized = true)
    (hdiff : info.magic ≠ s.magicBytes ∨ info.armoryType ≠ s.armoryDbType ∨
      info.pruneType ≠ s.dbPruneType) :
    ∃ f, (seedOrCheckDBInfo s d).2 = .fault f := by
  unfold seedOrCheckDBInfo getStoredDBInfo getValueRef
  rw [hrow]
  simp only [hinit, Bool.not_true, Bool.false_eq_true, if_false]
  by_cases h1 : s.magicBytes ≠ info.magic
  · rw [if_pos h1]
    exact ⟨_, rfl⟩
  · rw [if_neg h1]
    by_cases h2 : s.armoryDbType ≠ info.armoryType
    · rw [if_pos h2]
      exact ⟨_, rfl⟩
    · rw [if_neg h2]
      by_cases h3 : s.dbPruneType ≠ info.pruneType
      · rw [if_pos h3]
        exact ⟨_, rfl⟩
      · exfalso
        simp only [ne_eq, not_not] at h1 h2 h3
        rcases hdiff with h | h | h
        · exact h h1.symm
        · exact h h2.symm
        · exact h h3.symm

theorem openLoop_members (dir : BaseDir) (l : List DB_SELECT) :
    ∀ s, (openLoop dir l s).1.magicBytes = s.magicBytes ∧
      (openLoop dir l s).1.armoryDbType = s.armoryDbType ∧
      (openLoop dir l s).1.dbPruneType = s.dbPruneType ∧
      (openLoop dir l s).1.dbIsOpen = s.dbIsOpen := by
  induction l with
  | nil => intro s; exact ⟨rfl, rfl, rfl, rfl⟩
  | cons d rest ih =>
    intro s
    unfold openLoop
    simp only []
    obtain ⟨a1, a2, a3, a4⟩ := setDb_members s d (dir.full d)
    split
    · obtain ⟨b1, b2, b3, b4⟩ := ih (s.setDb d (dir.full d))
      exact ⟨b1.trans a1, b2.trans a2, b3.trans a3, b4.trans a4⟩
    · obtain ⟨c1, c2, c3, c4⟩ := seedOrCheckDBInfo_members (s.setDb d (dir.full d)) d
      split
      · rename_i s2 u heq
        rw [heq] at c1 c2 c3 c4
        obtain ⟨b1, b2, b3, b4⟩ := ih s2
        exact ⟨b1.trans (c1.trans a1), b2.trans (c2.trans a2), b3.trans (c3.trans a3),
          b4.trans (c4.trans a4)⟩
      · rename_i s2 f heq
        rw [heq] at c1 c2 c3 c4
        exact ⟨c1.trans a1, c2.trans a2, c3.trans a3, c4.trans a4⟩

theorem openLoop_mismatch (dir : BaseDir) (d : DB_SELECT) (info : StoredDBInfo)
    (hd : d ≠ .TXHINTS)
    (hrow : dbGet StoredDBInfo.getDBKey (dir.full d) = some (.dbinfo info))
    (hinit : info.isInitialized = true) (l : List DB_SELECT) (hl : d ∈ l) :
    ∀ s, (info.magic ≠ s.magicBytes ∨ info.armoryType ≠ s.armoryDbType ∨
        info.pruneType ≠ s.dbPruneType) →
      ∃ f, (openLoop dir l s).2 = .fault f := by
  induction l with
  | nil => exact absurd hl (by simp)
  | cons e rest ih =>
    intro s hdiff
    unfold openLoop
    simp only []
    obtain ⟨a1, a2, a3, -⟩ := setDb_members s e (dir.full e)
    by_cases he : e = d
    · subst he
      rw [if_neg hd]
      obtain ⟨f, hf⟩ := seedOrCheckDBInfo_mismatch (s.setDb e (dir.full e)) e info
        (by rw [setDb_db_same]; exact hrow) hinit (by rw [a1, a2, a3]; exact hdiff)
      split
      · rename_i s2 u heq
        rw [heq] at hf
        exact absurd hf (by simp)
      · exact ⟨_, rfl⟩
    · have hl' : d ∈ rest := by
        rcases List.mem_cons.mp hl with h | h
        · exact absurd h.symm he
        · exact h
      split
      · exact ih hl' _ (by rw [a1, a2, a3]; exact hdiff)
      · obtain ⟨c1, c2, c3, -⟩ := seedOrCheckDBInfo_members (s.setDb e (dir.full e)) e
        split
        · rename_i s2 u heq
          rw [heq] at c1 c2 c3
          exact ih hl' s2 (by rw [c1, c2, c3, a1, a2, a3]; exact hdiff)
        · exact ⟨_, rfl⟩

theorem openLoopSupernode_members (dir : BaseDir) (l : List DB_SELECT) :
    ∀ s, (openLoopSupernode dir l s).1.magicBytes = s.magicBytes ∧
      (openLoopSupernode dir l s).1.armoryDbType = s.armoryDbType ∧
      (openLoopSupernode dir l s).1.dbPruneType = s.dbPruneType ∧
      (openLoopSupernode dir l s).1.dbIsOpen = s.dbIsOpen := by
  induction l with
  | nil => intro s; exact ⟨rfl, rfl, rfl, rfl⟩
  | cons d rest ih =>
    intro s
    unfold openLoopSupernode
    obtain ⟨a1, a2, a3, a4⟩ := setDb_members s d (dir.super d)
    obtain ⟨c1, c2, c3, c4⟩ := seedOrCheckDBInfo_members (s.setDb d (dir.super d)) d
    split
    · rename_i s2 u heq
      rw [heq] at c1 c2 c3 c4
      obtain ⟨b1, b2, b3, b4⟩ := ih s2
      exact ⟨b1.trans (c1.trans a1), b2.trans (c2.trans a2), b3.trans (c3.trans a3),
        b4.trans (c4.trans a4)⟩
    · rename_i s2 f heq
      rw [heq] at c1 c2 c3 c4
      exact ⟨c1.trans a1, c2.trans a2, c3.trans a3, c4.trans a4⟩

theorem openLoopSupernode_mismatch (dir : BaseDir) (d : DB_SELECT) (info : StoredDBInfo)
    (hrow : dbGet StoredDBInfo.getDBKey (dir.super d) = some (.dbinfo info))
    (hinit : info.isInitialized = true) (l : List DB_SELECT) (hl : d ∈ l) :
    ∀ s, (info.magic ≠ s.magicBytes ∨ info.armoryType ≠ s.armoryDbType ∨
        info.pruneType ≠ s.dbPruneType) →
      ∃ f, (openLoopSupernode dir l s).2 = .fault f := by
  induction l with
  | nil => exact absurd hl (by simp)
  | cons e rest ih =>
    intro s hdiff
    unfold openLoopSupernode
    obtain ⟨a1, a2, a3, -⟩ := setDb_members s e (dir.super e)
    obtain ⟨c1, c2, c3, -⟩ := seedOrCheckDBInfo_members (s.setDb e (dir.super e)) e
    by_cases he : e = d
    · subst he
      obtain ⟨f, hf⟩ := seedOrCheckDBInfo_mismatch (s.setDb e (dir.super e)) e info
        (by rw [setDb_db_same]; exact hrow) hinit (by rw [a1, a2, a3]; exact hdiff)
      split
      · rename_i s2 u heq
        rw [heq] at hf
        exact absurd hf (by simp)
      · exact ⟨_, rfl⟩
    · have hl' : d ∈ rest := by
        rcases List.mem_cons.mp hl with h | h
        · exact absurd h.symm he
        · exact h
      split
      · rename_i s2 u heq
        rw [heq] at c1 c2 c3
        exact ih hl' s2 (by rw [c1, c2, c3, a1, a2, a3]; exact hdiff)
      · exact ⟨_, rfl⟩

theorem closeDatabases_members (s : LMDBBlockDatabase) :
    (closeDatabases s).magicBytes = s.magicBytes ∧
    (closeDatabases s).armoryDbType = s.armoryDbType ∧
    (closeDatabases s).dbPruneType = s.dbPruneType ∧
    (closeDatabases s).dbIsOpen = false := by
  unfold closeDatabases closeDatabasesSupernode
  split <;> exact ⟨rfl, rfl, rfl, rfl⟩

theorem openDatabasesSupernode_flag (s : LMDBBlockDatabase) (dir : BaseDir)
    (genesisBlkHash genesisTxHash magic : Bytes) (dbtype : ARMORY_DB_TYPE) (pruneType : Nat)
    (f : Fault)
    (hf : (openDatabasesSupernode s dir genesisBlkHash genesisTxHash magic dbtype
      pruneType).2 = .fault f) (hs : s.dbIsOpen = false) :
    (openDatabasesSupernode s dir genesisBlkHash genesisTxHash magic dbtype
      pruneType).1.dbIsOpen = false := by
  unfold openDatabasesSupernode at hf ⊢
  simp only [] at hf ⊢
  split
  · exact hs
  · rename_i hne
    rw [if_neg hne] at hf
    split
    · rename_i s2 u heq
      rw [heq] at hf
      exact absurd hf (by simp)
    · rename_i s2 f2 heq
      have hm := congrArg (fun r => r.1.dbIsOpen) heq
      simp only [] at hm
      rw [(openLoopSupernode_members dir _ _).2.2.2] at hm
      exact hm.symm.trans rfl

theorem openDatabases_flag (s : LMDBBlockDatabase) (dir : BaseDir)
    (genesisBlkHash genesisTxHash magic : Bytes) (dbtype : ARMORY_DB_TYPE) (pruneType : Nat)
    (f : Fault)
    (hf : (openDatabases s dir genesisBlkHash genesisTxHash magic dbtype pruneType).2 = .fault f)
    (hs : s.dbIsOpen = false) :
    (openDatabases s dir genesisBlkHash genesisTxHash magic dbtype pruneType).1.dbIsOpen =
      false := by
  unfold openDatabases at hf ⊢
  simp only [] at hf ⊢
  split
  · rename_i hsup
    rw [if_pos hsup] at hf
    split
    · exact hs
    · rename_i hfile
      rw [if_neg hfile] at hf
      exact openDatabasesSupernode_flag s dir _ _ _ _ _ f hf hs
  · rename_i hsup
    rw [if_neg hsup] at hf
    split
    · exact hs
    · rename_i hne
      rw [if_neg hne] at hf
      split
      · exact (closeDatabases_members _).2.2.2
      · rename_i hprobe
        rw [if_neg hprobe] at hf
        split
        · rename_i s3 u heq
          rw [heq] at hf
          exact absurd hf (by simp)
        · rename_i s3 f3 heq
          have hm := congrArg (fun r => r.1.dbIsOpen) heq
          simp only [] at hm
          rw [(openLoop_members dir _ _).2.2.2] at hm
          exact hm.symm.trans (closeDatabases_members _).2.2.2

theorem openDatabases_mismatch_fault (s : LMDBBlockDatabase) (dir : BaseDir)
    (genesisBlkHash genesisTxHash magic : Bytes) (dbtype : ARMORY_DB_TYPE) (pruneType : Nat)
    (d : DB_SELECT) (info : StoredDBInfo) (hd : d ≠ .TXHINTS)
    (hrow : dbGet StoredDBInfo.getDBKey (dir.opened dbtype d) = some (.dbinfo info))
    (hinit : info.isInitialized = true)
    (hdiff : info.magic ≠ magic ∨ info.armoryType ≠ dbtype ∨ info.pruneType ≠ pruneType) :
    ∃ f, (openDatabases s dir genesisBlkHash genesisTxHash magic dbtype pruneType).2 =
      .fault f := by
  unfold openDatabases
  simp only []
  split
  · rename_i hsup
    split
    · exact ⟨_, rfl⟩
    · unfold openDatabasesSupernode
      simp only []
      split
      · exact ⟨_, rfl⟩
      · have hopen : dir.opened dbtype d = dir.super (if d = .HEADERS then .HEADERS else .BLKDATA) := by
          unfold BaseDir.opened
          rw [if_pos hsup]
          cases d <;> rfl
        rw [hopen] at hrow
        obtain ⟨c1, c2, c3, -⟩ := closeDatabases_members
          { s with magicBytes := magic, genesisTxHash := genesisTxHash,
                   genesisBlkHash := genesisBlkHash, armoryDbType := dbtype,
                   dbPruneType := pruneType }
        have hcl : closeDatabases
            { s with magicBytes := magic, genesisTxHash := genesisTxHash,
                     genesisBlkHash := genesisBlkHash, armoryDbType := dbtype,
                     dbPruneType := pruneType } =
            closeDatabasesSupernode
              { s with magicBytes := magic, genesisTxHash := genesisTxHash,
                       genesisBlkHash := genesisBlkHash, armoryDbType := dbtype,
                       dbPruneType := pruneType } := by
          unfold closeDatabases
          rw [if_pos hsup]
        rw [hcl] at c1 c2 c3
        obtain ⟨f, hf⟩ := openLoopSupernode_mismatch dir _ info hrow hinit [.HEADERS, .BLKDATA]
          (by split <;> simp) _ (by rw [c1, c2, c3]; exact hdiff)
        split
        · rename_i s2 u heq
          rw [heq] at hf
          exact absurd hf (by simp)
        · exact ⟨_, rfl⟩
  · rename_i hsup
    split
    · exact ⟨_, rfl⟩
    · split
      · exact ⟨_, rfl⟩
      · have hopen : dir.opened dbtype d = dir.full d := by
          unfold BaseDir.opened
          rw [if_neg hsup]
        rw [hopen] at hrow
        obtain ⟨c1, c2, c3, -⟩ := closeDatabases_members
          { s with magicBytes := magic, genesisTxHash := genesisTxHash,
                   genesisBlkHash := genesisBlkHash, armoryDbType := dbtype,
                   dbPruneType := pruneType }
        obtain ⟨f, hf⟩ := openLoop_mismatch dir d info hd hrow hinit
          [.HEADERS, .BLKDATA, .HISTORY, .TXHINTS] (by cases d <;> simp) _
          (by rw [c1, c2, c3]; exact hdiff)
        split
        · rename_i s3 u heq
          rw [heq] at hf
          exact absurd hf (by simp)
        · exact ⟨_, rfl⟩

theorem openDatabases_empty_fault (s : LMDBBlockDatabase) (dir : BaseDir)
    (genesisBlkHash genesisTxHash magic : Bytes) (dbtype : ARMORY_DB_TYPE) (pruneType : Nat)
    (he : magic = [] ∨ genesisBlkHash = []) :
    ∃ f, (openDatabases s dir genesisBlkHash genesisTxHash magic dbtype pruneType).2 =
      .fault f := by
  have hlen : genesisBlkHash.length = 0 ∨ magic.length = 0 := by
    rcases he with h | h
    · exact Or.inr (by rw [h]; rfl)
    · exact Or.inl (by rw [h]; rfl)
  unfold openDatabases openDatabasesSupernode
  simp only [if_pos hlen]
  split
  · split <;> exact ⟨_, rfl⟩
  · exact ⟨_, rfl⟩

/-- The probe of a FULL open: a blocks file whose `blkdata` database holds a
DBInfo row is the file of a SUPER store, and the open throws. -/
theorem openDatabases_probe_fault (s : LMDBBlockDatabase) (dir : BaseDir)
    (genesisBlkHash genesisTxHash magic : Bytes) (dbtype : ARMORY_DB_TYPE) (pruneType : Nat)
    (hfull : dbtype ≠ .ARMORY_DB_SUPER)
    (hrow : (dbGet StoredDBInfo.getDBKey dir.superBlkdata).isSome = true) :
    (∃ f, (openDatabases s dir genesisBlkHash genesisTxHash magic dbtype pruneType).2 =
      .fault f) ∧
    (magic ≠ [] → genesisBlkHash ≠ [] →
      (openDatabases s dir genesisBlkHash genesisTxHash magic dbtype pruneType).2 =
        .fault (.runtimeErrorWith "Mismatch in DB type") ∧
      (openDatabases s dir genesisBlkHash genesisTxHash magic dbtype pruneType).1.dbIsOpen =
        false) := by
  unfold openDatabases
  rw [if_neg hfull]
  simp only []
  constructor
  · split
    · exact ⟨_, rfl⟩
    · exact ⟨_, rfl⟩
  · intro hm hg
    have hlen : ¬ (genesisBlkHash.length = 0 ∨ magic.length = 0) := by
      intro h
      rcases h with h | h
      · exact hg (List.length_eq_zero.mp h)
      · exact hm (List.length_eq_zero.mp h)
    rw [if_neg hlen, if_pos hrow]
    exact ⟨rfl, (closeDatabases_members _).2.2.2⟩

/-- C21. Opening a store whose on-disk DBInfo (in a sub-database the open
checks) was written with a different magic, a different node profile or a
different prune type than the caller declares fails with a fault; a failing
open does not mark the store open; opening with profile SUPER a directory
that holds the headers file of a FULL store fails with the message
"Mismatch in DB type" and changes nothing; opening with profile FULL a
blocks file whose `blkdata` database holds the DBInfo row of a SUPER store
fails, with the message "Mismatch in DB type" when the magic and the genesis
hash are not empty; opening with an empty magic or an empty genesis hash
fails. -/
theorem openDatabases_mismatch (s : LMDBBlockDatabase) (dir : BaseDir)
    (genesisBlkHash genesisTxHash magic : Bytes) (dbtype : ARMORY_DB_TYPE) (pruneType : Nat) :
    (∀ d info, d ≠ DB_SELECT.TXHINTS →
      dbGet StoredDBInfo.getDBKey (dir.opened dbtype d) = some (.dbinfo info) →
      info.isInitialized = true →
      (info.magic ≠ magic ∨ info.armoryType ≠ dbtype ∨ info.pruneType ≠ pruneType) →
      ∃ f, (openDatabases s dir genesisBlkHash genesisTxHash magic dbtype pruneType).2 =
        .fault f) ∧
    (∀ f, (openDatabases s dir genesisBlkHash genesisTxHash magic dbtype pruneType).2 =
        .fault f → s.dbIsOpen = false →
      (openDatabases s dir genesisBlkHash genesisTxHash magic dbtype pruneType).1.dbIsOpen =
        false) ∧
    (dbtype = .ARMORY_DB_SUPER → dir.headersFileExists = true →
      openDatabases s dir genesisBlkHash genesisTxHash magic dbtype pruneType =
        (s, .fault (.runtimeErrorWith "Mismatch in DB type"))) ∧
    (dbtype = .ARMORY_DB_FULL →
      (dbGet StoredDBInfo.getDBKey dir.superBlkdata).isSome = true →
      (∃ f, (openDatabases s dir genesisBlkHash genesisTxHash magic dbtype pruneType).2 =
        .fault f) ∧
      (magic ≠ [] → genesisBlkHash ≠ [] →
        (openDatabases s dir genesisBlkHash genesisTxHash magic dbtype pruneType).2 =
          .fault (.runtimeErrorWith "Mismatch in DB type") ∧
        (openDatabases s dir genesisBlkHash genesisTxHash magic dbtype pruneType).1.dbIsOpen =
          false)) ∧
    (magic = [] ∨ genesisBlkHash = [] →
      ∃ f, (openDatabases s dir genesisBlkHash genesisTxHash magic dbtype pruneType).2 =
        .fault f) := by
  refine ⟨?_, ?_, ?_, ?_, ?_⟩
  · intro d info hd hrow hinit hdiff
    exact openDatabases_mismatch_fault s dir _ _ _ _ _ d info hd hrow hinit hdiff
  · intro f hf hs
    exact openDatabases_flag s dir _ _ _ _ _ f hf hs
  · intro hsup hfile
    unfold openDatabases
    rw [if_pos hsup, if_pos hfile]
  · intro hfull hrow
    exact openDatabases_probe_fault s dir _ _ _ _ _ (by rw [hfull]; decide) hrow
  · intro he
    exact openDatabases_empty_fault s dir _ _ _ _ _ he

/-- Witness of C21: the directory `exDirFull` of a FULL store, opened as FULL
with another magic, and opened as SUPER; the directory `exDirSuper` of a
SUPER store, opened as FULL. -/
theorem openDatabases_mismatch_witness :
    (∃ f, (openDatabases exStoreEmpty exDirFull [111] [222] [11, 17, 9, 7]
        .ARMORY_DB_FULL 0).2 = .fault f) ∧
    (openDatabases exStoreEmpty exDirFull [111] [222] [11, 17, 9, 7]
        .ARMORY_DB_FULL 0).1.dbIsOpen = false ∧
    openDatabases exStoreEmpty exDirFull [111] [222] [249, 190, 180, 217]
        .ARMORY_DB_SUPER 0 =
      (exStoreEmpty, .fault (.runtimeErrorWith "Mismatch in DB type")) ∧
    ((openDatabases exStoreEmpty exDirSuper [111] [222] [249, 190, 180, 217]
        .ARMORY_DB_FULL 0).2 = .fault (.runtimeErrorWith "Mismatch in DB type") ∧
      (openDatabases exStoreEmpty exDirSuper [111] [222] [249, 190, 180, 217]
        .ARMORY_DB_FULL 0).1.dbIsOpen = false) ∧
    (∃ f, (openDatabases exStoreEmpty exDirFull [111] [222] [] .ARMORY_DB_FULL 0).2 =
      .fault f) :=
  ⟨(openDatabases_mismatch exStoreEmpty exDirFull [111] [222] [11, 17, 9, 7]
      .ARMORY_DB_FULL 0).1 .HEADERS
      (seededDBInfo [111] [249, 190, 180, 217] .ARMORY_DB_FULL 0) (by decide) rfl rfl
      (Or.inl (by decide)),
   (openDatabases_mismatch exStoreEmpty exDirFull [111] [222] [11, 17, 9, 7]
      .ARMORY_DB_FULL 0).2.1 _ rfl rfl,
   (openDatabases_mismatch exStoreEmpty exDirFull [111] [222] [249, 190, 180, 217]
      .ARMORY_DB_SUPER 0).2.2.1 rfl rfl,
   ((openDatabases_mismatch exStoreEmpty exDirSuper [111] [222] [249, 190, 180, 217]
      .ARMORY_DB_FULL 0).2.2.2.1 rfl rfl).2 (by decide) (by decide),
   (openDatabases_mismatch exStoreEmpty exDirFull [111] [222] []
      .ARMORY_DB_FULL 0).2.2.2.2 (Or.inl rfl)⟩

/-! ## Top-of-chain reads of BLKDATA under FULL -/

/-- C22, the code at the failing input. After the FULL open of an empty base
directory, which succeeds, BLKDATA holds the seeded DBInfo row;
`getTopBlockHash(BLKDATA)` throws, and `getTopBlockHeight(BLKDATA)` returns
the top height 0 of that row. -/
theorem getTopBlockHeight_full_blkdata :
    (openDatabases exStoreEmpty BaseDir.empty [111] [222] [249, 190, 180, 217]
        .ARMORY_DB_FULL 0).2 = .ok () ∧
    getValueRef (openDatabases exStoreEmpty BaseDir.empty [111] [222] [249, 190, 180, 217]
        .ARMORY_DB_FULL 0).1 .BLKDATA StoredDBInfo.getDBKey =
      some (.dbinfo (seededDBInfo [111] [249, 190, 180, 217] .ARMORY_DB_FULL 0)) ∧
    getTopBlockHash (openDatabases exStoreEmpty BaseDir.empty [111] [222]
        [249, 190, 180, 217] .ARMORY_DB_FULL 0).1 .BLKDATA =
      .fault (.runtimeErrorWith "No SDBI in BLKDATA in Fullnode") ∧
    getTopBlockHeight (openDatabases exStoreEmpty BaseDir.empty [111] [222]
        [249, 190, 180, 217] .ARMORY_DB_FULL 0).1 .BLKDATA = .ok 0 := by
  refine ⟨rfl, rfl, rfl, rfl⟩

/-! ## Transactions by height, dup and index -/

theorem getBlkDataKeyTx_length (h d i : Nat) : (getBlkDataKeyTx h d i).length = 7 := rfl

/-- C28, the code at the failing input. `getFullTxCopy(hgt, dup, txIndex)`
hands a 7-byte key to the size test of `getFullTxCopy(ldbKey6B)` and so
returns the uninitialized `Tx()` for every store and every triple; in the
store `exStoreByHashFull` the second transaction of block (3, 0) is stored
and `getFullTxCopy` of its 6-byte no-prefix key returns it. -/
theorem getFullTxCopy_byIndex_empty :
    (∀ (m : StoredTxMethods) (s : LMDBBlockDatabase) (h d i : Nat),
      getFullTxCopy_byIndex m s h d i = .ok none) ∧
    (∀ (m : StoredTxMethods) (s : LMDBBlockDatabase) (h i : Nat),
      getFullTxCopy_byHeight m s h i = .ok none ∨
      getFullTxCopy_byHeight m s h i = .fault .outOfBounds) ∧
    getFullTxCopy exMethods exStoreByHashFull (getBlkDataKeyNoPrefix 3 0 1) =
      .ok (some { dataCopy := [2], thisHash := List.replicate 32 7, txOuts := [] }) ∧
    getFullTxCopy_byIndex exMethods exStoreByHashFull 3 0 1 = .ok none := by
  refine ⟨?_, ?_, by decide, rfl⟩
  · intro m s h d i
    unfold getFullTxCopy_byIndex getFullTxCopy
    simp only [getBlkDataKeyTx_length]
    rfl
  · intro m s h i
    unfold getFullTxCopy_byHeight getValidDupIDForHeight
    split
    · rename_i f hf
      right
      split at hf
      · exact absurd hf (by simp)
      · split at hf
        · exact absurd hf (by simp)
        · simp only [Outcome.fault.injEq] at hf
          rw [hf]
    · left
      unfold getFullTxCopy
      simp only [getBlkDataKeyTx_length]
      rfl

/-! ## The valid dup read from the database -/

/-- C29, the code at the failing input. The HEADHGT value of height 0 in
`exStoreHgtBytes` is two 33-byte entries, dup 0 (hash starting with 0x85) and
dup 1 marked with bit 0x80: the first entry whose dup byte has bit 0x80 set
has low bits 1, and `getValidDupIDForHeight_fromDB(0)` returns 5, the low bits
of the first hash byte. -/
theorem getValidDupIDForHeight_fromDB_hash_byte :
    (∀ ser, getValidDupIDForHeight_fromDB ser exStoreHgtBytes 0 = 5) ∧
    firstMarkedDup ([0, 133] ++ List.replicate 31 0 ++ [129] ++ List.replicate 32 0) = 1 ∧
    getValueRefP exStoreHgtBytes .HEADERS .HEADHGT (uint32Bytes 0) =
      some (.raw ([0, 133] ++ List.replicate 31 0 ++ [129] ++ List.replicate 32 0)) := by
  refine ⟨fun ser => ?_, by decide, rfl⟩
  have hrow : getValueRefP exStoreHgtBytes .HEADERS .HEADHGT (uint32Bytes 0) =
      some (.raw ([0, 133] ++ List.replicate 31 0 ++ [129] ++ List.replicate 32 0)) := rfl
  unfold getValidDupIDForHeight_fromDB
  simp only [hrow, Row.bytes]
  decide

/-! ## Sub-histories: where put writes and fetch reads -/

/-- C25, the code at the failing input. Under FULL, `putStoredSubHistory` of
the sub-history `exSubHist` (one txio pair) into an empty store writes its row
to HISTORY and leaves BLKDATA empty; `fetchStoredSubHistory` of the same
script address and hgtX with createIfDNE=false and forceReadDB=true reads
BLKDATA, returns false and leaves the script history as it was, while
`getStoredSubHistoryAtHgtX` finds the row. Under SUPER the same calls return
true with the stored sub-history merged. -/
theorem fetchStoredSubHistory_full_miss :
    (putStoredSubHistory exStoreEmpty exSubHist).history =
      [([5, 7, 7, 0, 0, 50, 0], .subssh [([0, 0, 50, 0, 0, 1, 0, 0], [1])])] ∧
    (putStoredSubHistory exStoreEmpty exSubHist).blkdata = [] ∧
    (∀ merge, fetchStoredSubHistory merge (putStoredSubHistory exStoreEmpty exSubHist)
        exSshAddr [0, 0, 50, 0] false true = (false, exSshAddr)) ∧
    getStoredSubHistoryAtHgtX (putStoredSubHistory exStoreEmpty exSubHist)
        StoredSubHistory.empty [7, 7] [0, 0, 50, 0] =
      (true, { StoredSubHistory.empty with
                 hgtX := [0, 0, 50, 0],
                 value := .subssh [([0, 0, 50, 0, 0, 1, 0, 0], [1])] }) ∧
    (∀ merge, fetchStoredSubHistory merge (putStoredSubHistory exStoreSuper exSubHist)
        exSshAddr [0, 0, 50, 0] false true =
      (true, merge exSshAddr
        { StoredSubHistory.empty with
            uniqueKey := [7, 7], hgtX := [0, 0, 50, 0],
            value := .subssh [([0, 0, 50, 0, 0, 1, 0, 0], [1])] })) := by
  refine ⟨rfl, rfl, fun merge => rfl, by decide, fun merge => rfl⟩

/-! ## Calls under the wrong profile -/

theorem putStoredTx_st_agrees (s : LMDBBlockDatabase) (stx : StoredTx) (withTxOut : Bool) :
    putStoredTx s stx withTxOut =
      match putStoredTx_st s stx withTxOut with
      | (s', .ok _) => .ok s'
      | (_, .fault f) => .fault f := by
  unfold putStoredTx putStoredTx_st
  simp only []
  split
  · rfl
  · split
    · split
      · rfl
      · split <;> rfl
    · rfl

/-- C23. Schema misuse is a fault that changes nothing: outside the SUPER
profile (under FULL) `putStoredHeader`, with or without block data, and
`putStoredTx` throw at their first statement, and under SUPER
`putRawBlockData` throws at its first statement; in each case the store the
call leaves, with every sub-database, every DBInfo row and the height to dup
table, is the store before the call. -/
theorem schema_misuse_changes_nothing (s : LMDBBlockDatabase) :
    (s.armoryDbType = .ARMORY_DB_FULL →
      (∀ sbh numTx stxMap withBlkData updateDupID,
        putStoredHeader s sbh numTx stxMap withBlkData updateDupID =
          (s, .fault (.runtimeErrorWith "dbType incompatible with putStoredHeader"))) ∧
      (∀ stx withTxOut,
        putStoredTx_st s stx withTxOut = (s, .fault .runtimeError) ∧
        putStoredTx s stx withTxOut = .fault .runtimeError)) ∧
    (s.armoryDbType = .ARMORY_DB_SUPER →
      ∀ blockHash txs getBH,
        putRawBlockData s blockHash txs getBH =
          (s, .fault (.runtimeErrorWith "dbType incompatible with putRawBlockData"))) := by
  constructor
  · intro hfull
    have hne : s.armoryDbType ≠ .ARMORY_DB_SUPER := by rw [hfull]; decide
    refine ⟨?_, ?_⟩
    · intro sbh numTx stxMap w u
      unfold putStoredHeader
      rw [if_pos hne]
    · intro stx w
      refine ⟨?_, ?_⟩
      · unfold putStoredTx_st
        rw [if_pos hne]
      · unfold putStoredTx
        rw [if_pos hne]
  · intro hsuper blockHash txs getBH
    unfold putRawBlockData
    rw [if_pos hsuper]

/-- Witness of C23: the FULL store `exStoreOne` and the SUPER store
`exStoreSuper`. -/
theorem schema_misuse_changes_nothing_witness :
    putStoredHeader exStoreOne exHeaderA 1 [(0, exTx)] true true =
      (exStoreOne, .fault (.runtimeErrorWith "dbType incompatible with putStoredHeader")) ∧
    putStoredTx_st exStoreOne exTx true = (exStoreOne, .fault .runtimeError) ∧
    putRawBlockData exStoreSuper [10] [] (fun _ => exBlockHeader) =
      (exStoreSuper, .fault (.runtimeErrorWith "dbType incompatible with putRawBlockData")) :=
  ⟨((schema_misuse_changes_nothing exStoreOne).1 rfl).1 exHeaderA 1 [(0, exTx)] true true,
   (((schema_misuse_changes_nothing exStoreOne).1 rfl).2 exTx true).1,
   (schema_misuse_changes_nothing exStoreSuper).2 rfl [10] [] (fun _ => exBlockHeader)⟩

/-! ## Header rows are kept by the put operations -/

/-- Counterexample to C24 as stated: the open store `exStoreOneOpen` holds the
HEADHASH row of the header with hash `[10]`; after `nukeHeadersDB` the HEADERS
sub-database holds only the seeded DBInfo row, and that HEADHASH row is
gone. -/
theorem nukeHeadersDB_erases_counterexample :
    getValueRefP exStoreOneOpen .HEADERS .HEADHASH [10] =
      some (.header { exHeaderA with duplicateID := 0 }) ∧
    getValueRefP (nukeHeadersDB exStoreOneOpen) .HEADERS .HEADHASH [10] = none ∧
    (nukeHeadersDB exStoreOneOpen).headers =
      [([0], .dbinfo (seededDBInfo [111] [249, 190, 180, 217] .ARMORY_DB_FULL 0))] := by
  refine ⟨rfl, rfl, rfl⟩

theorem getValueRef_headers (s s' : LMDBBlockDatabase) (h : s'.headers = s.headers)
    (k : Bytes) : getValueRef s' .HEADERS k = getValueRef s .HEADERS k := by
  unfold getValueRef LMDBBlockDatabase.db
  simp only []
  rw [h]

theorem putValue_headers (s : LMDBBlockDatabase) (d : DB_SELECT) (k : Bytes) (v : Row)
    (hd : d ≠ .HEADERS) : (putValue s d k v).headers = s.headers := by
  cases d
  · exact absurd rfl hd
  · rfl
  · rfl
  · rfl

theorem getDbSelect_ne_headers (t : ARMORY_DB_TYPE) (d : DB_SELECT) (hd : d ≠ .HEADERS) :
    getDbSelect t d ≠ .HEADERS := by
  unfold getDbSelect
  rw [if_neg hd]
  split
  · decide
  · exact hd

theorem putStoredDBInfo_headers (s : LMDBBlockDatabase) (d : DB_SELECT) (i : StoredDBInfo)
    (hd : d ≠ .HEADERS) : (putStoredDBInfo s d i).headers = s.headers := by
  unfold putStoredDBInfo
  split
  · rfl
  · exact putValue_headers _ _ _ _ hd

theorem putStoredTxHints_headers (s : LMDBBlockDatabase) (sths : StoredTxHints) :
    (putStoredTxHints s sths).1.headers = s.headers := by
  unfold putStoredTxHints
  split
  · rfl
  · exact putValue_headers _ _ _ _ (getDbSelect_ne_headers _ _ (by decide))

theorem putStoredTxOut_headers (s : LMDBBlockDatabase) (o : StoredTxOut) :
    (putStoredTxOut s o).headers = s.headers := by
  unfold putStoredTxOut putValueP
  exact putValue_headers _ _ _ _ (getDbSelect_ne_headers _ _ (by decide))

theorem putStoredTxOuts_headers (stx : StoredTx) (v : Nat) (l : List (Nat × StoredTxOut))
    (s : LMDBBlockDatabase) : (putStoredTxOuts stx v l s).headers = s.headers := by
  induction l generalizing s with
  | nil => rfl
  | cons e rest ih =>
    obtain ⟨idx, o⟩ := e
    unfold putStoredTxOuts
    rw [ih, putStoredTxOut_headers]

theorem putStoredTx_st_headers (s : LMDBBlockDatabase) (stx : StoredTx) (withTxOut : Bool) :
    (putStoredTx_st s stx withTxOut).1.headers = s.headers := by
  have h2 : ∀ (b : Bool) (x : StoredTxHints) (k : Bytes),
      (putValueP (if b = true then (putStoredTxHints s x).1 else s) .BLKDATA .TXDATA k
        (.tx stx)).headers = s.headers := by
    intro b x k
    unfold putValueP
    rw [putValue_headers _ _ _ _ (by decide)]
    split
    · exact putStoredTxHints_headers _ _
    · rfl
  unfold putStoredTx_st
  simp only []
  split
  · rfl
  · split
    · split
      · exact h2 _ _ _
      · split
        · exact h2 _ _ _
        · simp only []
          rw [putStoredTxOuts_headers]
          exact h2 _ _ _
    · exact h2 _ _ _

theorem putStoredHeaderTxs_headers (stxMap : List (Nat × StoredTx)) (l : List Nat) :
    ∀ s, (putStoredHeaderTxs stxMap l s).1.headers = s.headers := by
  induction l with
  | nil => intro s; rfl
  | cons i rest ih =>
    intro s
    unfold putStoredHeaderTxs
    split
    · exact ih s
    · rename_i stx hstx
      have hst := putStoredTx_st_headers s { stx with txIndex := i % 65536 } true
      split
      · rename_i s1 u heq
        rw [heq] at hst
        rw [ih s1]
        exact hst
      · rename_i s1 f heq
        rw [heq] at hst
        exact hst

/-- What `putBareHeader` does to the HEADHASH rows when it returns: the row of
the header it puts is written, every other one is as before. -/
theorem putBareHeader_headhash (s s' : LMDBBlockDatabase) (sbh sbh' : StoredHeader)
    (upd : Bool) (d : Nat) (hp : putBareHeader s sbh upd = .ok (s', sbh', d))
    (hash : Bytes) (row : Row)
    (hrow : getValueRefP s .HEADERS .HEADHASH hash = some row) :
    ∃ row', getValueRefP s' .HEADERS .HEADHASH hash = some row' ∧
      (hash ≠ sbh.thisHash → row' = row) := by
  by_cases hinit : sbh.initialized = true
  · have hh : sbh.blockHeight ≠ UINT32_MAX := by
      intro e
      unfold putBareHeader at hp
      simp [hinit, e] at hp
    obtain ⟨⟨hhl1, d1, w⟩, hr⟩ := putBareHeader_ok_resolve s sbh upd _ hinit hh hp
    obtain ⟨s'', hp', -, hobs, -, -⟩ := putBareHeader_spec s sbh upd hhl1 d1 w hinit hh hr
    rw [hp] at hp'
    simp only [Outcome.ok.injEq, Prod.mk.injEq] at hp'
    obtain ⟨rfl, -, -⟩ := hp'
    unfold getValueRefP at hrow ⊢
    rw [hobs]
    have h0 : ¬ (DB_SELECT.HEADERS = .HEADERS ∧
        DB_PREFIX.HEADHASH.toByte :: hash = StoredDBInfo.getDBKey ∧ sbh.isMainBranch = true ∧
        (getStoredDBInfo s .HEADERS StoredDBInfo.default true).2.topBlkHgt ≤ sbh.blockHeight ∧
        (getStoredDBInfo s .HEADERS StoredDBInfo.default true).2.isInitialized = true) := by
      intro e
      exact absurd e.2.1 (by simp [StoredDBInfo.getDBKey, DB_PREFIX.toByte])
    have h2 : ¬ (DB_SELECT.HEADERS = .HEADERS ∧
        DB_PREFIX.HEADHASH.toByte :: hash =
          DB_PREFIX.HEADHGT.toByte :: WRITE_UINT32_BE sbh.blockHeight ∧ w = true) := by
      intro e
      exact absurd e.2.1 (by simp [DB_PREFIX.toByte])
    rw [if_neg h0]
    by_cases h1 : hash = sbh.thisHash
    · rw [if_pos ⟨rfl, by rw [h1]⟩]
      exact ⟨_, rfl, fun hne => absurd h1 hne⟩
    · have h1' : ¬ (DB_SELECT.HEADERS = .HEADERS ∧
          DB_PREFIX.HEADHASH.toByte :: hash = DB_PREFIX.HEADHASH.toByte :: sbh.thisHash) := by
        intro e
        exact h1 (List.cons.inj e.2).2
      rw [if_neg h1', if_neg h2]
      exact ⟨row, hrow, fun _ => rfl⟩
  · unfold putBareHeader at hp
    simp only [hinit, Bool.not_false, if_true, Outcome.ok.injEq, Prod.mk.injEq] at hp
    obtain ⟨rfl, -, -⟩ := hp
    exact ⟨row, hrow, fun _ => rfl⟩

theorem markBlockHeaderValid_headhash (s s' : LMDBBlockDatabase) (h d : Nat) (r : Bool)
    (hp : markBlockHeaderValid s h d = .ok (s', r)) (hash : Bytes) :
    getValueRefP s' .HEADERS .HEADHASH hash = getValueRefP s .HEADERS .HEADHASH hash := by
  unfold markBlockHeaderValid at hp
  by_cases hpd : (getStoredHeadHgtList s h).2.preferredDup = d
  · simp only [hpd, if_true, Outcome.ok.injEq, Prod.mk.injEq] at hp
    rw [← hp.1]
  · simp only [hpd, if_false] at hp
    by_cases hany : (getStoredHeadHgtList s h).2.dupAndHashList.any (fun e => decide (e.1 = d))
        = true
    · simp only [hany, if_true] at hp
      unfold setValidDupIDForHeight at hp
      rw [putStoredHeadHgtList_tbl] at hp
      cases ht : setValidDupTable s.validDupByHeight h d true with
      | none => rw [ht] at hp; exact absurd hp (by simp)
      | some t =>
        rw [ht] at hp
        simp only [Outcome.ok.injEq, Prod.mk.injEq] at hp
        rw [← hp.1]
        unfold getValueRefP
        rw [getValueRef_withTbl, getValueRef_putStoredHeadHgtList]
        have hk : ¬ (((getStoredHeadHgtList s h).2.setPreferredDupID d).height ≠ UINT32_MAX ∧
            DB_SELECT.HEADERS = .HEADERS ∧ DB_PREFIX.HEADHASH.toByte :: hash =
              ((getStoredHeadHgtList s h).2.setPreferredDupID d).getDBKey) := by
          intro e
          exact absurd e.2.2 (by simp [StoredHeadHgtList.getDBKey, DB_PREFIX.toByte])
        rw [if_neg hk]
    · simp only [hany, Bool.false_eq_true, if_false, Outcome.ok.injEq, Prod.mk.injEq] at hp
      rw [← hp.1]

theorem putStoredTx_headers (s s' : LMDBBlockDatabase) (stx : StoredTx) (withTxOut : Bool)
    (hp : putStoredTx s stx withTxOut = .ok s') : s'.headers = s.headers := by
  rw [putStoredTx_st_agrees] at hp
  have hst := putStoredTx_st_headers s stx withTxOut
  split at hp
  · rename_i s1 u heq
    rw [heq] at hst
    simp only [Outcome.ok.injEq] at hp
    rw [← hp]
    exact hst
  · exact absurd hp (by simp)

theorem putStoredHeader_headers (s : LMDBBlockDatabase) (sbh : StoredHeader) (numTx : Nat)
    (stxMap : List (Nat × StoredTx)) (withBlkData updateDupID : Bool) :
    (putStoredHeader s sbh numTx stxMap withBlkData updateDupID).1.headers = s.headers ∨
    ∃ s1 sbh1 d, putBareHeader s sbh updateDupID = .ok (s1, sbh1, d) ∧
      (putStoredHeader s sbh numTx stxMap withBlkData updateDupID).1.headers = s1.headers := by
  unfold putStoredHeader
  split
  · left; rfl
  · split
    · left; rfl
    · rename_i s1 sbh1 newDup heq
      right
      refine ⟨s1, sbh1, newDup, heq, ?_⟩
      split
      · rfl
      · have hloop := putStoredHeaderTxs_headers stxMap (List.range numTx)
          (putValue s1 .BLKDATA (getBlkDataKey sbh1.blockHeight sbh1.duplicateID)
            (.header sbh1))
        rw [putValue_headers _ _ _ _ (by decide)] at hloop
        simp only []
        split
        · rename_i s3 f heq3
          rw [heq3] at hloop
          exact hloop
        · rename_i s3 u heq3
          rw [heq3] at hloop
          split
          · split
            · simp only []
              rw [putStoredDBInfo_headers _ _ _ (by decide)]
              exact hloop
            · exact hloop
          · exact hloop

theorem putRawBlockData_headers (s : LMDBBlockDatabase) (blockHash : Bytes) (txs : List Tx)
    (getBH : Bytes → BlockHeader) :
    (putRawBlockData s blockHash txs getBH).1.headers = s.headers := by
  unfold putRawBlockData
  simp only []
  split
  · rfl
  · split
    · split
      · simp only []
        rw [putStoredDBInfo_headers _ _ _ (by decide), putValue_headers _ _ _ _ (by decide)]
      · exact putValue_headers _ _ _ _ (by decide)
    · exact putValue_headers _ _ _ _ (by decide)

theorem putStoredSubHistory_headers (s : LMDBBlockDatabase) (subssh : StoredSubHistory) :
    (putStoredSubHistory s subssh).headers = s.headers := by
  unfold putStoredSubHistory
  simp only []
  split
  · apply putValue_headers
    split <;> decide
  · rfl

/-- C24, amended. The put operations of the store never delete a header:
for every store state and every HEADHASH row present in it, the row is still
present after `putBareHeader` and `putStoredHeader` (with the same value
unless the header put has the hash of the row), and is present with the same
value after `markBlockHeaderValid`, `putStoredTx`, `putRawBlockData`,
`putStoredSubHistory`, `putStoredDBInfo` and `putValue` under another key.
This holds for the store a call leaves whether it returns or throws. -/
theorem put_operations_keep_headers (s : LMDBBlockDatabase) (hash : Bytes) (row : Row)
    (hrow : getValueRefP s .HEADERS .HEADHASH hash = some row) :
    (∀ sbh upd s' sbh' d, putBareHeader s sbh upd = .ok (s', sbh', d) →
      ∃ row', getValueRefP s' .HEADERS .HEADHASH hash = some row' ∧
        (hash ≠ sbh.thisHash → row' = row)) ∧
    (∀ sbh numTx stxMap withBlkData upd,
      ∃ row', getValueRefP (putStoredHeader s sbh numTx stxMap withBlkData upd).1
          .HEADERS .HEADHASH hash = some row' ∧
        (hash ≠ sbh.thisHash → row' = row)) ∧
    (∀ h d s' r, markBlockHeaderValid s h d = .ok (s', r) →
      getValueRefP s' .HEADERS .HEADHASH hash = some row) ∧
    (∀ stx withTxOut,
      getValueRefP (putStoredTx_st s stx withTxOut).1 .HEADERS .HEADHASH hash = some row) ∧
    (∀ stx withTxOut s', putStoredTx s stx withTxOut = .ok s' →
      getValueRefP s' .HEADERS .HEADHASH hash = some row) ∧
    (∀ blockHash txs getBH,
      getValueRefP (putRawBlockData s blockHash txs getBH).1 .HEADERS .HEADHASH hash =
        some row) ∧
    (∀ subssh,
      getValueRefP (putStoredSubHistory s subssh) .HEADERS .HEADHASH hash = some row) ∧
    (∀ d sdbi,
      getValueRefP (putStoredDBInfo s d sdbi) .HEADERS .HEADHASH hash = some row) ∧
    (∀ d k v, (d ≠ .HEADERS ∨ k ≠ DB_PREFIX.HEADHASH.toByte :: hash) →
      getValueRefP (putValue s d k v) .HEADERS .HEADHASH hash = some row) := by
  have hkeep : ∀ s' : LMDBBlockDatabase, s'.headers = s.headers →
      getValueRefP s' .HEADERS .HEADHASH hash = some row := by
    intro s' hs'
    unfold getValueRefP at hrow ⊢
    rw [getValueRef_headers s s' hs']
    exact hrow
  refine ⟨?_, ?_, ?_, ?_, ?_, ?_, ?_, ?_, ?_⟩
  · intro sbh upd s' sbh' d hp
    exact putBareHeader_headhash s s' sbh sbh' upd d hp hash row hrow
  · intro sbh numTx stxMap w upd
    rcases putStoredHeader_headers s sbh numTx stxMap w upd with h | ⟨s1, sbh1, d, hp, h⟩
    · exact ⟨row, hkeep _ h, fun _ => rfl⟩
    · obtain ⟨row', h1, h2⟩ := putBareHeader_headhash s s1 sbh sbh1 upd d hp hash row hrow
      refine ⟨row', ?_, h2⟩
      unfold getValueRefP at h1 ⊢
      rw [getValueRef_headers s1 _ h]
      exact h1
  · intro h d s' r hp
    rw [markBlockHeaderValid_headhash s s' h d r hp hash]
    exact hrow
  · intro stx w
    exact hkeep _ (putStoredTx_st_headers s stx w)
  · intro stx w s' hp
    exact hkeep _ (putStoredTx_headers s s' stx w hp)
  · intro blockHash txs getBH
    exact hkeep _ (putRawBlockData_headers s blockHash txs getBH)
  · intro subssh
    exact hkeep _ (putStoredSubHistory_headers s subssh)
  · intro d sdbi
    unfold getValueRefP at hrow ⊢
    rw [getValueRef_putStoredDBInfo]
    have hk : ¬ (sdbi.isInitialized = true ∧ DB_SELECT.HEADERS = d ∧
        DB_PREFIX.HEADHASH.toByte :: hash = StoredDBInfo.getDBKey) := by
      intro e
      exact absurd e.2.2 (by simp [StoredDBInfo.getDBKey, DB_PREFIX.toByte])
    rw [if_neg hk]
    exact hrow
  · intro d k v hdk
    unfold getValueRefP at hrow ⊢
    rw [getValueRef_putValue]
    have hk : ¬ (DB_SELECT.HEADERS = d ∧ DB_PREFIX.HEADHASH.toByte :: hash = k) := by
      intro e
      rcases hdk with h | h
      · exact h e.1.symm
      · exact h e.2.symm
    rw [if_neg hk]
    exact hrow

/-- Witness of C24, amended: the HEADHASH row of the header with hash `[10]`
in the store `exStoreOne`, after `putBareHeader` of header B and after
`putRawBlockData`. -/
theorem put_operations_keep_headers_witness :
    (∀ s' sbh' d, putBareHeader exStoreOne exHeaderB true = .ok (s', sbh', d) →
      ∃ row', getValueRefP s' .HEADERS .HEADHASH [10] = some row' ∧
        ([10] ≠ exHeaderB.thisHash → row' = .header { exHeaderA with duplicateID := 0 })) ∧
    getValueRefP (putRawBlockData exStoreOne [10] [] (fun _ => exBlockHeader)).1
        .HEADERS .HEADHASH [10] = some (.header { exHeaderA with duplicateID := 0 }) :=
  ⟨fun s' sbh' d =>
     (put_operations_keep_headers exStoreOne [10] (.header { exHeaderA with duplicateID := 0 })
       rfl).1 exHeaderB true s' sbh' d,
   (put_operations_keep_headers exStoreOne [10] (.header { exHeaderA with duplicateID := 0 })
     rfl).2.2.2.2.2.1 [10] [] (fun _ => exBlockHeader)⟩

end Armory
